import Mathlib

/-!
# Maximal-set engines of google-extremal-sets: a shallow embedding

The development follows the C++ sources

* `all-maximal-sets-cardinality.cc` (class `AllMaximalSetsCardinality`),
* `all-maximal-sets-lexicographic.cc` (class `AllMaximalSetsLexicographic`),
* `data-source-iterator.h` (interface of the record reader).

Conventions of the embedding.

* Item ids, set ids, counters and file offsets are natural numbers.  The only
  machine arithmetic that is kept explicit is the `uint32_t` item counter
  `items_in_ram`, which is reduced modulo `2 ^ 32` after every update.  Item
  ids are assumed to stay below `2 ^ 32 - 1` (the code computes `item + 1` in
  32 bits when it sizes its tables).
* A `std::vector<SetProperties*>` is a list of optional sets; the null pointer
  (a tombstone) is `none`.  An iterator into such a vector is a position.
* Undefined behaviour of the C++ code (a failed `assert`, a null dereference,
  an access outside an array) is the result `Except.error` with the matching
  `Fault`.  Loops that read from the data source are driven by a fuel
  argument; running out of fuel is the fault `Fault.out_of_fuel`.
* Everything the engines do to the outside world (calls of `Seek` and `Next`,
  lines written to standard output) is appended to a trace, in order.
-/

namespace google_extremal_sets

/-! ## Basic types (`basic-types.h`) -/

/-- The type `ItemSet` of `basic-types.h`: a vector of 32-bit item ids. -/
abbrev ItemSet := List Nat

/-- The enumeration `OutputModeEnum` of `basic-types.h`. -/
inductive OutputModeEnum
  | COUNT_ONLY
  | ID
  | ID_AND_ITEMS
  deriving DecidableEq, Repr

/-- Modelled from the spec: the class `SetProperties` of `set-properties.h`,
which is not part of the sources at hand.  Section 3 of the specification
describes it as a packed set with the attributes `set_id`, `size` and
`items[0..size)`; the engines only use `Create`, `Delete`, `size`, `item[j]`,
`begin()`, `end()` and `operator[]`. -/
structure SetProperties where
  set_id : Nat
  item : List Nat
  deriving DecidableEq, Repr

/-- The member `size` of a packed set: its number of items. -/
def SetProperties.size (s : SetProperties) : Nat := s.item.length

/-- The factory `SetProperties::Create(set_id, items)`: copies the items. -/
def SetProperties.Create (set_id : Nat) (items : ItemSet) : SetProperties :=
  { set_id := set_id, item := items }

/-- The ways in which a run of the C++ code can leave defined behaviour or end
in an exception (`std::length_error` thrown by a `resize`), plus the
exhaustion of the fuel that drives the reading loops of the model. -/
inductive Fault
  | assertion
  | null_dereference
  | out_of_bounds
  | out_of_fuel
  | length_error
  deriving DecidableEq, Repr

deriving instance DecidableEq for Except

/-- The effect of `std::vector::resize(n)` on a vector whose new slots are
value-initialised with `d`. -/
def resize {α : Type} (v : List α) (n : Nat) (d : α) : List α :=
  v.take n ++ List.replicate (n - v.length) d

/-! ## The record source (`data-source-iterator.h`) -/

/-- What the input file holds at one record position: a well-formed record, or
bytes on which `Next` reports an error. -/
inductive Entry
  | record (set_id : Nat) (items : ItemSet)
  | corrupt
  deriving DecidableEq, Repr

/-- Modelled from the spec: the reader behind `data-source-iterator.h`, whose
implementation is not part of the sources at hand.  Section 6 of the
specification gives the interface `next -> {1 = record, 0 = EOF, -1 = error}`,
`seek(offset) -> bool` and `tell() -> offset`.  The file is a list of entries
and an offset is the number of entries before it, so that offset `0` is the
start of the file and `Tell` is positive once an entry has been read.  The
calls of `Seek` that fail are listed by their ordinal number in
`seek_faults`. -/
structure DataSourceIterator where
  file : List Entry
  pos : Nat
  seek_faults : List Nat
  seek_calls : Nat
  deriving DecidableEq, Repr

/-- The method `Next(&set_id, &input_vector)`: the result code, the two out
parameters after the call and the reader after the call.  A record is copied
to the out parameters and consumed; at the end of the file the result is `0`;
on a corrupt entry the result is `-1`, the entry is consumed and the out
parameters keep their previous values. -/
def DataSourceIterator.Next (d : DataSourceIterator) (set_id : Nat) (input_vector : ItemSet) :
    Int × Nat × ItemSet × DataSourceIterator :=
  match d.file.get? d.pos with
  | none => (0, set_id, input_vector, d)
  | some (Entry.record id items) => (1, id, items, { d with pos := d.pos + 1 })
  | some Entry.corrupt => (-1, set_id, input_vector, { d with pos := d.pos + 1 })

/-- The method `Seek(seek_offset)`: fails when this call is listed in
`seek_faults`, and moves the read position otherwise. -/
def DataSourceIterator.Seek (d : DataSourceIterator) (seek_offset : Nat) :
    Bool × DataSourceIterator :=
  if d.seek_calls ∈ d.seek_faults then
    (false, { d with seek_calls := d.seek_calls + 1 })
  else
    (true, { d with pos := seek_offset, seek_calls := d.seek_calls + 1 })

/-- The method `Tell()`: the current offset. -/
def DataSourceIterator.Tell (d : DataSourceIterator) : Nat := d.pos

/-- A reader over a file made of well-formed records only, on which no call
fails. -/
def DataSourceIterator.Get (records : List (Nat × ItemSet)) : DataSourceIterator :=
  { file := records.map (fun r => Entry.record r.1 r.2), pos := 0,
    seek_faults := [], seek_calls := 0 }

/-- One observable action of an engine. -/
inductive Event
  | Seek (seek_offset : Nat) (ok : Bool)
  | Next (result : Int)
  | Output (set_id : Nat) (items : Option ItemSet)
  deriving DecidableEq, Repr

/-- A call that reports an I/O error: a `Seek` that returns `false` or a
`Next` that returns a negative value. -/
def Event.failed : Event → Bool
  | Event.Seek _ ok => !ok
  | Event.Next result => decide (result < 0)
  | Event.Output _ _ => false

/-- The outside world of a run: the record source and the trace of everything
done so far, oldest event first. -/
structure World where
  data : DataSourceIterator
  trace : List Event
  deriving DecidableEq, Repr

/-- A world that starts with an empty trace. -/
def World.start (data : DataSourceIterator) : World := { data := data, trace := [] }

/-- The call `data->Next(&set_id, &current_set)`, recorded in the trace. -/
def World.Next (w : World) (set_id : Nat) (current_set : ItemSet) :
    Int × Nat × ItemSet × World :=
  let r := w.data.Next set_id current_set
  (r.1, r.2.1, r.2.2.1, { data := r.2.2.2, trace := w.trace ++ [Event.Next r.1] })

/-- The call `data->Seek(seek_offset)`, recorded in the trace. -/
def World.Seek (w : World) (seek_offset : Nat) : Bool × World :=
  let r := w.data.Seek seek_offset
  (r.1, { data := r.2, trace := w.trace ++ [Event.Seek seek_offset r.1] })

/-- The call `data->Tell()`. -/
def World.Tell (w : World) : Nat := w.data.Tell

/-- The set ids written to standard output, in order. -/
def emitted_ids : List Event → List Nat
  | [] => []
  | Event.Output set_id _ :: rest => set_id :: emitted_ids rest
  | _ :: rest => emitted_ids rest

/-- What `FoundMaximalSet` writes to standard output in each output mode. -/
def World.print (w : World) (maximal_set : SetProperties) : OutputModeEnum → World
  | OutputModeEnum.COUNT_ONLY => w
  | OutputModeEnum.ID =>
    { w with trace := w.trace ++ [Event.Output maximal_set.set_id none] }
  | OutputModeEnum.ID_AND_ITEMS =>
    { w with trace := w.trace ++ [Event.Output maximal_set.set_id (some maximal_set.item)] }

/-! ## The cardinality engine (`all-maximal-sets-cardinality.cc`) -/

/-- The contract of `std::lower_bound(first, last, value)` on a sorted range:
the part of the range that starts at its first element not less than
`value`. -/
def lower_bound (range : List Nat) (value : Nat) : List Nat :=
  range.dropWhile (fun x => decide (x < value))

/-- The function `DoesSubsume(it1, it1_end, it2, it2_end)`: `it1` is the range
`[it1, it1_end)` and `it2` the range `[it2, it2_end)`. -/
def DoesSubsume (it1 : List Nat) : List Nat → Bool
  | [] => true
  | x :: it2 =>
    match lower_bound it1 x with
    | [] => false
    | y :: it1_next => if y > x then false else DoesSubsume it1_next it2

/-- The type `CandidateList`: a vector of pointers to sets, some of them
null. -/
abbrev CandidateList := List (Option SetProperties)

/-- The data members of `AllMaximalSetsCardinality`. -/
structure AllMaximalSetsCardinality where
  maximal_sets_count_ : Nat
  input_sets_count_ : Nat
  subsumption_checks_count_ : Nat
  candidates_ : List CandidateList
  deriving DecidableEq, Repr

namespace AllMaximalSetsCardinality

/-- The engine as its constructor leaves it: no candidates; the counters are
not initialised by the constructor and are taken to be `0`. -/
def new : AllMaximalSetsCardinality :=
  { maximal_sets_count_ := 0, input_sets_count_ := 0, subsumption_checks_count_ := 0,
    candidates_ := [] }

/-- The method `Init`. -/
def Init (self : AllMaximalSetsCardinality) : AllMaximalSetsCardinality :=
  { self with maximal_sets_count_ := 0, input_sets_count_ := 0, subsumption_checks_count_ := 0 }

/-- The method `PrepareForDataScan(data, max_item_id, resume_offset)`: asserts
that no candidate is left, sizes the candidate index and seeks.  The hint,
which `FindAllMaximalSets` receives as a `uint32_t`, arrives here through the
parameter `int max_item_id`: a hint of `2 ^ 31` or more is a negative `int`,
which `candidates_.resize` takes as a size beyond `max_size()`, so that it
throws `std::length_error` before the `Seek`. -/
def PrepareForDataScan (self : AllMaximalSetsCardinality) (data : World) (max_item_id : Nat)
    (resume_offset : Nat) : Except Fault (Bool × AllMaximalSetsCardinality × World) :=
  if self.candidates_.length ≠ 0 then Except.error Fault.assertion
  else if 2 ^ 31 ≤ max_item_id then Except.error Fault.length_error
  else
    let r := data.Seek resume_offset
    Except.ok (r.1, { self with candidates_ := resize self.candidates_ max_item_id [] }, r.2)

/-- The method `IndexSets`: every set of `index_us` is appended to the
candidate list of its first item, the index growing when needed. -/
def IndexSets (self : AllMaximalSetsCardinality) :
    List SetProperties → Except Fault AllMaximalSetsCardinality
  | [] => Except.ok self
  | itemset_to_index :: rest =>
    match itemset_to_index.item.head? with
    | none => Except.error Fault.out_of_bounds
    | some item_id_to_index =>
      let grown :=
        if item_id_to_index ≥ self.candidates_.length then
          resize self.candidates_ (item_id_to_index + 1) []
        else self.candidates_
      IndexSets
        { self with
          candidates_ :=
            grown.set item_id_to_index (grown.getD item_id_to_index [] ++ [some itemset_to_index]) }
        rest

/-- The do-while loop of `NextCandidate`, started on the slots that follow the
old `candidate_index`: the position and content of the first slot that is not
null, if there is one before the end of the list. -/
def NextCandidate.advance : CandidateList → Nat → Option (Nat × SetProperties)
  | [], _ => none
  | some candidate :: _, candidate_index => some (candidate_index, candidate)
  | none :: rest, candidate_index => NextCandidate.advance rest (candidate_index + 1)

/-- The method `NextCandidate`: the returned pointer (`none` is the null
pointer) and the new value of `*candidate_index`. -/
def NextCandidate (candidates : CandidateList) (current_set : ItemSet) (current_index : Nat)
    (candidate_index : Int) : Option SetProperties × Int :=
  match NextCandidate.advance (candidates.drop (candidate_index + 1).toNat)
      (candidate_index + 1).toNat with
  | none => (none, (candidates.length : Int))
  | some (found_index, candidate) =>
    if current_set.length - current_index < candidate.size then (none, (found_index : Int))
    else (some candidate, (found_index : Int))

/-- The while loop of `DeleteSubsumedCandidates` over one candidate list:
`current_begin` is the range `[current_begin, current_end)`, and the result is
the list after the deletions together with the number of subsumption checks.
Every turn moves `candidate_index` forward, so `candidates.length + 1` turns
are enough. -/
def DeleteSubsumedCandidates.walk (current_set : ItemSet) (i : Nat) (current_begin : List Nat) :
    Nat → CandidateList → Int → Nat → CandidateList × Nat
  | 0, candidates, _, checks => (candidates, checks)
  | fuel + 1, candidates, candidate_index, checks =>
    match NextCandidate candidates current_set i candidate_index with
    | (none, _) => (candidates, checks)
    | (some candidate, found_index) =>
      let candidates :=
        if DoesSubsume current_begin (candidate.item.drop 1) then
          candidates.set found_index.toNat none
        else candidates
      DeleteSubsumedCandidates.walk current_set i current_begin fuel candidates found_index
        (checks + 1)

/-- The for loop of `DeleteSubsumedCandidates`: `current_begin` is what is left
of `current_set` from position `i` on. -/
def DeleteSubsumedCandidates.loop (current_set : ItemSet) :
    List Nat → Nat → AllMaximalSetsCardinality → AllMaximalSetsCardinality
  | [], _, self => self
  | item :: current_rest, i, self =>
    if self.candidates_.length ≤ item then self
    else
      let candidates := self.candidates_.getD item []
      let r := DeleteSubsumedCandidates.walk current_set i (item :: current_rest)
        (candidates.length + 1) candidates (-1) 0
      DeleteSubsumedCandidates.loop current_set current_rest (i + 1)
        { self with
          candidates_ := self.candidates_.set item r.1
          subsumption_checks_count_ := self.subsumption_checks_count_ + r.2 }

/-- The method `DeleteSubsumedCandidates`. -/
def DeleteSubsumedCandidates (self : AllMaximalSetsCardinality) (current_set : ItemSet) :
    AllMaximalSetsCardinality :=
  DeleteSubsumedCandidates.loop current_set current_set 0 self

/-- The method `FoundMaximalSet`. -/
def FoundMaximalSet (self : AllMaximalSetsCardinality) (data : World)
    (maximal_set : SetProperties) (output_mode : OutputModeEnum) :
    AllMaximalSetsCardinality × World :=
  ({ self with maximal_sets_count_ := self.maximal_sets_count_ + 1 },
    data.print maximal_set output_mode)

/-- The first loop of `DumpMaximalSets`, over the sets that were never
indexed. -/
def DumpMaximalSets.unindexed (output_mode : OutputModeEnum) :
    List SetProperties → AllMaximalSetsCardinality × World → AllMaximalSetsCardinality × World
  | [], st => st
  | maximal_set :: rest, st =>
    DumpMaximalSets.unindexed output_mode rest
      (FoundMaximalSet st.1 st.2 maximal_set output_mode)

/-- The inner loop of `DumpMaximalSets`, over one candidate list. -/
def DumpMaximalSets.candidate_set (output_mode : OutputModeEnum) :
    CandidateList → AllMaximalSetsCardinality × World → AllMaximalSetsCardinality × World
  | [], st => st
  | none :: rest, st => DumpMaximalSets.candidate_set output_mode rest st
  | some maximal_set :: rest, st =>
    DumpMaximalSets.candidate_set output_mode rest
      (FoundMaximalSet st.1 st.2 maximal_set output_mode)

/-- The second loop of `DumpMaximalSets`, over the candidate index. -/
def DumpMaximalSets.indexed (output_mode : OutputModeEnum) :
    List CandidateList → AllMaximalSetsCardinality × World → AllMaximalSetsCardinality × World
  | [], st => st
  | candidate_set :: rest, st =>
    DumpMaximalSets.indexed output_mode rest
      (DumpMaximalSets.candidate_set output_mode candidate_set st)

/-- The method `DumpMaximalSets`; the caller's `unindexed_sets` is empty
afterwards. -/
def DumpMaximalSets (self : AllMaximalSetsCardinality) (data : World)
    (unindexed_sets : List SetProperties) (output_mode : OutputModeEnum) :
    AllMaximalSetsCardinality × World :=
  let st := DumpMaximalSets.unindexed output_mode unindexed_sets (self, data)
  let st := DumpMaximalSets.indexed output_mode st.1.candidates_ st
  ({ st.1 with candidates_ := [] }, st.2)

/-- The local variables of `FindAllMaximalSets` together with the engine and
the world. -/
structure Locals where
  self : AllMaximalSetsCardinality
  data : World
  index_us : List SetProperties
  set_id : Nat
  current_set : ItemSet
  resume_offset : Nat
  items_in_ram : Nat
  current_set_size : Int
  deriving DecidableEq, Repr

/-- The body of the scanning loop of `FindAllMaximalSets` for one record that
was read successfully into `set_id` and `current_set`. -/
def FindAllMaximalSets.record (max_items_in_ram : Nat) (s : Locals) : Except Fault Locals :=
  let self := DeleteSubsumedCandidates s.self s.current_set
  let flushed : Except Fault Locals :=
    if (s.current_set.length : Int) ≠ s.current_set_size then
      match IndexSets self s.index_us with
      | Except.error e => Except.error e
      | Except.ok self =>
        Except.ok { s with self := self, index_us := [], current_set_size := s.current_set.length }
    else Except.ok { s with self := self }
  match flushed with
  | Except.error e => Except.error e
  | Except.ok s =>
    if s.resume_offset = 0 then
      let s :=
        { s with
          index_us := s.index_us ++ [SetProperties.Create s.set_id s.current_set]
          items_in_ram := (s.items_in_ram + s.current_set.length) % 2 ^ 32
          self := { s.self with input_sets_count_ := s.self.input_sets_count_ + 1 } }
      if s.items_in_ram ≥ max_items_in_ram then
        Except.ok { s with resume_offset := s.data.Tell, current_set_size := -1 }
      else Except.ok s
    else Except.ok s

/-- The scanning loop `while ((result = data->Next(...)) > 0)` of
`FindAllMaximalSets`: the last value of `result` and the locals at the exit. -/
def FindAllMaximalSets.scan (max_items_in_ram : Nat) : Nat → Locals → Except Fault (Int × Locals)
  | 0, _ => Except.error Fault.out_of_fuel
  | fuel + 1, s =>
    let r := s.data.Next s.set_id s.current_set
    let s := { s with set_id := r.2.1, current_set := r.2.2.1, data := r.2.2.2 }
    if r.1 > 0 then
      match FindAllMaximalSets.record max_items_in_ram s with
      | Except.error e => Except.error e
      | Except.ok s => FindAllMaximalSets.scan max_items_in_ram fuel s
    else Except.ok (r.1, s)

/-- The loop `do ... while (resume_offset != 0)` of `FindAllMaximalSets`, one
turn per pass over the data. -/
def FindAllMaximalSets.passes (max_item_id max_items_in_ram : Nat) (output_mode : OutputModeEnum)
    (scan_fuel : Nat) : Nat → Locals → Except Fault (Bool × AllMaximalSetsCardinality × World)
  | 0, _ => Except.error Fault.out_of_fuel
  | fuel + 1, s =>
    match PrepareForDataScan s.self s.data max_item_id s.resume_offset with
    | Except.error e => Except.error e
    | Except.ok (false, self, data) => Except.ok (false, self, data)
    | Except.ok (true, self, data) =>
      match FindAllMaximalSets.scan max_items_in_ram scan_fuel
          { s with self := self, data := data, resume_offset := 0, items_in_ram := 0,
                   current_set_size := -1 } with
      | Except.error e => Except.error e
      | Except.ok (result, s) =>
        if result ≠ 0 then Except.ok (false, s.self, s.data)
        else
          let st := DumpMaximalSets s.self s.data s.index_us output_mode
          let s := { s with self := st.1, data := st.2, index_us := [] }
          if s.resume_offset ≠ 0 then
            FindAllMaximalSets.passes max_item_id max_items_in_ram output_mode scan_fuel fuel s
          else Except.ok (true, s.self, s.data)

/-- The method `FindAllMaximalSets(data, max_item_id, max_items_in_ram,
output_mode)`: the returned flag, the engine and the world after the call.
`fuel` bounds both the number of passes and the number of `Next` calls of one
pass.  The local `set_id` is not initialised by the code and starts as `0`.
The hint `max_item_id` is a `uint32_t` here and is handed to the `int`
parameter of `PrepareForDataScan` at the start of every pass. -/
def FindAllMaximalSets (self : AllMaximalSetsCardinality) (data : World)
    (max_item_id max_items_in_ram : Nat) (output_mode : OutputModeEnum) (fuel : Nat) :
    Except Fault (Bool × AllMaximalSetsCardinality × World) :=
  FindAllMaximalSets.passes max_item_id max_items_in_ram output_mode fuel fuel
    { self := self.Init, data := data, index_us := [], set_id := 0, current_set := [],
      resume_offset := 0, items_in_ram := 0, current_set_size := -1 }

end AllMaximalSetsCardinality

/-! ## The lexicographic engine (`all-maximal-sets-lexicographic.cc`) -/

/-- The data members of `AllMaximalSetsLexicographic`. -/
structure AllMaximalSetsLexicographic where
  maximal_sets_count_ : Nat
  input_sets_count_ : Nat
  canidate_seek_count_ : Nat
  candidates_ : CandidateList
  index_ : List Nat
  current_set_ : Option SetProperties
  items_in_ram_ : Nat
  max_items_in_ram_ : Nat
  output_mode_ : OutputModeEnum
  deriving DecidableEq, Repr

namespace AllMaximalSetsLexicographic

/-- The engine as its constructor leaves it: no RAM limit, output mode `ID`;
the members the constructor does not initialise are taken to be zero, empty
or null. -/
def new : AllMaximalSetsLexicographic :=
  { maximal_sets_count_ := 0, input_sets_count_ := 0, canidate_seek_count_ := 0,
    candidates_ := [], index_ := [], current_set_ := none, items_in_ram_ := 0,
    max_items_in_ram_ := 2 ^ 32 - 1, output_mode_ := OutputModeEnum.ID }

/-- The method `SetMaxItemsInRam(int max)`: the `int` is stored in a
`uint32_t`. -/
def SetMaxItemsInRam (self : AllMaximalSetsLexicographic) (max : Int) :
    AllMaximalSetsLexicographic :=
  { self with max_items_in_ram_ := (max % 2 ^ 32).toNat }

/-- The method `SetOutputMode`. -/
def SetOutputMode (self : AllMaximalSetsLexicographic) (mode : OutputModeEnum) :
    AllMaximalSetsLexicographic :=
  { self with output_mode_ := mode }

/-- Reading `*it` for an iterator `it` into a candidate vector. -/
def read (candidates : CandidateList) (it : Nat) : Except Fault (Option SetProperties) :=
  match candidates.get? it with
  | none => Except.error Fault.out_of_bounds
  | some slot => Except.ok slot

/-- Following a pointer to a set. -/
def deref : Option SetProperties → Except Fault SetProperties
  | none => Except.error Fault.null_dereference
  | some set => Except.ok set

/-- Reading `set.item[j]`, also written `set[j]`. -/
def item_at (set : SetProperties) (j : Nat) : Except Fault Nat :=
  match set.item.get? j with
  | none => Except.error Fault.out_of_bounds
  | some item => Except.ok item

/-- The loop `while (it != last && !*it) ++it;`, where `slots` are the slots
of the vector from position `it` on. -/
def skip_null_ne : CandidateList → Nat → Nat → Except Fault Nat
  | slots, it, last =>
    if it = last then Except.ok it
    else
      match slots with
      | [] => Except.error Fault.out_of_bounds
      | some _ :: _ => Except.ok it
      | none :: rest => skip_null_ne rest (it + 1) last

/-- The loop `while (it < last && !*it) ++it;`, where `slots` are the slots of
the vector from position `it` on. -/
def skip_null_lt : CandidateList → Nat → Nat → Except Fault Nat
  | slots, it, last =>
    if ¬ it < last then Except.ok it
    else
      match slots with
      | [] => Except.error Fault.out_of_bounds
      | some _ :: _ => Except.ok it
      | none :: rest => skip_null_lt rest (it + 1) last

/-- The loop `while (len > 0)` of `find_new_it` with the final assertion and
return.  Every turn makes `len` smaller, so the initial `len` is enough
fuel. -/
def find_new_it.search (comp : Nat → Nat → Bool) (candidates : CandidateList)
    (last current_item depth : Nat) : Nat → Nat → Int → Except Fault Nat
  | fuel, first, len =>
    if len > 0 then
      match fuel with
      | 0 => Except.error Fault.out_of_fuel
      | fuel + 1 => do
        let half : Int := len / 2
        let current := first + half.toNat
        let current ← skip_null_lt (candidates.drop current) current last
        if current = last then
          find_new_it.search comp candidates last current_item depth fuel first half
        else
          let candidate ← (read candidates current >>= deref)
          let candidate_item ← item_at candidate depth
          if comp current_item candidate_item then
            -- Not far enough along yet!
            let first_next := first + half.toNat + 1
            let first_live ← skip_null_lt (candidates.drop first_next) first_next last
            let len := len - half - 1 - ((first_live - first_next : Nat) : Int)
            if first_live = last then Except.ok last
            else find_new_it.search comp candidates last current_item depth fuel first_live len
          else
            -- We may be too far along.
            find_new_it.search comp candidates last current_item depth fuel first half
    else
      match read candidates first with
      | Except.error e => Except.error e
      | Except.ok none => Except.error Fault.assertion
      | Except.ok (some _) => Except.ok first

/-- The function `find_new_it(first, last, current_item, depth, comp)`. -/
def find_new_it (comp : Nat → Nat → Bool) (candidates : CandidateList)
    (first last current_item depth : Nat) : Except Fault Nat := do
  let first ← skip_null_ne (candidates.drop first) first last
  let len : Int := (last : Int) - (first : Int)
  find_new_it.search comp candidates last current_item depth len.toNat first len

/-- The method `Init`. -/
def Init (self : AllMaximalSetsLexicographic) : AllMaximalSetsLexicographic :=
  { self with maximal_sets_count_ := 0, input_sets_count_ := 0, canidate_seek_count_ := 0 }

/-- The method `PrepareForDataScan`. -/
def PrepareForDataScan (data : World) (resume_offset : Nat) : Bool × World :=
  data.Seek resume_offset

/-- The reading loop of `ReadNextChunk`.  The value returned by `Next` is
stored in the local `bool result`, and the loop goes on while that `bool` is
greater than `0`; the flag in the result is the value of `result == 0` at the
final `return`. -/
def ReadNextChunk.loop :
    Nat → AllMaximalSetsLexicographic → World → Nat → ItemSet →
      Except Fault (Bool × AllMaximalSetsLexicographic × World × Nat)
  | 0, _, _, _, _ => Except.error Fault.out_of_fuel
  | fuel + 1, self, data, set_id, current_set =>
    let r := data.Next set_id current_set
    let result : Bool := decide (r.1 ≠ 0)
    if result.toNat > 0 then
      let self :=
        { self with
          candidates_ := self.candidates_ ++ [some (SetProperties.Create r.2.1 r.2.2.1)]
          items_in_ram_ := (self.items_in_ram_ + r.2.2.1.length) % 2 ^ 32
          input_sets_count_ := self.input_sets_count_ + 1 }
      if self.items_in_ram_ ≥ self.max_items_in_ram_ then
        Except.ok (true, self, r.2.2.2, r.2.2.2.Tell)
      else ReadNextChunk.loop fuel self r.2.2.2 r.2.1 r.2.2.1
    else Except.ok (decide (result.toNat = 0), self, r.2.2.2, 0)

/-- The method `ReadNextChunk(data, &resume_offset)`: the returned flag, the
engine, the world and `*resume_offset` after the call.  The locals `set_id`
(not initialised by the code) and `current_set` start as `0` and empty. -/
def ReadNextChunk (self : AllMaximalSetsLexicographic) (data : World) (fuel : Nat) :
    Except Fault (Bool × AllMaximalSetsLexicographic × World × Nat) :=
  ReadNextChunk.loop fuel { self with items_in_ram_ := 0 } data 0 []

/-- The test of `DeleteTriviallySubsumedCandidates` that the first
`candidate->size` items of the two sets agree. -/
def DeleteTriviallySubsumedCandidates.same_items (candidate other : SetProperties) :
    Nat → Nat → Except Fault Bool
  | 0, _ => Except.ok true
  | todo + 1, j => do
    let x ← item_at candidate j
    let y ← item_at other j
    if x ≠ y then Except.ok false
    else DeleteTriviallySubsumedCandidates.same_items candidate other todo (j + 1)

/-- The backwards loop of `DeleteTriviallySubsumedCandidates`; the first
argument is `i + 1`. -/
def DeleteTriviallySubsumedCandidates.loop :
    Nat → AllMaximalSetsLexicographic → SetProperties → Except Fault AllMaximalSetsLexicographic
  | 0, self, _ => Except.ok self
  | i + 1, self, not_a_pfx_itemset => do
    let candidate ← (read self.candidates_ i >>= deref)
    let subsumed ←
      if candidate.size < not_a_pfx_itemset.size then
        DeleteTriviallySubsumedCandidates.same_items candidate not_a_pfx_itemset candidate.size 0
      else Except.ok false
    if subsumed then
      DeleteTriviallySubsumedCandidates.loop i
        { self with
          items_in_ram_ := (self.items_in_ram_ + 2 ^ 32 - candidate.size % 2 ^ 32) % 2 ^ 32
          candidates_ := self.candidates_.set i none }
        not_a_pfx_itemset
    else DeleteTriviallySubsumedCandidates.loop i self candidate

/-- The method `DeleteTriviallySubsumedCandidates`. -/
def DeleteTriviallySubsumedCandidates (self : AllMaximalSetsLexicographic) :
    Except Fault AllMaximalSetsLexicographic :=
  if self.candidates_.length = 0 then Except.error Fault.assertion
  else do
    let not_a_pfx_itemset ← (read self.candidates_ (self.candidates_.length - 1) >>= deref)
    DeleteTriviallySubsumedCandidates.loop (self.candidates_.length - 1) self not_a_pfx_itemset

/-- The loop `for (item = from; item <= to; ++item) index_[item] = value;` of
`BuildIndex`; the first argument is the number of turns left. -/
def BuildIndex.fill (value : Nat) : Nat → Nat → List Nat → Except Fault (List Nat)
  | 0, _, index => Except.ok index
  | todo + 1, item, index =>
    if item < index.length then BuildIndex.fill value todo (item + 1) (index.set item value)
    else Except.error Fault.out_of_bounds

/-- The locals of the main loop of `BuildIndex`. -/
structure BuildIndex.Locals where
  self : AllMaximalSetsLexicographic
  blanks : Nat
  begin_candidate_index : Int
  begin_candidate : Option SetProperties
  previous_item : Nat
  deriving DecidableEq, Repr

/-- The main loop of `BuildIndex`, over the slots from position `i` on. -/
def BuildIndex.loop : CandidateList → Nat → BuildIndex.Locals → Except Fault BuildIndex.Locals
  | [], _, s => Except.ok s
  | none :: rest, i, s => BuildIndex.loop rest (i + 1) { s with blanks := s.blanks + 1 }
  | some candidate :: rest, i, s => do
    let self := { s.self with candidates_ := s.self.candidates_.set (i - s.blanks) (some candidate) }
    match s.begin_candidate with
    | none =>
      BuildIndex.loop rest (i + 1)
        { s with self := self, begin_candidate := some candidate,
                 begin_candidate_index := ((i - s.blanks : Nat) : Int) }
    | some begin_candidate =>
      let first ← item_at candidate 0
      let begin_first ← item_at begin_candidate 0
      if first ≠ begin_first then
        -- We've started a new block.
        let index ← BuildIndex.fill s.begin_candidate_index.toNat
          (begin_first + 1 - (s.previous_item + 1)) (s.previous_item + 1) self.index_
        BuildIndex.loop rest (i + 1)
          { s with self := { self with index_ := index }, previous_item := begin_first,
                   begin_candidate := some candidate,
                   begin_candidate_index := ((i - s.blanks : Nat) : Int) }
      else BuildIndex.loop rest (i + 1) { s with self := self }

/-- The method `BuildIndex`. -/
def BuildIndex (self : AllMaximalSetsLexicographic) : Except Fault AllMaximalSetsLexicographic := do
  let back ←
    (if self.candidates_.length = 0 then Except.error Fault.out_of_bounds
     else read self.candidates_ (self.candidates_.length - 1) >>= deref)
  let back_first ← item_at back 0
  let self := { self with index_ := resize self.index_ (back_first + 1) 0 }
  let s ← BuildIndex.loop self.candidates_ 0
    { self := self, blanks := 0, begin_candidate_index := -1, begin_candidate := none,
      previous_item := 0 }
  -- Finish processing the final block.
  let begin_candidate ← deref s.begin_candidate
  let begin_first ← item_at begin_candidate 0
  let index ← BuildIndex.fill s.begin_candidate_index.toNat
    (begin_first + 1 - (s.previous_item + 1)) (s.previous_item + 1) s.self.index_
  Except.ok
    { s.self with
      index_ := index
      candidates_ := resize s.self.candidates_ (s.self.candidates_.length - s.blanks) none }

/-- The first loop of `DeleteSubsumedSets`, which deletes the sets of size
`depth` it meets; `slots` are the slots from `*begin_range_it` on, and the
result also holds the new `*begin_range_it`. -/
def DeleteSubsumedSets.delete (end_range_it depth : Nat) :
    CandidateList → Nat → AllMaximalSetsLexicographic →
      Except Fault (AllMaximalSetsLexicographic × Nat)
  | slots, begin_range_it, self =>
    if begin_range_it = end_range_it then Except.ok (self, begin_range_it)
    else
      match slots with
      | [] => Except.error Fault.out_of_bounds
      | none :: rest =>
        DeleteSubsumedSets.delete end_range_it depth rest (begin_range_it + 1) self
      | some candidate :: rest =>
        if candidate.size = depth then
          -- Subsumed!
          DeleteSubsumedSets.delete end_range_it depth rest (begin_range_it + 1)
            { self with
              items_in_ram_ := (self.items_in_ram_ + 2 ^ 32 - candidate.size % 2 ^ 32) % 2 ^ 32
              candidates_ := self.candidates_.set begin_range_it none }
        else Except.ok (self, begin_range_it)

/-- The method `DeleteSubsumedSets(&begin_range_it, end_range_it, depth)`: the
engine and the new `*begin_range_it`. -/
def DeleteSubsumedSets (self : AllMaximalSetsLexicographic) (begin_range_it end_range_it : Nat)
    (depth : Nat) : Except Fault (AllMaximalSetsLexicographic × Nat) := do
  let current_set ← deref self.current_set_
  if current_set.size > depth then
    DeleteSubsumedSets.delete end_range_it depth (self.candidates_.drop begin_range_it)
      begin_range_it self
  else
    -- Otherwise just skip over already-deleted itemsets.
    let it ← skip_null_ne (self.candidates_.drop begin_range_it) begin_range_it end_range_it
    Except.ok (self, it)

/-- The method `GetNewBeginRangeIt`. -/
def GetNewBeginRangeIt (self : AllMaximalSetsLexicographic) (begin_range_it end_range_it : Nat)
    (current_item depth : Nat) : Except Fault (AllMaximalSetsLexicographic × Nat) := do
  let self := { self with canidate_seek_count_ := self.canidate_seek_count_ + 1 }
  if depth = 0 then
    -- At depth 0 we can use the index rather than binary search.
    if current_item ≥ self.index_.length then Except.ok (self, end_range_it)
    else
      let indexed := self.index_.getD current_item 0
      let begin_range_it := if indexed > begin_range_it then indexed else begin_range_it
      let it ← skip_null_ne (self.candidates_.drop begin_range_it) begin_range_it end_range_it
      Except.ok (self, it)
  else
    let it ← find_new_it (fun a b => decide (a > b)) self.candidates_ begin_range_it end_range_it
      current_item depth
    Except.ok (self, it)

/-- The method `GetNewEndRangeIt`. -/
def GetNewEndRangeIt (self : AllMaximalSetsLexicographic) (begin_range_it end_range_it : Nat)
    (current_item depth : Nat) : Except Fault (AllMaximalSetsLexicographic × Nat) := do
  let self := { self with canidate_seek_count_ := self.canidate_seek_count_ + 1 }
  if depth = 0 then
    -- At depth 0 we can use the index rather than binary search.
    if current_item + 1 < self.index_.length then
      let new_end_range_it := self.index_.getD (current_item + 1) 0
      if new_end_range_it ≤ end_range_it then Except.ok (self, new_end_range_it)
      else Except.error Fault.assertion
    else Except.ok (self, end_range_it)
  else
    let it ← find_new_it (fun a b => decide (a = b)) self.candidates_ begin_range_it end_range_it
      current_item depth
    Except.ok (self, it)

/-- The do-while loop of `DeleteSubsumedFromRange`; `current_set_it` is the
range `[current_set_it, current_set_->end())`.  A recursive call of
`DeleteSubsumedFromRange` is its entry code (the assertion, the call of
`DeleteSubsumedSets` and the early return) followed by this loop again.  One
unit of fuel is used per turn. -/
def DeleteSubsumedFromRange.loop :
    Nat → AllMaximalSetsLexicographic → Nat → Nat → List Nat → Nat →
      Except Fault AllMaximalSetsLexicographic
  | 0, _, _, _, _, _ => Except.error Fault.out_of_fuel
  | fuel + 1, self, begin_range_it, end_range_it, current_set_it, depth => do
    -- First thing we do is find the next item in the current_set that, if
    -- added to the current pfx, could potentially subsume some candidate.
    let candidate ← (read self.candidates_ begin_range_it >>= deref)
    let candidate_item ← item_at candidate depth
    match current_set_it with
    | [] => Except.error Fault.assertion
    | item :: _ =>
      let current_set_it :=
        if item < candidate_item then lower_bound current_set_it candidate_item
        else current_set_it
      match current_set_it with
      | [] => Except.ok self
      | item :: current_set_rest =>
        if ¬ item ≥ candidate_item then Except.error Fault.assertion
        else
          let (self, begin_range_it) ←
            (if item = candidate_item then do
              let (self, new_end_range_it) ←
                GetNewEndRangeIt self begin_range_it end_range_it candidate_item depth
              if ¬ new_end_range_it ≥ begin_range_it then Except.error Fault.assertion
              else
                let self ←
                  (if begin_range_it ≠ new_end_range_it then do
                    let (self, inner_begin) ←
                      DeleteSubsumedSets self begin_range_it new_end_range_it (depth + 1)
                    if inner_begin = new_end_range_it ∨ current_set_rest = [] then Except.ok self
                    else
                      DeleteSubsumedFromRange.loop fuel self inner_begin new_end_range_it
                        current_set_rest (depth + 1)
                  else Except.ok self)
                let it ← skip_null_ne (self.candidates_.drop new_end_range_it) new_end_range_it
                  end_range_it
                Except.ok (self, it)
            else
              -- Advance the begin_range until we reach potentially subsumable candidates.
              GetNewBeginRangeIt self begin_range_it end_range_it item depth)
          if begin_range_it ≠ end_range_it then
            DeleteSubsumedFromRange.loop fuel self begin_range_it end_range_it current_set_it depth
          else Except.ok self

/-- The method `DeleteSubsumedFromRange(begin_range_it, end_range_it,
current_set_it, depth)`. -/
def DeleteSubsumedFromRange (fuel : Nat) (self : AllMaximalSetsLexicographic)
    (begin_range_it end_range_it : Nat) (current_set_it : List Nat) (depth : Nat) :
    Except Fault AllMaximalSetsLexicographic :=
  if begin_range_it = end_range_it then Except.error Fault.assertion
  else do
    let (self, begin_range_it) ← DeleteSubsumedSets self begin_range_it end_range_it depth
    if begin_range_it = end_range_it ∨ current_set_it = [] then Except.ok self
    else DeleteSubsumedFromRange.loop fuel self begin_range_it end_range_it current_set_it depth

/-- The fuel handed to `DeleteSubsumedFromRange` by its two callers: every
turn of its loop moves `begin_range_it` forward or goes one item deeper into
the current set. -/
def descent_fuel (self : AllMaximalSetsLexicographic) (current_set : SetProperties) : Nat :=
  self.candidates_.length + current_set.size + 2

/-- The method `DeleteSubsumedCandidates(unsigned int current_set_index)`. -/
def DeleteSubsumedCandidatesAt (self : AllMaximalSetsLexicographic) (current_set_index : Nat) :
    Except Fault AllMaximalSetsLexicographic := do
  let slot ← read self.candidates_ current_set_index
  match slot with
  | none => Except.error Fault.assertion
  | some current_set =>
    let self := { self with current_set_ := some current_set }
    if current_set.size ≤ 1 then Except.ok self
    else
      -- The first candidate_set we consider is the first set following
      -- current_set in the ordering, if one exists.
      DeleteSubsumedFromRange (descent_fuel self current_set) self (current_set_index + 1)
        self.candidates_.length current_set.item 0

/-- The method `DeleteSubsumedCandidates(const ItemSet& itemset)`. -/
def DeleteSubsumedCandidates (self : AllMaximalSetsLexicographic) (itemset : ItemSet) :
    Except Fault AllMaximalSetsLexicographic :=
  if itemset.length ≤ 1 then Except.ok self
  else
    let current_set := SetProperties.Create 0 itemset
    let self := { self with current_set_ := some current_set }
    DeleteSubsumedFromRange (descent_fuel self current_set) self 0 self.candidates_.length
      current_set.item 0

/-- The method `FoundMaximalSet`. -/
def FoundMaximalSet (self : AllMaximalSetsLexicographic) (data : World)
    (maximal_set : SetProperties) : AllMaximalSetsLexicographic × World :=
  ({ self with maximal_sets_count_ := self.maximal_sets_count_ + 1 },
    data.print maximal_set self.output_mode_)

/-- The loop of `DumpMaximalSets`. -/
def DumpMaximalSets.loop :
    CandidateList → AllMaximalSetsLexicographic × World → AllMaximalSetsLexicographic × World
  | [], st => st
  | none :: rest, st => DumpMaximalSets.loop rest st
  | some maximal_set :: rest, st =>
    DumpMaximalSets.loop rest (FoundMaximalSet st.1 st.2 maximal_set)

/-- The method `DumpMaximalSets`. -/
def DumpMaximalSets (self : AllMaximalSetsLexicographic) (data : World) :
    AllMaximalSetsLexicographic × World :=
  let st := DumpMaximalSets.loop self.candidates_ (self, data)
  ({ st.1 with candidates_ := [] }, st.2)

/-- The loop `for (i = 0; i < candidates_.size() - 1; ++i)` of
`FindAllMaximalSets`; it is only reached with a chunk that is not empty. -/
def FindAllMaximalSets.check_chunk :
    Nat → Nat → AllMaximalSetsLexicographic → Except Fault AllMaximalSetsLexicographic
  | 0, _, self => Except.ok self
  | todo + 1, i, self => do
    let slot ← read self.candidates_ i
    let self ←
      (match slot with
       | some _ => DeleteSubsumedCandidatesAt self i  -- not already deleted
       | none => Except.ok self)
    FindAllMaximalSets.check_chunk todo (i + 1) self

/-- The locals of the replay loop of `FindAllMaximalSets`. -/
structure Replay where
  self : AllMaximalSetsLexicographic
  data : World
  result : Int
  set_id : Nat
  current_set : ItemSet
  deriving DecidableEq, Repr

/-- The loop `while (data->Tell() < start_offset && (result = data->Next(...)) > 0)`
of `FindAllMaximalSets`, which replays the records in front of the chunk. -/
def FindAllMaximalSets.replay (start_offset : Nat) : Nat → Replay → Except Fault Replay
  | 0, _ => Except.error Fault.out_of_fuel
  | fuel + 1, s =>
    if s.data.Tell < start_offset then
      let r := s.data.Next s.set_id s.current_set
      let s := { s with result := r.1, set_id := r.2.1, current_set := r.2.2.1, data := r.2.2.2 }
      if r.1 > 0 then
        match DeleteSubsumedCandidates s.self s.current_set with
        | Except.error e => Except.error e
        | Except.ok self => FindAllMaximalSets.replay start_offset fuel { s with self := self }
      else Except.ok s
    else Except.ok s

/-- The locals of `FindAllMaximalSets` that live across chunks. -/
structure Locals where
  self : AllMaximalSetsLexicographic
  data : World
  result : Int
  set_id : Nat
  current_set : ItemSet
  resume_offset : Nat
  deriving DecidableEq, Repr

/-- The loop `do ... while (resume_offset != 0)` of `FindAllMaximalSets`, one
turn per chunk.  `io_fuel` bounds the number of `Next` calls of each reading
loop. -/
def FindAllMaximalSets.chunks (io_fuel : Nat) :
    Nat → Locals → Except Fault (Bool × AllMaximalSetsLexicographic × World)
  | 0, _ => Except.error Fault.out_of_fuel
  | fuel + 1, s =>
    match PrepareForDataScan s.data s.resume_offset with
    | (false, data) => Except.ok (false, s.self, data)
    | (true, data) =>
      let start_offset := s.resume_offset
      match ReadNextChunk s.self data io_fuel with
      | Except.error e => Except.error e
      | Except.ok (false, self, data, _) => Except.ok (false, self, data)
      | Except.ok (true, self, data, resume_offset) =>
        match DeleteTriviallySubsumedCandidates self >>= BuildIndex >>=
            (fun self => FindAllMaximalSets.check_chunk (self.candidates_.length - 1) 0 self) with
        | Except.error e => Except.error e
        | Except.ok self =>
          let replayed : Except Fault (Bool × Replay) :=
            if start_offset ≠ 0 then
              match PrepareForDataScan data 0 with
              | (false, data) =>
                Except.ok (false, { self := self, data := data, result := s.result,
                                    set_id := s.set_id, current_set := s.current_set })
              | (true, data) =>
                match FindAllMaximalSets.replay start_offset io_fuel
                    { self := self, data := data, result := s.result, set_id := s.set_id,
                      current_set := s.current_set } with
                | Except.error e => Except.error e
                | Except.ok r => Except.ok (decide (¬ r.result < 0), r)
            else
              Except.ok (true, { self := self, data := data, result := s.result,
                                 set_id := s.set_id, current_set := s.current_set })
          match replayed with
          | Except.error e => Except.error e
          | Except.ok (false, r) => Except.ok (false, r.self, r.data)
          | Except.ok (true, r) =>
            let st := DumpMaximalSets r.self r.data
            if resume_offset ≠ 0 then
              FindAllMaximalSets.chunks io_fuel fuel
                { self := st.1, data := st.2, result := r.result, set_id := r.set_id,
                  current_set := r.current_set, resume_offset := resume_offset }
            else Except.ok (true, st.1, st.2)

/-- The method `FindAllMaximalSets(data, max_item_id)`; the second argument is
not used by the code.  `fuel` bounds the number of chunks and the number of
`Next` calls of each reading loop.  The locals `result` and `set_id`, which
the code does not initialise, start as `0`. -/
def FindAllMaximalSets (self : AllMaximalSetsLexicographic) (data : World) (_max_item_id : Nat)
    (fuel : Nat) : Except Fault (Bool × AllMaximalSetsLexicographic × World) :=
  FindAllMaximalSets.chunks fuel fuel
    { self := self.Init, data := data, result := 0, set_id := 0, current_set := [],
      resume_offset := 0 }

end AllMaximalSetsLexicographic

/-! ## Auxiliary notions for the statements -/

/-- `w'` is `w` after some more events, none of which is a failed call, with
the record source untouched. -/
def World.quietly_extends (w' w : World) : Prop :=
  w'.data = w.data ∧ ∃ evs, w'.trace = w.trace ++ evs ∧ ∀ e ∈ evs, Event.failed e = false

/-- A reader over a file whose second entry is corrupt. -/
def corrupt_file_example : DataSourceIterator :=
  { file := [Entry.record 7 [1, 2], Entry.corrupt, Entry.record 8 [1, 2, 3]], pos := 0,
    seek_faults := [], seek_calls := 0 }

/-! ## Notions of the specification -/

/-- An input record: its set id and its items. -/
abbrev Record := Nat × ItemSet

/-- The records have distinct ids, and every item list is non-empty and
strictly increasing. -/
def valid_records (records : List Record) : Prop :=
  (records.map Prod.fst).Nodup ∧ ∀ r ∈ records, r.2 ≠ [] ∧ List.Pairwise (· < ·) r.2

instance (records : List Record) : Decidable (valid_records records) := by
  unfold valid_records
  infer_instance

/-- The records are arranged in non-decreasing order of size. -/
def cardinality_ordered (records : List Record) : Prop :=
  List.Pairwise (fun a b : Record => a.2.length ≤ b.2.length) records

instance (records : List Record) : Decidable (cardinality_ordered records) := by
  unfold cardinality_ordered
  infer_instance

/-- The records are arranged in strict lexicographic order of their items. -/
def lex_ordered (records : List Record) : Prop :=
  List.Pairwise (fun a b : Record => a.2 < b.2) records

instance (records : List Record) : Decidable (lex_ordered records) := by
  unfold lex_ordered
  infer_instance

/-- The item set `a` is a proper subset of the item set `b`. -/
def proper_subset (a b : ItemSet) : Prop :=
  (∀ x ∈ a, x ∈ b) ∧ ∃ x ∈ b, x ∉ a

instance (a b : ItemSet) : Decidable (proper_subset a b) := by
  unfold proper_subset
  infer_instance

/-- The ids of the maximal records: those whose item set is not a proper
subset of the item set of any record. -/
def maximal_ids (records : List Record) : List Nat :=
  (records.filter (fun r => decide (∀ q ∈ records, ¬ proper_subset r.2 q.2))).map Prod.fst

/-- A run of the cardinality engine, freshly constructed, in output mode `ID`
over a file that holds the given records: the returned flag and the ids
written to standard output. -/
def cardinality_run (records : List Record) (max_item_id max_items_in_ram fuel : Nat) :
    Except Fault (Bool × List Nat) :=
  (AllMaximalSetsCardinality.FindAllMaximalSets AllMaximalSetsCardinality.new
      (World.start (DataSourceIterator.Get records)) max_item_id max_items_in_ram
      OutputModeEnum.ID fuel).map
    (fun r => (r.1, emitted_ids r.2.2.trace))

/-- A run of the lexicographic engine, freshly constructed and given the
budget by `SetMaxItemsInRam`, in its default output mode `ID` over a file
that holds the given records: the returned flag and the ids written to
standard output. -/
def lexicographic_run (records : List Record) (max_items_in_ram : Int) (fuel : Nat) :
    Except Fault (Bool × List Nat) :=
  (AllMaximalSetsLexicographic.FindAllMaximalSets
      (AllMaximalSetsLexicographic.new.SetMaxItemsInRam max_items_in_ram)
      (World.start (DataSourceIterator.Get records)) 0 fuel).map
    (fun r => (r.1, emitted_ids r.2.2.trace))

/-! ## Measures on runs -/

/-- The number of `Next` calls in a trace that returned a record. -/
def successful_reads : List Event → Nat
  | [] => 0
  | Event.Next result :: rest =>
    if result > 0 then successful_reads rest + 1 else successful_reads rest
  | _ :: rest => successful_reads rest

/-- The number of item ids held by the sets of a list. -/
def items_of_sets (sets : List SetProperties) : Nat :=
  (sets.map SetProperties.size).sum

/-- The number of item ids held by the live entries of a candidate list. -/
def items_of_candidates (candidates : CandidateList) : Nat :=
  items_of_sets (candidates.filterMap id)

/-- The number of item ids the cardinality engine holds in retained sets: the
staging list `index_us` plus the live candidates of the index. -/
def AllMaximalSetsCardinality.Locals.items_held (s : AllMaximalSetsCardinality.Locals) : Nat :=
  items_of_sets s.index_us + (s.self.candidates_.map items_of_candidates).sum

/-- The scenario of section 8 of the specification for the lexicographic
engine. -/
def lex_scenario : List Record :=
  [(1, [1, 2, 3]), (2, [1, 2, 3, 4]), (3, [1, 2, 3, 4, 5]), (4, [1, 2, 4])]

/-- The chunk array that holds the given records, as `ReadNextChunk` builds
it. -/
def chunk_of (records : List Record) : CandidateList :=
  records.map (fun r => some (SetProperties.Create r.1 r.2))

/-- The members of the lexicographic engine that its steps in memory never
write: two of the counters, the budget and the output mode. -/
def AllMaximalSetsLexicographic.fixed (self : AllMaximalSetsLexicographic) :
    Nat × Nat × Nat × OutputModeEnum :=
  (self.maximal_sets_count_, self.input_sets_count_, self.max_items_in_ram_, self.output_mode_)

/-! ## Candidate indexes of different lengths -/

/-- Two candidate indexes hold the same candidate list at every item id; they
may differ in the number of empty lists at their ends. -/
def same_index (c1 c2 : List CandidateList) : Prop :=
  ∀ i, c1.getD i [] = c2.getD i []

/-- Two states of the cardinality engine with the same counters and the same
candidates at every item id. -/
def AllMaximalSetsCardinality.hint_related (a b : AllMaximalSetsCardinality) : Prop :=
  a.maximal_sets_count_ = b.maximal_sets_count_ ∧ a.input_sets_count_ = b.input_sets_count_ ∧
    a.subsumption_checks_count_ = b.subsumption_checks_count_ ∧
    same_index a.candidates_ b.candidates_

/-- What a caller can observe of a run of the cardinality engine: the returned
flag, the three counters, and the world with its trace. -/
def AllMaximalSetsCardinality.observables
    (r : Bool × AllMaximalSetsCardinality × World) : Bool × Nat × Nat × Nat × World :=
  (r.1, r.2.1.maximal_sets_count_, r.2.1.input_sets_count_, r.2.1.subsumption_checks_count_,
    r.2.2)

/-- The local variables of `FindAllMaximalSets` other than the engine. -/
def AllMaximalSetsCardinality.Locals.others (s : AllMaximalSetsCardinality.Locals) :
    World × List SetProperties × Nat × ItemSet × Nat × Nat × Int :=
  (s.data, s.index_us, s.set_id, s.current_set, s.resume_offset, s.items_in_ram,
    s.current_set_size)

/-- Two states of `FindAllMaximalSets` that differ at most in the length of the
candidate index. -/
def AllMaximalSetsCardinality.Locals.hint_related (s t : AllMaximalSetsCardinality.Locals) :
    Prop :=
  s.self.hint_related t.self ∧ s.others = t.others

/-- Every record of the file lists its items in strictly increasing order. -/
def DataSourceIterator.items_increasing (d : DataSourceIterator) : Prop :=
  ∀ id items, Entry.record id items ∈ d.file → items.Pairwise (· < ·)

/-! ## The points of a run at which memory is measured -/

/-- The number of item ids held by the live candidates of a candidate index. -/
def items_of_index (candidates : List CandidateList) : Nat :=
  (candidates.map items_of_candidates).sum

/-- Every record of the file has at most `L` items. -/
def DataSourceIterator.record_sizes_le (d : DataSourceIterator) (L : Nat) : Prop :=
  ∀ id items, Entry.record id items ∈ d.file → items.length ≤ L

namespace AllMaximalSetsCardinality

/-- The states in which the scanning loop of `FindAllMaximalSets` evaluates
its condition, in order: `FindAllMaximalSets.scan` with the state at the head
of every turn kept.  The sets retained by a turn are all held at its end, so
these are the points at which the memory held is largest. -/
def FindAllMaximalSets.scan_points (max_items_in_ram : Nat) : Nat → Locals → List Locals
  | 0, s => [s]
  | fuel + 1, s =>
    let r := s.data.Next s.set_id s.current_set
    let s1 := { s with set_id := r.2.1, current_set := r.2.2.1, data := r.2.2.2 }
    if r.1 > 0 then
      match FindAllMaximalSets.record max_items_in_ram s1 with
      | Except.error _ => [s]
      | Except.ok s2 => s :: FindAllMaximalSets.scan_points max_items_in_ram fuel s2
    else [s]

/-- The states at the head of the scanning loop over all passes of
`FindAllMaximalSets.passes`, followed by the state in which the last pass
ends. -/
def FindAllMaximalSets.pass_points (max_item_id max_items_in_ram : Nat)
    (output_mode : OutputModeEnum) (scan_fuel : Nat) : Nat → Locals → List Locals
  | 0, _ => []
  | fuel + 1, s =>
    match PrepareForDataScan s.self s.data max_item_id s.resume_offset with
    | Except.error _ => []
    | Except.ok (false, _, _) => []
    | Except.ok (true, self, data) =>
      let s0 : Locals :=
        { s with self := self, data := data, resume_offset := 0, items_in_ram := 0,
                 current_set_size := -1 }
      FindAllMaximalSets.scan_points max_items_in_ram scan_fuel s0 ++
        match FindAllMaximalSets.scan max_items_in_ram scan_fuel s0 with
        | Except.error _ => []
        | Except.ok (result, s) =>
          if result ≠ 0 then []
          else
            let st := DumpMaximalSets s.self s.data s.index_us output_mode
            let s := { s with self := st.1, data := st.2, index_us := [] }
            if s.resume_offset ≠ 0 then
              FindAllMaximalSets.pass_points max_item_id max_items_in_ram output_mode scan_fuel
                fuel s
            else [s]

/-- The states at the head of the scanning loop during the call
`FindAllMaximalSets(data, max_item_id, max_items_in_ram, output_mode)`. -/
def FindAllMaximalSets.points (self : AllMaximalSetsCardinality) (data : World)
    (max_item_id max_items_in_ram : Nat) (output_mode : OutputModeEnum) (fuel : Nat) :
    List Locals :=
  FindAllMaximalSets.pass_points max_item_id max_items_in_ram output_mode fuel fuel
    { self := self.Init, data := data, index_us := [], set_id := 0, current_set := [],
      resume_offset := 0, items_in_ram := 0, current_set_size := -1 }

end AllMaximalSetsCardinality


/-- Three records of three items each, in cardinality order and in
lexicographic order. -/
def budget_scenario : List Record := [(1, [1, 2, 3]), (2, [4, 5, 6]), (3, [7, 8, 9])]

/-! ## The subsumption checks of the cardinality engine -/

namespace AllMaximalSetsCardinality

/-- The candidates on which the while loop of `DeleteSubsumedCandidates` calls
`DoesSubsume`, in order: `DeleteSubsumedCandidates.walk` with every candidate
that reaches the call kept. -/
def DeleteSubsumedCandidates.walk_checked (current_set : ItemSet) (i : Nat)
    (current_begin : List Nat) : Nat → CandidateList → Int → List SetProperties
  | 0, _, _ => []
  | fuel + 1, candidates, candidate_index =>
    match NextCandidate candidates current_set i candidate_index with
    | (none, _) => []
    | (some candidate, found_index) =>
      let candidates :=
        if DoesSubsume current_begin (candidate.item.drop 1) then
          candidates.set found_index.toNat none
        else candidates
      candidate ::
        DeleteSubsumedCandidates.walk_checked current_set i current_begin fuel candidates
          found_index

/-- The candidates on which a call of `DeleteSubsumedCandidates` calls
`DoesSubsume`: `DeleteSubsumedCandidates.loop` with the checked candidates of
every candidate list kept. -/
def DeleteSubsumedCandidates.loop_checked (current_set : ItemSet) :
    List Nat → Nat → AllMaximalSetsCardinality → List SetProperties
  | [], _, _ => []
  | item :: current_rest, i, self =>
    if self.candidates_.length ≤ item then []
    else
      let candidates := self.candidates_.getD item []
      let r := DeleteSubsumedCandidates.walk current_set i (item :: current_rest)
        (candidates.length + 1) candidates (-1) 0
      DeleteSubsumedCandidates.walk_checked current_set i (item :: current_rest)
          (candidates.length + 1) candidates (-1) ++
        DeleteSubsumedCandidates.loop_checked current_set current_rest (i + 1)
          { self with
            candidates_ := self.candidates_.set item r.1
            subsumption_checks_count_ := self.subsumption_checks_count_ + r.2 }

/-- The candidates that `DeleteSubsumedCandidates(current_set)` compares with
`current_set` by a call of `DoesSubsume`. -/
def DeleteSubsumedCandidates.checked (self : AllMaximalSetsCardinality) (current_set : ItemSet) :
    List SetProperties :=
  DeleteSubsumedCandidates.loop_checked current_set current_set 0 self

end AllMaximalSetsCardinality

/-! ## The item fixer (`item-fixer.cc`) -/

namespace FixItems

/-- The statement `++literals[item]` on the hash map `literals`, held as the
list of its entries `(key, value)`: a key that is absent enters with the
value `1`.  The order of the entries stands for the iteration order of the
hash map, which the code does not depend on since it sorts the entries. -/
def increment : List (Nat × Nat) → Nat → List (Nat × Nat)
  | [], item => [(item, 1)]
  | (key, value) :: rest, item =>
    if key = item then (key, (value + 1) % 2 ^ 32) :: rest
    else (key, value) :: increment rest item

/-- The statement `literals[item] = value`. -/
def store : List (Nat × Nat) → Nat → Nat → List (Nat × Nat)
  | [], item, value => [(item, value)]
  | (key, old) :: rest, item, value =>
    if key = item then (key, value) :: rest else (key, old) :: store rest item value

/-- The expression `literals[item]` read as a value: an absent key reads as
`0`. -/
def lookup : List (Nat × Nat) → Nat → Nat
  | [], _ => 0
  | (key, value) :: rest, item => if key = item then value else lookup rest item

/-- The order `operator<=` of `pair<uint32_t, uint32_t>`: by the first
component, then by the second. -/
def pair_le (a b : Nat × Nat) : Prop := a.1 < b.1 ∨ (a.1 = b.1 ∧ a.2 ≤ b.2)

instance : DecidableRel pair_le := fun a b => by
  unfold pair_le
  infer_instance

/-- The locals of the reading loop of `FixItems`. -/
structure Locals where
  data : World
  vector_id : Nat
  clause : ItemSet
  literals : List (Nat × Nat)
  clauses : List ItemSet
  deriving DecidableEq, Repr

/-- The loop `while ((result = data->Next(&vector_id, &clause)) == 1)` of
`FixItems`, which counts the literals and keeps a copy of every clause: the
last value of `result` and the locals at the exit. -/
def read : Nat → Locals → Except Fault (Int × Locals)
  | 0, _ => Except.error Fault.out_of_fuel
  | fuel + 1, s =>
    let r := s.data.Next s.vector_id s.clause
    let s := { s with vector_id := r.2.1, clause := r.2.2.1, data := r.2.2.2 }
    if r.1 = 1 then
      read fuel
        { s with literals := s.clause.foldl increment s.literals,
                 clauses := s.clauses ++ [s.clause] }
    else Except.ok (r.1, s)

/-- The vector `frequency_to_item` after `sort`: the pairs (frequency,
literal) of the map in ascending order.  `std::sort` is taken by its contract,
a sorted rearrangement. -/
def frequency_to_item (literals : List (Nat × Nat)) : List (Nat × Nat) :=
  (literals.map (fun entry => (entry.2, entry.1))).insertionSort pair_le

/-- The loop that replaces the frequency of every literal by its item id,
counting from `item_id`. -/
def number : List (Nat × Nat) → Nat → List (Nat × Nat) → List (Nat × Nat)
  | [], _, literals => literals
  | pair :: rest, item_id, literals =>
    number rest ((item_id + 1) % 2 ^ 32) (store literals pair.2 item_id)

/-- The block of `FixItems` that assigns each literal an item id: the map
`literals` after it. -/
def item_ids (literals : List (Nat × Nat)) : List (Nat × Nat) :=
  number (frequency_to_item literals) 1 literals

/-- The loop that converts the clauses into itemsets: clause `i` becomes the
set with id `i` whose items are the item ids of its literals, sorted. -/
def convert (literals : List (Nat × Nat)) : List ItemSet → Nat → List SetProperties
  | [], _ => []
  | clause :: rest, i =>
    SetProperties.Create i ((clause.map (lookup literals)).insertionSort (· ≤ ·)) ::
      convert literals rest (i + 1)

/-- The output file of `FixItems` as the program meets it: whether `fopen`
succeeds, which call of `fwrite`, if any, writes nothing, and whether `fclose`
succeeds. -/
structure OutputFile where
  opens : Bool
  failing_write : Option Nat
  closes : Bool
  deriving DecidableEq, Repr

/-- The writing loop of `FixItems`: whether every `fwrite` wrote something, and
the sets written; `i` is the number of the next call. -/
def write (out : OutputFile) : List SetProperties → Nat → Bool × List SetProperties
  | [], _ => (true, [])
  | set :: rest, i =>
    if out.failing_write = some i then (false, [])
    else
      let r := write out rest (i + 1)
      (r.1, set :: r.2)

end FixItems

/-- The function `FixItems(data, output_path, by_cardinality)`: the returned
flag, the sets written to the output file and the world after the call.  The
two comparison functors come from `set-properties.h`, which is not among the
sources at hand, and are parameters; `std::sort` is taken by its contract.
`fuel` bounds the number of `Next` calls. -/
def FixItems (data : World) (out : FixItems.OutputFile) (by_cardinality : Bool)
    (compare_set_properties compare_set_properties_cardinality :
      SetProperties → SetProperties → Bool)
    (fuel : Nat) : Except Fault (Bool × List SetProperties × World) :=
  if ¬ out.opens then Except.ok (false, [], data)
  else
    match FixItems.read fuel
        { data := data, vector_id := 0, clause := [], literals := [], clauses := [] } with
    | Except.error e => Except.error e
    | Except.ok (result, s) =>
      if result < 0 then Except.ok (false, [], s.data)
      else
        let literals := FixItems.item_ids s.literals
        let sort_us := FixItems.convert literals s.clauses 0
        let sort_us :=
          if by_cardinality then
            sort_us.insertionSort (fun a b => compare_set_properties_cardinality b a = false)
          else sort_us.insertionSort (fun a b => compare_set_properties b a = false)
        let written := FixItems.write out sort_us 0
        if ¬ written.1 then Except.ok (false, written.2, s.data)
        else if ¬ out.closes then Except.ok (false, written.2, s.data)
        else Except.ok (true, written.2, s.data)

/-! ## The sets held by the cardinality engine -/

/-- The item sequence `a` is a proper prefix of the item sequence `b`. -/
def proper_initial_segment (a b : ItemSet) : Prop :=
  a <+: b ∧ a.length < b.length

instance (a b : ItemSet) : Decidable (proper_initial_segment a b) := by
  unfold proper_initial_segment
  infer_instance

/-- The state of the main loop of `BuildIndex` after `done` slots of a chunk
of `size` slots, `m` of them live, where `live` lists the live entries of the
whole chunk: the live entries met so far are packed at the front, the current
block starts at `begin_candidate_index`, and the index is filled in for the
items up to `previous_item`. -/
def AllMaximalSetsLexicographic.BuildIndex.Locals.built (live : List SetProperties)
    (size done m : Nat) (s : AllMaximalSetsLexicographic.BuildIndex.Locals) : Prop :=
  s.blanks + m = done ∧
  s.self.candidates_.length = size ∧
  (∀ (j : Nat) (t : SetProperties), j < m → live[j]? = some t →
    s.self.candidates_[j]? = some (some t)) ∧
  s.self.index_.getD 0 0 = 0 ∧
  (m = 0 → s.begin_candidate = none ∧ s.previous_item = 0) ∧
  (0 < m → ∃ (b : Nat) (t : SetProperties), s.begin_candidate = some t ∧
    s.begin_candidate_index = (b : Int) ∧ b < m ∧ live[b]? = some t ∧
    (∀ (p : Nat) (u : SetProperties), p < b → live[p]? = some u →
      u.item.getD 0 0 ≤ s.previous_item) ∧
    s.previous_item ≤ t.item.getD 0 0 ∧
    (∀ (p : Nat) (u : SetProperties), b ≤ p → p < m → live[p]? = some u →
      u.item.getD 0 0 = t.item.getD 0 0)) ∧
  (∀ (v : Nat), 1 ≤ v → v ≤ s.previous_item →
    s.self.index_.getD v 0 ≤ live.length ∧
    ∀ (p : Nat) (u : SetProperties), live[p]? = some u →
      (p < s.self.index_.getD v 0 ↔ u.item.getD 0 0 < v))

/-- The live entries of a chunk are item sets that are not empty and strictly
increasing, and they stand in strict lexicographic order. -/
def AllMaximalSetsLexicographic.chunk_sorted (candidates : CandidateList) : Prop :=
  (∀ (p : Nat) (s : SetProperties), candidates[p]? = some (some s) →
    s.item ≠ [] ∧ s.item.Pairwise (· < ·)) ∧
  ∀ (p q : Nat) (s t : SetProperties), p < q → candidates[p]? = some (some s) →
    candidates[q]? = some (some t) → s.item < t.item

/-- The index fits the chunk: every indexed position lies within the chunk,
the first item of every live entry is indexed, and a live entry stands before
`index[v]` exactly when its first item is smaller than `v`. -/
def AllMaximalSetsLexicographic.chunk_indexed (candidates : CandidateList) (index : List Nat) :
    Prop :=
  (∀ (v : Nat), v < index.length → index.getD v 0 ≤ candidates.length) ∧
  ∀ (p : Nat) (s : SetProperties), candidates[p]? = some (some s) →
    s.item.getD 0 0 < index.length ∧
    ∀ (v : Nat), v < index.length → (p < index.getD v 0 ↔ s.item.getD 0 0 < v)

/-- The vector `after` is the vector `before` with exactly the live entries
that satisfy `deleted` turned into tombstones. -/
def AllMaximalSetsLexicographic.tombstoned (deleted : Nat → SetProperties → Prop)
    (before after : CandidateList) : Prop :=
  after.length = before.length ∧
  ∀ (p : Nat), (before[p]? = some none → after[p]? = some none) ∧
    ∀ (s : SetProperties), before[p]? = some (some s) →
      (deleted p s → after[p]? = some none) ∧ (¬ deleted p s → after[p]? = some (some s))

/-- What `DeleteSubsumedFromRange(begin, end, current_set_it, depth)` has to
delete: the entries of the range `[b, e)` that are smaller than the current
set `probe` and whose items from position `depth` on all occur in the range
`it` of the current set. -/
def AllMaximalSetsLexicographic.DeleteSubsumedFromRange.deletes (probe : SetProperties)
    (b e : Nat) (it : List Nat) (depth : Nat) (p : Nat) (s : SetProperties) : Prop :=
  b ≤ p ∧ p < e ∧ (∀ x ∈ s.item.drop depth, x ∈ it) ∧ s.size < probe.size

/-- The conditions under which `DeleteSubsumedFromRange(begin, end,
current_set_it, depth)` is called: the current set is `probe`, the chunk is
sorted, the range `[b, e)` is not empty, its live entries share their first
`depth` items `pre`, the range `it` of the current set is strictly increasing
and starts at `depth` or later, and at depth `0` the range ends with the chunk
and the index fits the chunk. -/
def AllMaximalSetsLexicographic.DeleteSubsumedFromRange.ready
    (self : AllMaximalSetsLexicographic) (probe : SetProperties) (b e : Nat) (it : List Nat)
    (depth : Nat) (pre : List Nat) : Prop :=
  self.current_set_ = some probe ∧
  AllMaximalSetsLexicographic.chunk_sorted self.candidates_ ∧
  b < e ∧ e ≤ self.candidates_.length ∧
  pre.length = depth ∧
  (∀ (p : Nat) (s : SetProperties), b ≤ p → p < e → self.candidates_[p]? = some (some s) →
    pre <+: s.item) ∧
  it.Pairwise (· < ·) ∧
  depth + it.length ≤ probe.size ∧
  (depth = 0 → e = self.candidates_.length ∧
    AllMaximalSetsLexicographic.chunk_indexed self.candidates_ self.index_)

/-- The do-while loop of `DeleteSubsumedFromRange` meets its specification
when it is given `fuel` turns: started on a live entry, in a range whose live
entries have more than `depth` items, with a part of the current set left and
with at least `(e - b) + |it|` fuel, it ends without a fault, tombstones
exactly the entries that `DeleteSubsumedFromRange.deletes` describes, and
leaves the index and the current set alone. -/
def AllMaximalSetsLexicographic.DeleteSubsumedFromRange.loop_meets (probe : SetProperties)
    (fuel : Nat) : Prop :=
  ∀ (self : AllMaximalSetsLexicographic) (b e : Nat) (it : List Nat) (depth : Nat)
    (pre : List Nat),
    AllMaximalSetsLexicographic.DeleteSubsumedFromRange.ready self probe b e it depth pre →
    (∃ candidate, self.candidates_[b]? = some (some candidate)) →
    (∀ (p : Nat) (s : SetProperties), b ≤ p → p < e →
      self.candidates_[p]? = some (some s) → depth < s.item.length) →
    it ≠ [] → (e - b) + it.length ≤ fuel →
    ∃ self', AllMaximalSetsLexicographic.DeleteSubsumedFromRange.loop fuel self b e it depth =
        Except.ok self' ∧
      AllMaximalSetsLexicographic.tombstoned
        (AllMaximalSetsLexicographic.DeleteSubsumedFromRange.deletes probe b e it depth)
        self.candidates_ self'.candidates_ ∧
      self'.index_ = self.index_ ∧ self'.current_set_ = self.current_set_

/-- The state of a chunk during the in-chunk scan and the replay, where `L`
lists the entries of the packed chunk: the chunk is sorted and indexed, every
live entry is the entry of `L` at its position, every tombstoned entry is a
proper subset of some input record, and every entry that is a proper subset
of a live entry at an earlier position below `i` is tombstoned. -/
def AllMaximalSetsLexicographic.chunk_checked (L : List SetProperties) (records : List Record)
    (i : Nat) (self : AllMaximalSetsLexicographic) : Prop :=
  AllMaximalSetsLexicographic.chunk_sorted self.candidates_ ∧
  AllMaximalSetsLexicographic.chunk_indexed self.candidates_ self.index_ ∧
  self.candidates_.length = L.length ∧
  (∀ (p : Nat) (s : SetProperties), self.candidates_[p]? = some (some s) → L[p]? = some s) ∧
  (∀ (p : Nat) (s : SetProperties), L[p]? = some s → self.candidates_[p]? = some none →
    ∃ r ∈ records, proper_subset s.item r.2) ∧
  (∀ (j : Nat) (t : SetProperties) (p : Nat) (s : SetProperties), j < i → j < p →
    self.candidates_[j]? = some (some t) → L[p]? = some s → proper_subset s.item t.item →
    self.candidates_[p]? = some none)

/-- The chunk that `ReadNextChunk` builds from a list of records. -/
def AllMaximalSetsLexicographic.chunk_of (records : List Record) : List SetProperties :=
  records.map (fun r => SetProperties.Create r.1 r.2)

/-- The entries of a chunk that are not a proper prefix of another entry of
the chunk, in the order of the chunk. -/
def AllMaximalSetsLexicographic.unpruned (sets : List SetProperties) : List SetProperties :=
  sets.filter (fun s => decide (∀ t ∈ sets, ¬ proper_initial_segment s.item t.item))

/-- The ids of the records of `slice` that are not a proper subset of any
record of `records`, in the order of `slice`. -/
def maximal_among (records slice : List Record) : List Nat :=
  (slice.filter (fun r => decide (∀ q ∈ records, ¬ proper_subset r.2 q.2))).map Prod.fst

/-- The chunk loop of the lexicographic engine keeps the maximal records when
it is given `fuel` turns: a run that starts at the record `resume_offset`
with an empty chunk, having written the ids of some of the records in front
of it, among them all the maximal ones, and that ends without a fault,
returns `true` and has then written the ids of some of the records, in their
order, among them all the maximal ones. -/
def AllMaximalSetsLexicographic.FindAllMaximalSets.chunks_keep (records : List Record)
    (io_fuel fuel : Nat) : Prop :=
  ∀ (s : AllMaximalSetsLexicographic.Locals) (flag : Bool)
    (self' : AllMaximalSetsLexicographic) (data' : World),
    AllMaximalSetsLexicographic.FindAllMaximalSets.chunks io_fuel fuel s =
      Except.ok (flag, self', data') →
    s.data.data.file = (DataSourceIterator.Get records).file →
    s.data.data.seek_faults = [] →
    s.self.candidates_ = [] → s.self.index_.getD 0 0 = 0 →
    s.self.output_mode_ ≠ OutputModeEnum.COUNT_ONLY →
    s.resume_offset ≤ records.length → 0 ≤ s.result →
    (maximal_among records (records.take s.resume_offset)).Sublist
      (emitted_ids s.data.trace) →
    (emitted_ids s.data.trace).Sublist ((records.take s.resume_offset).map Prod.fst) →
    flag = true ∧ (maximal_ids records).Sublist (emitted_ids data'.trace) ∧
      (emitted_ids data'.trace).Sublist (records.map Prod.fst)

/-! ## The DIMACS reader -/

/-- What one call `fscanf(data_, "%u", &literal)` of `DimacsIterator::Next`
meets in the file: the number of conversions it returns (`0` or `1`), the value
it stores in `literal` when it converts, and the value of `ferror(data_)` after
the call.  A call that converts nothing is followed in the source by the loop
that skips the rest of the line, so such an entry stands for that whole rest
of the line.  The end of the list is the end of the file, where `fscanf`
returns `EOF`. -/
structure Scan where
  scan_result : Nat
  literal : Int
  ferror : Nat
  deriving DecidableEq, Repr

/-- The class `DimacsIterator`: the unread part of the file and the error
message. -/
structure DimacsIterator where
  data_ : List Scan
  error_ : String
  deriving DecidableEq, Repr

/-- The loop `while ((scan_result = fscanf(data_, "%u", &literal)) != EOF)` of
`DimacsIterator::Next`: the returned value, the vector `*vec` and the iterator
after the call. -/
def DimacsIterator.Next.loop (error_ : String) :
    List Scan → List Int → Int × List Int × DimacsIterator
  | [], vec => (0, vec, { data_ := [], error_ := error_ })
  | call :: data, vec =>
    if call.ferror ≠ 0 then
      (-1, vec,
        { data_ := data,
          error_ := "Dataset read error, ferror code=" ++ toString call.ferror })
    else if call.scan_result = 0 then
      -- No conversions, probably a comment or header line.
      if vec.length ≠ 0 then
        (-1, vec,
          { data_ := data, error_ := "Unexpected non-integer in clause encountered." })
      else DimacsIterator.Next.loop error_ data vec
    else if call.literal ≠ 0 then DimacsIterator.Next.loop error_ data (vec ++ [call.literal])
    else if vec.length ≠ 0 then (1, vec, { data_ := data, error_ := error_ })
    else (-1, vec, { data_ := data, error_ := "Empty clause encountered." })

/-- The method `DimacsIterator::Next(vec)`: the returned value (`-1` on error,
`0` at the end of the file, `1` on success), the vector `*vec` and the iterator
after the call. -/
def DimacsIterator.Next (self : DimacsIterator) (_vec : List Int) :
    Int × List Int × DimacsIterator :=
  DimacsIterator.Next.loop self.error_ self.data_ []

/-! ## The candidate lists of the cardinality engine -/

/-- The live entries of the candidate list `candidates_[v]`, in the order of
the list; an index beyond the vector reads as the empty list. -/
def AllMaximalSetsCardinality.bucket (candidates : List CandidateList) (v : Nat) :
    List SetProperties :=
  (candidates.getD v []).filterMap id

/-- The candidate lists are in order at the head of a turn of the scanning
loop: every live entry of the list of item `v` starts with `v`; the live
entries of each list, followed by the staged sets `index_us`, are in
non-decreasing order of size; and none of them is larger than a record that
is still to be read in this pass. -/
def AllMaximalSetsCardinality.Locals.buckets_ordered (s : AllMaximalSetsCardinality.Locals) :
    Prop :=
  (∀ (v : Nat) (K : SetProperties),
    K ∈ AllMaximalSetsCardinality.bucket s.self.candidates_ v → K.item.head? = some v) ∧
  (∀ v : Nat, (AllMaximalSetsCardinality.bucket s.self.candidates_ v ++ s.index_us).Pairwise
    (fun a b : SetProperties => a.size ≤ b.size)) ∧
  (∀ (v : Nat) (X : SetProperties),
    X ∈ AllMaximalSetsCardinality.bucket s.self.candidates_ v ++ s.index_us →
    ∀ (q id : Nat) (items : ItemSet), s.data.data.pos ≤ q →
      s.data.data.file.get? q = some (Entry.record id items) → X.size ≤ items.length)

/-! ## The passes of the cardinality engine -/

/-- The turns of the do-while loop of `DeleteSubsumedFromRange`, at every level
of the recursion, in the order in which they start: for each turn the `depth`
of its call and the position `begin_range_it` at its head.  The function
follows `DeleteSubsumedFromRange.loop` and takes the states from it; where the
loop stops, the list stops. -/
def AllMaximalSetsLexicographic.DeleteSubsumedFromRange.loop_turns :
    Nat → AllMaximalSetsLexicographic → Nat → Nat → List Nat → Nat → List (Nat × Nat)
  | 0, _, _, _, _, _ => []
  | fuel + 1, self, begin_range_it, end_range_it, current_set_it, depth =>
    (depth, begin_range_it) ::
      match AllMaximalSetsLexicographic.read self.candidates_ begin_range_it >>=
          AllMaximalSetsLexicographic.deref with
      | Except.error _ => []
      | Except.ok candidate =>
        match AllMaximalSetsLexicographic.item_at candidate depth with
        | Except.error _ => []
        | Except.ok candidate_item =>
          match current_set_it with
          | [] => []
          | item :: _ =>
            let current_set_it :=
              if item < candidate_item then lower_bound current_set_it candidate_item
              else current_set_it
            match current_set_it with
            | [] => []
            | item :: current_set_rest =>
              if ¬ item ≥ candidate_item then []
              else if item = candidate_item then
                match AllMaximalSetsLexicographic.GetNewEndRangeIt self begin_range_it
                    end_range_it candidate_item depth with
                | Except.error _ => []
                | Except.ok (self, new_end_range_it) =>
                  if ¬ new_end_range_it ≥ begin_range_it then []
                  else
                    -- The turns of the recursive call.
                    let inner : List (Nat × Nat) :=
                      if begin_range_it ≠ new_end_range_it then
                        match AllMaximalSetsLexicographic.DeleteSubsumedSets self
                            begin_range_it new_end_range_it (depth + 1) with
                        | Except.error _ => []
                        | Except.ok (self, inner_begin) =>
                          if inner_begin = new_end_range_it ∨ current_set_rest = [] then []
                          else
                            AllMaximalSetsLexicographic.DeleteSubsumedFromRange.loop_turns fuel
                              self inner_begin new_end_range_it current_set_rest (depth + 1)
                      else []
                    -- The engine after the recursive call, as in the loop.
                    let after : Except Fault AllMaximalSetsLexicographic :=
                      (if begin_range_it ≠ new_end_range_it then do
                        let (self, inner_begin) ←
                          AllMaximalSetsLexicographic.DeleteSubsumedSets self begin_range_it
                            new_end_range_it (depth + 1)
                        if inner_begin = new_end_range_it ∨ current_set_rest = [] then
                          Except.ok self
                        else
                          AllMaximalSetsLexicographic.DeleteSubsumedFromRange.loop fuel self
                            inner_begin new_end_range_it current_set_rest (depth + 1)
                      else Except.ok self)
                    match after with
                    | Except.error _ => inner
                    | Except.ok self =>
                      match AllMaximalSetsLexicographic.skip_null_ne
                          (self.candidates_.drop new_end_range_it) new_end_range_it
                          end_range_it with
                      | Except.error _ => inner
                      | Except.ok begin_range_it =>
                        inner ++
                          (if begin_range_it ≠ end_range_it then
                            AllMaximalSetsLexicographic.DeleteSubsumedFromRange.loop_turns fuel
                              self begin_range_it end_range_it current_set_it depth
                          else [])
              else
                match AllMaximalSetsLexicographic.GetNewBeginRangeIt self begin_range_it
                    end_range_it item depth with
                | Except.error _ => []
                | Except.ok (self, begin_range_it) =>
                  if begin_range_it ≠ end_range_it then
                    AllMaximalSetsLexicographic.DeleteSubsumedFromRange.loop_turns fuel self
                      begin_range_it end_range_it current_set_it depth
                  else []

/-- The turns of the do-while loops run by a call
`DeleteSubsumedFromRange(begin_range_it, end_range_it, current_set_it,
depth)`, the recursive calls included. -/
def AllMaximalSetsLexicographic.DeleteSubsumedFromRange.turns (fuel : Nat)
    (self : AllMaximalSetsLexicographic) (begin_range_it end_range_it : Nat)
    (current_set_it : List Nat) (depth : Nat) : List (Nat × Nat) :=
  if begin_range_it = end_range_it then []
  else
    match AllMaximalSetsLexicographic.DeleteSubsumedSets self begin_range_it end_range_it
        depth with
    | Except.error _ => []
    | Except.ok (self, begin_range_it) =>
      if begin_range_it = end_range_it ∨ current_set_it = [] then []
      else
        AllMaximalSetsLexicographic.DeleteSubsumedFromRange.loop_turns fuel self begin_range_it
          end_range_it current_set_it depth

/-- The turns of a descent stay within the sets: every turn runs at a depth
below the size of the current set `probe` and below the size of the entry at
its position, which is live in `candidates`; the depths are at least `depth`
and the positions lie in `[b, e)`. -/
def AllMaximalSetsLexicographic.DeleteSubsumedFromRange.turns_within (probe : SetProperties)
    (candidates : CandidateList) (b e depth : Nat) (turns : List (Nat × Nat)) : Prop :=
  ∀ x ∈ turns, depth ≤ x.1 ∧ b ≤ x.2 ∧ x.2 < e ∧ x.1 < probe.size ∧
    ∃ s : SetProperties, candidates[x.2]? = some (some s) ∧ x.1 < s.size

/-- The turns of a descent advance: a later turn never starts at an earlier
position, and it starts at a later position unless it runs at a greater depth
(so the successive turns of one loop start at strictly increasing
positions). -/
def AllMaximalSetsLexicographic.DeleteSubsumedFromRange.turns_advance
    (turns : List (Nat × Nat)) : Prop :=
  turns.Pairwise (fun x y : Nat × Nat => x.2 ≤ y.2 ∧ (y.1 ≤ x.1 → x.2 < y.2))

/-- The do-while loop of `DeleteSubsumedFromRange` given `fuel` turns, under
the conditions of `DeleteSubsumedFromRange.loop_meets`: its turns stay within
the sets and advance. -/
def AllMaximalSetsLexicographic.DeleteSubsumedFromRange.turns_meet (probe : SetProperties)
    (fuel : Nat) : Prop :=
  ∀ (self : AllMaximalSetsLexicographic) (b e : Nat) (it : List Nat) (depth : Nat)
    (pre : List Nat),
    AllMaximalSetsLexicographic.DeleteSubsumedFromRange.ready self probe b e it depth pre →
    (∃ candidate, self.candidates_[b]? = some (some candidate)) →
    (∀ (p : Nat) (s : SetProperties), b ≤ p → p < e →
      self.candidates_[p]? = some (some s) → depth < s.item.length) →
    it ≠ [] → (e - b) + it.length ≤ fuel →
    AllMaximalSetsLexicographic.DeleteSubsumedFromRange.turns_within probe self.candidates_ b e
      depth
      (AllMaximalSetsLexicographic.DeleteSubsumedFromRange.loop_turns fuel self b e it depth) ∧
    AllMaximalSetsLexicographic.DeleteSubsumedFromRange.turns_advance
      (AllMaximalSetsLexicographic.DeleteSubsumedFromRange.loop_turns fuel self b e it depth)

/-! ## The accesses to the index during the descent -/

/-- Reading `index_[v]`: an index beyond the vector is a fault. -/
def AllMaximalSetsLexicographic.index_at (index : List Nat) (v : Nat) : Except Fault Nat :=
  match index.get? v with
  | none => Except.error Fault.out_of_bounds
  | some position => Except.ok position

/-- The method `GetNewBeginRangeIt` with its reads of `index_` checked. -/
def AllMaximalSetsLexicographic.GetNewBeginRangeIt.checked (self : AllMaximalSetsLexicographic)
    (begin_range_it end_range_it : Nat) (current_item depth : Nat) :
    Except Fault (AllMaximalSetsLexicographic × Nat) := do
  let self := { self with canidate_seek_count_ := self.canidate_seek_count_ + 1 }
  if depth = 0 then
    -- At depth 0 we can use the index rather than binary search.
    if current_item ≥ self.index_.length then Except.ok (self, end_range_it)
    else
      let indexed ← AllMaximalSetsLexicographic.index_at self.index_ current_item
      let begin_range_it := if indexed > begin_range_it then indexed else begin_range_it
      let it ← AllMaximalSetsLexicographic.skip_null_ne (self.candidates_.drop begin_range_it)
        begin_range_it end_range_it
      Except.ok (self, it)
  else
    let it ← AllMaximalSetsLexicographic.find_new_it (fun a b => decide (a > b))
      self.candidates_ begin_range_it end_range_it current_item depth
    Except.ok (self, it)

/-- The method `GetNewEndRangeIt` with its read of `index_` checked. -/
def AllMaximalSetsLexicographic.GetNewEndRangeIt.checked (self : AllMaximalSetsLexicographic)
    (begin_range_it end_range_it : Nat) (current_item depth : Nat) :
    Except Fault (AllMaximalSetsLexicographic × Nat) := do
  let self := { self with canidate_seek_count_ := self.canidate_seek_count_ + 1 }
  if depth = 0 then
    -- At depth 0 we can use the index rather than binary search.
    if current_item + 1 < self.index_.length then do
      let new_end_range_it ← AllMaximalSetsLexicographic.index_at self.index_ (current_item + 1)
      if new_end_range_it ≤ end_range_it then Except.ok (self, new_end_range_it)
      else Except.error Fault.assertion
    else Except.ok (self, end_range_it)
  else
    let it ← AllMaximalSetsLexicographic.find_new_it (fun a b => decide (a = b))
      self.candidates_ begin_range_it end_range_it current_item depth
    Except.ok (self, it)

/-- An engine in the middle of the in-chunk scan: the chunk `{1,2}`, `{1,4}`,
`{2,3}` with the index `0, 0, 2` and the current set `{1,2,3}`. -/
def descent_example : AllMaximalSetsLexicographic :=
  { AllMaximalSetsLexicographic.new with
    candidates_ := [some (SetProperties.Create 1 [1, 2]),
      some (SetProperties.Create 2 [1, 4]), some (SetProperties.Create 3 [2, 3])]
    index_ := [0, 0, 2]
    current_set_ := some (SetProperties.Create 0 [1, 2, 3]) }

/-! # Theorems -/

/-! ## The subsumption test `DoesSubsume` -/

theorem lower_bound_eq_nil {A : List Nat} {x : Nat} (h : lower_bound A x = []) :
    ∀ a ∈ A, a < x := by
  intro a ha
  unfold lower_bound at h
  rw [List.dropWhile_eq_nil_iff] at h
  simpa using h a ha

theorem lower_bound_cons {A : List Nat} {x y : Nat} {rest : List Nat}
    (h : lower_bound A x = y :: rest) :
    x ≤ y ∧ ∃ front : List Nat, A = front ++ y :: rest ∧ ∀ a ∈ front, a < x := by
  unfold lower_bound at h
  refine ⟨?_, A.takeWhile (fun a => decide (a < x)), ?_, ?_⟩
  · have hh := List.head_dropWhile_not (fun a => decide (a < x)) A
      (by rw [h]; exact List.cons_ne_nil _ _)
    simp only [h, List.head_cons] at hh
    simpa using hh
  · rw [← h, List.takeWhile_append_dropWhile]
  · intro a ha
    simpa using List.mem_takeWhile_imp ha

theorem DoesSubsume_iff (A B : List Nat) (hA : List.Pairwise (· < ·) A)
    (hB : List.Pairwise (· < ·) B) :
    DoesSubsume A B = true ↔ ∀ x ∈ B, x ∈ A := by
  induction B generalizing A with
  | nil => simp [DoesSubsume]
  | cons x B ih =>
    rw [List.pairwise_cons] at hB
    unfold DoesSubsume
    split
    · rename_i h
      have hlt := lower_bound_eq_nil h
      simp only [Bool.false_eq_true, false_iff]
      intro hall
      exact absurd (hlt x (hall x (List.mem_cons_self _ _))) (lt_irrefl x)
    · rename_i y rest h
      obtain ⟨hxy, front, hfront, hlt⟩ := lower_bound_cons h
      subst hfront
      rw [List.pairwise_append, List.pairwise_cons] at hA
      obtain ⟨_, ⟨hy, hrest⟩, hcross⟩ := hA
      split
      · rename_i hgt
        simp only [Bool.false_eq_true, false_iff]
        intro hall
        have hx := hall x (List.mem_cons_self _ _)
        rw [List.mem_append, List.mem_cons] at hx
        rcases hx with hx | hx | hx
        · exact absurd (hlt x hx) (lt_irrefl x)
        · omega
        · have := hy x hx
          omega
      · rename_i hgt
        have hyx : y = x := by omega
        subst hyx
        rw [ih rest hrest hB.2]
        constructor
        · intro hall z hz
          rw [List.mem_cons] at hz
          rcases hz with hz | hz
          · subst hz
            simp
          · have := hall z hz
            simp [this]
        · intro hall z hz
          have hmem := hall z (List.mem_cons_of_mem _ hz)
          have hzy : y < z := hB.1 z hz
          rw [List.mem_append, List.mem_cons] at hmem
          rcases hmem with hm | hm | hm
          · have := hlt z hm
            omega
          · omega
          · exact hm

/-- C6: for strictly increasing `A` and `B`, `DoesSubsume` on the ranges of `A`
and `B` returns `true` exactly when every element of `B` occurs in `A`; it
returns `true` for the empty `B`, and `false` for a non-empty `B` and the
empty `A`. -/
theorem C6_DoesSubsume_iff_all_occur (A B : List Nat) (hA : List.Pairwise (· < ·) A)
    (hB : List.Pairwise (· < ·) B) :
    (DoesSubsume A B = true ↔ ∀ x ∈ B, x ∈ A) ∧ DoesSubsume A [] = true ∧
      (B ≠ [] → DoesSubsume [] B = false) := by
  refine ⟨DoesSubsume_iff A B hA hB, rfl, ?_⟩
  intro hne
  cases B with
  | nil => exact absurd rfl hne
  | cons x B => rfl

/-- An instance of C6 on the ranges `1 3 4 7` and `3 7`. -/
theorem C6_DoesSubsume_iff_all_occur_witness :
    (DoesSubsume [1, 3, 4, 7] [3, 7] = true ↔ ∀ x ∈ [3, 7], x ∈ [1, 3, 4, 7]) ∧
      DoesSubsume [1, 3, 4, 7] [] = true ∧ ([3, 7] ≠ [] → DoesSubsume [] [3, 7] = false) :=
  C6_DoesSubsume_iff_all_occur [1, 3, 4, 7] [3, 7] (by decide) (by decide)

/-! ## The cardinality engine: the walk over a candidate list -/
namespace AllMaximalSetsCardinality

/-- With a hint that the `int` parameter holds, `PrepareForDataScan` asserts,
resizes and seeks. -/
theorem PrepareForDataScan_of_lt (self : AllMaximalSetsCardinality) (data : World)
    (max_item_id resume_offset : Nat) (h : max_item_id < 2 ^ 31) :
    PrepareForDataScan self data max_item_id resume_offset =
      if self.candidates_.length ≠ 0 then Except.error Fault.assertion
      else
        let r := data.Seek resume_offset
        Except.ok
          (r.1, { self with candidates_ := resize self.candidates_ max_item_id [] }, r.2) := by
  unfold PrepareForDataScan
  rw [if_neg (Nat.not_le.2 h)]

/-- With a hint of `2 ^ 31` or more `PrepareForDataScan` ends in a fault. -/
theorem PrepareForDataScan_of_ge (self : AllMaximalSetsCardinality) (data : World)
    (max_item_id resume_offset : Nat) (h : 2 ^ 31 ≤ max_item_id) :
    PrepareForDataScan self data max_item_id resume_offset =
      Except.error
        (if self.candidates_.length ≠ 0 then Fault.assertion else Fault.length_error) := by
  unfold PrepareForDataScan
  rw [if_pos h]
  split <;> rfl

theorem NextCandidate_advance_bounds (slots : CandidateList) (start found : Nat)
    (candidate : SetProperties)
    (h : NextCandidate.advance slots start = some (found, candidate)) :
    start ≤ found ∧ found < start + slots.length := by
  induction slots generalizing start with
  | nil =>
    unfold NextCandidate.advance at h
    cases h
  | cons slot rest ih =>
    cases slot with
    | none =>
      unfold NextCandidate.advance at h
      have := ih (start + 1) h
      simp only [List.length_cons]
      omega
    | some c =>
      unfold NextCandidate.advance at h
      simp only [Option.some.injEq, Prod.mk.injEq] at h
      simp only [List.length_cons]
      omega

theorem NextCandidate_bounds (candidates : CandidateList) (current_set : ItemSet)
    (current_index : Nat) (candidate_index found_index : Int) (candidate : SetProperties)
    (hci : -1 ≤ candidate_index)
    (h : NextCandidate candidates current_set current_index candidate_index =
      (some candidate, found_index)) :
    candidate_index < found_index ∧ found_index < candidates.length := by
  unfold NextCandidate at h
  split at h
  · cases h
  · rename_i found c hadv
    have hb := NextCandidate_advance_bounds _ _ _ _ hadv
    split at h
    · cases h
    · simp only [Prod.mk.injEq, Option.some.injEq] at h
      obtain ⟨_, hf⟩ := h
      subst hf
      simp only [List.length_drop] at hb
      omega

/-- The fuel that `DeleteSubsumedCandidates.loop` hands to the walk over a
candidate list is never used up: more fuel does not change the result. -/
theorem walk_fuel_enough (current_set : ItemSet) (i : Nat) (current_begin : List Nat)
    (fuel : Nat) (candidates : CandidateList) (candidate_index : Int) (checks : Nat)
    (hci : -1 ≤ candidate_index)
    (hfuel : (candidates.length : Int) ≤ fuel + candidate_index) :
    DeleteSubsumedCandidates.walk current_set i current_begin (fuel + 1) candidates
        candidate_index checks =
      DeleteSubsumedCandidates.walk current_set i current_begin fuel candidates
        candidate_index checks := by
  induction fuel generalizing candidates candidate_index checks with
  | zero =>
    unfold DeleteSubsumedCandidates.walk
    cases hnc : NextCandidate candidates current_set i candidate_index with
    | mk found found_index =>
      cases found with
      | none =>
        simp only
      | some candidate =>
        have := NextCandidate_bounds _ _ _ _ _ _ hci hnc
        omega
  | succ fuel ih =>
    rw [DeleteSubsumedCandidates.walk]
    conv => rhs; rw [DeleteSubsumedCandidates.walk]
    cases hnc : NextCandidate candidates current_set i candidate_index with
    | mk found found_index =>
      cases found with
      | none => rfl
      | some candidate =>
        have hb := NextCandidate_bounds _ _ _ _ _ _ hci hnc
        simp only
        apply ih
        · omega
        · split
          · simp only [List.length_set]
            omega
          · omega

end AllMaximalSetsCardinality

/-! ## The cardinality engine: error reporting and empty input -/

theorem DataSourceIterator.Next_cases (d : DataSourceIterator) (set_id : Nat) (cs : ItemSet) :
    (d.Next set_id cs = (0, set_id, cs, d) ∧ d.file.length ≤ d.pos) ∨
    (∃ id items, d.Next set_id cs = (1, id, items, { d with pos := d.pos + 1 }) ∧
      Entry.record id items ∈ d.file ∧ d.pos < d.file.length) ∨
    (d.Next set_id cs = (-1, set_id, cs, { d with pos := d.pos + 1 }) ∧
      d.pos < d.file.length) := by
  unfold DataSourceIterator.Next
  cases h : d.file.get? d.pos with
  | none =>
    left
    exact ⟨rfl, by simpa [List.get?_eq_none] using h⟩
  | some e =>
    have hlt : d.pos < d.file.length := by
      by_contra hc
      rw [List.get?_eq_none.mpr (by omega)] at h
      cases h
    cases e with
    | record id items =>
      right; left
      exact ⟨id, items, rfl, List.get?_mem h, hlt⟩
    | corrupt =>
      right; right
      exact ⟨rfl, hlt⟩

namespace AllMaximalSetsCardinality

end AllMaximalSetsCardinality

theorem World.quietly_extends_refl (w : World) : w.quietly_extends w :=
  ⟨rfl, [], by simp, by simp⟩

theorem World.quietly_extends_trans {a b c : World} (h1 : a.quietly_extends b)
    (h2 : b.quietly_extends c) : a.quietly_extends c := by
  obtain ⟨hd1, e1, ht1, hc1⟩ := h1
  obtain ⟨hd2, e2, ht2, hc2⟩ := h2
  refine ⟨hd1.trans hd2, e2 ++ e1, by rw [ht1, ht2, List.append_assoc], ?_⟩
  intro e he
  rw [List.mem_append] at he
  rcases he with he | he
  · exact hc2 e he
  · exact hc1 e he

theorem World.print_quietly (w : World) (m : SetProperties) (mode : OutputModeEnum) :
    (w.print m mode).quietly_extends w := by
  cases mode
  · exact World.quietly_extends_refl w
  · refine ⟨rfl, [Event.Output m.set_id none], rfl, ?_⟩
    intro e he
    simp at he
    subst he
    rfl
  · refine ⟨rfl, [Event.Output m.set_id (some m.item)], rfl, ?_⟩
    intro e he
    simp at he
    subst he
    rfl

namespace AllMaximalSetsCardinality

theorem unindexed_quietly (mode : OutputModeEnum) (l : List SetProperties)
    (st : AllMaximalSetsCardinality × World) :
    (DumpMaximalSets.unindexed mode l st).2.quietly_extends st.2 := by
  induction l generalizing st with
  | nil => exact World.quietly_extends_refl _
  | cons x l ih =>
    unfold DumpMaximalSets.unindexed
    exact World.quietly_extends_trans (ih _) (World.print_quietly _ _ _)

theorem candidate_set_quietly (mode : OutputModeEnum) (l : CandidateList)
    (st : AllMaximalSetsCardinality × World) :
    (DumpMaximalSets.candidate_set mode l st).2.quietly_extends st.2 := by
  induction l generalizing st with
  | nil => exact World.quietly_extends_refl _
  | cons x l ih =>
    cases x with
    | none =>
      unfold DumpMaximalSets.candidate_set
      exact ih _
    | some m =>
      unfold DumpMaximalSets.candidate_set
      exact World.quietly_extends_trans (ih _) (World.print_quietly _ _ _)

theorem indexed_quietly (mode : OutputModeEnum) (l : List CandidateList)
    (st : AllMaximalSetsCardinality × World) :
    (DumpMaximalSets.indexed mode l st).2.quietly_extends st.2 := by
  induction l generalizing st with
  | nil => exact World.quietly_extends_refl _
  | cons x l ih =>
    unfold DumpMaximalSets.indexed
    exact World.quietly_extends_trans (ih _) (candidate_set_quietly _ _ _)

theorem DumpMaximalSets_spec (self : AllMaximalSetsCardinality) (data : World)
    (l : List SetProperties) (mode : OutputModeEnum) :
    (DumpMaximalSets self data l mode).1.candidates_ = [] ∧
    (DumpMaximalSets self data l mode).2.quietly_extends data := by
  unfold DumpMaximalSets
  refine ⟨rfl, ?_⟩
  exact World.quietly_extends_trans (indexed_quietly _ _ _) (unindexed_quietly mode l (self, data))

end AllMaximalSetsCardinality

namespace AllMaximalSetsCardinality

end AllMaximalSetsCardinality

/-! ## Runs on which the engines leave their contract -/

/-- C1 (code bug): the records `1:{1}`, `2:{1,2}` are valid and ordered by
size, and the only maximal one is `2`; the cardinality engine nevertheless
returns `true` having written both ids.  `DeleteSubsumedCandidates` runs
before `IndexSets`, so the first record of a larger size is never checked
against the sets still waiting in `index_us`. -/
theorem C1_cardinality_emits_subsumed_record :
    valid_records [(1, [1]), (2, [1, 2])] ∧
    cardinality_ordered [(1, [1]), (2, [1, 2])] ∧
    maximal_ids [(1, [1]), (2, [1, 2])] = [2] ∧
    cardinality_run [(1, [1]), (2, [1, 2])] 3 1000 4 = Except.ok (true, [2, 1]) := by
  decide!

/-- C2 (code bug): the records `1:{1,2}`, `2:{1,2,3}`, `3:{4}` are valid and in
strict lexicographic order, and the maximal ones are `2` and `3`; with a
budget of two items the lexicographic engine returns `true` having written
`1`, `2` and `3`.  Record `1` ends the first chunk and is never compared with
record `2`, of which it is a proper initial segment. -/
theorem C2_lexicographic_emits_subsumed_record :
    valid_records [(1, [1, 2]), (2, [1, 2, 3]), (3, [4])] ∧
    lex_ordered [(1, [1, 2]), (2, [1, 2, 3]), (3, [4])] ∧
    maximal_ids [(1, [1, 2]), (2, [1, 2, 3]), (3, [4])] = [2, 3] ∧
    lexicographic_run [(1, [1, 2]), (2, [1, 2, 3]), (3, [4])] 2 5 =
      Except.ok (true, [1, 2, 3]) := by
  decide!

/-- C3 (code bug): on the records `1:{1}`, `2:{1,2}`, which are ordered both by
size and lexicographically, the cardinality engine writes the ids `2, 1` and
the lexicographic engine writes the id `2` only, under the same budget. -/
theorem C3_engines_disagree :
    valid_records [(1, [1]), (2, [1, 2])] ∧
    cardinality_ordered [(1, [1]), (2, [1, 2])] ∧
    lex_ordered [(1, [1]), (2, [1, 2])] ∧
    cardinality_run [(1, [1]), (2, [1, 2])] 3 1000 4 = Except.ok (true, [2, 1]) ∧
    lexicographic_run [(1, [1]), (2, [1, 2])] 1000 4 = Except.ok (true, [2]) ∧
    ¬ List.Perm [2, 1] [2] := by
  decide!

/-- C4 (code bug): on the records `1:{1}`, `2:{2}`, `3:{1,3}`, valid and ordered
by size, the cardinality engine writes `1, 2, 3` with the budget `2` and
`2, 3` with the halved budget `1`. -/
theorem C4_cardinality_budget_changes_output :
    valid_records [(1, [1]), (2, [2]), (3, [1, 3])] ∧
    cardinality_ordered [(1, [1]), (2, [2]), (3, [1, 3])] ∧
    cardinality_run [(1, [1]), (2, [2]), (3, [1, 3])] 4 2 5 = Except.ok (true, [1, 2, 3]) ∧
    cardinality_run [(1, [1]), (2, [2]), (3, [1, 3])] 4 (2 / 2) 5 = Except.ok (true, [2, 3]) := by
  decide!

/-- C5 (code bug): on the records `1:{1,2}`, `2:{1,2,3}`, `3:{4}`, valid and in
strict lexicographic order, the lexicographic engine writes `2, 3` with the
budget `5` and `1, 2, 3` with the halved budget `2`. -/
theorem C5_lexicographic_budget_changes_output :
    valid_records [(1, [1, 2]), (2, [1, 2, 3]), (3, [4])] ∧
    lex_ordered [(1, [1, 2]), (2, [1, 2, 3]), (3, [4])] ∧
    lexicographic_run [(1, [1, 2]), (2, [1, 2, 3]), (3, [4])] 5 5 = Except.ok (true, [2, 3]) ∧
    lexicographic_run [(1, [1, 2]), (2, [1, 2, 3]), (3, [4])] (5 / 2) 5 =
      Except.ok (true, [1, 2, 3]) := by
  decide!

namespace AllMaximalSetsLexicographic

/-- Whatever `Next` returns, `ReadNextChunk` does not return `false`: its
`bool result` is `false` whenever the final `return result == 0` is
reached. -/
theorem ReadNextChunk_loop_flag (fuel : Nat) (self : AllMaximalSetsLexicographic) (data : World)
    (set_id : Nat) (current_set : ItemSet)
    (r : Bool × AllMaximalSetsLexicographic × World × Nat)
    (h : ReadNextChunk.loop fuel self data set_id current_set = Except.ok r) : r.1 = true := by
  induction fuel generalizing self data set_id current_set with
  | zero =>
    unfold ReadNextChunk.loop at h
    cases h
  | succ fuel ih =>
    unfold ReadNextChunk.loop at h
    simp only at h
    split at h
    · split at h
      · cases h
        rfl
      · exact ih _ _ _ _ h
    · rename_i hres
      cases h
      simp only [decide_eq_true_eq]
      omega

/-- C8 (code bug): the second entry of the file is corrupt, so the second
`Next` call of the chunk load returns `-1`.  `ReadNextChunk` stores the result
in a `bool`, takes the call for a successful read, appends a candidate for
it, goes on reading and returns `true`; `FindAllMaximalSets` then returns
`true` as well. -/
theorem C8_lexicographic_read_error_not_reported :
    (ReadNextChunk AllMaximalSetsLexicographic.new (World.start corrupt_file_example) 5).map
        (fun r => (r.1, r.2.1.candidates_.length, r.2.2.1.trace)) =
      Except.ok (true, 3, [Event.Next 1, Event.Next (-1), Event.Next 1, Event.Next 0]) ∧
    (FindAllMaximalSets AllMaximalSetsLexicographic.new (World.start corrupt_file_example) 0 5).map
        (fun r => (r.1, r.2.2.trace)) =
      Except.ok (true, [Event.Seek 0 true, Event.Next 1, Event.Next (-1), Event.Next 1,
        Event.Next 0, Event.Output 8 none]) := by
  decide!

end AllMaximalSetsLexicographic

/-- C9 (code bug): the single record `1:{1}` with the budget `1` makes the
budget be reached on the last record of the input; the next turn of the chunk
loop loads an empty chunk and the assertion `candidates_.size()` of
`DeleteTriviallySubsumedCandidates` fails, so the call does not return
`true`. -/
theorem C9_lexicographic_budget_on_last_record :
    valid_records [(1, [1])] ∧ lex_ordered [(1, [1])] ∧
    AllMaximalSetsLexicographic.FindAllMaximalSets
        (AllMaximalSetsLexicographic.new.SetMaxItemsInRam 1)
        (World.start (DataSourceIterator.Get [(1, [1])])) 0 3 =
      Except.error Fault.assertion ∧
    AllMaximalSetsLexicographic.DeleteTriviallySubsumedCandidates
        (AllMaximalSetsLexicographic.new.SetMaxItemsInRam 1) =
      Except.error Fault.assertion := by
  decide!

/-! ## More runs on which the engines leave their contract -/

/-- C11 (code bug): on a record source without records the lexicographic
engine loads an empty chunk and the assertion `candidates_.size()` of
`DeleteTriviallySubsumedCandidates` fails, for every budget and every hint;
the call does not return `true`. -/
theorem C11_lexicographic_empty_input (max_items_in_ram : Int) (max_item_id fuel : Nat) :
    AllMaximalSetsLexicographic.FindAllMaximalSets
        (AllMaximalSetsLexicographic.new.SetMaxItemsInRam max_items_in_ram)
        (World.start (DataSourceIterator.Get [])) max_item_id (fuel + 1) =
      Except.error Fault.assertion := by
  unfold AllMaximalSetsLexicographic.FindAllMaximalSets
    AllMaximalSetsLexicographic.FindAllMaximalSets.chunks
  simp [AllMaximalSetsLexicographic.PrepareForDataScan, World.Seek, DataSourceIterator.Seek,
    World.start, DataSourceIterator.Get, AllMaximalSetsLexicographic.ReadNextChunk,
    AllMaximalSetsLexicographic.ReadNextChunk.loop, World.Next, DataSourceIterator.Next,
    AllMaximalSetsLexicographic.Init, AllMaximalSetsLexicographic.new,
    AllMaximalSetsLexicographic.SetMaxItemsInRam,
    AllMaximalSetsLexicographic.DeleteTriviallySubsumedCandidates, bind, Except.bind]

/-- C12 (code bug): on the single valid record `5:{2,3}` the cardinality engine
returns `true`, writes `5` once and counts one maximal and one input set, but
the lexicographic engine with the budget `2` (or `1`) reaches the budget on
that record, loads an empty second chunk and fails the assertion of
`DeleteTriviallySubsumedCandidates`. -/
theorem C12_single_record :
    valid_records [(5, [2, 3])] ∧
    (AllMaximalSetsCardinality.FindAllMaximalSets AllMaximalSetsCardinality.new
        (World.start (DataSourceIterator.Get [(5, [2, 3])])) 0 2 OutputModeEnum.ID 3).map
      (fun r => (r.1, emitted_ids r.2.2.trace, r.2.1.maximal_sets_count_,
        r.2.1.input_sets_count_)) = Except.ok (true, [5], 1, 1) ∧
    lexicographic_run [(5, [2, 3])] 3 3 = Except.ok (true, [5]) ∧
    lexicographic_run [(5, [2, 3])] 2 3 = Except.error Fault.assertion ∧
    lexicographic_run [(5, [2, 3])] 1 3 = Except.error Fault.assertion := by
  decide!

/-- C15 (code bug): the cardinality engine with the budget `2` writes the ids
`2, 3, 4, 5` on `1:{1}, 2:{2}, 3:{3}, 4:{4}, 5:{1,3}`, and on these four
records it writes `2, 5, 4` only; the lexicographic engine with the budget `3`
writes `1, 2, 3` on `0:{1}, 1:{1,2}, 2:{1,2,3}, 3:{4}`, and on these three
records it writes `2, 3` only. -/
theorem C15_rerun_on_own_output_differs :
    valid_records [(1, [1]), (2, [2]), (3, [3]), (4, [4]), (5, [1, 3])] ∧
    cardinality_ordered [(1, [1]), (2, [2]), (3, [3]), (4, [4]), (5, [1, 3])] ∧
    cardinality_run [(1, [1]), (2, [2]), (3, [3]), (4, [4]), (5, [1, 3])] 5 2 7 =
      Except.ok (true, [2, 3, 4, 5]) ∧
    cardinality_run [(2, [2]), (3, [3]), (4, [4]), (5, [1, 3])] 5 2 7 =
      Except.ok (true, [2, 5, 4]) ∧
    ¬ List.Perm [2, 5, 4] [2, 3, 4, 5] ∧
    valid_records [(0, [1]), (1, [1, 2]), (2, [1, 2, 3]), (3, [4])] ∧
    lex_ordered [(0, [1]), (1, [1, 2]), (2, [1, 2, 3]), (3, [4])] ∧
    lexicographic_run [(0, [1]), (1, [1, 2]), (2, [1, 2, 3]), (3, [4])] 3 6 =
      Except.ok (true, [1, 2, 3]) ∧
    lexicographic_run [(1, [1, 2]), (2, [1, 2, 3]), (3, [4])] 3 6 = Except.ok (true, [2, 3]) ∧
    ¬ List.Perm [2, 3] [1, 2, 3] := by
  decide!

/-- C16 (code bug): inserting the record `1:{1}`, a proper subset of `2:{1,2}`,
in front of it makes the cardinality engine write `2, 1` instead of `2`;
inserting `1:{1,2}`, a proper subset of `2:{1,2,3}`, in front of it makes the
lexicographic engine with the budget `2` write `1, 2, 3` instead of `2, 3`. -/
theorem C16_subset_insertion_changes_output :
    valid_records [(1, [1]), (2, [1, 2])] ∧
    cardinality_ordered [(1, [1]), (2, [1, 2])] ∧
    proper_subset [1] [1, 2] ∧
    cardinality_run [(2, [1, 2])] 3 1000 4 = Except.ok (true, [2]) ∧
    cardinality_run [(1, [1]), (2, [1, 2])] 3 1000 4 = Except.ok (true, [2, 1]) ∧
    valid_records [(1, [1, 2]), (2, [1, 2, 3]), (3, [4])] ∧
    lex_ordered [(1, [1, 2]), (2, [1, 2, 3]), (3, [4])] ∧
    proper_subset [1, 2] [1, 2, 3] ∧
    lexicographic_run [(2, [1, 2, 3]), (3, [4])] 2 5 = Except.ok (true, [2, 3]) ∧
    lexicographic_run [(1, [1, 2]), (2, [1, 2, 3]), (3, [4])] 2 5 =
      Except.ok (true, [1, 2, 3]) := by
  decide!

/-- C19 (code bug): on the records `1:{1}`, `2:{2}`, `3:{1,2}`, `4:{1,2,3}`, of
which only `4` is maximal, the cardinality engine writes the ids `4` and `3`
and counts two maximal sets.  Record `4` is the first record of size three
and is never checked against record `3`, which is still staged in
`index_us`. -/
theorem C19_cardinality_scenario :
    maximal_ids [(1, [1]), (2, [2]), (3, [1, 2]), (4, [1, 2, 3])] = [4] ∧
    (AllMaximalSetsCardinality.FindAllMaximalSets AllMaximalSetsCardinality.new
        (World.start (DataSourceIterator.Get [(1, [1]), (2, [2]), (3, [1, 2]), (4, [1, 2, 3])]))
        4 1000 OutputModeEnum.ID 6).map
      (fun r => (r.1, emitted_ids r.2.2.trace, r.2.1.maximal_sets_count_)) =
      Except.ok (true, [4, 3], 2) := by
  decide!

/-! ## The scenario of the lexicographic engine -/

/-- The scenario read by `ReadNextChunk` without reaching the budget gives the
chunk array of its four records. -/
theorem lex_scenario_loaded :
    (AllMaximalSetsLexicographic.ReadNextChunk
        (AllMaximalSetsLexicographic.new.SetMaxItemsInRam 1000)
        (World.start (DataSourceIterator.Get lex_scenario)) 6).map
      (fun r => (r.1, r.2.1.candidates_, r.2.2.2)) =
      Except.ok (true, chunk_of lex_scenario, 0) := by
  decide!

/-- The claim C20 as stated fails: the run on the scenario does not write the
id set `{3, 4}`. -/
theorem C20_lex_scenario_counterexample :
    ¬ ∃ ids : List Nat, lexicographic_run lex_scenario 1000 6 = Except.ok (true, ids) ∧
      List.Perm ids [3, 4] := by
  rintro ⟨ids, hrun, hperm⟩
  have h : lexicographic_run lex_scenario 1000 6 = Except.ok (true, [3]) := by decide!
  rw [h] at hrun
  simp only [Except.ok.injEq, Prod.mk.injEq, true_and] at hrun
  subst hrun
  have := hperm.length_eq
  simp at this

/-- C20 (amended): on the input `1:{1,2,3}`, `2:{1,2,3,4}`, `3:{1,2,3,4,5}`,
`4:{1,2,4}` the trivial pruning of the lexicographic engine tombstones exactly
the records `1` and `2`; the in-chunk scan then deletes record `4`, whose
items all occur in record `3`; the only id written is `3`. -/
theorem C20_lex_scenario :
    (AllMaximalSetsLexicographic.DeleteTriviallySubsumedCandidates
        { AllMaximalSetsLexicographic.new with candidates_ := chunk_of lex_scenario }).map
      (fun self => self.candidates_) =
      Except.ok [none, none, some (SetProperties.Create 3 [1, 2, 3, 4, 5]),
        some (SetProperties.Create 4 [1, 2, 4])] ∧
    (AllMaximalSetsLexicographic.DeleteTriviallySubsumedCandidates
        { AllMaximalSetsLexicographic.new with candidates_ := chunk_of lex_scenario } >>=
      AllMaximalSetsLexicographic.BuildIndex >>=
      AllMaximalSetsLexicographic.FindAllMaximalSets.check_chunk 1 0).map
      (fun self => self.candidates_) =
      Except.ok [some (SetProperties.Create 3 [1, 2, 3, 4, 5]), none] ∧
    proper_subset [1, 2, 4] [1, 2, 3, 4, 5] ∧
    maximal_ids lex_scenario = [3] ∧
    lexicographic_run lex_scenario 1000 6 = Except.ok (true, [3]) := by
  decide!

/-! ## The input counter of the cardinality engine -/

theorem successful_reads_append (a b : List Event) :
    successful_reads (a ++ b) = successful_reads a + successful_reads b := by
  induction a with
  | nil => simp [successful_reads]
  | cons e a ih =>
    rw [List.cons_append]
    cases e with
    | Seek o ok =>
      simp only [successful_reads]
      exact ih
    | Next r =>
      rw [successful_reads, successful_reads, ih]
      split <;> omega
    | Output i it =>
      simp only [successful_reads]
      exact ih

theorem World.print_reads (w : World) (m : SetProperties) (mode : OutputModeEnum) :
    successful_reads (w.print m mode).trace = successful_reads w.trace := by
  cases mode <;> simp [World.print, successful_reads_append, successful_reads]

namespace AllMaximalSetsCardinality

theorem DeleteSubsumedCandidates_loop_counts (current_set : ItemSet) (rest : List Nat) (i : Nat)
    (self : AllMaximalSetsCardinality) :
    (DeleteSubsumedCandidates.loop current_set rest i self).input_sets_count_ =
        self.input_sets_count_ ∧
      (DeleteSubsumedCandidates.loop current_set rest i self).maximal_sets_count_ =
        self.maximal_sets_count_ := by
  induction rest generalizing i self with
  | nil => exact ⟨rfl, rfl⟩
  | cons x rest ih =>
    unfold DeleteSubsumedCandidates.loop
    split
    · exact ⟨rfl, rfl⟩
    · have := ih (i + 1)
        { self with
          candidates_ := self.candidates_.set x
            (DeleteSubsumedCandidates.walk current_set i (x :: rest)
              ((self.candidates_.getD x []).length + 1) (self.candidates_.getD x []) (-1) 0).1
          subsumption_checks_count_ := self.subsumption_checks_count_ +
            (DeleteSubsumedCandidates.walk current_set i (x :: rest)
              ((self.candidates_.getD x []).length + 1) (self.candidates_.getD x []) (-1) 0).2 }
      exact this

theorem IndexSets_counts (l : List SetProperties) (self self' : AllMaximalSetsCardinality)
    (h : IndexSets self l = Except.ok self') :
    self'.input_sets_count_ = self.input_sets_count_ ∧
      self'.maximal_sets_count_ = self.maximal_sets_count_ ∧
      self'.subsumption_checks_count_ = self.subsumption_checks_count_ := by
  induction l generalizing self with
  | nil =>
    unfold IndexSets at h
    cases h
    exact ⟨rfl, rfl, rfl⟩
  | cons x l ih =>
    unfold IndexSets at h
    split at h
    · cases h
    · have := ih _ h
      exact this

theorem unindexed_counts (mode : OutputModeEnum) (l : List SetProperties)
    (st : AllMaximalSetsCardinality × World) :
    (DumpMaximalSets.unindexed mode l st).1.input_sets_count_ = st.1.input_sets_count_ ∧
      successful_reads (DumpMaximalSets.unindexed mode l st).2.trace =
        successful_reads st.2.trace := by
  induction l generalizing st with
  | nil => exact ⟨rfl, rfl⟩
  | cons x l ih =>
    unfold DumpMaximalSets.unindexed
    obtain ⟨h1, h2⟩ := ih (FoundMaximalSet st.1 st.2 x mode)
    rw [h1, h2]
    exact ⟨rfl, World.print_reads _ _ _⟩

theorem candidate_set_counts (mode : OutputModeEnum) (l : CandidateList)
    (st : AllMaximalSetsCardinality × World) :
    (DumpMaximalSets.candidate_set mode l st).1.input_sets_count_ = st.1.input_sets_count_ ∧
      successful_reads (DumpMaximalSets.candidate_set mode l st).2.trace =
        successful_reads st.2.trace := by
  induction l generalizing st with
  | nil => exact ⟨rfl, rfl⟩
  | cons x l ih =>
    cases x with
    | none =>
      unfold DumpMaximalSets.candidate_set
      exact ih st
    | some m =>
      unfold DumpMaximalSets.candidate_set
      obtain ⟨h1, h2⟩ := ih (FoundMaximalSet st.1 st.2 m mode)
      rw [h1, h2]
      exact ⟨rfl, World.print_reads _ _ _⟩

theorem indexed_counts (mode : OutputModeEnum) (l : List CandidateList)
    (st : AllMaximalSetsCardinality × World) :
    (DumpMaximalSets.indexed mode l st).1.input_sets_count_ = st.1.input_sets_count_ ∧
      successful_reads (DumpMaximalSets.indexed mode l st).2.trace =
        successful_reads st.2.trace := by
  induction l generalizing st with
  | nil => exact ⟨rfl, rfl⟩
  | cons x l ih =>
    unfold DumpMaximalSets.indexed
    obtain ⟨h1, h2⟩ := ih (DumpMaximalSets.candidate_set mode x st)
    obtain ⟨h3, h4⟩ := candidate_set_counts mode x st
    rw [h1, h2, h3, h4]
    exact ⟨rfl, rfl⟩

theorem DumpMaximalSets_counts (self : AllMaximalSetsCardinality) (data : World)
    (l : List SetProperties) (mode : OutputModeEnum) :
    (DumpMaximalSets self data l mode).1.input_sets_count_ = self.input_sets_count_ ∧
      successful_reads (DumpMaximalSets self data l mode).2.trace =
        successful_reads data.trace := by
  unfold DumpMaximalSets
  obtain ⟨h1, h2⟩ := indexed_counts mode
    (DumpMaximalSets.unindexed mode l (self, data)).1.candidates_
    (DumpMaximalSets.unindexed mode l (self, data))
  obtain ⟨h3, h4⟩ := unindexed_counts mode l (self, data)
  simp only
  rw [h1, h2, h3, h4]
  exact ⟨rfl, rfl⟩

/-- What one turn of the scanning loop does to the input counter, the resume
offset and the world. -/
theorem record_counts (max_items_in_ram : Nat) (s s' : Locals)
    (h : FindAllMaximalSets.record max_items_in_ram s = Except.ok s') :
    s'.data = s.data ∧
      ((s.resume_offset = 0 ∧ s'.self.input_sets_count_ = s.self.input_sets_count_ + 1 ∧
          (s'.resume_offset = 0 ∨ s'.resume_offset = s.data.Tell)) ∨
       (s.resume_offset ≠ 0 ∧ s'.self.input_sets_count_ = s.self.input_sets_count_ ∧
          s'.resume_offset = s.resume_offset)) := by
  unfold FindAllMaximalSets.record at h
  have hd := (DeleteSubsumedCandidates_loop_counts s.current_set s.current_set 0 s.self).1
  by_cases hsize : (s.current_set.length : Int) ≠ s.current_set_size
  · simp only [hsize, ne_eq, not_false_eq_true, if_true] at h
    cases hix : IndexSets (DeleteSubsumedCandidates s.self s.current_set) s.index_us with
    | error e =>
      rw [hix] at h
      cases h
    | ok self2 =>
      rw [hix] at h
      have hc := (IndexSets_counts _ _ _ hix).1
      unfold DeleteSubsumedCandidates at hc
      rw [hd] at hc
      by_cases hres : s.resume_offset = 0
      · simp only [hres, if_true] at h
        split at h
        · cases h
          exact ⟨rfl, Or.inl ⟨hres, by simp only; rw [hc], Or.inr rfl⟩⟩
        · cases h
          exact ⟨rfl, Or.inl ⟨hres, by simp only; rw [hc], Or.inl rfl⟩⟩
      · simp only [hres, if_false] at h
        cases h
        exact ⟨rfl, Or.inr ⟨hres, hc, rfl⟩⟩
  · simp only [hsize, if_false] at h
    unfold DeleteSubsumedCandidates at h
    by_cases hres : s.resume_offset = 0
    · simp only [hres, if_true] at h
      split at h
      · cases h
        exact ⟨rfl, Or.inl ⟨hres, by simp only; rw [hd], Or.inr rfl⟩⟩
      · cases h
        exact ⟨rfl, Or.inl ⟨hres, by simp only; rw [hd], Or.inl rfl⟩⟩
    · simp only [hres, if_false] at h
      cases h
      exact ⟨rfl, Or.inr ⟨hres, hd, rfl⟩⟩

end AllMaximalSetsCardinality

theorem DataSourceIterator.Next_negative (d : DataSourceIterator) (set_id : Nat) (cs : ItemSet)
    (h : (d.Next set_id cs).1 ≠ 0) (h' : ¬ (d.Next set_id cs).1 > 0) : Entry.corrupt ∈ d.file := by
  unfold DataSourceIterator.Next at h h'
  cases hg : d.file.get? d.pos with
  | none =>
    rw [hg] at h
    exact absurd rfl h
  | some e =>
    cases e with
    | record id items =>
      rw [hg] at h'
      simp at h'
    | corrupt => exact List.get?_mem hg

namespace AllMaximalSetsCardinality

/-- The input counter along the scanning loop of one pass: while the pass
retains records the counter is the read position, afterwards it is the resume
offset; and the counter never exceeds the number of successful reads. -/
theorem scan_counts (max_items_in_ram : Nat) (fuel : Nat) (s : Locals) (result : Int)
    (s' : Locals)
    (h : FindAllMaximalSets.scan max_items_in_ram fuel s = Except.ok (result, s'))
    (hpos : s.data.data.pos ≤ s.data.data.file.length)
    (hJ0 : s.resume_offset = 0 → s.self.input_sets_count_ = s.data.data.pos)
    (hJ1 : s.resume_offset ≠ 0 →
      s.self.input_sets_count_ = s.resume_offset ∧ s.resume_offset ≤ s.data.data.file.length)
    (hR : s.self.input_sets_count_ ≤ successful_reads s.data.trace) :
    s'.data.data.file = s.data.data.file ∧
    s'.data.data.seek_faults = s.data.data.seek_faults ∧
    (result = 0 →
      (s'.resume_offset = 0 → s'.self.input_sets_count_ = s.data.data.file.length) ∧
      (s'.resume_offset ≠ 0 →
        s'.self.input_sets_count_ = s'.resume_offset ∧
          s'.resume_offset ≤ s.data.data.file.length) ∧
      s'.self.input_sets_count_ ≤ successful_reads s'.data.trace) ∧
    (result ≠ 0 → Entry.corrupt ∈ s.data.data.file) := by
  induction fuel generalizing s with
  | zero =>
    unfold FindAllMaximalSets.scan at h
    cases h
  | succ fuel ih =>
    unfold FindAllMaximalSets.scan at h
    simp only [World.Next] at h
    by_cases hpositive : (s.data.data.Next s.set_id s.current_set).1 > 0
    · simp only [hpositive, if_true] at h
      rcases DataSourceIterator.Next_cases s.data.data s.set_id s.current_set with
        ⟨hn, _⟩ | ⟨id, items, hn, hmem, hlt⟩ | ⟨hn, hlt⟩
      · rw [hn] at hpositive
        simp at hpositive
      · rw [hn] at h
        simp only at h
        cases hrec : FindAllMaximalSets.record max_items_in_ram
            { s with set_id := id, current_set := items,
                     data := { data := { s.data.data with pos := s.data.data.pos + 1 },
                               trace := s.data.trace ++ [Event.Next 1] } } with
        | error e =>
          rw [hrec] at h
          cases h
        | ok s2 =>
          rw [hrec] at h
          simp only at h
          obtain ⟨hdata, hcase⟩ := record_counts _ _ _ hrec
          simp only [World.Tell, DataSourceIterator.Tell] at hdata hcase
          have hfile2 : s2.data.data.file = s.data.data.file := by rw [hdata]
          have hfaults2 : s2.data.data.seek_faults = s.data.data.seek_faults := by rw [hdata]
          have hpos2 : s2.data.data.pos = s.data.data.pos + 1 := by rw [hdata]
          have htr2 : successful_reads s2.data.trace = successful_reads s.data.trace + 1 := by
            rw [hdata]
            simp [successful_reads_append, successful_reads]
          have := ih s2 h (by rw [hfile2, hpos2]; omega)
            (by
              intro h0
              rcases hcase with ⟨hr, hc, _⟩ | ⟨hr, _, hr2⟩
              · rw [hc, hJ0 hr, hpos2]
              · rw [hr2] at h0
                exact absurd h0 hr)
            (by
              intro h0
              rcases hcase with ⟨hr, hc, hr2⟩ | ⟨hr, hc, hr2⟩
              · rcases hr2 with hr2 | hr2
                · exact absurd hr2 h0
                · rw [hc, hJ0 hr, hr2, hfile2]
                  omega
              · rw [hc, hr2, hfile2]
                exact hJ1 hr)
            (by
              rw [htr2]
              rcases hcase with ⟨_, hc, _⟩ | ⟨_, hc, _⟩ <;> omega)
          rw [hfile2, hfaults2] at this
          exact this
      · rw [hn] at hpositive
        simp at hpositive
    · simp only [hpositive, if_false] at h
      simp only [Except.ok.injEq, Prod.mk.injEq] at h
      obtain ⟨hres, hs'⟩ := h
      subst hs'
      refine ⟨?_, ?_, ?_, ?_⟩
      · rcases DataSourceIterator.Next_cases s.data.data s.set_id s.current_set with
          ⟨hn, _⟩ | ⟨id, items, hn, hmem, hlt⟩ | ⟨hn, hlt⟩ <;> rw [hn]
      · rcases DataSourceIterator.Next_cases s.data.data s.set_id s.current_set with
          ⟨hn, _⟩ | ⟨id, items, hn, hmem, hlt⟩ | ⟨hn, hlt⟩ <;> rw [hn]
      · intro h0
        rw [← hres] at h0
        rcases DataSourceIterator.Next_cases s.data.data s.set_id s.current_set with
          ⟨hn, hge⟩ | ⟨id, items, hn, hmem, hlt⟩ | ⟨hn, hlt⟩
        · simp only [hn, successful_reads_append, successful_reads]
          have hN : s.data.data.pos = s.data.data.file.length := by omega
          refine ⟨?_, hJ1, ?_⟩
          · intro hr
            rw [hJ0 hr, hN]
          · simp only [gt_iff_lt, lt_self_iff_false, if_false]
            omega
        · rw [hn] at h0
          simp at h0
        · rw [hn] at h0
          simp at h0
      · intro hne
        rw [← hres] at hne
        exact DataSourceIterator.Next_negative _ _ _ hne hpositive

/-- The input counter at the end of a run of the pass loop: when the run
returns `true` the counter is the length of the file and at most the number
of successful reads; a run returns `false` only on a corrupt entry or when a
`Seek` call is scripted to fail. -/
theorem passes_counts (max_item_id max_items_in_ram : Nat) (mode : OutputModeEnum)
    (scan_fuel fuel : Nat) (s : Locals) (flag : Bool) (self' : AllMaximalSetsCardinality)
    (data' : World)
    (h : FindAllMaximalSets.passes max_item_id max_items_in_ram mode scan_fuel fuel s =
      Except.ok (flag, self', data'))
    (hcount : s.self.input_sets_count_ = s.resume_offset)
    (hres : s.resume_offset ≤ s.data.data.file.length)
    (hR : s.self.input_sets_count_ ≤ successful_reads s.data.trace) :
    (flag = true → self'.input_sets_count_ = s.data.data.file.length ∧
      s.data.data.file.length ≤ successful_reads data'.trace) ∧
    (flag = false → Entry.corrupt ∈ s.data.data.file ∨ s.data.data.seek_faults ≠ []) := by
  induction fuel generalizing s with
  | zero =>
    unfold FindAllMaximalSets.passes at h
    cases h
  | succ fuel ih =>
    unfold FindAllMaximalSets.passes at h
    rcases Nat.lt_or_ge max_item_id (2 ^ 31) with hhint | hhint
    swap
    · rw [PrepareForDataScan_of_ge _ _ _ _ hhint] at h
      simp only at h
      cases h
    rw [PrepareForDataScan_of_lt _ _ _ _ hhint] at h
    split at h
    · cases h
    · rename_i self1 data1 hprep
      split at hprep
      · cases hprep
      · simp only [Except.ok.injEq, Prod.mk.injEq] at hprep
        obtain ⟨hseek, _, hdata1⟩ := hprep
        cases h
        refine ⟨(fun hc => by cases hc), fun _ => Or.inr ?_⟩
        simp only [World.Seek, DataSourceIterator.Seek] at hseek
        split at hseek
        · rename_i hmem
          intro hnil
          rw [hnil] at hmem
          cases hmem
        · cases hseek
    · rename_i self1 data1 hprep
      split at hprep
      · cases hprep
      · simp only [Except.ok.injEq, Prod.mk.injEq] at hprep
        obtain ⟨hseek, hself1, hdata1⟩ := hprep
        simp only [World.Seek, DataSourceIterator.Seek] at hseek hdata1
        split at hseek
        · cases hseek
        · rename_i hnofault
          simp only [hnofault, if_false] at hdata1
          subst hdata1 hself1
          split at h
          · cases h
          · rename_i result s2 hscan
            obtain ⟨hfile, hfaults, h0, hne⟩ := scan_counts _ _ _ _ _ hscan
              (by simp only; exact hres)
              (by intro _; simp only; exact hcount)
              (by intro hc; exact absurd rfl hc)
              (by
                simp only [successful_reads_append, successful_reads]
                omega)
            simp only at hfile hfaults h0 hne
            by_cases hr : result ≠ 0
            · simp only [hr, ne_eq, not_false_eq_true, if_true] at h
              cases h
              exact ⟨(fun hc => by cases hc), fun _ => Or.inl (hne hr)⟩
            · have hr0 : result = 0 := by omega
              simp only [hr0, ne_eq, not_true_eq_false, if_false] at h
              obtain ⟨hz, hnz, hreads⟩ := h0 hr0
              obtain ⟨hdc, hdr⟩ := DumpMaximalSets_counts s2.self s2.data s2.index_us mode
              obtain ⟨_, hdq⟩ := DumpMaximalSets_spec s2.self s2.data s2.index_us mode
              by_cases hres2 : s2.resume_offset = 0
              · simp only [hres2, not_true_eq_false, if_false] at h
                simp only [Except.ok.injEq, Prod.mk.injEq] at h
                obtain ⟨hflag, hself, hdata⟩ := h
                subst hflag hself hdata
                refine ⟨fun _ => ⟨?_, ?_⟩, (fun hc => by cases hc)⟩
                · rw [hdc]; exact hz hres2
                · rw [hdr, ← hz hres2]; exact hreads
              · simp only [hres2, not_false_eq_true, if_true] at h
                have := ih _ h (by simp only; rw [hdc]; exact (hnz hres2).1)
                  (by simp only; rw [hdq.1, hfile]; exact (hnz hres2).2)
                  (by simp only; rw [hdc, hdr]; exact hreads)
                simp only at this
                rw [hdq.1, hfile, hfaults] at this
                exact this

end AllMaximalSetsCardinality

/-! ## The input counter of the lexicographic engine -/

namespace AllMaximalSetsLexicographic

theorem DeleteTriviallySubsumedCandidates_loop_fixed (n : Nat)
    (self self' : AllMaximalSetsLexicographic) (other : SetProperties)
    (h : DeleteTriviallySubsumedCandidates.loop n self other = Except.ok self') :
    self'.fixed = self.fixed := by
  induction n generalizing self other with
  | zero =>
    unfold DeleteTriviallySubsumedCandidates.loop at h
    cases h
    rfl
  | succ n ih =>
    unfold DeleteTriviallySubsumedCandidates.loop at h
    simp only [bind, Except.bind] at h
    repeat' split at h
    all_goals first
      | cases h
      | (exact (ih _ _ h :))

theorem DeleteTriviallySubsumedCandidates_fixed (self self' : AllMaximalSetsLexicographic)
    (h : DeleteTriviallySubsumedCandidates self = Except.ok self') :
    self'.fixed = self.fixed := by
  unfold DeleteTriviallySubsumedCandidates at h
  simp only [bind, Except.bind] at h
  repeat' split at h
  all_goals first
    | cases h
    | exact DeleteTriviallySubsumedCandidates_loop_fixed _ _ _ _ h

theorem BuildIndex_loop_fixed (slots : CandidateList) (i : Nat) (s s' : BuildIndex.Locals)
    (h : BuildIndex.loop slots i s = Except.ok s') : s'.self.fixed = s.self.fixed := by
  induction slots generalizing i s with
  | nil =>
    unfold BuildIndex.loop at h
    cases h
    rfl
  | cons slot rest ih =>
    cases slot with
    | none =>
      unfold BuildIndex.loop at h
      have := ih _ _ h
      exact this
    | some candidate =>
      unfold BuildIndex.loop at h
      simp only [bind, Except.bind] at h
      repeat' split at h
      all_goals first
        | cases h
        | (exact (ih _ _ h :))

theorem BuildIndex_fixed (self self' : AllMaximalSetsLexicographic)
    (h : BuildIndex self = Except.ok self') : self'.fixed = self.fixed := by
  unfold BuildIndex at h
  simp only [bind, Except.bind] at h
  repeat' split at h
  all_goals first
    | (cases h; done)
    | (cases h
       have := BuildIndex_loop_fixed _ _ _ _ (by assumption)
       simpa [fixed] using this)

theorem DeleteSubsumedSets_delete_fixed (end_range_it depth : Nat) (slots : CandidateList)
    (it : Nat) (self : AllMaximalSetsLexicographic) (r : AllMaximalSetsLexicographic × Nat)
    (h : DeleteSubsumedSets.delete end_range_it depth slots it self = Except.ok r) :
    r.1.fixed = self.fixed := by
  induction slots generalizing it self with
  | nil =>
    unfold DeleteSubsumedSets.delete at h
    simp only at h
    repeat' split at h
    all_goals first
      | (cases h; rfl)
      | cases h
  | cons slot rest ih =>
    unfold DeleteSubsumedSets.delete at h
    cases slot with
    | none =>
      simp only at h
      repeat' split at h
      all_goals first
        | (cases h; rfl)
        | cases h
        | (exact (ih _ _ h :))
    | some candidate =>
      simp only at h
      repeat' split at h
      all_goals first
        | (cases h; rfl)
        | cases h
        | (exact (ih _ _ h :))

theorem DeleteSubsumedSets_fixed (self : AllMaximalSetsLexicographic) (b e depth : Nat)
    (r : AllMaximalSetsLexicographic × Nat)
    (h : DeleteSubsumedSets self b e depth = Except.ok r) : r.1.fixed = self.fixed := by
  unfold DeleteSubsumedSets at h
  simp only [bind, Except.bind] at h
  repeat' split at h
  all_goals first
    | (cases h; rfl)
    | cases h
    | exact DeleteSubsumedSets_delete_fixed _ _ _ _ _ _ h

theorem GetNewBeginRangeIt_fixed (self : AllMaximalSetsLexicographic) (b e item depth : Nat)
    (r : AllMaximalSetsLexicographic × Nat)
    (h : GetNewBeginRangeIt self b e item depth = Except.ok r) : r.1.fixed = self.fixed := by
  unfold GetNewBeginRangeIt at h
  simp only [bind, Except.bind] at h
  repeat' split at h
  all_goals first
    | (cases h; rfl)
    | cases h

theorem GetNewEndRangeIt_fixed (self : AllMaximalSetsLexicographic) (b e item depth : Nat)
    (r : AllMaximalSetsLexicographic × Nat)
    (h : GetNewEndRangeIt self b e item depth = Except.ok r) : r.1.fixed = self.fixed := by
  unfold GetNewEndRangeIt at h
  simp only [bind, Except.bind] at h
  repeat' split at h
  all_goals first
    | (cases h; rfl)
    | cases h

end AllMaximalSetsLexicographic

theorem Except.bind_eq_ok {ε α β : Type} {x : Except ε α} {f : α → Except ε β} {b : β}
    (h : x >>= f = Except.ok b) : ∃ a, x = Except.ok a ∧ f a = Except.ok b := by
  cases x with
  | error e => cases h
  | ok a => exact ⟨a, rfl, h⟩

namespace AllMaximalSetsLexicographic

theorem DeleteSubsumedFromRange_loop_fixed (fuel : Nat) (self self' : AllMaximalSetsLexicographic)
    (b e : Nat) (it : List Nat) (depth : Nat)
    (h : DeleteSubsumedFromRange.loop fuel self b e it depth = Except.ok self') :
    self'.fixed = self.fixed := by
  induction fuel generalizing self self' b e it depth with
  | zero =>
    unfold DeleteSubsumedFromRange.loop at h
    cases h
  | succ fuel ih =>
    unfold DeleteSubsumedFromRange.loop at h
    replace h := Except.bind_eq_ok h
    obtain ⟨candidate, _, h⟩ := h
    replace h := Except.bind_eq_ok h
    obtain ⟨candidate_item, _, h⟩ := h
    split at h
    · cases h
    · simp only at h
      split at h
      · cases h
        rfl
      · split at h
        · cases h
        · replace h := Except.bind_eq_ok h
          obtain ⟨⟨self2, b2⟩, hstep, h⟩ := h
          have h2 : self2.fixed = self.fixed := by
            split at hstep
            · replace hstep := Except.bind_eq_ok hstep
              obtain ⟨⟨self1, new_end⟩, hend, hstep⟩ := hstep
              have h1 := GetNewEndRangeIt_fixed _ _ _ _ _ _ hend
              simp only at hstep h1
              split at hstep
              · cases hstep
              · replace hstep := Except.bind_eq_ok hstep
                obtain ⟨self3, hinner, hstep⟩ := hstep
                replace hstep := Except.bind_eq_ok hstep
                obtain ⟨it3, _, hstep⟩ := hstep
                cases hstep
                have h3 : self2.fixed = self1.fixed := by
                  split at hinner
                  · replace hinner := Except.bind_eq_ok hinner
                    obtain ⟨⟨self4, ib⟩, hdel, hinner⟩ := hinner
                    have h4 := DeleteSubsumedSets_fixed _ _ _ _ _ hdel
                    simp only at hinner h4
                    split at hinner
                    · cases hinner
                      exact h4
                    · exact (ih _ _ _ _ _ _ hinner).trans h4
                  · cases hinner
                    rfl
                exact h3.trans h1
            · exact GetNewBeginRangeIt_fixed _ _ _ _ _ _ hstep
          simp only at h
          split at h
          · exact (ih _ _ _ _ _ _ h).trans h2
          · cases h
            exact h2

theorem DeleteSubsumedFromRange_fixed (fuel : Nat) (self self' : AllMaximalSetsLexicographic)
    (b e : Nat) (it : List Nat) (depth : Nat)
    (h : DeleteSubsumedFromRange fuel self b e it depth = Except.ok self') :
    self'.fixed = self.fixed := by
  unfold DeleteSubsumedFromRange at h
  split at h
  · cases h
  · replace h := Except.bind_eq_ok h
    obtain ⟨⟨self1, b1⟩, hdel, h⟩ := h
    have h1 := DeleteSubsumedSets_fixed _ _ _ _ _ hdel
    simp only at h h1
    split at h
    · cases h
      exact h1
    · exact (DeleteSubsumedFromRange_loop_fixed _ _ _ _ _ _ _ h).trans h1

theorem DeleteSubsumedCandidatesAt_fixed (self self' : AllMaximalSetsLexicographic) (i : Nat)
    (h : DeleteSubsumedCandidatesAt self i = Except.ok self') : self'.fixed = self.fixed := by
  unfold DeleteSubsumedCandidatesAt at h
  replace h := Except.bind_eq_ok h
  obtain ⟨slot, _, h⟩ := h
  split at h
  · cases h
  · simp only at h
    split at h
    · cases h
      rfl
    · have := DeleteSubsumedFromRange_fixed _ _ _ _ _ _ _ h
      exact this

theorem DeleteSubsumedCandidates_fixed (self self' : AllMaximalSetsLexicographic)
    (itemset : ItemSet) (h : DeleteSubsumedCandidates self itemset = Except.ok self') :
    self'.fixed = self.fixed := by
  unfold DeleteSubsumedCandidates at h
  split at h
  · cases h
    rfl
  · simp only at h
    have := DeleteSubsumedFromRange_fixed _ _ _ _ _ _ _ h
    exact this

theorem check_chunk_fixed (todo i : Nat) (self self' : AllMaximalSetsLexicographic)
    (h : FindAllMaximalSets.check_chunk todo i self = Except.ok self') :
    self'.fixed = self.fixed := by
  induction todo generalizing i self with
  | zero =>
    unfold FindAllMaximalSets.check_chunk at h
    cases h
    rfl
  | succ todo ih =>
    unfold FindAllMaximalSets.check_chunk at h
    replace h := Except.bind_eq_ok h
    obtain ⟨slot, _, h⟩ := h
    replace h := Except.bind_eq_ok h
    obtain ⟨self1, hstep, h⟩ := h
    have h1 : self1.fixed = self.fixed := by
      split at hstep
      · exact DeleteSubsumedCandidatesAt_fixed _ _ _ hstep
      · cases hstep
        rfl
    exact (ih _ _ h).trans h1

theorem DumpMaximalSets_loop_input_count (l : CandidateList)
    (st : AllMaximalSetsLexicographic × World) :
    (DumpMaximalSets.loop l st).1.input_sets_count_ = st.1.input_sets_count_ := by
  induction l generalizing st with
  | nil => rfl
  | cons x l ih =>
    cases x with
    | none =>
      unfold DumpMaximalSets.loop
      exact ih st
    | some m =>
      unfold DumpMaximalSets.loop
      rw [ih]
      rfl

theorem DumpMaximalSets_input_count (self : AllMaximalSetsLexicographic) (data : World) :
    (DumpMaximalSets self data).1.input_sets_count_ = self.input_sets_count_ := by
  unfold DumpMaximalSets
  exact DumpMaximalSets_loop_input_count self.candidates_ (self, data)

theorem DumpMaximalSets_loop_data (l : CandidateList)
    (st : AllMaximalSetsLexicographic × World) :
    (DumpMaximalSets.loop l st).2.data = st.2.data := by
  induction l generalizing st with
  | nil => rfl
  | cons x l ih =>
    cases x with
    | none =>
      unfold DumpMaximalSets.loop
      exact ih st
    | some m =>
      unfold DumpMaximalSets.loop
      rw [ih]
      exact (World.print_quietly _ _ _).1

end AllMaximalSetsLexicographic

namespace AllMaximalSetsLexicographic

theorem fixed_input_count {a b : AllMaximalSetsLexicographic} (h : a.fixed = b.fixed) :
    a.input_sets_count_ = b.input_sets_count_ :=
  congrArg (fun t => t.2.1) h

/-- The input counter along the reading loop of `ReadNextChunk`: it follows the
read position; at the return it is the resume offset when the budget stopped
the load, and the length of the file otherwise. -/
theorem ReadNextChunk_loop_counts (fuel : Nat) (self : AllMaximalSetsLexicographic)
    (data : World) (set_id : Nat) (current_set : ItemSet)
    (r : Bool × AllMaximalSetsLexicographic × World × Nat)
    (h : ReadNextChunk.loop fuel self data set_id current_set = Except.ok r)
    (hc : self.input_sets_count_ = data.data.pos)
    (hpos : data.data.pos ≤ data.data.file.length) :
    r.2.2.1.data.file = data.data.file ∧
    (r.2.2.2 = 0 → r.2.1.input_sets_count_ = data.data.file.length) ∧
    (r.2.2.2 ≠ 0 →
      r.2.1.input_sets_count_ = r.2.2.2 ∧ r.2.2.2 ≤ data.data.file.length) := by
  induction fuel generalizing self data set_id current_set with
  | zero =>
    unfold ReadNextChunk.loop at h
    cases h
  | succ fuel ih =>
    unfold ReadNextChunk.loop at h
    simp only [World.Next] at h
    rcases DataSourceIterator.Next_cases data.data set_id current_set with
      ⟨hn, hge⟩ | ⟨id, items, hn, hmem, hlt⟩ | ⟨hn, hlt⟩
    · simp only [hn] at h
      simp at h
      subst h
      refine ⟨rfl, fun _ => ?_, fun hne => absurd rfl hne⟩
      simp only
      omega
    · simp only [hn] at h
      simp only [ne_eq, one_ne_zero, not_false_eq_true, decide_True, Bool.toNat_true,
        gt_iff_lt, Nat.lt_one_iff, Nat.pos_of_ne_zero, if_true, zero_lt_one] at h
      split at h
      · cases h
        simp only [World.Tell, DataSourceIterator.Tell]
        refine ⟨trivial, fun h0 => ?_, fun _ => ⟨?_, ?_⟩⟩
        · omega
        · omega
        · omega
      · have := ih _ _ _ _ h (by simp only; omega) (by simp only; omega)
        simpa using this
    · simp only [hn] at h
      simp only [ne_eq, Int.reduceNeg, Int.neg_eq_zero, one_ne_zero, not_false_eq_true,
        decide_True, Bool.toNat_true, gt_iff_lt, zero_lt_one, if_true] at h
      split at h
      · cases h
        simp only [World.Tell, DataSourceIterator.Tell]
        refine ⟨trivial, fun h0 => ?_, fun _ => ⟨?_, ?_⟩⟩
        · omega
        · omega
        · omega
      · have := ih _ _ _ _ h (by simp only; omega) (by simp only; omega)
        simpa using this

theorem replay_counts (start_offset fuel : Nat) (s s' : Replay)
    (h : FindAllMaximalSets.replay start_offset fuel s = Except.ok s') :
    s'.self.input_sets_count_ = s.self.input_sets_count_ ∧
      s'.data.data.file = s.data.data.file := by
  induction fuel generalizing s with
  | zero =>
    unfold FindAllMaximalSets.replay at h
    cases h
  | succ fuel ih =>
    unfold FindAllMaximalSets.replay at h
    split at h
    · simp only [World.Next] at h
      have hfile : (s.data.data.Next s.set_id s.current_set).2.2.2.file = s.data.data.file := by
        rcases DataSourceIterator.Next_cases s.data.data s.set_id s.current_set with
          ⟨hn, _⟩ | ⟨id, items, hn, _, _⟩ | ⟨hn, _⟩ <;> rw [hn]
      split at h
      · split at h
        · cases h
        · rename_i self2 hdel
          have h2 := fixed_input_count (DeleteSubsumedCandidates_fixed _ _ _ hdel)
          obtain ⟨h3, h4⟩ := ih _ h
          simp only at h2 h3 h4
          exact ⟨h3.trans h2, h4.trans hfile⟩
      · cases h
        exact ⟨rfl, hfile⟩
    · cases h
      exact ⟨rfl, rfl⟩

/-- The input counter at the end of a run of the chunk loop that returns
`true`: the length of the file. -/
theorem chunks_counts (io_fuel fuel : Nat) (s : Locals) (self' : AllMaximalSetsLexicographic)
    (data' : World)
    (h : FindAllMaximalSets.chunks io_fuel fuel s = Except.ok (true, self', data'))
    (hcount : s.self.input_sets_count_ = s.resume_offset)
    (hres : s.resume_offset ≤ s.data.data.file.length) :
    self'.input_sets_count_ = s.data.data.file.length := by
  induction fuel generalizing s with
  | zero =>
    unfold FindAllMaximalSets.chunks at h
    cases h
  | succ fuel ih =>
    unfold FindAllMaximalSets.chunks at h
    simp only [PrepareForDataScan] at h
    split at h
    · cases h
    · rename_i data1 hseek
      have hd1 : data1.data.file = s.data.data.file ∧ data1.data.pos = s.resume_offset := by
        simp only [World.Seek, DataSourceIterator.Seek] at hseek
        split at hseek
        · cases hseek
        · cases hseek
          exact ⟨rfl, rfl⟩
      split at h
      · cases h
      · cases h
      · rename_i self2 data2 resume2 hread
        unfold ReadNextChunk at hread
        obtain ⟨hfile2, hz, hnz⟩ := ReadNextChunk_loop_counts _ _ _ _ _ _ hread
          (by simp only; rw [hd1.2]; exact hcount) (by rw [hd1.1, hd1.2]; exact hres)
        simp only at hfile2 hz hnz
        rw [hd1.1] at hfile2 hz hnz
        split at h
        · cases h
        · rename_i self3 hmem
          have hc3 : self3.input_sets_count_ = self2.input_sets_count_ := by
            replace hmem := Except.bind_eq_ok hmem
            obtain ⟨self4, hm1, hmem⟩ := hmem
            replace hm1 := Except.bind_eq_ok hm1
            obtain ⟨self5, hm2, hm1⟩ := hm1
            have e1 := fixed_input_count (DeleteTriviallySubsumedCandidates_fixed _ _ hm2)
            have e2 := fixed_input_count (BuildIndex_fixed _ _ hm1)
            have e3 := fixed_input_count (check_chunk_fixed _ _ _ _ hmem)
            rw [e3, e2, e1]
          split at h
          · cases h
          · cases h
          · rename_i r hreplayed
            have hr : r.self.input_sets_count_ = self3.input_sets_count_ ∧
                r.data.data.file = s.data.data.file := by
              split at hreplayed
              · split at hreplayed
                · cases hreplayed
                · rename_i data4 hseek4
                  have hd4 : data4.data.file = data2.data.file := by
                    simp only [World.Seek, DataSourceIterator.Seek] at hseek4
                    split at hseek4
                    · cases hseek4
                    · cases hseek4
                      rfl
                  split at hreplayed
                  · cases hreplayed
                  · rename_i r4 hrep
                    obtain ⟨h5, h6⟩ := replay_counts _ _ _ _ hrep
                    simp only [Except.ok.injEq, Prod.mk.injEq] at hreplayed
                    obtain ⟨_, hreq⟩ := hreplayed
                    subst hreq
                    simp only at h5 h6
                    exact ⟨h5, by rw [h6, hd4, hfile2]⟩
              · simp only [Except.ok.injEq, Prod.mk.injEq] at hreplayed
                obtain ⟨_, hreq⟩ := hreplayed
                subst hreq
                exact ⟨rfl, hfile2⟩
            have hdump := DumpMaximalSets_input_count r.self r.data
            split at h
            · rename_i hne
              have := ih _ h (by simp only; rw [hdump, hr.1, hc3]; exact (hnz hne).1)
                (by
                  simp only
                  unfold DumpMaximalSets
                  simp only
                  rw [DumpMaximalSets_loop_data]
                  simp only
                  rw [hr.2]
                  exact (hnz hne).2)
              rw [this]
              simp only
              unfold DumpMaximalSets
              simp only
              rw [DumpMaximalSets_loop_data]
              simp only
              rw [hr.2]
            · rename_i hne
              simp only [Except.ok.injEq, Prod.mk.injEq, true_and] at h
              obtain ⟨hself, _⟩ := h
              subst hself
              rw [hdump, hr.1, hc3]
              exact hz (by omega)

end AllMaximalSetsLexicographic

/-! ## The input counters after a successful run -/

theorem DataSourceIterator.Get_file_length (records : List Record) :
    (DataSourceIterator.Get records).file.length = records.length := by
  simp [DataSourceIterator.Get]

theorem Except.exists_of_eval {A W β : Type} {g : Bool × A × W → β} {v : β}
    {x : Except Fault (Bool × A × W)} {P : A → Prop}
    (heval : x.map (fun r => (r.1, g r)) = Except.ok (true, v))
    (hall : ∀ a w, x = Except.ok (true, a, w) → P a) :
    ∃ a w, x = Except.ok (true, a, w) ∧ P a := by
  cases x with
  | error e => cases heval
  | ok r =>
    obtain ⟨flag, a, w⟩ := r
    simp only [Except.map, Except.ok.injEq, Prod.mk.injEq] at heval
    have hx : (Except.ok (flag, a, w) : Except Fault (Bool × A × W)) = Except.ok (true, a, w) := by
      rw [heval.1]
    exact ⟨a, w, hx, hall a w hx⟩

/-- The cardinality engine's counter after a run that returns `true`, for any
engine to start with and any record source. -/
theorem AllMaximalSetsCardinality.cardinality_input_count_of_success (self : AllMaximalSetsCardinality)
    (data : World) (max_item_id max_items_in_ram : Nat) (output_mode : OutputModeEnum)
    (fuel : Nat) (self' : AllMaximalSetsCardinality) (data' : World)
    (h : AllMaximalSetsCardinality.FindAllMaximalSets self data max_item_id max_items_in_ram
      output_mode fuel = Except.ok (true, self', data')) :
    self'.input_sets_count_ = data.data.file.length ∧
      data.data.file.length ≤ successful_reads data'.trace := by
  unfold AllMaximalSetsCardinality.FindAllMaximalSets at h
  exact (AllMaximalSetsCardinality.passes_counts _ _ _ _ _ _ _ _ _ h rfl (Nat.zero_le _)
    (Nat.zero_le _)).1 rfl

/-- The lexicographic engine's counter after a run that returns `true`, for any
engine to start with and any record source. -/
theorem AllMaximalSetsLexicographic.lexicographic_input_count_of_success
    (self : AllMaximalSetsLexicographic) (data : World) (max_item_id fuel : Nat)
    (self' : AllMaximalSetsLexicographic) (data' : World)
    (h : AllMaximalSetsLexicographic.FindAllMaximalSets self data max_item_id fuel =
      Except.ok (true, self', data')) :
    self'.input_sets_count_ = data.data.file.length := by
  unfold AllMaximalSetsLexicographic.FindAllMaximalSets at h
  exact AllMaximalSetsLexicographic.chunks_counts _ _ _ _ _ h rfl (Nat.zero_le _)

/-- C13: after a run of either engine that returns `true`, `InputSetsCount()`
is the number of records of the input, whatever number of passes, chunks or
replays the budget forced. -/
theorem C13_input_sets_count (records : List Record)
    (cardinality : AllMaximalSetsCardinality) (lexicographic : AllMaximalSetsLexicographic)
    (max_item_id max_items_in_ram : Nat) (output_mode : OutputModeEnum) (fuel : Nat) :
    (∀ self' data',
      AllMaximalSetsCardinality.FindAllMaximalSets cardinality
          (World.start (DataSourceIterator.Get records)) max_item_id max_items_in_ram
          output_mode fuel = Except.ok (true, self', data') →
        self'.input_sets_count_ = records.length) ∧
    (∀ self' data',
      AllMaximalSetsLexicographic.FindAllMaximalSets lexicographic
          (World.start (DataSourceIterator.Get records)) max_item_id fuel =
          Except.ok (true, self', data') →
        self'.input_sets_count_ = records.length) := by
  constructor
  · intro self' data' h
    have := (AllMaximalSetsCardinality.cardinality_input_count_of_success _ _ _ _ _ _ _ _ h).1
    rw [this]
    exact DataSourceIterator.Get_file_length records
  · intro self' data' h
    have := AllMaximalSetsLexicographic.lexicographic_input_count_of_success _ _ _ _ _ _ h
    rw [this]
    exact DataSourceIterator.Get_file_length records

theorem cardinality_five_records_run :
    (AllMaximalSetsCardinality.FindAllMaximalSets AllMaximalSetsCardinality.new
        (World.start (DataSourceIterator.Get
          [(1, [1]), (2, [2]), (3, [3]), (4, [4]), (5, [1, 3])])) 5 2 OutputModeEnum.ID 7).map
      (fun r => (r.1, r.2.1.input_sets_count_)) = Except.ok (true, 5) := by
  decide!

theorem lexicographic_three_records_run :
    (AllMaximalSetsLexicographic.FindAllMaximalSets
        (AllMaximalSetsLexicographic.new.SetMaxItemsInRam 2)
        (World.start (DataSourceIterator.Get [(1, [1, 2]), (2, [1, 2, 3]), (3, [4])])) 0 5).map
      (fun r => (r.1, emitted_ids r.2.2.trace, r.2.1.input_sets_count_)) =
      Except.ok (true, [1, 2, 3], 3) := by
  decide!

/-- An instance of C13: five records and a budget of two items for the
cardinality engine (four passes), three records and a budget of two items for
the lexicographic engine (three chunks). -/
theorem C13_input_sets_count_witness :
    (∃ self' data',
      AllMaximalSetsCardinality.FindAllMaximalSets AllMaximalSetsCardinality.new
          (World.start (DataSourceIterator.Get
            [(1, [1]), (2, [2]), (3, [3]), (4, [4]), (5, [1, 3])])) 5 2
          OutputModeEnum.ID 7 = Except.ok (true, self', data') ∧
        self'.input_sets_count_ =
          [((1 : Nat), ([1] : ItemSet)), (2, [2]), (3, [3]), (4, [4]), (5, [1, 3])].length) ∧
    (∃ self' data',
      AllMaximalSetsLexicographic.FindAllMaximalSets
          (AllMaximalSetsLexicographic.new.SetMaxItemsInRam 2)
          (World.start (DataSourceIterator.Get [(1, [1, 2]), (2, [1, 2, 3]), (3, [4])])) 0 5 =
          Except.ok (true, self', data') ∧
        self'.input_sets_count_ =
          [((1 : Nat), ([1, 2] : ItemSet)), (2, [1, 2, 3]), (3, [4])].length) :=
  ⟨Except.exists_of_eval cardinality_five_records_run
      (C13_input_sets_count [(1, [1]), (2, [2]), (3, [3]), (4, [4]), (5, [1, 3])]
        AllMaximalSetsCardinality.new AllMaximalSetsLexicographic.new 5 2 OutputModeEnum.ID
        7).1,
   Except.exists_of_eval lexicographic_three_records_run
      (C13_input_sets_count [(1, [1, 2]), (2, [1, 2, 3]), (3, [4])]
        AllMaximalSetsCardinality.new (AllMaximalSetsLexicographic.new.SetMaxItemsInRam 2) 0 2
        OutputModeEnum.ID 5).2⟩

theorem getD_replicate_nil (n i : Nat) :
    (List.replicate n ([] : CandidateList)).getD i [] = [] := by
  induction n generalizing i with
  | zero => rfl
  | succ n ih =>
    cases i with
    | zero => rfl
    | succ i => simp [List.replicate_succ, ih i]

theorem getD_of_length_le (c : List CandidateList) (i : Nat) (h : c.length ≤ i) :
    c.getD i [] = [] := by
  induction c generalizing i with
  | nil => rfl
  | cons x c ih =>
    cases i with
    | zero => simp at h
    | succ i =>
      simp only [List.length_cons, Nat.add_le_add_iff_right] at h
      simpa using ih i h

theorem getD_set (c : List CandidateList) (x i : Nat) (v : CandidateList) (hx : x < c.length) :
    (c.set x v).getD i [] = if i = x then v else c.getD i [] := by
  induction c generalizing x i with
  | nil => simp at hx
  | cons y c ih =>
    cases x with
    | zero =>
      cases i with
      | zero => simp
      | succ i => simp
    | succ x =>
      cases i with
      | zero => simp
      | succ i =>
        simp only [List.length_cons, Nat.add_lt_add_iff_right] at hx
        simpa using ih x i hx

theorem getD_resize (c : List CandidateList) (n i : Nat) (h : c.length ≤ n) :
    (resize c n []).getD i [] = c.getD i [] := by
  unfold resize
  rw [List.take_of_length_le h]
  induction c generalizing i n with
  | nil => simp [getD_replicate_nil n i]
  | cons x c ih =>
    cases i with
    | zero => simp
    | succ i =>
      cases n with
      | zero => simp at h
      | succ n =>
        simp only [List.length_cons, Nat.add_le_add_iff_right] at h
        have := ih n i h
        simpa using this

theorem length_resize {α : Type} (c : List α) (n : Nat) (d : α) : (resize c n d).length = n := by
  unfold resize
  simp only [List.length_append, List.length_take, List.length_replicate]
  omega

theorem same_index_refl (c : List CandidateList) : same_index c c := fun _ => rfl

theorem same_index_symm {c1 c2 : List CandidateList} (h : same_index c1 c2) :
    same_index c2 c1 := fun i => (h i).symm

theorem same_index_flatten {c1 c2 : List CandidateList} (h : same_index c1 c2) :
    c1.flatten = c2.flatten := by
  induction c1 generalizing c2 with
  | nil =>
    induction c2 with
    | nil => rfl
    | cons y u ih =>
      have h0 := h 0
      simp only [List.getD_nil, List.getD_cons_zero] at h0
      subst h0
      have : same_index [] u := by
        intro i
        have := h (i + 1)
        simpa using this
      simpa using ih this
  | cons x t ih =>
    cases c2 with
    | nil =>
      have h0 := h 0
      simp only [List.getD_nil, List.getD_cons_zero] at h0
      subst h0
      have : same_index t [] := by
        intro i
        have := h (i + 1)
        simpa using this
      simpa using ih this
    | cons y u =>
      have h0 := h 0
      simp only [List.getD_cons_zero] at h0
      subst h0
      have : same_index t u := by
        intro i
        have := h (i + 1)
        simpa using this
      simp [ih this]

namespace AllMaximalSetsCardinality

theorem hint_related_refl (a : AllMaximalSetsCardinality) : a.hint_related a :=
  ⟨rfl, rfl, rfl, same_index_refl _⟩

theorem hint_related_symm {a b : AllMaximalSetsCardinality} (h : a.hint_related b) :
    b.hint_related a :=
  ⟨h.1.symm, h.2.1.symm, h.2.2.1.symm, same_index_symm h.2.2.2⟩

/-- States with the same counters and no candidates at all are equal. -/
theorem eq_of_hint_related {a b : AllMaximalSetsCardinality} (h : a.hint_related b)
    (ha : a.candidates_ = []) (hb : b.candidates_ = []) : a = b := by
  cases a
  cases b
  obtain ⟨h1, h2, h3, _⟩ := h
  simp only at h1 h2 h3 ha hb
  subst h1 h2 h3 ha hb
  rfl

/-- The index that `IndexSets` grows for item `x`, seen item by item. -/
theorem getD_grown (c : List CandidateList) (x i : Nat) :
    (if x ≥ c.length then resize c (x + 1) [] else c).getD i [] = c.getD i [] := by
  split
  · exact getD_resize c (x + 1) i (by omega)
  · rfl

theorem length_grown (c : List CandidateList) (x : Nat) :
    x < (if x ≥ c.length then resize c (x + 1) [] else c).length := by
  split
  · rw [length_resize]; omega
  · omega

theorem IndexSets_hint (index_us : List SetProperties) (a b : AllMaximalSetsCardinality)
    (h : a.hint_related b) :
    (∃ e, IndexSets a index_us = Except.error e ∧ IndexSets b index_us = Except.error e) ∨
    (∃ a' b', IndexSets a index_us = Except.ok a' ∧ IndexSets b index_us = Except.ok b' ∧
      a'.hint_related b') := by
  induction index_us generalizing a b with
  | nil => exact Or.inr ⟨a, b, rfl, rfl, h⟩
  | cons s rest ih =>
    unfold IndexSets
    cases hh : s.item.head? with
    | none => exact Or.inl ⟨_, rfl, rfl⟩
    | some x =>
      simp only
      apply ih
      obtain ⟨h1, h2, h3, h4⟩ := h
      refine ⟨h1, h2, h3, ?_⟩
      intro i
      simp only
      rw [getD_set _ _ _ _ (length_grown _ _), getD_set _ _ _ _ (length_grown _ _),
        getD_grown, getD_grown, getD_grown, getD_grown, h4 i, h4 x]

theorem walk_nil (current_set : ItemSet) (i : Nat) (current_begin : List Nat) :
    DeleteSubsumedCandidates.walk current_set i current_begin (([] : CandidateList).length + 1)
      [] (-1) 0 = ([], 0) := by
  simp [DeleteSubsumedCandidates.walk, NextCandidate, NextCandidate.advance]

theorem same_index_set_nil {c1 c2 : List CandidateList} (h : same_index c1 c2) (x : Nat)
    (hx : c1.length ≤ x) : same_index c1 (c2.set x []) := by
  intro i
  by_cases hx2 : x < c2.length
  · rw [getD_set _ _ _ _ hx2]
    split
    · subst_vars
      exact getD_of_length_le _ _ hx
    · exact h i
  · rw [List.set_eq_of_length_le (by omega)]
    exact h i

/-- Once one index has run out, the other one only meets empty candidate lists. -/
theorem DeleteSubsumedCandidates_loop_stopped (current_set : ItemSet) (rest : List Nat) (i : Nat)
    (a b : AllMaximalSetsCardinality) (h : a.hint_related b)
    (hge : ∀ y ∈ rest, a.candidates_.length ≤ y) :
    a.hint_related (DeleteSubsumedCandidates.loop current_set rest i b) := by
  induction rest generalizing i b with
  | nil => exact h
  | cons x rest ih =>
    unfold DeleteSubsumedCandidates.loop
    split
    · exact h
    · have hx : a.candidates_.length ≤ x := hge x (List.mem_cons_self _ _)
      have hb : b.candidates_.getD x [] = [] := by
        rw [← h.2.2.2 x]
        exact getD_of_length_le _ _ hx
      simp only [hb, walk_nil, Nat.add_zero]
      apply ih
      · exact ⟨h.1, h.2.1, h.2.2.1, same_index_set_nil h.2.2.2 x hx⟩
      · exact fun y hy => hge y (List.mem_cons_of_mem _ hy)

theorem DeleteSubsumedCandidates_loop_hint (current_set : ItemSet) (rest : List Nat) (i : Nat)
    (a b : AllMaximalSetsCardinality) (h : a.hint_related b)
    (hsorted : rest.Pairwise (· < ·)) :
    (DeleteSubsumedCandidates.loop current_set rest i a).hint_related
      (DeleteSubsumedCandidates.loop current_set rest i b) := by
  induction rest generalizing i a b with
  | nil => exact h
  | cons x rest ih =>
    rw [List.pairwise_cons] at hsorted
    by_cases ha : a.candidates_.length ≤ x
    · have e : DeleteSubsumedCandidates.loop current_set (x :: rest) i a = a := by
        unfold DeleteSubsumedCandidates.loop
        rw [if_pos ha]
      rw [e]
      exact DeleteSubsumedCandidates_loop_stopped current_set (x :: rest) i a b h (by
        intro y hy
        rcases List.mem_cons.1 hy with hy | hy
        · omega
        · have := hsorted.1 y hy
          omega)
    · by_cases hb : b.candidates_.length ≤ x
      · have e : DeleteSubsumedCandidates.loop current_set (x :: rest) i b = b := by
          unfold DeleteSubsumedCandidates.loop
          rw [if_pos hb]
        rw [e]
        apply hint_related_symm
        exact DeleteSubsumedCandidates_loop_stopped current_set (x :: rest) i b a
          (hint_related_symm h) (by
            intro y hy
            rcases List.mem_cons.1 hy with hy | hy
            · omega
            · have := hsorted.1 y hy
              omega)
      · unfold DeleteSubsumedCandidates.loop
        rw [if_neg ha, if_neg hb]
        simp only
        apply ih _ _ _ _ hsorted.2
        obtain ⟨h1, h2, h3, h4⟩ := h
        refine ⟨h1, h2, ?_, ?_⟩
        · simp only [h3, h4 x]
        · intro j
          simp only
          rw [getD_set _ _ _ _ (by omega), getD_set _ _ _ _ (by omega), h4 x, h4 j]

theorem DeleteSubsumedCandidates_hint (current_set : ItemSet) (a b : AllMaximalSetsCardinality)
    (h : a.hint_related b) (hsorted : current_set.Pairwise (· < ·)) :
    (DeleteSubsumedCandidates a current_set).hint_related
      (DeleteSubsumedCandidates b current_set) :=
  DeleteSubsumedCandidates_loop_hint current_set current_set 0 a b h hsorted

end AllMaximalSetsCardinality

namespace AllMaximalSetsCardinality

theorem unindexed_hint (mode : OutputModeEnum) (l : List SetProperties)
    (st1 st2 : AllMaximalSetsCardinality × World) (h : st1.1.hint_related st2.1)
    (hw : st1.2 = st2.2) :
    (DumpMaximalSets.unindexed mode l st1).1.hint_related
        (DumpMaximalSets.unindexed mode l st2).1 ∧
      (DumpMaximalSets.unindexed mode l st1).2 = (DumpMaximalSets.unindexed mode l st2).2 := by
  induction l generalizing st1 st2 with
  | nil => exact ⟨h, hw⟩
  | cons m rest ih =>
    unfold DumpMaximalSets.unindexed
    apply ih
    · exact ⟨by simp only [FoundMaximalSet, h.1], h.2.1, h.2.2.1, h.2.2.2⟩
    · simp only [FoundMaximalSet, hw]

theorem candidate_set_hint (mode : OutputModeEnum) (l : CandidateList)
    (st1 st2 : AllMaximalSetsCardinality × World) (h : st1.1.hint_related st2.1)
    (hw : st1.2 = st2.2) :
    (DumpMaximalSets.candidate_set mode l st1).1.hint_related
        (DumpMaximalSets.candidate_set mode l st2).1 ∧
      (DumpMaximalSets.candidate_set mode l st1).2 =
        (DumpMaximalSets.candidate_set mode l st2).2 := by
  induction l generalizing st1 st2 with
  | nil => exact ⟨h, hw⟩
  | cons slot rest ih =>
    cases slot with
    | none =>
      unfold DumpMaximalSets.candidate_set
      exact ih _ _ h hw
    | some m =>
      unfold DumpMaximalSets.candidate_set
      apply ih
      · exact ⟨by simp only [FoundMaximalSet, h.1], h.2.1, h.2.2.1, h.2.2.2⟩
      · simp only [FoundMaximalSet, hw]

theorem candidate_set_append (mode : OutputModeEnum) (l1 l2 : CandidateList)
    (st : AllMaximalSetsCardinality × World) :
    DumpMaximalSets.candidate_set mode (l1 ++ l2) st =
      DumpMaximalSets.candidate_set mode l2 (DumpMaximalSets.candidate_set mode l1 st) := by
  induction l1 generalizing st with
  | nil => rfl
  | cons slot rest ih =>
    cases slot with
    | none =>
      simp only [List.cons_append, DumpMaximalSets.candidate_set]
      exact ih st
    | some m =>
      simp only [List.cons_append, DumpMaximalSets.candidate_set]
      exact ih _

/-- The walk over the candidate index is the walk over all its lists put one
after the other. -/
theorem indexed_eq_flatten (mode : OutputModeEnum) (c : List CandidateList)
    (st : AllMaximalSetsCardinality × World) :
    DumpMaximalSets.indexed mode c st = DumpMaximalSets.candidate_set mode c.flatten st := by
  induction c generalizing st with
  | nil => rfl
  | cons l rest ih =>
    rw [List.flatten_cons, candidate_set_append]
    unfold DumpMaximalSets.indexed
    exact ih _

theorem DumpMaximalSets_hint (a b : AllMaximalSetsCardinality) (data : World)
    (unindexed_sets : List SetProperties) (mode : OutputModeEnum) (h : a.hint_related b) :
    DumpMaximalSets a data unindexed_sets mode = DumpMaximalSets b data unindexed_sets mode := by
  unfold DumpMaximalSets
  simp only
  have h1 := unindexed_hint mode unindexed_sets (a, data) (b, data) h rfl
  rw [indexed_eq_flatten, indexed_eq_flatten, same_index_flatten h1.1.2.2.2]
  have h2 := candidate_set_hint mode
    (DumpMaximalSets.unindexed mode unindexed_sets (b, data)).1.candidates_.flatten _ _ h1.1 h1.2
  refine Prod.ext ?_ h2.2
  apply eq_of_hint_related
  · exact ⟨h2.1.1, h2.1.2.1, h2.1.2.2.1, same_index_refl _⟩
  · rfl
  · rfl

theorem DumpMaximalSets_file (a : AllMaximalSetsCardinality) (data : World)
    (unindexed_sets : List SetProperties) (mode : OutputModeEnum) :
    (DumpMaximalSets a data unindexed_sets mode).2.data = data.data :=
  (DumpMaximalSets_spec a data unindexed_sets mode).2.1

end AllMaximalSetsCardinality

namespace AllMaximalSetsCardinality

theorem Locals.eq_of_others {s t : Locals} (h1 : s.self = t.self) (h2 : s.others = t.others) :
    s = t := by
  cases s
  cases t
  simp only [Locals.others, Prod.mk.injEq] at h2
  simp only at h1
  obtain ⟨e1, e2, e3, e4, e5, e6, e7⟩ := h2
  subst h1 e1 e2 e3 e4 e5 e6 e7
  rfl

theorem record_hint (max_items_in_ram : Nat) (s t : Locals) (h : s.hint_related t)
    (hsorted : s.current_set.Pairwise (· < ·)) :
    (∃ e, FindAllMaximalSets.record max_items_in_ram s = Except.error e ∧
        FindAllMaximalSets.record max_items_in_ram t = Except.error e) ∨
    (∃ s' t', FindAllMaximalSets.record max_items_in_ram s = Except.ok s' ∧
        FindAllMaximalSets.record max_items_in_ram t = Except.ok t' ∧
        s'.hint_related t' ∧ s'.data = s.data) := by
  obtain ⟨a, data, index_us, set_id, current_set, resume_offset, items_in_ram, size⟩ := s
  obtain ⟨b, data2, index_us2, set_id2, current_set2, resume_offset2, items_in_ram2, size2⟩ := t
  obtain ⟨hself, hothers⟩ := h
  simp only [Locals.others, Prod.mk.injEq] at hothers
  obtain ⟨e1, e2, e3, e4, e5, e6, e7⟩ := hothers
  subst e1 e2 e3 e4 e5 e6 e7
  simp only at hself hsorted
  have hd := DeleteSubsumedCandidates_hint current_set a b hself hsorted
  unfold FindAllMaximalSets.record
  simp only
  by_cases hsize : (current_set.length : Int) ≠ size
  · simp only [hsize, ne_eq, not_false_eq_true, if_true]
    rcases IndexSets_hint index_us _ _ hd with ⟨e, h1, h2⟩ | ⟨a', b', h1, h2, h3⟩
    · simp only [h1, h2]
      exact Or.inl ⟨e, rfl, rfl⟩
    · simp only [h1, h2]
      right
      by_cases hres : resume_offset = 0
      · simp only [hres, if_true]
        split
        · exact ⟨_, _, rfl, rfl, ⟨⟨h3.1, by simp only [h3.2.1], h3.2.2.1, h3.2.2.2⟩, rfl⟩, rfl⟩
        · exact ⟨_, _, rfl, rfl, ⟨⟨h3.1, by simp only [h3.2.1], h3.2.2.1, h3.2.2.2⟩, rfl⟩, rfl⟩
      · simp only [hres, if_false]
        exact ⟨_, _, rfl, rfl, ⟨h3, rfl⟩, rfl⟩
  · simp only [hsize, if_false]
    right
    by_cases hres : resume_offset = 0
    · simp only [hres, if_true]
      split
      · exact ⟨_, _, rfl, rfl, ⟨⟨hd.1, by simp only [hd.2.1], hd.2.2.1, hd.2.2.2⟩, rfl⟩, rfl⟩
      · exact ⟨_, _, rfl, rfl, ⟨⟨hd.1, by simp only [hd.2.1], hd.2.2.1, hd.2.2.2⟩, rfl⟩, rfl⟩
    · simp only [hres, if_false]
      exact ⟨_, _, rfl, rfl, ⟨hd, rfl⟩, rfl⟩

theorem scan_hint (max_items_in_ram : Nat) (fuel : Nat) (s t : Locals) (h : s.hint_related t)
    (hfile : s.data.data.items_increasing) :
    (∃ e, FindAllMaximalSets.scan max_items_in_ram fuel s = Except.error e ∧
        FindAllMaximalSets.scan max_items_in_ram fuel t = Except.error e) ∨
    (∃ result s' t', FindAllMaximalSets.scan max_items_in_ram fuel s = Except.ok (result, s') ∧
        FindAllMaximalSets.scan max_items_in_ram fuel t = Except.ok (result, t') ∧
        s'.hint_related t' ∧ s'.data.data.file = s.data.data.file) := by
  induction fuel generalizing s t with
  | zero => exact Or.inl ⟨_, rfl, rfl⟩
  | succ fuel ih =>
    obtain ⟨a, data, index_us, set_id, current_set, resume_offset, items_in_ram, size⟩ := s
    obtain ⟨b, data2, index_us2, set_id2, current_set2, resume_offset2, items_in_ram2, size2⟩ := t
    obtain ⟨hself, hothers⟩ := h
    simp only [Locals.others, Prod.mk.injEq] at hothers
    obtain ⟨e1, e2, e3, e4, e5, e6, e7⟩ := hothers
    subst e1 e2 e3 e4 e5 e6 e7
    simp only at hself hfile
    unfold FindAllMaximalSets.scan
    simp only [World.Next]
    rcases DataSourceIterator.Next_cases data.data set_id current_set with
      ⟨hn, _⟩ | ⟨id, items, hn, hmem, _⟩ | ⟨hn, _⟩
    · simp only [hn]
      right
      exact ⟨_, _, _, rfl, rfl, ⟨hself, rfl⟩, rfl⟩
    · simp only [hn]
      have hpos : ((1 : Int) > 0) = True := by simp
      simp only [hpos, if_true]
      rcases record_hint max_items_in_ram
        { self := a, data := { data := { data.data with pos := data.data.pos + 1 },
                               trace := data.trace ++ [Event.Next 1] },
          index_us := index_us, set_id := id, current_set := items,
          resume_offset := resume_offset, items_in_ram := items_in_ram,
          current_set_size := size }
        { self := b, data := { data := { data.data with pos := data.data.pos + 1 },
                               trace := data.trace ++ [Event.Next 1] },
          index_us := index_us, set_id := id, current_set := items,
          resume_offset := resume_offset, items_in_ram := items_in_ram,
          current_set_size := size }
        ⟨hself, rfl⟩ (hfile id items hmem) with ⟨e, h1, h2⟩ | ⟨s', t', h1, h2, h3, h4⟩
      · simp only [h1, h2]
        exact Or.inl ⟨e, rfl, rfl⟩
      · simp only [h1, h2]
        have hfile' : s'.data.data.items_increasing := by
          rw [h4]
          exact hfile
        rcases ih s' t' h3 hfile' with ⟨e, k1, k2⟩ | ⟨result, s'', t'', k1, k2, k3, k4⟩
        · exact Or.inl ⟨e, k1, k2⟩
        · refine Or.inr ⟨result, s'', t'', k1, k2, k3, ?_⟩
          rw [k4, h4]
    · simp only [hn]
      have hneg : ((-1 : Int) > 0) = False := by simp
      simp only [hneg, if_false]
      right
      exact ⟨_, _, _, rfl, rfl, ⟨hself, rfl⟩, rfl⟩

theorem passes_hint (m1 m2 max_items_in_ram : Nat) (mode : OutputModeEnum)
    (scan_fuel fuel : Nat) (s : Locals) (hfile : s.data.data.items_increasing)
    (hm1 : m1 < 2 ^ 31) (hm2 : m2 < 2 ^ 31) :
    (FindAllMaximalSets.passes m1 max_items_in_ram mode scan_fuel fuel s).map observables =
      (FindAllMaximalSets.passes m2 max_items_in_ram mode scan_fuel fuel s).map observables := by
  induction fuel generalizing s with
  | zero => rfl
  | succ fuel ih =>
    unfold FindAllMaximalSets.passes
    rw [PrepareForDataScan_of_lt _ _ _ _ hm1, PrepareForDataScan_of_lt _ _ _ _ hm2]
    by_cases hc : s.self.candidates_.length ≠ 0
    · simp only [hc, ne_eq, not_false_eq_true, if_true]
    · simp only [hc, if_false]
      have hnil : s.self.candidates_ = [] := by
        cases hl : s.self.candidates_ with
        | nil => rfl
        | cons x l => rw [hl] at hc; simp at hc
      have hrel : AllMaximalSetsCardinality.hint_related
          { s.self with candidates_ := resize s.self.candidates_ m1 [] }
          { s.self with candidates_ := resize s.self.candidates_ m2 [] } := by
        refine ⟨rfl, rfl, rfl, ?_⟩
        intro i
        simp only [hnil]
        rw [getD_resize _ _ _ (by simp), getD_resize _ _ _ (by simp)]
      cases hseek : (s.data.Seek s.resume_offset).1 with
      | false => rfl
      | true =>
        simp only
        have hseekfile : (s.data.Seek s.resume_offset).2.data.file = s.data.data.file := by
          simp only [World.Seek, DataSourceIterator.Seek]
          split <;> rfl
        rcases scan_hint max_items_in_ram scan_fuel
          { s with self := { s.self with candidates_ := resize s.self.candidates_ m1 [] },
                   data := (s.data.Seek s.resume_offset).2, resume_offset := 0,
                   items_in_ram := 0, current_set_size := -1 }
          { s with self := { s.self with candidates_ := resize s.self.candidates_ m2 [] },
                   data := (s.data.Seek s.resume_offset).2, resume_offset := 0,
                   items_in_ram := 0, current_set_size := -1 }
          ⟨hrel, rfl⟩ (by
            intro id items hmem
            simp only at hmem
            rw [hseekfile] at hmem
            exact hfile id items hmem) with ⟨e, h1, h2⟩ | ⟨result, s', t', h1, h2, h3, h4⟩
        · simp only [h1, h2]
        · simp only [h1, h2]
          obtain ⟨a, data1, index_us1, set_id1, current_set1, resume_offset1, items_in_ram1,
            size1⟩ := s'
          obtain ⟨b, data2, index_us2, set_id2, current_set2, resume_offset2, items_in_ram2,
            size2⟩ := t'
          obtain ⟨hself, hothers⟩ := h3
          simp only [Locals.others, Prod.mk.injEq] at hothers
          obtain ⟨e1, e2, e3, e4, e5, e6, e7⟩ := hothers
          subst e1 e2 e3 e4 e5 e6 e7
          simp only at hself h4
          by_cases hr : result ≠ 0
          · simp only [hr, ne_eq, not_false_eq_true, if_true, Except.map, observables]
            rw [hself.1, hself.2.1, hself.2.2.1]
          · simp only [hr, if_false]
            rw [← DumpMaximalSets_hint a b data1 index_us1 mode hself]
            by_cases hro : resume_offset1 ≠ 0
            · simp only [hro, ne_eq, not_false_eq_true, if_true]
              apply ih
              intro id items hmem
              simp only at hmem
              rw [(DumpMaximalSets_spec a data1 index_us1 mode).2.1, h4, hseekfile] at hmem
              exact hfile id items hmem
            · simp only [hro, if_false]

end AllMaximalSetsCardinality

theorem DataSourceIterator.items_increasing_Get (records : List Record)
    (h : ∀ r ∈ records, r.2.Pairwise (· < ·)) :
    (DataSourceIterator.Get records).items_increasing := by
  intro id items hmem
  simp only [DataSourceIterator.Get, List.mem_map] at hmem
  obtain ⟨r, hr, heq⟩ := hmem
  cases heq
  exact h r hr

theorem items_of_sets_append (a b : List SetProperties) :
    items_of_sets (a ++ b) = items_of_sets a + items_of_sets b := by
  simp [items_of_sets]

theorem items_of_candidates_append (a b : CandidateList) :
    items_of_candidates (a ++ b) = items_of_candidates a + items_of_candidates b := by
  simp [items_of_candidates, items_of_sets]

theorem items_of_candidates_push (a : CandidateList) (s : SetProperties) :
    items_of_candidates (a ++ [some s]) = items_of_candidates a + s.size := by
  simp [items_of_candidates, items_of_sets]

theorem items_of_candidates_set_none (l : CandidateList) (i : Nat) :
    items_of_candidates (l.set i none) ≤ items_of_candidates l := by
  induction l generalizing i with
  | nil => simp
  | cons x l ih =>
    cases i with
    | zero =>
      cases x <;> simp [items_of_candidates, items_of_sets]
    | succ i =>
      have := ih i
      cases x <;> simp [items_of_candidates, items_of_sets] at this ⊢ <;> omega

theorem items_of_index_replicate (n : Nat) : items_of_index (List.replicate n []) = 0 := by
  induction n with
  | zero => rfl
  | succ n ih =>
    simp only [items_of_index] at ih
    simp [items_of_index, List.replicate_succ, items_of_candidates, items_of_sets, ih]

theorem items_of_index_resize (c : List CandidateList) (n : Nat) (h : c.length ≤ n) :
    items_of_index (resize c n []) = items_of_index c := by
  unfold resize
  rw [List.take_of_length_le h]
  have := items_of_index_replicate (n - c.length)
  simp only [items_of_index] at this ⊢
  rw [List.map_append, List.sum_append, this, Nat.add_zero]

theorem items_of_index_set (c : List CandidateList) (x : Nat) (v : CandidateList)
    (hx : x < c.length) :
    items_of_index (c.set x v) + items_of_candidates (c.getD x []) =
      items_of_index c + items_of_candidates v := by
  induction c generalizing x with
  | nil => simp at hx
  | cons y c ih =>
    cases x with
    | zero =>
      simp [items_of_index]
      omega
    | succ x =>
      simp only [List.length_cons, Nat.add_lt_add_iff_right] at hx
      have := ih x hx
      simp [items_of_index] at this ⊢
      omega

theorem AllMaximalSetsCardinality.Locals.items_held_eq (s : AllMaximalSetsCardinality.Locals) :
    s.items_held = items_of_sets s.index_us + items_of_index s.self.candidates_ := rfl

namespace AllMaximalSetsCardinality

theorem walk_items (current_set : ItemSet) (i : Nat) (current_begin : List Nat) (fuel : Nat)
    (candidates : CandidateList) (candidate_index : Int) (checks : Nat) :
    items_of_candidates
        (DeleteSubsumedCandidates.walk current_set i current_begin fuel candidates
          candidate_index checks).1 ≤ items_of_candidates candidates := by
  induction fuel generalizing candidates candidate_index checks with
  | zero => exact Nat.le_refl _
  | succ fuel ih =>
    unfold DeleteSubsumedCandidates.walk
    split
    · exact Nat.le_refl _
    · simp only
      refine Nat.le_trans (ih _ _ _) ?_
      split
      · exact items_of_candidates_set_none _ _
      · exact Nat.le_refl _

theorem DeleteSubsumedCandidates_loop_items (current_set : ItemSet) (rest : List Nat) (i : Nat)
    (self : AllMaximalSetsCardinality) :
    items_of_index (DeleteSubsumedCandidates.loop current_set rest i self).candidates_ ≤
      items_of_index self.candidates_ := by
  induction rest generalizing i self with
  | nil => exact Nat.le_refl _
  | cons x rest ih =>
    unfold DeleteSubsumedCandidates.loop
    split
    · exact Nat.le_refl _
    · rename_i hlen
      simp only
      refine Nat.le_trans (ih _ _) ?_
      simp only
      have h1 := items_of_index_set self.candidates_ x
        (DeleteSubsumedCandidates.walk current_set i (x :: rest)
          ((self.candidates_.getD x []).length + 1) (self.candidates_.getD x []) (-1) 0).1
        (by omega)
      have h2 := walk_items current_set i (x :: rest) ((self.candidates_.getD x []).length + 1)
        (self.candidates_.getD x []) (-1) 0
      omega

theorem IndexSets_items (index_us : List SetProperties) (self self' : AllMaximalSetsCardinality)
    (h : IndexSets self index_us = Except.ok self') :
    items_of_index self'.candidates_ = items_of_index self.candidates_ + items_of_sets index_us := by
  induction index_us generalizing self with
  | nil =>
    unfold IndexSets at h
    cases h
    rfl
  | cons s rest ih =>
    unfold IndexSets at h
    cases hh : s.item.head? with
    | none => rw [hh] at h; cases h
    | some x =>
      rw [hh] at h
      simp only at h
      have := ih _ h
      rw [this]
      simp only
      have hgrown : items_of_index
          (if x ≥ self.candidates_.length then resize self.candidates_ (x + 1) []
            else self.candidates_) = items_of_index self.candidates_ := by
        split
        · exact items_of_index_resize _ _ (by omega)
        · rfl
      have hset := items_of_index_set _ x
        ((if x ≥ self.candidates_.length then resize self.candidates_ (x + 1) []
            else self.candidates_).getD x [] ++ [some s]) (length_grown self.candidates_ x)
      rw [items_of_candidates_push, hgrown] at hset
      have hcons : items_of_sets (s :: rest) = s.size + items_of_sets rest := by
        simp [items_of_sets]
      omega

/-- One turn of the scanning loop keeps the account of the items held: they
are at most `items_in_ram`, which is below the budget while the pass still
retains records and overshoots it by less than one record afterwards. -/
theorem record_items (max_items_in_ram L : Nat) (s s' : Locals)
    (hwrap : max_items_in_ram + L ≤ 2 ^ 32)
    (h : FindAllMaximalSets.record max_items_in_ram s = Except.ok s')
    (hlen : s.current_set.length ≤ L) (htell : s.data.Tell ≠ 0)
    (hheld : s.items_held ≤ s.items_in_ram)
    (hbelow : s.resume_offset = 0 → s.items_in_ram < max_items_in_ram)
    (hbound : s.items_in_ram < max_items_in_ram + L) :
    s'.items_held ≤ s'.items_in_ram ∧
      (s'.resume_offset = 0 → s'.items_in_ram < max_items_in_ram) ∧
      s'.items_in_ram < max_items_in_ram + L := by
  rw [Locals.items_held_eq] at hheld
  rw [Locals.items_held_eq]
  have hd := DeleteSubsumedCandidates_loop_items s.current_set s.current_set 0 s.self
  unfold FindAllMaximalSets.record at h
  simp only [DeleteSubsumedCandidates] at h
  by_cases hsize : (s.current_set.length : Int) ≠ s.current_set_size
  · simp only [hsize, ne_eq, not_false_eq_true, if_true] at h
    cases hix : IndexSets (DeleteSubsumedCandidates.loop s.current_set s.current_set 0 s.self)
        s.index_us with
    | error e => rw [hix] at h; cases h
    | ok self1 =>
      rw [hix] at h
      have hi := IndexSets_items _ _ _ hix
      simp only at h
      by_cases hres : s.resume_offset = 0
      · have hlt := hbelow hres
        have hmod : (s.items_in_ram + s.current_set.length) % 2 ^ 32 =
            s.items_in_ram + s.current_set.length := Nat.mod_eq_of_lt (by omega)
        simp only [hres, if_true, hmod] at h
        split at h
        · cases h
          simp only [items_of_sets_append, SetProperties.Create, SetProperties.size,
            List.nil_append]
          simp only [items_of_sets, List.map_cons, List.map_nil, List.sum_cons, List.sum_nil,
            SetProperties.size]
          refine ⟨by omega, fun h0 => absurd h0 htell, by omega⟩
        · cases h
          simp only [items_of_sets_append, SetProperties.Create, SetProperties.size,
            List.nil_append]
          simp only [items_of_sets, List.map_cons, List.map_nil, List.sum_cons, List.sum_nil,
            SetProperties.size]
          refine ⟨by omega, fun _ => by omega, by omega⟩
      · simp only [hres, if_false] at h
        cases h
        simp only [items_of_sets, List.map_nil, List.sum_nil]
        refine ⟨by omega, fun h0 => absurd h0 hres, hbound⟩
  · simp only [hsize, if_false] at h
    by_cases hres : s.resume_offset = 0
    · have hlt := hbelow hres
      have hmod : (s.items_in_ram + s.current_set.length) % 2 ^ 32 =
          s.items_in_ram + s.current_set.length := Nat.mod_eq_of_lt (by omega)
      simp only [hres, if_true, hmod] at h
      split at h
      · cases h
        simp only [items_of_sets_append, SetProperties.Create, SetProperties.size]
        simp only [items_of_sets, List.map_cons, List.map_nil, List.sum_cons, List.sum_nil,
          SetProperties.size]
        simp only [items_of_sets] at hheld
        refine ⟨by omega, fun h0 => absurd h0 htell, by omega⟩
      · cases h
        simp only [items_of_sets_append, SetProperties.Create, SetProperties.size]
        simp only [items_of_sets, List.map_cons, List.map_nil, List.sum_cons, List.sum_nil,
          SetProperties.size]
        simp only [items_of_sets] at hheld
        refine ⟨by omega, fun _ => by omega, by omega⟩
    · simp only [hres, if_false] at h
      cases h
      simp only
      refine ⟨by omega, fun h0 => absurd h0 hres, hbound⟩

end AllMaximalSetsCardinality

namespace AllMaximalSetsCardinality

theorem scan_file (max_items_in_ram : Nat) (fuel : Nat) (s : Locals) (result : Int)
    (s' : Locals) (h : FindAllMaximalSets.scan max_items_in_ram fuel s = Except.ok (result, s')) :
    s'.data.data.file = s.data.data.file := by
  induction fuel generalizing s with
  | zero =>
    unfold FindAllMaximalSets.scan at h
    cases h
  | succ fuel ih =>
    unfold FindAllMaximalSets.scan at h
    simp only [World.Next] at h
    rcases DataSourceIterator.Next_cases s.data.data s.set_id s.current_set with
      ⟨hn, _⟩ | ⟨id, items, hn, _, _⟩ | ⟨hn, _⟩
    · simp only [hn] at h
      simp at h
      obtain ⟨_, h⟩ := h
      subst h
      rfl
    · simp only [hn] at h
      have hpos : ((1 : Int) > 0) = True := by simp
      simp only [hpos, if_true] at h
      split at h
      · cases h
      · rename_i s2 hrec
        have h1 := ih _ h
        have h2 := (record_counts _ _ _ hrec).1
        rw [h1, h2]
    · simp only [hn] at h
      simp at h
      obtain ⟨_, h⟩ := h
      subst h
      rfl

theorem scan_points_items (max_items_in_ram L : Nat) (hwrap : max_items_in_ram + L ≤ 2 ^ 32)
    (fuel : Nat) (s : Locals) (hL : s.data.data.record_sizes_le L)
    (hheld : s.items_held ≤ s.items_in_ram)
    (hbelow : s.resume_offset = 0 → s.items_in_ram < max_items_in_ram)
    (hbound : s.items_in_ram < max_items_in_ram + L) :
    ∀ p ∈ FindAllMaximalSets.scan_points max_items_in_ram fuel s,
      p.items_held < max_items_in_ram + L := by
  have hs : s.items_held < max_items_in_ram + L := by omega
  induction fuel generalizing s with
  | zero =>
    intro p hp
    simp only [FindAllMaximalSets.scan_points, List.mem_singleton] at hp
    subst hp
    exact hs
  | succ fuel ih =>
    intro p hp
    unfold FindAllMaximalSets.scan_points at hp
    simp only [World.Next] at hp
    rcases DataSourceIterator.Next_cases s.data.data s.set_id s.current_set with
      ⟨hn, _⟩ | ⟨id, items, hn, hmem, _⟩ | ⟨hn, _⟩
    · simp only [hn] at hp
      simp at hp
      subst hp
      exact hs
    · simp only [hn] at hp
      have hpos : ((1 : Int) > 0) = True := by simp
      simp only [hpos, if_true] at hp
      split at hp
      · simp only [List.mem_singleton] at hp
        subst hp
        exact hs
      · rename_i s2 hrec
        rcases List.mem_cons.1 hp with hp | hp
        · subst hp
          exact hs
        · have hdata := (record_counts _ _ _ hrec).1
          obtain ⟨k1, k2, k3⟩ := record_items max_items_in_ram L _ s2 hwrap hrec
            (hL id items hmem)
            (by simp only [World.Tell, DataSourceIterator.Tell]; omega)
            hheld hbelow hbound
          refine ih s2 ?_ k1 k2 k3 (by omega) p hp
          rw [hdata]
          exact hL
    · simp only [hn] at hp
      simp at hp
      subst hp
      exact hs

theorem pass_points_items (max_item_id max_items_in_ram L : Nat) (mode : OutputModeEnum)
    (hmax : 1 ≤ max_items_in_ram) (hwrap : max_items_in_ram + L ≤ 2 ^ 32)
    (scan_fuel fuel : Nat) (s : Locals) (hL : s.data.data.record_sizes_le L)
    (hindex : s.index_us = []) :
    ∀ p ∈ FindAllMaximalSets.pass_points max_item_id max_items_in_ram mode scan_fuel fuel s,
      p.items_held < max_items_in_ram + L := by
  induction fuel generalizing s with
  | zero =>
    intro p hp
    simp [FindAllMaximalSets.pass_points] at hp
  | succ fuel ih =>
    intro p hp
    unfold FindAllMaximalSets.pass_points at hp
    rcases Nat.lt_or_ge max_item_id (2 ^ 31) with hhint | hhint
    swap
    · rw [PrepareForDataScan_of_ge _ _ _ _ hhint] at hp
      simp at hp
    rw [PrepareForDataScan_of_lt _ _ _ _ hhint] at hp
    by_cases hc : s.self.candidates_.length ≠ 0
    · simp only [hc, ne_eq, not_false_eq_true, if_true] at hp
      simp at hp
    · simp only [hc, if_false] at hp
      have hnil : s.self.candidates_ = [] := by
        cases hl : s.self.candidates_ with
        | nil => rfl
        | cons x l => rw [hl] at hc; simp at hc
      have hseekfile : (s.data.Seek s.resume_offset).2.data.file = s.data.data.file := by
        simp only [World.Seek, DataSourceIterator.Seek]
        split <;> rfl
      cases hseek : (s.data.Seek s.resume_offset).1 with
      | false =>
        rw [hseek] at hp
        simp at hp
      | true =>
        rw [hseek] at hp
        simp only at hp
        rcases List.mem_append.1 hp with hp | hp
        · refine scan_points_items max_items_in_ram L hwrap scan_fuel _ ?_ ?_ ?_ ?_ p hp
          · intro id items hmem
            simp only at hmem
            rw [hseekfile] at hmem
            exact hL id items hmem
          · rw [Locals.items_held_eq]
            simp only [hindex, hnil]
            rw [items_of_index_resize _ _ (by simp)]
            simp [items_of_sets, items_of_index]
          · intro _
            simp only
            omega
          · simp only
            omega
        · split at hp
          · simp at hp
          · rename_i result s' hscan
            have hfile := scan_file _ _ _ _ _ hscan
            simp only at hfile
            by_cases hr : result ≠ 0
            · simp only [hr, ne_eq, not_false_eq_true, if_true] at hp
              simp at hp
            · simp only [hr, if_false] at hp
              have hdump := DumpMaximalSets_spec s'.self s'.data s'.index_us mode
              by_cases hro : s'.resume_offset ≠ 0
              · simp only [hro, ne_eq, not_false_eq_true, if_true] at hp
                refine ih _ ?_ rfl p hp
                intro id items hmem
                simp only at hmem
                rw [hdump.2.1, hfile, hseekfile] at hmem
                exact hL id items hmem
              · simp only [hro, if_false, List.mem_singleton] at hp
                subst hp
                rw [Locals.items_held_eq]
                simp only [hdump.1]
                simp [items_of_sets, items_of_index]
                omega

end AllMaximalSetsCardinality

namespace AllMaximalSetsLexicographic

/-- While `ReadNextChunk` loads a chunk, the items of the chunk are at most
`items_in_ram_`, which is below the budget whenever the loop reads on. -/
theorem ReadNextChunk_loop_items (L : Nat) (fuel : Nat) (self : AllMaximalSetsLexicographic)
    (data : World) (set_id : Nat) (current_set : ItemSet)
    (r : Bool × AllMaximalSetsLexicographic × World × Nat)
    (hwrap : self.max_items_in_ram_ + L ≤ 2 ^ 32)
    (hL : data.data.record_sizes_le L) (hlen : current_set.length ≤ L)
    (hheld : items_of_candidates self.candidates_ ≤ self.items_in_ram_)
    (hbelow : self.items_in_ram_ < self.max_items_in_ram_)
    (h : ReadNextChunk.loop fuel self data set_id current_set = Except.ok r) :
    items_of_candidates r.2.1.candidates_ < self.max_items_in_ram_ + L := by
  induction fuel generalizing self data set_id current_set with
  | zero =>
    unfold ReadNextChunk.loop at h
    cases h
  | succ fuel ih =>
    unfold ReadNextChunk.loop at h
    simp only [World.Next] at h
    rcases DataSourceIterator.Next_cases data.data set_id current_set with
      ⟨hn, _⟩ | ⟨id, items, hn, hmem, _⟩ | ⟨hn, _⟩
    · simp only [hn] at h
      simp at h
      subst h
      simp only
      omega
    · have hitems := hL id items hmem
      have hmod : (self.items_in_ram_ + items.length) % 2 ^ 32 =
          self.items_in_ram_ + items.length := Nat.mod_eq_of_lt (by omega)
      simp only [hn] at h
      simp only [ne_eq, one_ne_zero, not_false_eq_true, decide_True, Bool.toNat_true,
        gt_iff_lt, Nat.lt_one_iff, Nat.pos_of_ne_zero, if_true, zero_lt_one, hmod] at h
      split at h
      · cases h
        simp only [items_of_candidates_push, SetProperties.Create, SetProperties.size]
        omega
      · rename_i hlt
        have := ih _ _ _ _ (by simpa using hwrap) (by simpa using hL) hitems
          (by simp only [items_of_candidates_push, SetProperties.Create, SetProperties.size]
              omega)
          (by simp only; omega) h
        simpa using this
    · have hmod : (self.items_in_ram_ + current_set.length) % 2 ^ 32 =
          self.items_in_ram_ + current_set.length := Nat.mod_eq_of_lt (by omega)
      simp only [hn] at h
      simp only [ne_eq, Int.reduceNeg, Int.neg_eq_zero, one_ne_zero, not_false_eq_true,
        decide_True, Bool.toNat_true, gt_iff_lt, zero_lt_one, if_true, hmod] at h
      split at h
      · cases h
        simp only [items_of_candidates_push, SetProperties.Create, SetProperties.size]
        omega
      · rename_i hlt
        have := ih _ _ _ _ (by simpa using hwrap) (by simpa using hL) hlen
          (by simp only [items_of_candidates_push, SetProperties.Create, SetProperties.size]
              omega)
          (by simp only; omega) h
        simpa using this

end AllMaximalSetsLexicographic


theorem DataSourceIterator.record_sizes_le_Get (records : List Record) (L : Nat)
    (h : ∀ r ∈ records, r.2.length ≤ L) :
    (DataSourceIterator.Get records).record_sizes_le L := by
  intro id items hmem
  simp only [DataSourceIterator.Get, List.mem_map] at hmem
  obtain ⟨r, hr, heq⟩ := hmem
  cases heq
  exact h r hr

/-- Counterexample to claim C18 as stated: with the budget `4` on three
records of three items each, the cardinality engine reaches a head of its
scanning loop with `6` items held in `index_us`, and `ReadNextChunk` of the
lexicographic engine returns a chunk of `6` items. -/
theorem C18_memory_bound_counterexample :
    (∃ s ∈ AllMaximalSetsCardinality.FindAllMaximalSets.points AllMaximalSetsCardinality.new
        (World.start (DataSourceIterator.Get budget_scenario)) 0 4 OutputModeEnum.ID 4,
      s.index_us.length = 2 ∧ s.items_held = 6 ∧ ¬ s.items_held ≤ 4) ∧
    (AllMaximalSetsLexicographic.ReadNextChunk
        (AllMaximalSetsLexicographic.new.SetMaxItemsInRam 4)
        (World.start (DataSourceIterator.Get budget_scenario)) 4).map
        (fun r => (r.1, items_of_candidates r.2.1.candidates_)) = Except.ok (true, 6) ∧
    ¬ 6 ≤ 4 := by
  decide!

/-- Claim C18, amended: the budget is tested after a record has been retained,
so it is overshot by less than one record.  Let the budget be at least `1`, let
`L` bound the number of items of every record of the file, and let the budget
plus `L` fit 32 bits.  Then at every head of the scanning loop of the
cardinality engine, in every pass, the items held in `index_us` and in the
live candidates of the index number less than the budget plus `L`; and every
chunk that `ReadNextChunk` of the lexicographic engine loads into an empty
candidate array holds less than the budget plus `L` items. -/
theorem C18_memory_bound (max_items_in_ram L : Nat) (data : World)
    (hmax : 1 ≤ max_items_in_ram) (hwrap : max_items_in_ram + L ≤ 2 ^ 32)
    (hL : data.data.record_sizes_le L) :
    (∀ (self : AllMaximalSetsCardinality) (max_item_id : Nat) (output_mode : OutputModeEnum)
        (fuel : Nat),
      ∀ s ∈ AllMaximalSetsCardinality.FindAllMaximalSets.points self data max_item_id
          max_items_in_ram output_mode fuel,
        s.items_held < max_items_in_ram + L) ∧
    (∀ (self : AllMaximalSetsLexicographic) (fuel : Nat)
        (r : Bool × AllMaximalSetsLexicographic × World × Nat),
      self.max_items_in_ram_ = max_items_in_ram → self.candidates_ = [] →
      AllMaximalSetsLexicographic.ReadNextChunk self data fuel = Except.ok r →
        items_of_candidates r.2.1.candidates_ < max_items_in_ram + L) := by
  refine ⟨fun self max_item_id output_mode fuel =>
    AllMaximalSetsCardinality.pass_points_items max_item_id max_items_in_ram L output_mode
      hmax hwrap fuel fuel _ hL rfl, ?_⟩
  intro self fuel r hm hc h
  unfold AllMaximalSetsLexicographic.ReadNextChunk at h
  have := AllMaximalSetsLexicographic.ReadNextChunk_loop_items L fuel
    { self with items_in_ram_ := 0 } data 0 [] r (by simp only [hm]; exact hwrap) hL
    (Nat.zero_le _) (by simp only [hc]; exact Nat.zero_le _) (by simp only [hm]; omega) h
  simpa [hm] using this

/-- The bound of C18 on the three records of `budget_scenario` with the budget
`4`: records have `3` items, so fewer than `7` items are held at any time, in
the cardinality engine and in the chunk of the lexicographic engine. -/
theorem C18_memory_bound_witness :
    1 ≤ 4 ∧ 4 + 3 ≤ 2 ^ 32 ∧ (DataSourceIterator.Get budget_scenario).record_sizes_le 3 ∧
    (∀ s ∈ AllMaximalSetsCardinality.FindAllMaximalSets.points AllMaximalSetsCardinality.new
        (World.start (DataSourceIterator.Get budget_scenario)) 0 4 OutputModeEnum.ID 4,
      s.items_held < 4 + 3) ∧
    (∀ r, AllMaximalSetsLexicographic.ReadNextChunk
        (AllMaximalSetsLexicographic.new.SetMaxItemsInRam 4)
        (World.start (DataSourceIterator.Get budget_scenario)) 4 = Except.ok r →
      items_of_candidates r.2.1.candidates_ < 4 + 3) :=
  ⟨by decide, by decide, DataSourceIterator.record_sizes_le_Get _ _ (by decide),
    (C18_memory_bound 4 3 (World.start (DataSourceIterator.Get budget_scenario)) (by decide)
      (by decide) (DataSourceIterator.record_sizes_le_Get _ _ (by decide))).1
      AllMaximalSetsCardinality.new 0 OutputModeEnum.ID 4,
    fun r => (C18_memory_bound 4 3 (World.start (DataSourceIterator.Get budget_scenario))
      (by decide) (by decide) (DataSourceIterator.record_sizes_le_Get _ _ (by decide))).2
      (AllMaximalSetsLexicographic.new.SetMaxItemsInRam 4) 4 r (by decide) rfl⟩

/-! ## The scenario with two equal sets on the cardinality engine -/

/-- The run of the cardinality engine on `1:{1,2,3}`, `2:{1,2,3}` without a
hint, for any budget and any fuel of at least three. -/
theorem duplicates_run_without_hint (b fuel : Nat) :
    (AllMaximalSetsCardinality.FindAllMaximalSets AllMaximalSetsCardinality.new
        (World.start (DataSourceIterator.Get [(1, [1, 2, 3]), (2, [1, 2, 3])])) 0 b
        OutputModeEnum.ID (fuel + 3)).map
      (fun r => (r.1, emitted_ids r.2.2.trace, r.2.1.maximal_sets_count_)) =
      Except.ok (true, [1, 2], 2) := by
  by_cases h3 : 3 ≥ b
  · have h6 : 6 ≥ b := by omega
    simp [AllMaximalSetsCardinality.FindAllMaximalSets,
      AllMaximalSetsCardinality.FindAllMaximalSets.passes,
      AllMaximalSetsCardinality.PrepareForDataScan,
      AllMaximalSetsCardinality.FindAllMaximalSets.scan,
      AllMaximalSetsCardinality.FindAllMaximalSets.record, AllMaximalSetsCardinality.Init,
      AllMaximalSetsCardinality.new, World.start, World.Seek, World.Next, World.Tell, World.print,
      DataSourceIterator.Get, DataSourceIterator.Seek, DataSourceIterator.Next,
      DataSourceIterator.Tell, AllMaximalSetsCardinality.DeleteSubsumedCandidates,
      AllMaximalSetsCardinality.DeleteSubsumedCandidates.loop,
      AllMaximalSetsCardinality.IndexSets, AllMaximalSetsCardinality.DumpMaximalSets,
      AllMaximalSetsCardinality.DumpMaximalSets.unindexed,
      AllMaximalSetsCardinality.DumpMaximalSets.indexed,
      AllMaximalSetsCardinality.DumpMaximalSets.candidate_set,
      AllMaximalSetsCardinality.FoundMaximalSet, resize, SetProperties.Create, emitted_ids,
      Except.map, h3, h6]
  · by_cases h6 : 6 ≥ b
    · simp [AllMaximalSetsCardinality.FindAllMaximalSets,
        AllMaximalSetsCardinality.FindAllMaximalSets.passes,
        AllMaximalSetsCardinality.PrepareForDataScan,
        AllMaximalSetsCardinality.FindAllMaximalSets.scan,
        AllMaximalSetsCardinality.FindAllMaximalSets.record, AllMaximalSetsCardinality.Init,
        AllMaximalSetsCardinality.new, World.start, World.Seek, World.Next, World.Tell,
        World.print, DataSourceIterator.Get, DataSourceIterator.Seek, DataSourceIterator.Next,
        DataSourceIterator.Tell, AllMaximalSetsCardinality.DeleteSubsumedCandidates,
        AllMaximalSetsCardinality.DeleteSubsumedCandidates.loop,
        AllMaximalSetsCardinality.IndexSets, AllMaximalSetsCardinality.DumpMaximalSets,
        AllMaximalSetsCardinality.DumpMaximalSets.unindexed,
        AllMaximalSetsCardinality.DumpMaximalSets.indexed,
        AllMaximalSetsCardinality.DumpMaximalSets.candidate_set,
        AllMaximalSetsCardinality.FoundMaximalSet, resize, SetProperties.Create, emitted_ids,
        Except.map, h3, h6]
    · simp [AllMaximalSetsCardinality.FindAllMaximalSets,
        AllMaximalSetsCardinality.FindAllMaximalSets.passes,
        AllMaximalSetsCardinality.PrepareForDataScan,
        AllMaximalSetsCardinality.FindAllMaximalSets.scan,
        AllMaximalSetsCardinality.FindAllMaximalSets.record, AllMaximalSetsCardinality.Init,
        AllMaximalSetsCardinality.new, World.start, World.Seek, World.Next, World.Tell,
        World.print, DataSourceIterator.Get, DataSourceIterator.Seek, DataSourceIterator.Next,
        DataSourceIterator.Tell, AllMaximalSetsCardinality.DeleteSubsumedCandidates,
        AllMaximalSetsCardinality.DeleteSubsumedCandidates.loop,
        AllMaximalSetsCardinality.IndexSets, AllMaximalSetsCardinality.DumpMaximalSets,
        AllMaximalSetsCardinality.DumpMaximalSets.unindexed,
        AllMaximalSetsCardinality.DumpMaximalSets.indexed,
        AllMaximalSetsCardinality.DumpMaximalSets.candidate_set,
        AllMaximalSetsCardinality.FoundMaximalSet, resize, SetProperties.Create, emitted_ids,
        Except.map, h3, h6]

theorem Except.map_observed {ε α β γ : Type} (f : α → β) (g : β → γ) (x y : Except ε α)
    (h : x.map f = y.map f) : x.map (fun a => g (f a)) = y.map (fun a => g (f a)) := by
  cases x <;> cases y <;> simp only [Except.map] at h ⊢
  · injection h with h
    rw [h]
  · cases h
  · cases h
  · injection h with h
    rw [h]

/-- Claim C21: on the input `1:{1,2,3}`, `2:{1,2,3}`, two records with the same
items and distinct ids, the cardinality engine returns `true`, writes both ids
`1` and `2` and counts two maximal sets, for every budget `max_items_in_ram`,
every fuel of at least three and every hint `max_item_id` below `2 ^ 31` (the
hints with which the `resize` of `PrepareForDataScan` does not throw). -/
theorem C21_duplicates_both_emitted (max_item_id max_items_in_ram fuel : Nat)
    (hhint : max_item_id < 2 ^ 31) :
    (AllMaximalSetsCardinality.FindAllMaximalSets AllMaximalSetsCardinality.new
        (World.start (DataSourceIterator.Get [(1, [1, 2, 3]), (2, [1, 2, 3])])) max_item_id
        max_items_in_ram OutputModeEnum.ID (fuel + 3)).map
      (fun r => (r.1, emitted_ids r.2.2.trace, r.2.1.maximal_sets_count_)) =
      Except.ok (true, [1, 2], 2) := by
  have h := AllMaximalSetsCardinality.passes_hint max_item_id 0 max_items_in_ram
    OutputModeEnum.ID (fuel + 3) (fuel + 3)
    { self := AllMaximalSetsCardinality.new.Init,
      data := World.start (DataSourceIterator.Get [(1, [1, 2, 3]), (2, [1, 2, 3])]),
      index_us := [], set_id := 0, current_set := [], resume_offset := 0, items_in_ram := 0,
      current_set_size := -1 }
    (DataSourceIterator.items_increasing_Get _ (by decide)) hhint (by decide)
  have h2 := Except.map_observed AllMaximalSetsCardinality.observables
    (fun o => (o.1, emitted_ids o.2.2.2.2.trace, o.2.1)) _ _ h
  exact h2.trans (duplicates_run_without_hint max_items_in_ram fuel)

/-- An instance of C21 with the hint `3`, a budget of one item and fuel
three. -/
theorem C21_duplicates_both_emitted_witness :
    3 < 2 ^ 31 ∧
    (AllMaximalSetsCardinality.FindAllMaximalSets AllMaximalSetsCardinality.new
        (World.start (DataSourceIterator.Get [(1, [1, 2, 3]), (2, [1, 2, 3])])) 3
        1 OutputModeEnum.ID (0 + 3)).map
      (fun r => (r.1, emitted_ids r.2.2.trace, r.2.1.maximal_sets_count_)) =
      Except.ok (true, [1, 2], 2) :=
  ⟨by decide, C21_duplicates_both_emitted 3 1 0 (by decide)⟩

/-! ## Which candidates the cardinality engine compares with a record -/

theorem DataSourceIterator.Next_get (d : DataSourceIterator) (set_id : Nat) (cs : ItemSet) :
    (d.file.get? d.pos = none ∧ d.Next set_id cs = (0, set_id, cs, d)) ∨
    (∃ id items, d.file.get? d.pos = some (Entry.record id items) ∧
      d.Next set_id cs = (1, id, items, { d with pos := d.pos + 1 })) ∨
    (d.file.get? d.pos = some Entry.corrupt ∧
      d.Next set_id cs = (-1, set_id, cs, { d with pos := d.pos + 1 })) := by
  unfold DataSourceIterator.Next
  cases h : d.file.get? d.pos with
  | none => exact Or.inl ⟨rfl, rfl⟩
  | some e =>
    cases e with
    | record id items => exact Or.inr (Or.inl ⟨id, items, rfl, rfl⟩)
    | corrupt => exact Or.inr (Or.inr ⟨rfl, rfl⟩)

namespace AllMaximalSetsCardinality

end AllMaximalSetsCardinality

namespace AllMaximalSetsCardinality

end AllMaximalSetsCardinality

theorem DataSourceIterator.Get_get (records : List Record) (p : Nat) (id : Nat) (items : ItemSet)
    (h : (DataSourceIterator.Get records).file.get? p = some (Entry.record id items)) :
    records.get? p = some (id, items) := by
  simp only [DataSourceIterator.Get, List.get?_eq_getElem?, List.getElem?_map] at h
  cases hr : records[p]? with
  | none => rw [hr] at h; cases h
  | some r =>
    rw [hr] at h
    simp only [Option.map_some', Option.some.injEq, Entry.record.injEq] at h
    rw [List.get?_eq_getElem?, hr, ← h.1, ← h.2]

theorem cardinality_ordered_get (records : List Record) (h : cardinality_ordered records)
    (p q : Nat) (a b : Record) (hpq : p < q) (hp : records.get? p = some a)
    (hq : records.get? q = some b) : a.2.length ≤ b.2.length := by
  unfold cardinality_ordered at h
  rw [List.get?_eq_getElem?] at hp hq
  obtain ⟨hp1, hp2⟩ := List.getElem?_eq_some_iff.1 hp
  obtain ⟨hq1, hq2⟩ := List.getElem?_eq_some_iff.1 hq
  have := List.pairwise_iff_getElem.1 h p q hp1 hq1 hpq
  rw [hp2, hq2] at this
  exact this

namespace FixItems

theorem lookup_increment (literals : List (Nat × Nat)) (x y : Nat) :
    lookup (increment literals x) y =
      if y = x then (lookup literals x + 1) % 2 ^ 32 else lookup literals y := by
  induction literals with
  | nil =>
    simp only [increment, lookup]
    by_cases h : y = x
    · simp [h]
    · have : ¬ x = y := fun e => h e.symm
      simp [h, this]
  | cons e rest ih =>
    obtain ⟨k, v⟩ := e
    simp only [increment]
    by_cases hk : k = x
    · subst hk
      simp only [if_true, lookup]
      by_cases h : y = k
      · subst h
        simp
      · have : ¬ k = y := fun e => h e.symm
        simp [h, this]
    · simp only [hk, if_false, lookup]
      by_cases h : k = y
      · subst h
        have : ¬ k = x := hk
        simp [this]
      · simp only [h, if_false]
        exact ih

theorem lookup_store (literals : List (Nat × Nat)) (x v y : Nat) :
    lookup (store literals x v) y = if y = x then v else lookup literals y := by
  induction literals with
  | nil =>
    simp only [store, lookup]
    by_cases h : y = x
    · simp [h]
    · have : ¬ x = y := fun e => h e.symm
      simp [h, this]
  | cons e rest ih =>
    obtain ⟨k, w⟩ := e
    simp only [store]
    by_cases hk : k = x
    · subst hk
      simp only [if_true, lookup]
      by_cases h : y = k
      · subst h
        simp
      · have : ¬ k = y := fun e => h e.symm
        simp [h, this]
    · simp only [hk, if_false, lookup]
      by_cases h : k = y
      · subst h
        have : ¬ k = x := hk
        simp [this]
      · simp only [h, if_false]
        exact ih

theorem keys_increment (literals : List (Nat × Nat)) (x : Nat) :
    (increment literals x).map Prod.fst =
      if x ∈ literals.map Prod.fst then literals.map Prod.fst
      else literals.map Prod.fst ++ [x] := by
  induction literals with
  | nil => simp [increment]
  | cons e rest ih =>
    obtain ⟨k, v⟩ := e
    simp only [increment]
    by_cases hk : k = x
    · subst hk
      simp
    · have hne : ¬ x = k := fun e => hk e.symm
      simp only [hk, if_false, List.map_cons, ih, List.mem_cons, hne, false_or]
      split <;> simp

theorem keys_foldl_increment (items : List Nat) (literals : List (Nat × Nat))
    (hnodup : (literals.map Prod.fst).Nodup) :
    ((items.foldl increment literals).map Prod.fst).Nodup ∧
      ∀ z, z ∈ (items.foldl increment literals).map Prod.fst ↔
        z ∈ literals.map Prod.fst ∨ z ∈ items := by
  induction items generalizing literals with
  | nil => simp [hnodup]
  | cons x rest ih =>
    simp only [List.foldl_cons]
    have hn : ((increment literals x).map Prod.fst).Nodup := by
      rw [keys_increment]
      split
      · exact hnodup
      · rename_i hx
        rw [List.nodup_append]
        refine ⟨hnodup, List.nodup_singleton _, ?_⟩
        intro a ha hb
        simp only [List.mem_singleton] at hb
        subst hb
        exact hx ha
    obtain ⟨h1, h2⟩ := ih _ hn
    refine ⟨h1, fun z => ?_⟩
    rw [h2, keys_increment]
    split
    · rename_i hx
      simp only [List.mem_cons]
      constructor
      · rintro (h | h)
        · exact Or.inl h
        · exact Or.inr (Or.inr h)
      · rintro (h | h | h)
        · exact Or.inl h
        · subst h
          exact Or.inl hx
        · exact Or.inr h
    · simp only [List.mem_append, List.mem_singleton, List.mem_cons]
      tauto

theorem lookup_foldl_increment (items : List Nat) (literals : List (Nat × Nat))
    (hbound : ∀ z, lookup literals z + items.count z < 2 ^ 32) (y : Nat) :
    lookup (items.foldl increment literals) y = lookup literals y + items.count y := by
  induction items generalizing literals with
  | nil => simp
  | cons x rest ih =>
    simp only [List.foldl_cons]
    have hx := hbound x
    simp only [List.count_cons_self] at hx
    have hmod : (lookup literals x + 1) % 2 ^ 32 = lookup literals x + 1 :=
      Nat.mod_eq_of_lt (by omega)
    rw [ih]
    · rw [lookup_increment, List.count_cons]
      by_cases h : y = x
      · subst h
        simp only [if_true, hmod, beq_self_eq_true]
        omega
      · have : ¬ x = y := fun e => h e.symm
        simp [h, this]
    · intro z
      rw [lookup_increment]
      have hz := hbound z
      rw [List.count_cons] at hz
      by_cases h : z = x
      · subst h
        simp only [if_true, hmod]
        simp only [beq_self_eq_true, if_true] at hz
        omega
      · have : ¬ x = z := fun e => h e.symm
        simp only [h, if_false]
        simp only [beq_iff_eq, this, if_false, Nat.add_zero] at hz
        exact hz

theorem lookup_of_mem (literals : List (Nat × Nat)) (hnodup : (literals.map Prod.fst).Nodup)
    (k v : Nat) (h : (k, v) ∈ literals) : lookup literals k = v := by
  induction literals with
  | nil => simp at h
  | cons e rest ih =>
    obtain ⟨k', v'⟩ := e
    simp only [List.map_cons, List.nodup_cons] at hnodup
    simp only [lookup]
    rcases List.mem_cons.1 h with h | h
    · cases h
      simp
    · have hne : ¬ k' = k := by
        intro e
        subst e
        exact hnodup.1 (List.mem_map.2 ⟨(k', v), h, rfl⟩)
      simp only [hne, if_false]
      exact ih hnodup.2 h

end FixItems

namespace FixItems

instance : IsTotal (Nat × Nat) pair_le := ⟨fun a b => by
  unfold pair_le
  omega⟩

instance : IsTrans (Nat × Nat) pair_le := ⟨fun a b c h1 h2 => by
  unfold pair_le at *
  omega⟩

/-- In a list that is sorted for `r`, an element that stands before another
one is related to it. -/
theorem rel_of_indexOf_lt {r : Nat → Nat → Prop} (l : List Nat) (h : l.Pairwise r) (a b : Nat)
    (ha : a ∈ l) (hlt : l.indexOf b < l.indexOf a) : r b a := by
  induction l with
  | nil => simp at ha
  | cons x t ih =>
    rw [List.pairwise_cons] at h
    by_cases hb : x = b
    · subst hb
      have hax : ¬ x = a := by
        intro e
        subst e
        simp at hlt
      rcases List.mem_cons.1 ha with e | hat
      · exact absurd e.symm hax
      · exact h.1 a hat
    · have hax : ¬ x = a := by
        intro e
        subst e
        simp at hlt
      rcases List.mem_cons.1 ha with e | hat
      · exact absurd e.symm hax
      · rw [List.indexOf_cons_ne _ hb, List.indexOf_cons_ne _ hax] at hlt
        exact ih h.2 hat (by omega)

theorem lookup_number (pairs : List (Nat × Nat)) (item_id : Nat) (literals : List (Nat × Nat))
    (hnodup : (pairs.map Prod.snd).Nodup) (hbound : item_id + pairs.length ≤ 2 ^ 32) (x : Nat) :
    lookup (number pairs item_id literals) x =
      if x ∈ pairs.map Prod.snd then item_id + (pairs.map Prod.snd).indexOf x
      else lookup literals x := by
  induction pairs generalizing item_id literals with
  | nil => simp [number]
  | cons p rest ih =>
    simp only [List.map_cons, List.nodup_cons] at hnodup
    simp only [number, List.map_cons, List.length_cons] at hbound ⊢
    have hle : (item_id + 1) % 2 ^ 32 ≤ item_id + 1 := Nat.mod_le _ _
    rw [ih _ _ hnodup.2 (by omega)]
    by_cases hx : x ∈ rest.map Prod.snd
    · have hne : ¬ p.2 = x := by
        intro e
        rw [e] at hnodup
        exact hnodup.1 hx
      have hpos : 0 < rest.length := by
        cases rest with
        | nil => simp at hx
        | cons _ _ => simp
      have hmod : (item_id + 1) % 2 ^ 32 = item_id + 1 := Nat.mod_eq_of_lt (by omega)
      simp only [hx, if_true, List.mem_cons, or_true, List.indexOf_cons_ne _ hne, hmod]
      omega
    · simp only [hx, if_false, lookup_store, List.mem_cons, or_false]
      by_cases h : x = p.2
      · subst h
        simp
      · simp [h]

end FixItems

namespace FixItems

theorem read_all (records : List Record) (fuel : Nat) (s : Locals)
    (hfile : s.data.data.file = (DataSourceIterator.Get records).file)
    (hpos : s.data.data.pos ≤ records.length)
    (hfuel : records.length + 1 ≤ fuel + s.data.data.pos) :
    ∃ s', read fuel s = Except.ok (0, s') ∧
      s'.clauses = s.clauses ++ (records.drop s.data.data.pos).map Prod.snd ∧
      s'.literals =
        ((records.drop s.data.data.pos).map Prod.snd).flatten.foldl increment s.literals := by
  induction fuel generalizing s with
  | zero =>
    exfalso
    omega
  | succ fuel ih =>
    unfold read
    simp only [World.Next]
    rcases DataSourceIterator.Next_get s.data.data s.vector_id s.clause with
      ⟨hget, hn⟩ | ⟨id, items, hget, hn⟩ | ⟨hget, hn⟩
    · simp only [hn]
      have hlen : records.length ≤ s.data.data.pos := by
        rw [hfile] at hget
        simpa [DataSourceIterator.Get, List.get?_eq_none] using hget
      have hdrop : records.drop s.data.data.pos = [] := List.drop_eq_nil_of_le hlen
      have h01 : ((0 : Int) = 1) = False := by simp
      simp only [h01, if_false]
      refine ⟨_, rfl, ?_, ?_⟩
      · simp [hdrop]
      · simp [hdrop]
    · simp only [hn]
      rw [hfile] at hget
      have hrec := DataSourceIterator.Get_get records _ id items hget
      rw [List.get?_eq_getElem?] at hrec
      obtain ⟨hlt, hval⟩ := List.getElem?_eq_some_iff.1 hrec
      have hdrop : records.drop s.data.data.pos = (id, items) :: records.drop (s.data.data.pos + 1) := by
        rw [← hval]
        exact List.drop_eq_getElem_cons hlt
      obtain ⟨s', h1, h2, h3⟩ := ih
        { data := { data := { s.data.data with pos := s.data.data.pos + 1 },
                    trace := s.data.trace ++ [Event.Next 1] },
          vector_id := id, clause := items,
          literals := items.foldl increment s.literals,
          clauses := s.clauses ++ [items] }
        hfile (by simp only; omega) (by simp only; omega)
      refine ⟨s', ?_, ?_, ?_⟩
      · simpa using h1
      · rw [h2, hdrop]
        simp
      · rw [h3, hdrop]
        simp [List.foldl_append]
    · exfalso
      rw [hfile] at hget
      simp only [DataSourceIterator.Get, List.get?_eq_getElem?, List.getElem?_map] at hget
      cases hr : records[s.data.data.pos]? with
      | none => rw [hr] at hget; cases hget
      | some r => rw [hr] at hget; cases hget

theorem write_all (out : OutputFile) (h : out.failing_write = none) (sets : List SetProperties)
    (i : Nat) : write out sets i = (true, sets) := by
  induction sets generalizing i with
  | nil => rfl
  | cons x rest ih => simp [write, h, ih]

theorem convert_ids (literals : List (Nat × Nat)) (clauses : List ItemSet) (i : Nat) :
    (convert literals clauses i).map SetProperties.set_id = List.range' i clauses.length := by
  induction clauses generalizing i with
  | nil => rfl
  | cons c rest ih => simp [convert, SetProperties.Create, ih, List.range'_succ]

theorem convert_mem (literals : List (Nat × Nat)) (clauses : List ItemSet) (i : Nat)
    (set : SetProperties) (h : set ∈ convert literals clauses i) :
    ∃ clause, clauses.get? (set.set_id - i) = some clause ∧ i ≤ set.set_id ∧
      set.item = (clause.map (lookup literals)).insertionSort (· ≤ ·) := by
  induction clauses generalizing i with
  | nil => simp [convert] at h
  | cons c rest ih =>
    simp only [convert, List.mem_cons] at h
    rcases h with h | h
    · subst h
      exact ⟨c, by simp [SetProperties.Create], by simp [SetProperties.Create], rfl⟩
    · obtain ⟨clause, h1, h2, h3⟩ := ih _ h
      refine ⟨clause, ?_, by omega, h3⟩
      have : set.set_id - i = (set.set_id - (i + 1)) + 1 := by omega
      rw [this]
      simpa using h1

end FixItems

namespace FixItems

/-- The item ids that the code assigns, for a list of literal occurrences
shorter than `2 ^ 32`: the distinct literals are numbered from `1` in the
order of their number of occurrences, literals with the same number of
occurrences in the order of their values. -/
theorem item_ids_spec (items : List Nat) (hlen : items.length < 2 ^ 32) :
    (∀ x ∈ items, 1 ≤ lookup (item_ids (items.foldl increment [])) x ∧
      lookup (item_ids (items.foldl increment [])) x ≤ items.dedup.length) ∧
    (∀ j, 1 ≤ j → j ≤ items.dedup.length →
      ∃ x ∈ items, lookup (item_ids (items.foldl increment [])) x = j) ∧
    (∀ x ∈ items, ∀ y ∈ items,
      lookup (item_ids (items.foldl increment [])) x =
        lookup (item_ids (items.foldl increment [])) y → x = y) ∧
    (∀ x ∈ items, ∀ y ∈ items, items.count x < items.count y →
      lookup (item_ids (items.foldl increment [])) x <
        lookup (item_ids (items.foldl increment [])) y) ∧
    (∀ x ∈ items, ∀ y ∈ items, items.count x = items.count y → x < y →
      lookup (item_ids (items.foldl increment [])) x <
        lookup (item_ids (items.foldl increment [])) y) := by
  obtain ⟨hknodup, hkmem⟩ := keys_foldl_increment items [] (by simp)
  have hcount : ∀ y, lookup (items.foldl increment []) y = items.count y := by
    intro y
    rw [lookup_foldl_increment items [] ?_ y]
    · simp [lookup]
    · intro z
      have := List.count_le_length z items
      simp only [lookup]
      omega
  generalize hL : items.foldl increment [] = L at hknodup hkmem hcount ⊢
  have hperm : (frequency_to_item L).Perm (L.map (fun entry => (entry.2, entry.1))) :=
    List.perm_insertionSort _ _
  have hsorted : (frequency_to_item L).Pairwise pair_le := List.sorted_insertionSort _ _
  have hkperm : ((frequency_to_item L).map Prod.snd).Perm (L.map Prod.fst) := by
    have := hperm.map Prod.snd
    simpa [List.map_map, Function.comp_def] using this
  have hSnodup : ((frequency_to_item L).map Prod.snd).Nodup := hkperm.nodup_iff.2 hknodup
  have hSmem : ∀ z, z ∈ (frequency_to_item L).map Prod.snd ↔ z ∈ items := by
    intro z
    rw [hkperm.mem_iff, hkmem]
    simp
  have hSeq : ∀ e ∈ frequency_to_item L, e = (lookup L e.2, e.2) := by
    intro e he
    have := hperm.mem_iff.1 he
    simp only [List.mem_map] at this
    obtain ⟨⟨k, v⟩, hkv, rfl⟩ := this
    simp only
    rw [lookup_of_mem L hknodup k v hkv]
  have hpw : ((frequency_to_item L).map Prod.snd).Pairwise
      (fun k1 k2 => pair_le (lookup L k1, k1) (lookup L k2, k2)) := by
    rw [List.pairwise_map]
    refine hsorted.imp_of_mem ?_
    intro a b ha hb hab
    rw [← hSeq a ha, ← hSeq b hb]
    exact hab
  have hsub : (frequency_to_item L).map Prod.snd ⊆ items := fun z hz => (hSmem z).1 hz
  have hlenS : ((frequency_to_item L).map Prod.snd).length ≤ items.length :=
    (List.subperm_of_subset hSnodup hsub).length_le
  have hkd : ((frequency_to_item L).map Prod.snd).length = items.dedup.length := by
    apply List.Perm.length_eq
    rw [List.perm_ext_iff_of_nodup hSnodup (List.nodup_dedup _)]
    intro a
    rw [hSmem, List.mem_dedup]
  have hphi : ∀ x ∈ items, lookup (item_ids L) x =
      1 + ((frequency_to_item L).map Prod.snd).indexOf x := by
    intro x hx
    unfold item_ids
    rw [lookup_number _ _ _ hSnodup (by
      have : (frequency_to_item L).length = ((frequency_to_item L).map Prod.snd).length := by
        simp
      omega)]
    simp [(hSmem x).2 hx]
  generalize hK : (frequency_to_item L).map Prod.snd = keys at *
  refine ⟨?_, ?_, ?_, ?_, ?_⟩
  · intro x hx
    rw [hphi x hx]
    have := List.indexOf_lt_length.2 ((hSmem x).2 hx)
    omega
  · intro j h1 h2
    have hj : j - 1 < keys.length := by omega
    refine ⟨keys[j - 1], (hSmem _).1 (List.getElem_mem _), ?_⟩
    rw [hphi _ ((hSmem _).1 (List.getElem_mem _)), List.indexOf_getElem hSnodup]
    omega
  · intro x hx y hy hxy
    rw [hphi x hx, hphi y hy] at hxy
    exact (List.indexOf_inj ((hSmem x).2 hx) ((hSmem y).2 hy)).1 (by omega)
  · intro x hx y hy hlt
    rw [hphi x hx, hphi y hy]
    by_contra hcon
    have hne : keys.indexOf y ≠ keys.indexOf x := by
      intro e
      have := (List.indexOf_inj ((hSmem y).2 hy) ((hSmem x).2 hx)).1 e
      subst this
      omega
    have := rel_of_indexOf_lt keys hpw x y ((hSmem x).2 hx) (by omega)
    unfold pair_le at this
    simp only [hcount] at this
    omega
  · intro x hx y hy heq hlt
    rw [hphi x hx, hphi y hy]
    by_contra hcon
    have hne : keys.indexOf y ≠ keys.indexOf x := by
      intro e
      have := (List.indexOf_inj ((hSmem y).2 hy) ((hSmem x).2 hx)).1 e
      subst this
      omega
    have := rel_of_indexOf_lt keys hpw x y ((hSmem x).2 hx) (by omega)
    unfold pair_le at this
    simp only [hcount] at this
    omega

end FixItems

/-- The claim C22 as stated fails: on the records `{5,5}`, `{3}`, `{3}` the
item `5` occurs in one record and the item `3` in two, but each occurs twice,
so `3` gets the new id `1` and `5` the new id `2`. -/
theorem C22_item_fixer_counterexample :
    (([[5, 5], [3], [3]] : List ItemSet).filter (fun clause => decide (5 ∈ clause))).length <
      (([[5, 5], [3], [3]] : List ItemSet).filter (fun clause => decide (3 ∈ clause))).length ∧
    FixItems.lookup (FixItems.item_ids ([5, 5, 3, 3].foldl FixItems.increment [])) 3 = 1 ∧
    FixItems.lookup (FixItems.item_ids ([5, 5, 3, 3].foldl FixItems.increment [])) 5 = 2 ∧
    (FixItems (World.start (DataSourceIterator.Get [(0, [5, 5]), (1, [3]), (2, [3])]))
        { opens := true, failing_write := none, closes := true } false
        (fun a b => decide (a.item < b.item)) (fun a b => decide (a.size < b.size)) 4).map
      (fun r => (r.1, r.2.1)) =
      Except.ok (true, [SetProperties.Create 1 [1], SetProperties.Create 2 [1],
        SetProperties.Create 0 [2, 2]]) := by
  decide!

/-- Claim C22, amended: the frequency of an item is its number of occurrences
in the input, repetitions within a record counted.  For an input of fewer
than `2 ^ 32` item occurrences whose output file can be written, `FixItems`
returns `true` and writes one set per input record, with the position of the
record as its id; there is a map `new_id` from the `k` distinct item ids of
the input onto `1..k`, one to one, such that an item with strictly fewer
occurrences gets a smaller new id, items with the same number of occurrences
are ordered by their original ids, and every output set is the ascending sort
of the image of its input record. -/
theorem C22_item_fixer (records : List Record) (out : FixItems.OutputFile)
    (by_cardinality : Bool)
    (compare_set_properties compare_set_properties_cardinality :
      SetProperties → SetProperties → Bool)
    (fuel : Nat) (hopen : out.opens = true) (hwrite : out.failing_write = none)
    (hclose : out.closes = true)
    (htotal : ((records.map Prod.snd).flatten).length < 2 ^ 32)
    (hfuel : records.length + 1 ≤ fuel) :
    ∃ (new_id : Nat → Nat) (written : List SetProperties) (data' : World),
      FixItems (World.start (DataSourceIterator.Get records)) out by_cardinality
        compare_set_properties compare_set_properties_cardinality fuel =
        Except.ok (true, written, data') ∧
      (written.map SetProperties.set_id).Perm (List.range records.length) ∧
      (∀ set ∈ written, ∃ clause, (records.map Prod.snd).get? set.set_id = some clause ∧
        set.item.Sorted (· ≤ ·) ∧ set.item.Perm (clause.map new_id)) ∧
      (∀ x ∈ (records.map Prod.snd).flatten,
        1 ≤ new_id x ∧ new_id x ≤ (records.map Prod.snd).flatten.dedup.length) ∧
      (∀ j, 1 ≤ j → j ≤ (records.map Prod.snd).flatten.dedup.length →
        ∃ x ∈ (records.map Prod.snd).flatten, new_id x = j) ∧
      (∀ x ∈ (records.map Prod.snd).flatten, ∀ y ∈ (records.map Prod.snd).flatten,
        new_id x = new_id y → x = y) ∧
      (∀ x ∈ (records.map Prod.snd).flatten, ∀ y ∈ (records.map Prod.snd).flatten,
        (records.map Prod.snd).flatten.count x < (records.map Prod.snd).flatten.count y →
        new_id x < new_id y) ∧
      (∀ x ∈ (records.map Prod.snd).flatten, ∀ y ∈ (records.map Prod.snd).flatten,
        (records.map Prod.snd).flatten.count x = (records.map Prod.snd).flatten.count y →
        x < y → new_id x < new_id y) := by
  obtain ⟨s', hread, hclauses, hliterals⟩ := FixItems.read_all records fuel
    { data := World.start (DataSourceIterator.Get records), vector_id := 0, clause := [],
      literals := [], clauses := [] } rfl (Nat.zero_le _) (by simpa [World.start,
        DataSourceIterator.Get] using hfuel)
  have hpos0 : (DataSourceIterator.Get records).pos = 0 := rfl
  simp only [World.start, hpos0, List.drop_zero, List.nil_append] at hclauses
  simp only [World.start, hpos0, List.drop_zero] at hliterals
  obtain ⟨h1, h2, h3, h4, h5⟩ := FixItems.item_ids_spec _ htotal
  have hrun : ∃ written, FixItems (World.start (DataSourceIterator.Get records)) out
      by_cardinality compare_set_properties compare_set_properties_cardinality fuel =
        Except.ok (true, written, s'.data) ∧
      written.Perm (FixItems.convert (FixItems.item_ids s'.literals) s'.clauses 0) := by
    unfold FixItems
    simp only [hopen, hread, hclose, not_true_eq_false, if_false]
    have h00 : ((0 : Int) < 0) = False := by simp
    simp only [h00, if_false, FixItems.write_all out hwrite, not_true_eq_false]
    cases by_cardinality
    · exact ⟨_, rfl, List.perm_insertionSort _ _⟩
    · exact ⟨_, rfl, List.perm_insertionSort _ _⟩
  obtain ⟨written, hrun, hperm⟩ := hrun
  rw [hclauses, hliterals] at hperm
  refine ⟨FixItems.lookup (FixItems.item_ids
    ((records.map Prod.snd).flatten.foldl FixItems.increment [])), written, s'.data, hrun,
    ?_, ?_, h1, h2, h3, h4, h5⟩
  · have := hperm.map SetProperties.set_id
    rw [FixItems.convert_ids] at this
    simpa [List.range_eq_range'] using this
  · intro set hset
    obtain ⟨clause, k1, _, k3⟩ := FixItems.convert_mem _ _ _ _ (hperm.mem_iff.1 hset)
    refine ⟨clause, by simpa using k1, ?_, ?_⟩
    · rw [k3]
      exact List.sorted_insertionSort _ _
    · rw [k3]
      exact List.perm_insertionSort _ _

/-- An instance of C22 (amended): the records `{7,2,9}`, `{9,2}`, `{9}`, sorted
by cardinality; the new ids are `7 ↦ 1`, `2 ↦ 2`, `9 ↦ 3`. -/
theorem C22_item_fixer_witness :
    (∃ (new_id : Nat → Nat) (written : List SetProperties) (data' : World),
      FixItems (World.start (DataSourceIterator.Get [(0, [7, 2, 9]), (1, [9, 2]), (2, [9])]))
        { opens := true, failing_write := none, closes := true } true
        (fun a b => decide (a.item < b.item)) (fun a b => decide (a.size < b.size)) 4 =
        Except.ok (true, written, data') ∧
      (written.map SetProperties.set_id).Perm (List.range 3) ∧
      (∀ set ∈ written, ∃ clause,
        ([[7, 2, 9], [9, 2], [9]] : List ItemSet).get? set.set_id = some clause ∧
        set.item.Sorted (· ≤ ·) ∧ set.item.Perm (clause.map new_id)) ∧
      (∀ x ∈ [7, 2, 9, 9, 2, 9], 1 ≤ new_id x ∧ new_id x ≤ 3) ∧
      (∀ j, 1 ≤ j → j ≤ 3 → ∃ x ∈ [7, 2, 9, 9, 2, 9], new_id x = j) ∧
      (∀ x ∈ [7, 2, 9, 9, 2, 9], ∀ y ∈ [7, 2, 9, 9, 2, 9], new_id x = new_id y → x = y) ∧
      (∀ x ∈ [7, 2, 9, 9, 2, 9], ∀ y ∈ [7, 2, 9, 9, 2, 9],
        [7, 2, 9, 9, 2, 9].count x < [7, 2, 9, 9, 2, 9].count y → new_id x < new_id y) ∧
      (∀ x ∈ [7, 2, 9, 9, 2, 9], ∀ y ∈ [7, 2, 9, 9, 2, 9],
        [7, 2, 9, 9, 2, 9].count x = [7, 2, 9, 9, 2, 9].count y → x < y →
        new_id x < new_id y)) ∧
    (FixItems (World.start (DataSourceIterator.Get [(0, [7, 2, 9]), (1, [9, 2]), (2, [9])]))
        { opens := true, failing_write := none, closes := true } true
        (fun a b => decide (a.item < b.item)) (fun a b => decide (a.size < b.size)) 4).map
      (fun r => (r.1, r.2.1)) =
      Except.ok (true, [SetProperties.Create 2 [3], SetProperties.Create 1 [2, 3],
        SetProperties.Create 0 [1, 2, 3]]) :=
  ⟨C22_item_fixer [(0, [7, 2, 9]), (1, [9, 2]), (2, [9])]
      { opens := true, failing_write := none, closes := true } true
      (fun a b => decide (a.item < b.item)) (fun a b => decide (a.size < b.size)) 4 rfl rfl rfl
      (by decide) (by decide),
    by decide!⟩

/-! ## The cardinality engine keeps every maximal set -/

/-- Two strictly increasing lists with the same members are equal. -/
theorem eq_of_increasing_of_mem_iff (a b : List Nat) (ha : a.Pairwise (· < ·))
    (hb : b.Pairwise (· < ·)) (h : ∀ x, x ∈ a ↔ x ∈ b) : a = b := by
  have hna : a.Nodup := ha.imp (fun h => Nat.ne_of_lt h)
  have hnb : b.Nodup := hb.imp (fun h => Nat.ne_of_lt h)
  have hperm : a.Perm b := (List.perm_ext_iff_of_nodup hna hnb).2 h
  exact List.eq_of_perm_of_sorted hperm ha hb

/-- A strictly increasing list whose members all belong to another strictly
increasing list is equal to it or a proper subset of it. -/
theorem proper_subset_of_subset_of_ne (a b : List Nat) (ha : a.Pairwise (· < ·))
    (hb : b.Pairwise (· < ·)) (hsub : ∀ x ∈ a, x ∈ b) (hne : a ≠ b) : proper_subset a b := by
  refine ⟨hsub, ?_⟩
  by_contra hcon
  apply hne
  apply eq_of_increasing_of_mem_iff a b ha hb
  intro x
  constructor
  · exact hsub x
  · intro hx
    by_contra hxa
    exact hcon ⟨x, hx, hxa⟩

theorem emitted_ids_append (a b : List Event) :
    emitted_ids (a ++ b) = emitted_ids a ++ emitted_ids b := by
  induction a with
  | nil => rfl
  | cons e rest ih =>
    cases e <;> simp [emitted_ids, ih]

namespace AllMaximalSetsCardinality

theorem filterMap_set_none_sublist (l : CandidateList) (i : Nat) :
    ((l.set i none).filterMap id).Sublist (l.filterMap id) := by
  induction l generalizing i with
  | nil => simp
  | cons x l ih =>
    cases i with
    | zero =>
      cases x with
      | none => simp
      | some s => simp
    | succ i =>
      cases x with
      | none => simpa using ih i
      | some s => simpa using ih i

theorem walk_sublist (current_set : ItemSet) (i : Nat) (current_begin : List Nat)
    (fuel : Nat) (candidates : CandidateList) (candidate_index : Int) (checks : Nat) :
    ((DeleteSubsumedCandidates.walk current_set i current_begin fuel candidates
      candidate_index checks).1.filterMap id).Sublist (candidates.filterMap id) := by
  induction fuel generalizing candidates candidate_index checks with
  | zero => exact List.Sublist.refl _
  | succ fuel ih =>
    unfold DeleteSubsumedCandidates.walk
    split
    · exact List.Sublist.refl _
    · simp only
      refine (ih _ _ _).trans ?_
      split
      · exact filterMap_set_none_sublist _ _
      · exact List.Sublist.refl _

end AllMaximalSetsCardinality

namespace AllMaximalSetsCardinality

theorem World.print_emitted (w : World) (m : SetProperties) (mode : OutputModeEnum)
    (hmode : mode ≠ OutputModeEnum.COUNT_ONLY) :
    emitted_ids (w.print m mode).trace = emitted_ids w.trace ++ [m.set_id] := by
  cases mode
  · exact absurd rfl hmode
  · simp [World.print, emitted_ids_append, emitted_ids]
  · simp [World.print, emitted_ids_append, emitted_ids]

end AllMaximalSetsCardinality

namespace AllMaximalSetsCardinality

end AllMaximalSetsCardinality

namespace AllMaximalSetsCardinality

end AllMaximalSetsCardinality

namespace AllMaximalSetsLexicographic

theorem skip_null_lt_spec (cs : CandidateList) (last : Nat) (hlast : last ≤ cs.length) :
    ∀ (n it : Nat), last - it = n → it ≤ last →
      ∃ r, skip_null_lt (cs.drop it) it last = Except.ok r ∧ it ≤ r ∧ r ≤ last ∧
        (∀ p, it ≤ p → p < r → cs[p]? = some none) ∧
        (r < last → ∃ s, cs[r]? = some (some s)) := by
  intro n
  induction n with
  | zero =>
    intro it hn hle
    have : it = last := by omega
    subst this
    refine ⟨it, ?_, le_refl _, le_refl _, ?_, ?_⟩
    · unfold skip_null_lt
      simp
    · intro p h1 h2
      omega
    · intro h
      omega
  | succ n ih =>
    intro it hn hle
    have hlt : it < last := by omega
    have hitc : it < cs.length := by omega
    rw [List.drop_eq_getElem_cons hitc]
    cases hslot : cs[it] with
    | some s =>
      refine ⟨it, ?_, le_refl _, hle, ?_, ?_⟩
      · unfold skip_null_lt
        simp [hlt]
      · intro p h1 h2
        omega
      · intro _
        exact ⟨s, by rw [List.getElem?_eq_getElem hitc, hslot]⟩
    | none =>
      obtain ⟨r, hr, h1, h2, h3, h4⟩ := ih (it + 1) (by omega) (by omega)
      refine ⟨r, ?_, by omega, h2, ?_, h4⟩
      · unfold skip_null_lt
        simp only [hlt, not_true_eq_false, if_false]
        exact hr
      · intro p hp1 hp2
        by_cases hp : p = it
        · subst hp
          rw [List.getElem?_eq_getElem hitc, hslot]
        · exact h3 p (by omega) hp2

theorem skip_null_ne_eq_lt (slots : CandidateList) (it last : Nat) (hle : it ≤ last) :
    skip_null_ne slots it last = skip_null_lt slots it last := by
  induction slots generalizing it with
  | nil =>
    unfold skip_null_ne skip_null_lt
    by_cases h : it = last
    · simp [h]
    · have : it < last := by omega
      simp [h, this]
  | cons x rest ih =>
    unfold skip_null_ne skip_null_lt
    by_cases h : it = last
    · simp [h]
    · have hlt : it < last := by omega
      simp only [h, hlt, if_false, not_true_eq_false]
      cases x with
      | none => exact ih (it + 1) (by omega)
      | some s => rfl

theorem skip_null_ne_spec (cs : CandidateList) (it last : Nat) (hlast : last ≤ cs.length)
    (hle : it ≤ last) :
    ∃ r, skip_null_ne (cs.drop it) it last = Except.ok r ∧ it ≤ r ∧ r ≤ last ∧
      (∀ p, it ≤ p → p < r → cs[p]? = some none) ∧
      (r < last → ∃ s, cs[r]? = some (some s)) := by
  rw [skip_null_ne_eq_lt _ _ _ hle]
  exact skip_null_lt_spec cs last hlast _ it rfl hle

theorem skip_null_lt_live (cs : CandidateList) (it last : Nat) (s : SetProperties)
    (hlt : it < last) (hs : cs[it]? = some (some s)) :
    skip_null_lt (cs.drop it) it last = Except.ok it := by
  have hitc : it < cs.length := by
    rcases Nat.lt_or_ge it cs.length with h | h
    · exact h
    · rw [List.getElem?_eq_none h] at hs
      cases hs
  rw [List.drop_eq_getElem_cons hitc]
  have : cs[it] = some s := by
    rw [List.getElem?_eq_getElem hitc] at hs
    exact Option.some.inj hs
  rw [this]
  unfold skip_null_lt
  simp [hlt]

/-- The loop of `find_new_it`: from a live `first` with `comp` true on every
live entry before it and false on every live entry from `first + len` on, the
loop ends at the first live entry on which `comp` is false, or at `last`. -/
theorem find_new_it.search_spec (comp : Nat → Nat → Bool) (cs : CandidateList)
    (lo last current_item depth : Nat) (hlast : last ≤ cs.length)
    (hdepth : ∀ p s, lo ≤ p → p < last → cs[p]? = some (some s) → depth < s.item.length)
    (hmono : ∀ p q s t, lo ≤ p → p < q → q < last → cs[p]? = some (some s) →
      cs[q]? = some (some t) → comp current_item (t.item.getD depth 0) = true →
      comp current_item (s.item.getD depth 0) = true) :
    ∀ (fuel first : Nat) (len : Int), len.toNat ≤ fuel → lo ≤ first → first < last →
      (∃ s, cs[first]? = some (some s)) → len ≤ (last : Int) - first →
      (∀ p s, lo ≤ p → p < first → cs[p]? = some (some s) →
        comp current_item (s.item.getD depth 0) = true) →
      (∀ (p : Nat) s, (first : Int) + len ≤ (p : Int) → p < last → cs[p]? = some (some s) →
        comp current_item (s.item.getD depth 0) = false) →
      ∃ r, find_new_it.search comp cs last current_item depth fuel first len = Except.ok r ∧
        lo ≤ r ∧ r ≤ last ∧
        (∀ p s, lo ≤ p → p < r → cs[p]? = some (some s) →
          comp current_item (s.item.getD depth 0) = true) ∧
        (r < last → ∃ s, cs[r]? = some (some s) ∧
          comp current_item (s.item.getD depth 0) = false) := by
  intro fuel
  induction fuel with
  | zero =>
    intro first len hfuel hlo hfl hfirst hlen hbefore hafter
    have hlen0 : ¬ len > 0 := by omega
    obtain ⟨s, hs⟩ := hfirst
    refine ⟨first, ?_, hlo, by omega, hbefore, fun _ => ⟨s, hs, hafter first s (by omega) hfl hs⟩⟩
    unfold find_new_it.search
    simp only [hlen0, if_false, read, List.get?_eq_getElem?, hs]
  | succ fuel ih =>
    intro first len hfuel hlo hfl hfirst hlen hbefore hafter
    by_cases hlen0 : len > 0
    · unfold find_new_it.search
      simp only [hlen0, if_true]
      have hhalf0 : 0 ≤ len / 2 := Int.ediv_nonneg (by omega) (by omega)
      have hhalf1 : len / 2 < len := by omega
      obtain ⟨cur, hcur, hc1, hc2, hc3, hc4⟩ := skip_null_lt_spec cs last hlast _
        (first + (len / 2).toNat) rfl (by omega)
      simp only [bind, Except.bind, hcur]
      by_cases hcl : cur = last
      · simp only [hcl, if_true]
        refine ih first (len / 2) (by omega) hlo hfl hfirst (by omega) hbefore ?_
        intro p s hp1 hp2 hps
        have := hc3 p (by omega) (by omega)
        rw [this] at hps
        cases hps
      · simp only [hcl, if_false]
        obtain ⟨t, ht⟩ := hc4 (by omega)
        have htd := hdepth cur t (by omega) (by omega) ht
        have hitem : item_at t depth = Except.ok (t.item.getD depth 0) := by
          unfold item_at
          rw [List.get?_eq_getElem?, List.getElem?_eq_getElem htd]
          simp [List.getD_eq_getElem?_getD, List.getElem?_eq_getElem htd]
        simp only [read, List.get?_eq_getElem?, ht, deref, hitem]
        cases hcomp : comp current_item (t.item.getD depth 0) with
        | false =>
          simp only [Bool.false_eq_true, if_false]
          refine ih first (len / 2) (by omega) hlo hfl hfirst (by omega) hbefore ?_
          intro p s hp1 hp2 hps
          rcases Nat.lt_or_ge p cur with hpc | hpc
          · have := hc3 p (by omega) hpc
            rw [this] at hps
            cases hps
          · rcases Nat.eq_or_lt_of_le hpc with hpe | hpl
            · subst hpe
              rw [ht] at hps
              cases hps
              exact hcomp
            · cases hps' : comp current_item (s.item.getD depth 0) with
              | false => rfl
              | true =>
                have := hmono cur p t s (by omega) hpl hp2 ht hps hps'
                rw [this] at hcomp
                cases hcomp
        | true =>
          simp only [if_true]
          obtain ⟨fl, hfl', hf1, hf2, hf3, hf4⟩ := skip_null_lt_spec cs last hlast _
            (first + (len / 2).toNat + 1) rfl (by omega)
          simp only [hfl']
          have hbefore' : ∀ p s, lo ≤ p → p < fl → cs[p]? = some (some s) →
              comp current_item (s.item.getD depth 0) = true := by
            intro p s hp1 hp2 hps
            rcases Nat.lt_or_ge p first with hpf | hpf
            · exact hbefore p s hp1 hpf hps
            · rcases Nat.lt_or_ge p cur with hpc | hpc
              · exact hmono p cur s t hp1 hpc (by omega) hps ht hcomp
              · rcases Nat.eq_or_lt_of_le hpc with hpe | hpl
                · subst hpe
                  rw [ht] at hps
                  cases hps
                  exact hcomp
                · have := hf3 p (by omega) hp2
                  rw [this] at hps
                  cases hps
          by_cases hfll : fl = last
          · simp only [hfll, if_true]
            subst hfll
            exact ⟨fl, rfl, by omega, le_refl _, hbefore', fun h => absurd h (lt_irrefl _)⟩
          · simp only [hfll, if_false]
            refine ih fl _ (by omega) (by omega) (by omega) (hf4 (by omega)) (by omega)
              hbefore' ?_
            intro p s hp1 hp2 hps
            exact hafter p s (by omega) hp2 hps
    · obtain ⟨s, hs⟩ := hfirst
      refine ⟨first, ?_, hlo, by omega, hbefore, fun _ => ⟨s, hs, hafter first s (by omega) hfl hs⟩⟩
      unfold find_new_it.search
      simp only [hlen0, if_false, read, List.get?_eq_getElem?, hs]

end AllMaximalSetsLexicographic

theorem List.lt_cons_cons_iff (x y : Nat) (a b : List Nat) :
    x :: a < y :: b ↔ x < y ∨ (x = y ∧ a < b) := by
  constructor
  · intro h
    cases h with
    | rel h => exact Or.inl h
    | cons h => exact Or.inr ⟨rfl, h⟩
  · intro h
    rcases h with h | ⟨h1, h2⟩
    · exact List.Lex.rel h
    · subst h1
      exact List.Lex.cons h2

theorem List.not_lt_nil_right (a : List Nat) : ¬ a < [] := by
  intro h
  cases h

theorem List.nil_lt_cons_nat (x : Nat) (a : List Nat) : ([] : List Nat) < x :: a :=
  List.Lex.nil

/-- Between a sequence and a sequence it is a prefix of, the lexicographic
order only holds sequences with that prefix. -/
theorem prefix_of_between (a b c : List Nat) (hab : a < b) (hbc : ¬ c < b) (hac : a <+: c) :
    a <+: b := by
  induction a generalizing b c with
  | nil => exact List.nil_prefix
  | cons x a ih =>
    obtain ⟨rest, hrest⟩ := hac
    subst hrest
    cases b with
    | nil => exact absurd hab (List.not_lt_nil_right _)
    | cons y b =>
      rw [List.lt_cons_cons_iff] at hab
      simp only [List.cons_append, List.lt_cons_cons_iff, not_or, not_and] at hbc
      rcases hab with hxy | ⟨hxy, hab⟩
      · exact absurd hxy hbc.1
      · subst hxy
        have := ih b (a ++ rest) hab (hbc.2 rfl) (List.prefix_append _ _)
        exact (List.prefix_cons_inj x).2 this

theorem prefix_length_lt_of_lt (a b : List Nat) (hab : a < b) (hpre : a <+: b) :
    a.length < b.length := by
  obtain ⟨rest, hrest⟩ := hpre
  subst hrest
  cases rest with
  | nil =>
    rw [List.append_nil] at hab
    exact absurd hab (lt_irrefl _)
  | cons x rest => simp

theorem lt_of_proper_initial_segment (a b : List Nat) (h : proper_initial_segment a b) : a < b := by
  obtain ⟨⟨rest, hrest⟩, hlen⟩ := h
  subst hrest
  induction a with
  | nil =>
    cases rest with
    | nil => simp at hlen
    | cons x rest => exact List.nil_lt_cons_nat _ _
  | cons x a ih =>
    rw [List.cons_append, List.lt_cons_cons_iff]
    exact Or.inr ⟨rfl, ih (by simpa using hlen)⟩

namespace AllMaximalSetsLexicographic

theorem DeleteTriviallySubsumedCandidates.same_items_spec (candidate other : SetProperties) :
    ∀ (todo j : Nat), j + todo = candidate.size → candidate.size ≤ other.size →
      DeleteTriviallySubsumedCandidates.same_items candidate other todo j =
        Except.ok (decide (candidate.item.drop j <+: other.item.drop j)) := by
  intro todo
  induction todo with
  | zero =>
    intro j hj hle
    unfold DeleteTriviallySubsumedCandidates.same_items
    have : candidate.item.drop j = [] := List.drop_of_length_le (by
      unfold SetProperties.size at hj
      omega)
    rw [this]
    simp
  | succ todo ih =>
    intro j hj hle
    unfold SetProperties.size at hj hle
    have h1 : j < candidate.item.length := by omega
    have h2 : j < other.item.length := by omega
    unfold DeleteTriviallySubsumedCandidates.same_items
    simp only [item_at, List.get?_eq_getElem?, List.getElem?_eq_getElem h1,
      List.getElem?_eq_getElem h2, bind, Except.bind]
    rw [List.drop_eq_getElem_cons h1, List.drop_eq_getElem_cons h2]
    by_cases hxy : candidate.item[j] = other.item[j]
    · simp only [hxy, ne_eq, not_true_eq_false, if_false]
      rw [ih (j + 1) (by unfold SetProperties.size; omega) (by unfold SetProperties.size; omega)]
      simp only [List.prefix_cons_inj]
    · simp only [ne_eq, hxy, not_false_eq_true, if_true]
      congr 1
      symm
      rw [decide_eq_false_iff_not]
      intro h
      exact hxy (List.cons_prefix_cons.1 h).1

/-- The loop of `DeleteTriviallySubsumedCandidates` over the positions below
`i`, started with the positions below `i` live: it ends without a fault, and a
position is tombstoned exactly when its set is a proper prefix of a later
one. -/
theorem DeleteTriviallySubsumedCandidates.prune_loop_spec (sets : List SetProperties)
    (hlex : sets.Pairwise (fun a b => a.item < b.item)) :
    ∀ (i : Nat) (self : AllMaximalSetsLexicographic) (nap : SetProperties),
      self.candidates_.length = sets.length →
      (∀ (k : Nat) (s : SetProperties), k < i → sets[k]? = some s → self.candidates_[k]? = some (some s)) →
      (∀ (k : Nat) (s : SetProperties), i ≤ k → sets[k]? = some s →
        (self.candidates_[k]? = some none ∧
          ∃ (j : Nat) (t : SetProperties), k < j ∧ sets[j]? = some t ∧ proper_initial_segment s.item t.item) ∨
        (self.candidates_[k]? = some (some s) ∧
          ∀ (j : Nat) (t : SetProperties), k < j → sets[j]? = some t → ¬ proper_initial_segment s.item t.item)) →
      (∃ s m, sets[i]? = some s ∧ s.item <+: nap.item ∧ i ≤ m ∧ sets[m]? = some nap) →
      ∃ self', DeleteTriviallySubsumedCandidates.loop i self nap = Except.ok self' ∧
        self'.candidates_.length = sets.length ∧
        self'.index_ = self.index_ ∧
        (∀ (k : Nat) (s : SetProperties), sets[k]? = some s →
          (self'.candidates_[k]? = some none ∧
            ∃ (j : Nat) (t : SetProperties), k < j ∧ sets[j]? = some t ∧ proper_initial_segment s.item t.item) ∨
          (self'.candidates_[k]? = some (some s) ∧
            ∀ (j : Nat) (t : SetProperties), k < j → sets[j]? = some t → ¬ proper_initial_segment s.item t.item)) := by
  intro i
  induction i with
  | zero =>
    intro self nap hlen _ hdone _
    refine ⟨self, ?_, hlen, rfl, fun k s hk => hdone k s (Nat.zero_le _) hk⟩
    unfold DeleteTriviallySubsumedCandidates.loop
    rfl
  | succ i ih =>
    intro self nap hlen hlive hdone hnap
    obtain ⟨s1, m, hs1, hpre1, hm, hmnap⟩ := hnap
    have hin : i < sets.length := by
      have := (List.getElem?_eq_some_iff.1 hs1).1
      omega
    have hsi : sets[i]? = some sets[i] := List.getElem?_eq_getElem hin
    have hci := hlive i sets[i] (by omega) hsi
    have hlt1 : sets[i].item < s1.item := by
      have := List.pairwise_iff_getElem.1 hlex i (i + 1) hin (List.getElem?_eq_some_iff.1 hs1).1
        (by omega)
      rw [(List.getElem?_eq_some_iff.1 hs1).2] at this
      exact this
    unfold DeleteTriviallySubsumedCandidates.loop
    simp only [read, List.get?_eq_getElem?, hci, deref, bind, Except.bind]
    by_cases hpp : proper_initial_segment sets[i].item nap.item
    · have hsz : sets[i].size < nap.size := hpp.2
      have hsame := DeleteTriviallySubsumedCandidates.same_items_spec sets[i] nap sets[i].size 0
        (by omega) (by omega)
      simp only [List.drop_zero, hpp.1, decide_True] at hsame
      simp only [hsz, if_true, hsame]
      have hset_len : (self.candidates_.set i none).length = sets.length := by
        rw [List.length_set]
        exact hlen
      obtain ⟨self', hrun, hlen', hidx', hall⟩ := ih
        { self with
          items_in_ram_ := (self.items_in_ram_ + 2 ^ 32 - sets[i].size % 2 ^ 32) % 2 ^ 32
          candidates_ := self.candidates_.set i none } nap hset_len
        (by
          intro k s hk hks
          simp only
          rw [List.getElem?_set_ne (by omega)]
          exact hlive k s (by omega) hks)
        (by
          intro k s hk hks
          simp only
          rcases Nat.eq_or_lt_of_le hk with hki | hki
          · subst hki
            rw [hsi] at hks
            cases hks
            left
            refine ⟨?_, m, nap, by omega, hmnap, hpp⟩
            rw [List.getElem?_set_self (by omega)]
          · rw [List.getElem?_set_ne (by omega)]
            exact hdone k s (by omega) hks)
        ⟨sets[i], m, hsi, hpp.1, by omega, hmnap⟩
      exact ⟨self', hrun, hlen', hidx', hall⟩
    · have hrest : ∃ self', DeleteTriviallySubsumedCandidates.loop i self sets[i] =
          Except.ok self' ∧ self'.candidates_.length = sets.length ∧
          self'.index_ = self.index_ ∧
          (∀ (k : Nat) (s : SetProperties), sets[k]? = some s →
            (self'.candidates_[k]? = some none ∧
              ∃ (j : Nat) (t : SetProperties), k < j ∧ sets[j]? = some t ∧
                proper_initial_segment s.item t.item) ∨
            (self'.candidates_[k]? = some (some s) ∧
              ∀ (j : Nat) (t : SetProperties), k < j → sets[j]? = some t →
                ¬ proper_initial_segment s.item t.item)) := by
        refine ih self sets[i] hlen (fun k s hk hks => hlive k s (by omega) hks) ?_
          ⟨sets[i], i, hsi, List.prefix_refl _, le_refl _, hsi⟩
        intro k s hk hks
        rcases Nat.eq_or_lt_of_le hk with hki | hki
        · subst hki
          rw [hsi] at hks
          cases hks
          right
          refine ⟨hci, ?_⟩
          intro j t hj hjt hppj
          apply hpp
          have hjn := (List.getElem?_eq_some_iff.1 hjt).1
          have hnot : ¬ t.item < s1.item := by
            rcases Nat.eq_or_lt_of_le (Nat.succ_le_of_lt hj) with hj1 | hj1
            · have : sets[i + 1]? = some t := by
                rw [show i + 1 = j from hj1]
                exact hjt
              rw [hs1] at this
              cases this
              exact lt_irrefl _
            · have := List.pairwise_iff_getElem.1 hlex (i + 1) j
                (List.getElem?_eq_some_iff.1 hs1).1 hjn hj1
              rw [(List.getElem?_eq_some_iff.1 hs1).2, (List.getElem?_eq_some_iff.1 hjt).2] at this
              exact lt_asymm this
          have hp1 := prefix_of_between _ _ _ hlt1 hnot hppj.1
          have hl1 := prefix_length_lt_of_lt _ _ hlt1 hp1
          exact ⟨hp1.trans hpre1, lt_of_lt_of_le hl1 hpre1.length_le⟩
        · exact hdone k s (by omega) hks
      by_cases hsz : sets[i].size < nap.size
      · have hsame := DeleteTriviallySubsumedCandidates.same_items_spec sets[i] nap
          sets[i].size 0 (by omega) (by omega)
        have hnp : ¬ sets[i].item <+: nap.item := fun h => hpp ⟨h, hsz⟩
        simp only [List.drop_zero, hnp, decide_False] at hsame
        simp only [hsz, if_true, hsame, Bool.false_eq_true, if_false]
        exact hrest
      · simp only [hsz, if_false, Bool.false_eq_true]
        exact hrest

theorem DeleteTriviallySubsumedCandidates_spec (self : AllMaximalSetsLexicographic)
    (sets : List SetProperties) (hne : sets ≠ []) (hchunk : self.candidates_ = sets.map some)
    (hlex : sets.Pairwise (fun a b => a.item < b.item)) :
    ∃ self', DeleteTriviallySubsumedCandidates self = Except.ok self' ∧
      self'.candidates_.length = sets.length ∧
      self'.index_ = self.index_ ∧
      (∀ (k : Nat) (s : SetProperties), sets[k]? = some s →
        (self'.candidates_[k]? = some none ∧
          ∃ (j : Nat) (t : SetProperties), k < j ∧ sets[j]? = some t ∧ proper_initial_segment s.item t.item) ∨
        (self'.candidates_[k]? = some (some s) ∧
          ∀ (j : Nat) (t : SetProperties), k < j → sets[j]? = some t → ¬ proper_initial_segment s.item t.item)) := by
  have hlen : self.candidates_.length = sets.length := by
    rw [hchunk, List.length_map]
  have hpos : 0 < sets.length := List.length_pos.2 hne
  have hget : ∀ (k : Nat) (s : SetProperties), sets[k]? = some s → self.candidates_[k]? = some (some s) := by
    intro k s hk
    rw [hchunk, List.getElem?_map, hk]
    rfl
  have hlast : sets[sets.length - 1]? = some sets[sets.length - 1] :=
    List.getElem?_eq_getElem (by omega)
  unfold DeleteTriviallySubsumedCandidates
  have h0 : ¬ sets.length = 0 := by omega
  simp only [read, List.get?_eq_getElem?, hlen, hget _ _ hlast, deref, bind,
    Except.bind, h0, if_false]
  refine DeleteTriviallySubsumedCandidates.prune_loop_spec sets hlex _ self _ hlen
    (fun k s _ hks => hget k s hks) ?_
    ⟨_, sets.length - 1, hlast, List.prefix_refl _, le_refl _, hlast⟩
  intro k s hk hks
  right
  refine ⟨hget k s hks, ?_⟩
  intro j t hj hjt
  have := (List.getElem?_eq_some_iff.1 hjt).1
  omega

end AllMaximalSetsLexicographic

theorem getD_set_nat (l : List Nat) (x v i : Nat) (hx : x < l.length) :
    (l.set x v).getD i 0 = if i = x then v else l.getD i 0 := by
  rw [List.getD_eq_getElem?_getD, List.getD_eq_getElem?_getD, List.getElem?_set]
  by_cases h : x = i
  · subst h
    simp [hx]
  · have h' : ¬ i = x := fun e => h e.symm
    simp [h, h']

theorem getD_resize_zero (l : List Nat) (n : Nat) (hn : 0 < n) :
    (resize l n 0).getD 0 0 = l.getD 0 0 := by
  unfold resize
  cases l with
  | nil =>
    cases n with
    | zero => omega
    | succ n => simp [List.replicate_succ]
  | cons x l =>
    cases n with
    | zero => omega
    | succ n => simp

theorem getElem?_filterMap_append_cons {α : Type} (a : List α) (x : α) (b : List α) :
    (a ++ x :: b)[a.length]? = some x := by
  rw [List.getElem?_append_right (le_refl _)]
  simp

namespace AllMaximalSetsLexicographic

theorem BuildIndex.fill_spec (value : Nat) :
    ∀ (todo item : Nat) (index : List Nat), item + todo ≤ index.length →
      ∃ index', BuildIndex.fill value todo item index = Except.ok index' ∧
        index'.length = index.length ∧
        ∀ v, index'.getD v 0 = if item ≤ v ∧ v < item + todo then value else index.getD v 0 := by
  intro todo
  induction todo with
  | zero =>
    intro item index _
    refine ⟨index, rfl, rfl, fun v => ?_⟩
    have : ¬ (item ≤ v ∧ v < item + 0) := by omega
    simp only [this, if_false]
  | succ todo ih =>
    intro item index hle
    have hlt : item < index.length := by omega
    obtain ⟨index', hrun, hlen, hget⟩ := ih (item + 1) (index.set item value) (by
      rw [List.length_set]
      omega)
    refine ⟨index', ?_, ?_, ?_⟩
    · unfold BuildIndex.fill
      simp only [hlt, if_true]
      exact hrun
    · rw [hlen, List.length_set]
    · intro v
      rw [hget v, getD_set_nat _ _ _ _ hlt]
      split_ifs <;> first | rfl | omega

theorem item_at_first (s : SetProperties) (h : s.item ≠ []) :
    item_at s 0 = Except.ok (s.item.getD 0 0) := by
  unfold item_at
  cases hi : s.item with
  | nil => exact absurd hi h
  | cons x l => rfl

/-- The main loop of `BuildIndex` keeps its invariant and ends without a
fault. -/
theorem BuildIndex.loop_built (c : CandidateList) (F : Nat)
    (hsorted : (c.filterMap id).Pairwise (fun a b => a.item.getD 0 0 ≤ b.item.getD 0 0))
    (hne : ∀ u ∈ c.filterMap id, u.item ≠ [])
    (hF : ∀ u ∈ c.filterMap id, u.item.getD 0 0 ≤ F) :
    ∀ (rest done : CandidateList) (s : BuildIndex.Locals), c = done ++ rest →
      s.self.index_.length = F + 1 →
      s.built (c.filterMap id) c.length done.length (done.filterMap id).length →
      ∃ s', BuildIndex.loop rest done.length s = Except.ok s' ∧
        s'.self.index_.length = F + 1 ∧
        s'.built (c.filterMap id) c.length c.length (c.filterMap id).length := by
  intro rest
  induction rest with
  | nil =>
    intro done s hc hlen hinv
    rw [List.append_nil] at hc
    subst hc
    exact ⟨s, rfl, hlen, hinv⟩
  | cons slot rest ih =>
    intro done s hc hlen hinv
    have hc' : c = (done ++ [slot]) ++ rest := by
      rw [hc, List.append_assoc]
      rfl
    have hdl : (done ++ [slot]).length = done.length + 1 := by simp
    cases slot with
    | none =>
      have hfm : (done ++ [none]).filterMap id = done.filterMap id := by
        simp [List.filterMap_append]
      have := ih (done ++ [none]) { s with blanks := s.blanks + 1 } hc' hlen (by
        rw [hfm, hdl]
        obtain ⟨h1, h2, h3, h4, h5, h6, h7⟩ := hinv
        exact ⟨by simp only; omega, h2, h3, h4, h5, h6, h7⟩)
      rw [hdl] at this
      unfold BuildIndex.loop
      exact this
    | some candidate =>
      have hfm : (done ++ [some candidate]).filterMap id = done.filterMap id ++ [candidate] := by
        simp [List.filterMap_append]
      have hL : c.filterMap id = done.filterMap id ++ candidate :: rest.filterMap id := by
        rw [hc, List.filterMap_append]
        rfl
      have hLm : (c.filterMap id)[(done.filterMap id).length]? = some candidate := by
        rw [hL]
        exact getElem?_filterMap_append_cons _ _ _
      have hmem : candidate ∈ c.filterMap id := by
        rw [hL]
        simp
      have hcne := hne candidate hmem
      have hmle : (done.filterMap id).length ≤ done.length := List.length_filterMap_le _ _
      have hclen : c.length = done.length + 1 + rest.length := by
        rw [hc]
        simp
        omega
      obtain ⟨h1, h2, h3, h4, h5, h6, h7⟩ := hinv
      have hib : done.length - s.blanks = (done.filterMap id).length := by omega
      have hset3 : ∀ (j : Nat) (t : SetProperties), j < (done.filterMap id).length + 1 →
          (c.filterMap id)[j]? = some t →
          (s.self.candidates_.set (done.filterMap id).length (some candidate))[j]? =
            some (some t) := by
        intro j t hj hjt
        rcases Nat.eq_or_lt_of_le (Nat.le_of_lt_succ hj) with hjm | hjm
        · subst hjm
          rw [hLm] at hjt
          cases hjt
          rw [List.getElem?_set_self (by omega)]
        · rw [List.getElem?_set_ne (by omega)]
          exact h3 j t hjm hjt
      have hsorted' := List.pairwise_iff_getElem.1 hsorted
      have hle_of : ∀ (p q : Nat) (u w : SetProperties), p ≤ q → (c.filterMap id)[p]? = some u →
          (c.filterMap id)[q]? = some w → u.item.getD 0 0 ≤ w.item.getD 0 0 := by
        intro p q u w hpq hu hw
        rcases Nat.eq_or_lt_of_le hpq with he | hl
        · subst he
          rw [hu] at hw
          cases hw
          exact le_refl _
        · have := hsorted' p q (List.getElem?_eq_some_iff.1 hu).1
            (List.getElem?_eq_some_iff.1 hw).1 hl
          rw [(List.getElem?_eq_some_iff.1 hu).2, (List.getElem?_eq_some_iff.1 hw).2] at this
          exact this
      unfold BuildIndex.loop
      simp only [hib]
      rw [← hdl]
      cases hbc : s.begin_candidate with
      | none =>
        have hm0 : (done.filterMap id).length = 0 := by
          rcases Nat.eq_zero_or_pos (done.filterMap id).length with h | h
          · exact h
          · obtain ⟨b, t, hb, _⟩ := h6 h
            rw [hbc] at hb
            cases hb
        have hp0 := (h5 hm0).2
        simp only [bind, Except.bind]
        refine ih (done ++ [some candidate]) _ hc' hlen ?_
        rw [hfm, hdl, List.length_append, List.length_singleton]
        refine ⟨by simp only; omega, by simp only [List.length_set]; exact h2, hset3, h4,
          fun h => absurd h (by omega), fun _ => ?_, ?_⟩
        · refine ⟨(done.filterMap id).length, candidate, rfl, rfl, by omega, hLm, ?_, ?_, ?_⟩
          · intro p u hp
            omega
          · simp only [hp0]
            exact Nat.zero_le _
          · intro p u hp1 hp2 hpu
            have : p = (done.filterMap id).length := by omega
            subst this
            rw [hLm] at hpu
            cases hpu
            rfl
        · intro v hv1 hv2
          simp only [hp0] at hv2
          omega
      | some begin_candidate =>
        have hmpos : 0 < (done.filterMap id).length := by
          rcases Nat.eq_zero_or_pos (done.filterMap id).length with h | h
          · have := (h5 h).1
            rw [hbc] at this
            cases this
          · exact h
        obtain ⟨b, t, hb, hbi, hbm, hbt, hbefore, hprev, hblock⟩ := h6 hmpos
        rw [hbc] at hb
        cases hb
        have htmem : begin_candidate ∈ c.filterMap id := List.mem_iff_getElem?.2 ⟨_, hbt⟩
        simp only [bind, Except.bind, item_at_first _ hcne, item_at_first _ (hne _ htmem)]
        by_cases hnew : candidate.item.getD 0 0 ≠ begin_candidate.item.getD 0 0
        · simp only [hnew, ne_eq, not_false_eq_true, if_true]
          have hgF := hF _ htmem
          obtain ⟨index', hfill, hflen, hfget⟩ := BuildIndex.fill_spec
            s.begin_candidate_index.toNat
            (begin_candidate.item.getD 0 0 + 1 - (s.previous_item + 1)) (s.previous_item + 1)
            s.self.index_ (by omega)
          simp only [hfill]
          refine ih (done ++ [some candidate]) _ hc' (by simp only; rw [hflen]; exact hlen) ?_
          rw [hfm, hdl, List.length_append, List.length_singleton]
          have hcg : begin_candidate.item.getD 0 0 ≤ candidate.item.getD 0 0 :=
            hle_of b _ _ _ (by omega) hbt hLm
          refine ⟨by simp only; omega, by simp only [List.length_set]; exact h2, hset3, ?_,
            fun h => absurd h (by omega), fun _ => ?_, ?_⟩
          · simp only
            rw [hfget 0]
            have : ¬ (s.previous_item + 1 ≤ 0 ∧ 0 < s.previous_item + 1 +
                (begin_candidate.item.getD 0 0 + 1 - (s.previous_item + 1))) := by omega
            simp only [this, if_false]
            exact h4
          · refine ⟨(done.filterMap id).length, candidate, rfl, rfl, by omega, hLm, ?_, hcg, ?_⟩
            · intro p u hp hpu
              simp only
              rcases Nat.lt_or_ge p b with hpb | hpb
              · exact le_trans (hbefore p u hpb hpu) hprev
              · exact le_of_eq (hblock p u hpb hp hpu)
            · intro p u hp1 hp2 hpu
              have : p = (done.filterMap id).length := by omega
              subst this
              rw [hLm] at hpu
              cases hpu
              rfl
          · intro v hv1 hv2
            simp only at hv2 ⊢
            rw [hfget v]
            by_cases hvold : v ≤ s.previous_item
            · have : ¬ (s.previous_item + 1 ≤ v ∧ v < s.previous_item + 1 +
                  (begin_candidate.item.getD 0 0 + 1 - (s.previous_item + 1))) := by omega
              simp only [this, if_false]
              exact h7 v hv1 hvold
            · have : s.previous_item + 1 ≤ v ∧ v < s.previous_item + 1 +
                  (begin_candidate.item.getD 0 0 + 1 - (s.previous_item + 1)) := by omega
              simp only [this, and_self, if_true, hbi, Int.toNat_ofNat]
              refine ⟨le_of_lt (List.getElem?_eq_some_iff.1 hbt).1, ?_⟩
              intro p u hpu
              constructor
              · intro hpb
                have := hbefore p u hpb hpu
                omega
              · intro hlt
                rcases Nat.lt_or_ge p b with hpb | hpb
                · exact hpb
                · have := hle_of b p _ _ hpb hbt hpu
                  omega
        · have hsame : candidate.item.getD 0 0 = begin_candidate.item.getD 0 0 := by
            by_contra h
            exact hnew h
          simp only [hsame, ne_eq, not_true_eq_false, if_false]
          refine ih (done ++ [some candidate]) _ hc' hlen ?_
          rw [hfm, hdl, List.length_append, List.length_singleton]
          refine ⟨by simp only; omega, by simp only [List.length_set]; exact h2, hset3, h4,
            fun h => absurd h (by omega), fun _ => ?_, h7⟩
          refine ⟨b, begin_candidate, rfl, hbi, by omega, hbt, hbefore, hprev, ?_⟩
          intro p u hp1 hp2 hpu
          rcases Nat.eq_or_lt_of_le (Nat.le_of_lt_succ hp2) with hpm | hpm
          · subst hpm
            rw [hLm] at hpu
            cases hpu
            exact hsame
          · exact hblock p u hp1 hpm hpu

end AllMaximalSetsLexicographic

namespace AllMaximalSetsLexicographic

theorem getLast?_filterMap_of_live (c : CandidateList) (back : SetProperties)
    (hlast : c.getLast? = some (some back)) : (c.filterMap id).getLast? = some back := by
  obtain ⟨front, hfront⟩ : ∃ front, c = front ++ [some back] := by
    rcases List.eq_nil_or_concat c with h | ⟨front, x, h⟩
    · rw [h] at hlast
      cases hlast
    · rw [h, List.concat_eq_append, List.getLast?_append] at hlast
      simp at hlast
      exact ⟨front, by rw [h, List.concat_eq_append, hlast]⟩
  rw [hfront, List.filterMap_append]
  simp

theorem getLast?_eq_getElem?_pred {α : Type} (l : List α) : l.getLast? = l[l.length - 1]? := by
  rw [List.getLast?_eq_getElem?]

theorem BuildIndex_spec (self : AllMaximalSetsLexicographic) (back : SetProperties)
    (hlast : self.candidates_.getLast? = some (some back))
    (hne : ∀ u ∈ self.candidates_.filterMap id, u.item ≠ [])
    (hsorted : (self.candidates_.filterMap id).Pairwise
      (fun a b => a.item.getD 0 0 ≤ b.item.getD 0 0))
    (hzero : self.index_.getD 0 0 = 0) :
    ∃ self', BuildIndex self = Except.ok self' ∧
      self'.candidates_ = (self.candidates_.filterMap id).map some ∧
      self'.index_.length = back.item.getD 0 0 + 1 ∧
      self'.index_.getD 0 0 = 0 ∧
      ∀ (v : Nat), v < self'.index_.length →
        self'.index_.getD v 0 ≤ (self.candidates_.filterMap id).length ∧
        ∀ (p : Nat) (u : SetProperties), (self.candidates_.filterMap id)[p]? = some u →
          (p < self'.index_.getD v 0 ↔ u.item.getD 0 0 < v) := by
  have hLlast := getLast?_filterMap_of_live _ _ hlast
  have hLlast' : (self.candidates_.filterMap id)[(self.candidates_.filterMap id).length - 1]? =
      some back := by
    rw [← getLast?_eq_getElem?_pred]
    exact hLlast
  have hbackmem : back ∈ self.candidates_.filterMap id := List.mem_iff_getElem?.2 ⟨_, hLlast'⟩
  have hlen0 : ¬ self.candidates_.length = 0 := by
    intro h
    rw [List.length_eq_zero] at h
    rw [h] at hlast
    cases hlast
  have hLpos : 0 < (self.candidates_.filterMap id).length := List.length_pos_of_mem hbackmem
  have hsorted' := List.pairwise_iff_getElem.1 hsorted
  have hle_of : ∀ (p q : Nat) (u w : SetProperties), p ≤ q →
      (self.candidates_.filterMap id)[p]? = some u →
      (self.candidates_.filterMap id)[q]? = some w → u.item.getD 0 0 ≤ w.item.getD 0 0 := by
    intro p q u w hpq hu hw
    rcases Nat.eq_or_lt_of_le hpq with he | hl
    · subst he
      rw [hu] at hw
      cases hw
      exact le_refl _
    · have := hsorted' p q (List.getElem?_eq_some_iff.1 hu).1
        (List.getElem?_eq_some_iff.1 hw).1 hl
      rw [(List.getElem?_eq_some_iff.1 hu).2, (List.getElem?_eq_some_iff.1 hw).2] at this
      exact this
  have hF : ∀ u ∈ self.candidates_.filterMap id, u.item.getD 0 0 ≤ back.item.getD 0 0 := by
    intro u hu
    obtain ⟨p, hp⟩ := List.mem_iff_getElem?.1 hu
    exact hle_of p _ u back (by
      have := (List.getElem?_eq_some_iff.1 hp).1
      omega) hp hLlast'
  obtain ⟨s', hloop, hilen, h1, h2, h3, h4, h5, h6, h7⟩ := BuildIndex.loop_built self.candidates_
    (back.item.getD 0 0) hsorted hne hF self.candidates_ []
    { self := { self with index_ := resize self.index_ (back.item.getD 0 0 + 1) 0 },
      blanks := 0, begin_candidate_index := -1, begin_candidate := none, previous_item := 0 }
    rfl (length_resize _ _ _)
    ⟨rfl, rfl, fun j t hj => absurd hj (by simp), by
      simp only
      rw [getD_resize_zero _ _ (by omega)]
      exact hzero, fun _ => ⟨rfl, rfl⟩, fun h => absurd h (by simp), fun v hv1 hv2 => by
      simp only at hv2
      omega⟩
  obtain ⟨b, t, hb, hbi, hbm, hbt, hbefore, hprev, hblock⟩ := h6 hLpos
  have htmem : t ∈ self.candidates_.filterMap id := List.mem_iff_getElem?.2 ⟨_, hbt⟩
  have htback : t.item.getD 0 0 = back.item.getD 0 0 :=
    (hblock _ back (by omega) (by omega) hLlast').symm
  obtain ⟨index', hfill, hflen, hfget⟩ := BuildIndex.fill_spec s'.begin_candidate_index.toNat
    (t.item.getD 0 0 + 1 - (s'.previous_item + 1)) (s'.previous_item + 1) s'.self.index_
    (by omega)
  have hread : self.candidates_[self.candidates_.length - 1]? = some (some back) := by
    rw [← getLast?_eq_getElem?_pred]
    exact hlast
  refine ⟨{ s'.self with
            index_ := index'
            candidates_ := resize s'.self.candidates_ (s'.self.candidates_.length - s'.blanks)
              none }, ?_, ?_, ?_, ?_, ?_⟩
  · unfold BuildIndex
    simp only [hlen0, if_false, read, List.get?_eq_getElem?, hread, deref, bind, Except.bind,
      item_at_first _ (hne _ hbackmem), List.length_nil] at hloop ⊢
    simp only [hloop, hb, deref, item_at_first _ (hne _ htmem), hfill]
  · simp only
    have hsz : s'.self.candidates_.length - s'.blanks = (self.candidates_.filterMap id).length := by
      omega
    rw [hsz]
    unfold resize
    have : (self.candidates_.filterMap id).length - s'.self.candidates_.length = 0 := by
      have := List.length_filterMap_le id self.candidates_
      omega
    rw [this, List.replicate_zero, List.append_nil]
    apply List.ext_getElem?
    intro j
    rcases Nat.lt_or_ge j (self.candidates_.filterMap id).length with hj | hj
    · rw [List.getElem?_take_of_lt hj, List.getElem?_map,
        h3 j _ hj (List.getElem?_eq_getElem hj), List.getElem?_eq_getElem hj]
      rfl
    · rw [List.getElem?_eq_none (by simp; omega), List.getElem?_eq_none (by simp; omega)]
  · simp only
    rw [hflen, hilen]
  · simp only
    rw [hfget 0]
    have : ¬ (s'.previous_item + 1 ≤ 0 ∧ 0 < s'.previous_item + 1 +
        (t.item.getD 0 0 + 1 - (s'.previous_item + 1))) := by omega
    simp only [this, if_false]
    exact h4
  · intro v hv
    simp only at hv ⊢
    rw [hflen, hilen] at hv
    rw [hfget v]
    by_cases hv0 : v = 0
    · subst hv0
      have : ¬ (s'.previous_item + 1 ≤ 0 ∧ 0 < s'.previous_item + 1 +
          (t.item.getD 0 0 + 1 - (s'.previous_item + 1))) := by omega
      simp only [this, if_false, h4]
      exact ⟨Nat.zero_le _, fun p u _ => ⟨fun h => absurd h (by omega), fun h => absurd h (by omega)⟩⟩
    · by_cases hvold : v ≤ s'.previous_item
      · have : ¬ (s'.previous_item + 1 ≤ v ∧ v < s'.previous_item + 1 +
            (t.item.getD 0 0 + 1 - (s'.previous_item + 1))) := by omega
        simp only [this, if_false]
        exact h7 v (by omega) hvold
      · have : s'.previous_item + 1 ≤ v ∧ v < s'.previous_item + 1 +
            (t.item.getD 0 0 + 1 - (s'.previous_item + 1)) := by omega
        simp only [this, and_self, if_true, hbi, Int.toNat_ofNat]
        refine ⟨by omega, ?_⟩
        intro p u hpu
        constructor
        · intro hpb
          have := hbefore p u hpb hpu
          omega
        · intro hlt
          rcases Nat.lt_or_ge p b with hpb | hpb
          · exact hpb
          · have := hle_of b p _ _ hpb hbt hpu
            omega

end AllMaximalSetsLexicographic

namespace AllMaximalSetsLexicographic

theorem tombstoned_live {D : Nat → SetProperties → Prop} {cs cs' : CandidateList}
    (h : tombstoned D cs cs') (p : Nat) (s : SetProperties) (hs : cs'[p]? = some (some s)) :
    cs[p]? = some (some s) ∧ ¬ D p s := by
  obtain ⟨hlen, hall⟩ := h
  have hp : p < cs.length := by
    rw [← hlen]
    rcases Nat.lt_or_ge p cs'.length with h | h
    · exact h
    · rw [List.getElem?_eq_none h] at hs
      cases hs
  cases hslot : cs[p] with
  | none =>
    have := (hall p).1 (by rw [List.getElem?_eq_getElem hp, hslot])
    rw [this] at hs
    cases hs
  | some t =>
    have ht : cs[p]? = some (some t) := by rw [List.getElem?_eq_getElem hp, hslot]
    by_cases hD : D p t
    · have := ((hall p).2 t ht).1 hD
      rw [this] at hs
      cases hs
    · have := ((hall p).2 t ht).2 hD
      rw [this] at hs
      cases hs
      exact ⟨ht, hD⟩

theorem tombstoned_none {D : Nat → SetProperties → Prop} {cs cs' : CandidateList}
    (h : tombstoned D cs cs') (p : Nat) (hs : cs[p]? = some none) : cs'[p]? = some none :=
  (h.2 p).1 hs

theorem tombstoned_keep {D : Nat → SetProperties → Prop} {cs cs' : CandidateList}
    (h : tombstoned D cs cs') (p : Nat) (s : SetProperties) (hs : cs[p]? = some (some s))
    (hD : ¬ D p s) : cs'[p]? = some (some s) :=
  ((h.2 p).2 s hs).2 hD

theorem tombstoned_refl (D : Nat → SetProperties → Prop) (cs : CandidateList)
    (hD : ∀ (p : Nat) (s : SetProperties), cs[p]? = some (some s) → ¬ D p s) :
    tombstoned D cs cs :=
  ⟨rfl, fun p => ⟨fun h => h, fun s hs => ⟨fun h => absurd h (hD p s hs), fun _ => hs⟩⟩⟩

theorem tombstoned_congr {D D' : Nat → SetProperties → Prop} {cs cs' : CandidateList}
    (h : tombstoned D cs cs')
    (hD : ∀ (p : Nat) (s : SetProperties), cs[p]? = some (some s) → (D' p s ↔ D p s)) :
    tombstoned D' cs cs' :=
  ⟨h.1, fun p => ⟨(h.2 p).1, fun s hs =>
    ⟨fun hd => ((h.2 p).2 s hs).1 ((hD p s hs).1 hd),
      fun hd => ((h.2 p).2 s hs).2 (fun hd' => hd ((hD p s hs).2 hd'))⟩⟩⟩

theorem tombstoned_trans {D1 D2 D : Nat → SetProperties → Prop} {cs cs1 cs2 : CandidateList}
    (h1 : tombstoned D1 cs cs1) (h2 : tombstoned D2 cs1 cs2)
    (hD : ∀ (p : Nat) (s : SetProperties), cs[p]? = some (some s) → (D p s ↔ D1 p s ∨ D2 p s)) :
    tombstoned D cs cs2 := by
  refine ⟨h2.1.trans h1.1, fun p => ⟨fun h => (h2.2 p).1 ((h1.2 p).1 h), fun s hs => ⟨?_, ?_⟩⟩⟩
  · intro hd
    by_cases hd1 : D1 p s
    · exact (h2.2 p).1 (((h1.2 p).2 s hs).1 hd1)
    · have hd2 : D2 p s := by
        rcases (hD p s hs).1 hd with h | h
        · exact absurd h hd1
        · exact h
      exact ((h2.2 p).2 s (((h1.2 p).2 s hs).2 hd1)).1 hd2
  · intro hd
    have hd1 : ¬ D1 p s := fun h => hd ((hD p s hs).2 (Or.inl h))
    have hd2 : ¬ D2 p s := fun h => hd ((hD p s hs).2 (Or.inr h))
    exact ((h2.2 p).2 s (((h1.2 p).2 s hs).2 hd1)).2 hd2

theorem tombstoned_set (cs : CandidateList) (i : Nat) (s : SetProperties)
    (hs : cs[i]? = some (some s)) : tombstoned (fun p _ => p = i) cs (cs.set i none) := by
  have hi : i < cs.length := (List.getElem?_eq_some_iff.1 hs).1
  refine ⟨List.length_set _ _ _, fun p => ?_⟩
  by_cases hp : p = i
  · subst hp
    rw [List.getElem?_set_self hi]
    exact ⟨fun _ => rfl, fun t _ => ⟨fun _ => rfl, fun h => absurd rfl h⟩⟩
  · rw [List.getElem?_set_ne (fun h => hp h.symm)]
    exact ⟨fun h => h, fun t ht => ⟨fun h => absurd h hp, fun _ => ht⟩⟩

theorem chunk_sorted_tombstoned {D : Nat → SetProperties → Prop} {cs cs' : CandidateList}
    (h : tombstoned D cs cs') (hs : chunk_sorted cs) : chunk_sorted cs' :=
  ⟨fun p s hp => hs.1 p s (tombstoned_live h p s hp).1,
    fun p q s t hpq hp hq => hs.2 p q s t hpq (tombstoned_live h p s hp).1
      (tombstoned_live h q t hq).1⟩

theorem chunk_indexed_tombstoned {D : Nat → SetProperties → Prop} {cs cs' : CandidateList}
    (index : List Nat) (h : tombstoned D cs cs') (hs : chunk_indexed cs index) :
    chunk_indexed cs' index :=
  ⟨fun v hv => by
    rw [h.1]
    exact hs.1 v hv, fun p s hp => hs.2 p s (tombstoned_live h p s hp).1⟩

end AllMaximalSetsLexicographic

theorem List.append_lt_append_left_nat (pre a b : List Nat) : pre ++ a < pre ++ b ↔ a < b := by
  induction pre with
  | nil => rfl
  | cons x pre ih =>
    rw [List.cons_append, List.cons_append, List.lt_cons_cons_iff]
    constructor
    · intro h
      rcases h with h | ⟨_, h⟩
      · exact absurd h (lt_irrefl _)
      · exact ih.1 h
    · intro h
      exact Or.inr ⟨rfl, ih.2 h⟩

theorem getD_append_length (pre rest : List Nat) (x : Nat) :
    (pre ++ x :: rest).getD pre.length 0 = x := by
  rw [List.getD_eq_getElem?_getD, List.getElem?_append_right (le_refl _)]
  simp

theorem drop_append_length (pre rest : List Nat) : (pre ++ rest).drop pre.length = rest := by
  simp

/-- Two sequences with a common prefix of length `depth`, both longer than
`depth` and in lexicographic order, are in order at position `depth`. -/
theorem column_le_of_lt (pre a b : List Nat) (ha : pre <+: a) (hb : pre <+: b)
    (hla : pre.length < a.length) (hlb : pre.length < b.length) (hab : a < b) :
    a.getD pre.length 0 ≤ b.getD pre.length 0 := by
  obtain ⟨a', rfl⟩ := ha
  obtain ⟨b', rfl⟩ := hb
  rw [List.append_lt_append_left_nat] at hab
  cases a' with
  | nil => simp at hla
  | cons x a' =>
    cases b' with
    | nil => simp at hlb
    | cons y b' =>
      rw [getD_append_length, getD_append_length]
      rw [List.lt_cons_cons_iff] at hab
      rcases hab with h | ⟨h, _⟩
      · exact le_of_lt h
      · exact le_of_eq h

/-- A sequence that is not longer than a common prefix cannot follow a
sequence with that prefix in lexicographic order. -/
theorem length_gt_of_lt_of_prefix (pre a b : List Nat) (ha : pre <+: a) (hb : pre <+: b)
    (hab : a < b) : pre.length < b.length := by
  obtain ⟨a', rfl⟩ := ha
  obtain ⟨b', rfl⟩ := hb
  rw [List.append_lt_append_left_nat] at hab
  cases b' with
  | nil => exact absurd hab (List.not_lt_nil_right _)
  | cons y b' => simp

theorem getD_mem_drop (a : List Nat) (d : Nat) (h : d < a.length) : a.getD d 0 ∈ a.drop d := by
  rw [List.drop_eq_getElem_cons h, List.getD_eq_getElem?_getD, List.getElem?_eq_getElem h]
  exact List.mem_cons_self _ _

/-- In a strictly increasing sequence the items after position `d` are larger
than the item at position `d`. -/
theorem lt_of_mem_drop_succ (a : List Nat) (hinc : a.Pairwise (· < ·)) (d x : Nat)
    (hx : x ∈ a.drop (d + 1)) : a.getD d 0 < x := by
  have hd : d < a.length := by
    by_contra h
    rw [List.drop_of_length_le (by omega)] at hx
    cases hx
  rw [← List.drop_drop, List.drop_eq_getElem_cons hd] at hx
  · have hp : (a.drop d).Pairwise (· < ·) := hinc.sublist (List.drop_sublist _ _)
    rw [List.drop_eq_getElem_cons hd, List.pairwise_cons] at hp
    rw [List.getD_eq_getElem?_getD, List.getElem?_eq_getElem hd]
    exact hp.1 x (by simpa using hx)

theorem lower_bound_spec (it : List Nat) (value : Nat) :
    (∀ x ∈ lower_bound it value, x ∈ it) ∧
    (∀ x ∈ it, value ≤ x → x ∈ lower_bound it value) ∧
    (lower_bound it value).length ≤ it.length ∧
    (it.Pairwise (· < ·) → (lower_bound it value).Pairwise (· < ·)) ∧
    (∀ x rest, lower_bound it value = x :: rest → value ≤ x) := by
  unfold lower_bound
  refine ⟨fun x hx => (List.dropWhile_suffix _).subset hx, ?_, 
    (List.dropWhile_suffix _).length_le, fun h => h.sublist (List.dropWhile_suffix _).sublist, ?_⟩
  · induction it with
    | nil => intro x hx; cases hx
    | cons y it ih =>
      intro x hx hv
      rw [List.dropWhile_cons]
      by_cases hy : y < value
      · simp only [hy, decide_True, if_true]
        rcases List.mem_cons.1 hx with h | h
        · omega
        · exact ih x h hv
      · simp only [hy, decide_False, Bool.false_eq_true, if_false]
        exact hx
  · intro x rest hx
    have := List.head_dropWhile_not (fun x => decide (x < value)) it
    by_contra hcon
    have hne : List.dropWhile (fun x => decide (x < value)) it ≠ [] := by
      rw [hx]
      exact List.cons_ne_nil _ _
    have h2 := this hne
    simp only [hx, List.head_cons] at h2
    simp at h2
    omega

namespace AllMaximalSetsLexicographic

theorem find_new_it_result (comp : Nat → Nat → Bool) (cs : CandidateList)
    (first last current_item depth : Nat) (hrange : first < last) (hlast : last ≤ cs.length)
    (hfirst : ∃ s, cs[first]? = some (some s))
    (hdepth : ∀ (p : Nat) (s : SetProperties), first ≤ p → p < last →
      cs[p]? = some (some s) → depth < s.item.length)
    (hmono : ∀ (p q : Nat) (s t : SetProperties), first ≤ p → p < q → q < last →
      cs[p]? = some (some s) → cs[q]? = some (some t) →
      comp current_item (t.item.getD depth 0) = true →
      comp current_item (s.item.getD depth 0) = true) :
    ∃ r, find_new_it comp cs first last current_item depth = Except.ok r ∧
      first ≤ r ∧ r ≤ last ∧
      (∀ (p : Nat) (s : SetProperties), first ≤ p → p < r → cs[p]? = some (some s) →
        comp current_item (s.item.getD depth 0) = true) ∧
      (r < last → ∃ s, cs[r]? = some (some s) ∧
        comp current_item (s.item.getD depth 0) = false) := by
  obtain ⟨s, hs⟩ := hfirst
  unfold find_new_it
  rw [skip_null_ne_eq_lt _ _ _ (by omega), skip_null_lt_live cs first last s hrange hs]
  simp only [bind, Except.bind]
  exact find_new_it.search_spec comp cs first last current_item depth hlast hdepth hmono
    ((last : Int) - first).toNat first ((last : Int) - first) (le_refl _) (le_refl _) hrange
    ⟨s, hs⟩ (le_refl _) (fun p s hp1 hp2 _ => absurd hp2 (by omega))
    (fun p s hp1 hp2 _ => absurd hp2 (by omega))

theorem DeleteSubsumedSets.delete_spec (cs0 : CandidateList) (e depth : Nat)
    (he : e ≤ cs0.length) :
    ∀ (n b : Nat) (self : AllMaximalSetsLexicographic), e - b = n → b ≤ e →
      self.candidates_.length = cs0.length →
      (∀ (p : Nat), b ≤ p → self.candidates_[p]? = cs0[p]?) →
      ∃ self1 b1, DeleteSubsumedSets.delete e depth (cs0.drop b) b self = Except.ok (self1, b1) ∧
        b ≤ b1 ∧ b1 ≤ e ∧
        (∀ (p : Nat), b ≤ p → p < b1 →
          cs0[p]? = some none ∨ ∃ s, cs0[p]? = some (some s) ∧ s.size = depth) ∧
        tombstoned (fun p _ => b ≤ p ∧ p < b1) self.candidates_ self1.candidates_ ∧
        (b1 < e → ∃ s, cs0[b1]? = some (some s) ∧ s.size ≠ depth) ∧
        self1.index_ = self.index_ ∧ self1.current_set_ = self.current_set_ := by
  intro n
  induction n with
  | zero =>
    intro b self hn hbe hlen hsame
    have : b = e := by omega
    subst this
    refine ⟨self, b, ?_, le_refl _, le_refl _, fun p h1 h2 => absurd h2 (by omega), ?_,
      fun h => absurd h (lt_irrefl _), rfl, rfl⟩
    · unfold DeleteSubsumedSets.delete
      simp
    · exact tombstoned_refl _ _ (fun p s _ h => by omega)
  | succ n ih =>
    intro b self hn hbe hlen hsame
    have hne : ¬ b = e := by omega
    have hb : b < cs0.length := by omega
    rw [List.drop_eq_getElem_cons hb]
    cases hslot : cs0[b] with
    | none =>
      obtain ⟨self1, b1, hrun, h1, h2, h3, h4, h5, h6⟩ := ih (b + 1) self (by omega) (by omega)
        hlen (fun p hp => hsame p (by omega))
      refine ⟨self1, b1, ?_, by omega, h2, ?_, ?_, h5, h6⟩
      · unfold DeleteSubsumedSets.delete
        simp only [hne, if_false]
        exact hrun
      · intro p hp1 hp2
        rcases Nat.eq_or_lt_of_le hp1 with hp | hp
        · subst hp
          left
          rw [List.getElem?_eq_getElem hb, hslot]
        · exact h3 p (by omega) hp2
      · refine tombstoned_congr h4 ?_
        intro p s hps
        constructor
        · intro ⟨ha, hb'⟩
          rcases Nat.eq_or_lt_of_le ha with hp | hp
          · subst hp
            rw [hsame b (le_refl _), List.getElem?_eq_getElem hb, hslot] at hps
            cases hps
          · exact ⟨by omega, hb'⟩
        · intro ⟨ha, hb'⟩
          exact ⟨by omega, hb'⟩
    | some candidate =>
      have hcb : cs0[b]? = some (some candidate) := by
        rw [List.getElem?_eq_getElem hb, hslot]
      by_cases hsz : candidate.size = depth
      · subst hsz
        obtain ⟨self1, b1, hrun, h1, h2, h3, h4, h5, h6, h7⟩ := ih (b + 1)
          { self with
            items_in_ram_ := (self.items_in_ram_ + 2 ^ 32 - candidate.size % 2 ^ 32) % 2 ^ 32
            candidates_ := self.candidates_.set b none } (by omega) (by omega)
          (by simp only [List.length_set]; exact hlen)
          (fun p hp => by
            simp only
            rw [List.getElem?_set_ne (by omega)]
            exact hsame p (by omega))
        refine ⟨self1, b1, ?_, by omega, h2, ?_, ?_, h5, h6, h7⟩
        · unfold DeleteSubsumedSets.delete
          simp only [hne, if_false, if_true]
          exact hrun
        · intro p hp1 hp2
          rcases Nat.eq_or_lt_of_le hp1 with hp | hp
          · subst hp
            right
            exact ⟨candidate, hcb, rfl⟩
          · exact h3 p (by omega) hp2
        · have hset := tombstoned_set self.candidates_ b candidate (by
            rw [hsame b (le_refl _)]
            exact hcb)
          refine tombstoned_trans hset h4 ?_
          intro p s _
          constructor
          · intro ⟨ha, hb'⟩
            rcases Nat.eq_or_lt_of_le ha with hp | hp
            · exact Or.inl hp.symm
            · exact Or.inr ⟨by omega, hb'⟩
          · intro h
            rcases h with h | ⟨ha, hb'⟩
            · subst h
              exact ⟨le_refl _, by omega⟩
            · exact ⟨by omega, hb'⟩
      · refine ⟨self, b, ?_, le_refl _, hbe, fun p h1 h2 => absurd h2 (by omega), ?_,
          fun _ => ⟨candidate, hcb, hsz⟩, rfl, rfl⟩
        · unfold DeleteSubsumedSets.delete
          simp only [hne, if_false, hsz]
        · exact tombstoned_refl _ _ (fun p s _ h => by omega)

theorem DeleteSubsumedSets_spec (self : AllMaximalSetsLexicographic) (probe : SetProperties)
    (b e depth : Nat) (hcur : self.current_set_ = some probe) (hbe : b ≤ e)
    (he : e ≤ self.candidates_.length) :
    ∃ self1 b1, DeleteSubsumedSets self b e depth = Except.ok (self1, b1) ∧
      b ≤ b1 ∧ b1 ≤ e ∧
      (∀ (p : Nat), b ≤ p → p < b1 →
        self.candidates_[p]? = some none ∨
        ∃ s, self.candidates_[p]? = some (some s) ∧ s.size = depth ∧ depth < probe.size) ∧
      tombstoned (fun p _ => b ≤ p ∧ p < b1) self.candidates_ self1.candidates_ ∧
      (b1 < e → ∃ s, self.candidates_[b1]? = some (some s) ∧
        (depth < probe.size → s.size ≠ depth)) ∧
      self1.index_ = self.index_ ∧ self1.current_set_ = self.current_set_ := by
  unfold DeleteSubsumedSets
  simp only [hcur, deref, bind, Except.bind]
  by_cases hsz : probe.size > depth
  · rw [if_pos hsz]
    obtain ⟨self1, b1, hrun, h1, h2, h3, h4, h5, h6, h7⟩ :=
      DeleteSubsumedSets.delete_spec self.candidates_ e depth he _ b self rfl hbe rfl
        (fun _ _ => rfl)
    refine ⟨self1, b1, hrun, h1, h2, ?_, h4, ?_, h6, h7.trans hcur⟩
    · intro p hp1 hp2
      rcases h3 p hp1 hp2 with h | ⟨s, hs, hd⟩
      · exact Or.inl h
      · exact Or.inr ⟨s, hs, hd, hsz⟩
    · intro hlt
      obtain ⟨s, hs, hd⟩ := h5 hlt
      exact ⟨s, hs, fun _ => hd⟩
  · rw [if_neg hsz]
    obtain ⟨r, hr, h1, h2, h3, h4⟩ := skip_null_ne_spec self.candidates_ b e he hbe
    simp only [hr]
    refine ⟨self, r, rfl, h1, h2, fun p hp1 hp2 => Or.inl (h3 p hp1 hp2), ?_, ?_, rfl, hcur⟩
    · refine tombstoned_refl _ _ ?_
      intro p s hps ⟨ha, hb'⟩
      rw [h3 p ha hb'] at hps
      cases hps
    · intro hlt
      obtain ⟨s, hs⟩ := h4 hlt
      exact ⟨s, hs, fun h => absurd h hsz⟩

theorem GetNewEndRangeIt_spec (self : AllMaximalSetsLexicographic) (b e depth : Nat)
    (candidate : SetProperties) (hbe : b < e) (he : e ≤ self.candidates_.length)
    (hb : self.candidates_[b]? = some (some candidate))
    (hsize : ∀ (p : Nat) (s : SetProperties), b ≤ p → p < e →
      self.candidates_[p]? = some (some s) → depth < s.item.length)
    (hcol : ∀ (p q : Nat) (s t : SetProperties), b ≤ p → p < q → q < e →
      self.candidates_[p]? = some (some s) → self.candidates_[q]? = some (some t) →
      s.item.getD depth 0 ≤ t.item.getD depth 0)
    (hzero : depth = 0 → e = self.candidates_.length ∧
      chunk_indexed self.candidates_ self.index_) :
    ∃ ne, GetNewEndRangeIt self b e (candidate.item.getD depth 0) depth =
        Except.ok ({ self with canidate_seek_count_ := self.canidate_seek_count_ + 1 }, ne) ∧
      b < ne ∧ ne ≤ e ∧
      (∀ (p : Nat) (s : SetProperties), b ≤ p → p < ne →
        self.candidates_[p]? = some (some s) →
        s.item.getD depth 0 = candidate.item.getD depth 0) ∧
      (∀ (p : Nat) (s : SetProperties), ne ≤ p → p < e →
        self.candidates_[p]? = some (some s) →
        candidate.item.getD depth 0 < s.item.getD depth 0) := by
  have hge : ∀ (p : Nat) (s : SetProperties), b ≤ p → p < e →
      self.candidates_[p]? = some (some s) →
      candidate.item.getD depth 0 ≤ s.item.getD depth 0 := by
    intro p s hp1 hp2 hps
    rcases Nat.eq_or_lt_of_le hp1 with h | h
    · subst h
      rw [hb] at hps
      cases hps
      exact le_refl _
    · exact hcol b p _ _ (le_refl _) h hp2 hb hps
  unfold GetNewEndRangeIt
  by_cases hd : depth = 0
  · obtain ⟨hend, hidx1, hidx2⟩ := hzero hd
    subst hd
    simp only [if_true, bind, Except.bind]
    by_cases hin : candidate.item.getD 0 0 + 1 < self.index_.length
    · simp only [hin, if_true]
      have hle := hidx1 _ hin
      have hble : self.index_.getD (candidate.item.getD 0 0 + 1) 0 ≤ e := by
        rw [hend]
        exact hle
      simp only [hble, if_true]
      refine ⟨_, rfl, ?_, hble, ?_, ?_⟩
      · exact ((hidx2 b candidate hb).2 _ hin).2 (by omega)
      · intro p s hp1 hp2 hps
        have h1 := ((hidx2 p s hps).2 _ hin).1 hp2
        have h2 := hge p s hp1 (by omega) hps
        omega
      · intro p s hp1 hp2 hps
        have h1 := ((hidx2 p s hps).2 _ hin)
        by_contra hcon
        have := h1.2 (by omega)
        omega
    · simp only [hin, if_false]
      refine ⟨e, rfl, hbe, le_refl _, ?_, fun p s hp1 hp2 => absurd hp2 (by omega)⟩
      intro p s hp1 hp2 hps
      have h1 := (hidx2 p s hps).1
      have h2 := hge p s hp1 hp2 hps
      omega
  · simp only [hd, if_false, bind, Except.bind]
    obtain ⟨r, hr, h1, h2, h3, h4⟩ := find_new_it_result (fun a b => decide (a = b))
      self.candidates_ b e (candidate.item.getD depth 0) depth hbe he ⟨candidate, hb⟩ hsize
      (by
        intro p q s t hp hpq hq hps hqt hc
        simp only [decide_eq_true_eq] at hc ⊢
        have := hcol p q s t hp hpq hq hps hqt
        have := hge p s hp (by omega) hps
        omega)
    simp only [hr]
    refine ⟨r, rfl, ?_, h2, ?_, ?_⟩
    · rcases Nat.eq_or_lt_of_le h1 with h | h
      · subst h
        obtain ⟨s, hs, hc⟩ := h4 hbe
        rw [hb] at hs
        cases hs
        simp at hc
      · exact h
    · intro p s hp1 hp2 hps
      have := h3 p s hp1 hp2 hps
      simp only [decide_eq_true_eq] at this
      exact this.symm
    · intro p s hp1 hp2 hps
      obtain ⟨t, ht, hc⟩ := h4 (by omega)
      simp only [decide_eq_false_iff_not] at hc
      have h5 := hge r t h1 (by omega) ht
      have h6 : t.item.getD depth 0 ≤ s.item.getD depth 0 := by
        rcases Nat.eq_or_lt_of_le hp1 with h | h
        · subst h
          rw [ht] at hps
          cases hps
          exact le_refl _
        · exact hcol r p _ _ h1 h hp2 ht hps
      omega

theorem GetNewBeginRangeIt_spec (self : AllMaximalSetsLexicographic) (b e depth item : Nat)
    (candidate : SetProperties) (hbe : b < e) (he : e ≤ self.candidates_.length)
    (hb : self.candidates_[b]? = some (some candidate))
    (hitem : candidate.item.getD depth 0 < item)
    (hsize : ∀ (p : Nat) (s : SetProperties), b ≤ p → p < e →
      self.candidates_[p]? = some (some s) → depth < s.item.length)
    (hcol : ∀ (p q : Nat) (s t : SetProperties), b ≤ p → p < q → q < e →
      self.candidates_[p]? = some (some s) → self.candidates_[q]? = some (some t) →
      s.item.getD depth 0 ≤ t.item.getD depth 0)
    (hzero : depth = 0 → e = self.candidates_.length ∧
      chunk_indexed self.candidates_ self.index_) :
    ∃ nb, GetNewBeginRangeIt self b e item depth =
        Except.ok ({ self with canidate_seek_count_ := self.canidate_seek_count_ + 1 }, nb) ∧
      b < nb ∧ nb ≤ e ∧
      (∀ (p : Nat) (s : SetProperties), b ≤ p → p < nb →
        self.candidates_[p]? = some (some s) → s.item.getD depth 0 < item) ∧
      (nb < e → ∃ s, self.candidates_[nb]? = some (some s) ∧ item ≤ s.item.getD depth 0) := by
  unfold GetNewBeginRangeIt
  by_cases hd : depth = 0
  · obtain ⟨hend, hidx1, hidx2⟩ := hzero hd
    subst hd
    simp only [if_true, bind, Except.bind]
    by_cases hin : item ≥ self.index_.length
    · simp only [hin, if_true]
      refine ⟨e, rfl, hbe, le_refl _, ?_, fun h => absurd h (lt_irrefl _)⟩
      intro p s hp1 hp2 hps
      have h1 := (hidx2 p s hps).1
      omega
    · simp only [hin, if_false]
      have hin' : item < self.index_.length := by omega
      have hbi : b < self.index_.getD item 0 := ((hidx2 b candidate hb).2 _ hin').2 hitem
      have hmax : (if self.index_.getD item 0 > b then self.index_.getD item 0 else b) =
          self.index_.getD item 0 := by
        simp only [gt_iff_lt, hbi, if_true]
      rw [hmax]
      have hie : self.index_.getD item 0 ≤ e := by
        rw [hend]
        exact hidx1 _ hin'
      obtain ⟨r, hr, h1, h2, h3, h4⟩ := skip_null_ne_spec self.candidates_ _ e he hie
      simp only [hr]
      refine ⟨r, rfl, by omega, h2, ?_, ?_⟩
      · intro p s hp1 hp2 hps
        rcases Nat.lt_or_ge p (self.index_.getD item 0) with h | h
        · exact ((hidx2 p s hps).2 _ hin').1 h
        · rw [h3 p h hp2] at hps
          cases hps
      · intro hlt
        obtain ⟨s, hs⟩ := h4 hlt
        refine ⟨s, hs, ?_⟩
        by_contra hcon
        have := ((hidx2 r s hs).2 _ hin').2 (by omega)
        omega
  · simp only [hd, if_false, bind, Except.bind]
    obtain ⟨r, hr, h1, h2, h3, h4⟩ := find_new_it_result (fun a b => decide (a > b))
      self.candidates_ b e item depth hbe he ⟨candidate, hb⟩ hsize
      (by
        intro p q s t hp hpq hq hps hqt hc
        simp only [gt_iff_lt, decide_eq_true_eq] at hc ⊢
        have := hcol p q s t hp hpq hq hps hqt
        omega)
    simp only [hr]
    refine ⟨r, rfl, ?_, h2, ?_, ?_⟩
    · rcases Nat.eq_or_lt_of_le h1 with h | h
      · subst h
        obtain ⟨s, hs, hc⟩ := h4 hbe
        rw [hb] at hs
        cases hs
        simp only [gt_iff_lt, decide_eq_false_iff_not] at hc
        omega
      · exact h
    · intro p s hp1 hp2 hps
      have := h3 p s hp1 hp2 hps
      simpa using this
    · intro hlt
      obtain ⟨s, hs, hc⟩ := h4 hlt
      simp only [gt_iff_lt, decide_eq_false_iff_not] at hc
      exact ⟨s, hs, by omega⟩

end AllMaximalSetsLexicographic

theorem getD_le_of_mem_drop (a : List Nat) (hinc : a.Pairwise (· < ·)) (d x : Nat)
    (hd : d < a.length) (hx : x ∈ a.drop d) : a.getD d 0 ≤ x := by
  rw [List.drop_eq_getElem_cons hd, List.mem_cons] at hx
  rcases hx with h | h
  · rw [h, List.getD_eq_getElem?_getD, List.getElem?_eq_getElem hd]
    rfl
  · exact le_of_lt (lt_of_mem_drop_succ a hinc d x h)

theorem drop_subset_cons_iff (a : List Nat) (hinc : a.Pairwise (· < ·)) (d : Nat)
    (hd : d < a.length) (rest : List Nat) :
    (∀ y ∈ a.drop d, y ∈ a.getD d 0 :: rest) ↔ (∀ y ∈ a.drop (d + 1), y ∈ rest) := by
  constructor
  · intro h y hy
    have h1 := lt_of_mem_drop_succ a hinc d y hy
    have h2 := h y (List.drop_subset_drop_left a (Nat.le_succ d) hy)
    rcases List.mem_cons.1 h2 with h3 | h3
    · omega
    · exact h3
  · intro h y hy
    rw [List.drop_eq_getElem_cons hd, List.mem_cons] at hy
    rcases hy with h1 | h1
    · rw [h1, List.getD_eq_getElem?_getD, List.getElem?_eq_getElem hd]
      exact List.mem_cons_self _ _
    · exact List.mem_cons_of_mem _ (h y h1)

theorem head_le_of_mem_increasing (x : Nat) (rest : List Nat)
    (hinc : (x :: rest).Pairwise (· < ·)) (y : Nat) (hy : y ∈ x :: rest) : x ≤ y := by
  rcases List.mem_cons.1 hy with h | h
  · omega
  · exact le_of_lt ((List.pairwise_cons.1 hinc).1 y h)

theorem prefix_snoc_getD (pre a : List Nat) (hpre : pre <+: a) (hlen : pre.length < a.length) :
    pre ++ [a.getD pre.length 0] <+: a := by
  obtain ⟨rest, rfl⟩ := hpre
  cases rest with
  | nil => simp at hlen
  | cons x rest =>
    rw [getD_append_length]
    exact ⟨rest, by simp⟩

namespace AllMaximalSetsLexicographic

theorem lower_bound_of_not_lt (item : Nat) (tl : List Nat) (value : Nat) (h : ¬ item < value) :
    lower_bound (item :: tl) value = item :: tl := by
  unfold lower_bound
  rw [List.dropWhile_cons]
  simp [h]

theorem item_at_getD (s : SetProperties) (d : Nat) (h : d < s.item.length) :
    item_at s d = Except.ok (s.item.getD d 0) := by
  unfold item_at
  rw [List.get?_eq_getElem?, List.getElem?_eq_getElem h, List.getD_eq_getElem?_getD,
    List.getElem?_eq_getElem h]
  rfl

/-- In a range whose live entries share their first `depth` items, an entry
that follows another live entry has more than `depth` items. -/
theorem DeleteSubsumedFromRange.ready_longer {self : AllMaximalSetsLexicographic}
    {probe : SetProperties} {b e : Nat} {it : List Nat} {depth : Nat} {pre : List Nat}
    (hready : DeleteSubsumedFromRange.ready self probe b e it depth pre)
    (p q : Nat) (s t : SetProperties) (hp : b ≤ p) (hpq : p < q) (hq : q < e)
    (hs : self.candidates_[p]? = some (some s)) (ht : self.candidates_[q]? = some (some t)) :
    depth < t.item.length := by
  obtain ⟨_, hsorted, _, _, hpre, hpref, _, _, _⟩ := hready
  rw [← hpre]
  exact length_gt_of_lt_of_prefix pre s.item t.item (hpref p s hp (by omega) hs)
    (hpref q t (by omega) hq ht) (hsorted.2 p q s t hpq hs ht)

/-- In a range whose live entries share their first `depth` items and have
more items than that, the items at position `depth` are in order. -/
theorem DeleteSubsumedFromRange.ready_column {self : AllMaximalSetsLexicographic}
    {probe : SetProperties} {b e : Nat} {it : List Nat} {depth : Nat} {pre : List Nat}
    (hready : DeleteSubsumedFromRange.ready self probe b e it depth pre)
    (hbig : ∀ (p : Nat) (s : SetProperties), b ≤ p → p < e →
      self.candidates_[p]? = some (some s) → depth < s.item.length)
    (p q : Nat) (s t : SetProperties) (hp : b ≤ p) (hpq : p < q) (hq : q < e)
    (hs : self.candidates_[p]? = some (some s)) (ht : self.candidates_[q]? = some (some t)) :
    s.item.getD depth 0 ≤ t.item.getD depth 0 := by
  obtain ⟨_, hsorted, _, _, hpre, hpref, _, _, _⟩ := hready
  have h1 := hbig p s hp (by omega) hs
  have h2 := hbig q t (by omega) hq ht
  rw [← hpre] at h1 h2 ⊢
  exact column_le_of_lt pre s.item t.item (hpref p s hp (by omega) hs)
    (hpref q t (by omega) hq ht) h1 h2 (hsorted.2 p q s t hpq hs ht)

/-- The conditions of a call carry over to a later state of the chunk in which
more entries are tombstoned, and to a smaller range with a later part of the
current set. -/
theorem DeleteSubsumedFromRange.ready_next {self self' : AllMaximalSetsLexicographic}
    {probe : SetProperties} {b e : Nat} {it : List Nat} {depth : Nat} {pre : List Nat}
    {D : Nat → SetProperties → Prop}
    (hready : DeleteSubsumedFromRange.ready self probe b e it depth pre)
    (htomb : tombstoned D self.candidates_ self'.candidates_)
    (hidx : self'.index_ = self.index_) (hcur : self'.current_set_ = self.current_set_)
    (b' : Nat) (it' : List Nat) (hb : b ≤ b') (hbe : b' < e) (hinc : it'.Pairwise (· < ·))
    (hlen : it'.length ≤ it.length) :
    DeleteSubsumedFromRange.ready self' probe b' e it' depth pre := by
  obtain ⟨h1, h2, h3, h4, h5, h6, h7, h8, h9⟩ := hready
  refine ⟨hcur.trans h1, chunk_sorted_tombstoned htomb h2, hbe, by rw [htomb.1]; exact h4, h5,
    ?_, hinc, by omega, ?_⟩
  · intro p s hp1 hp2 hps
    exact h6 p s (by omega) hp2 (tombstoned_live htomb p s hps).1
  · intro hd
    obtain ⟨ha, hb'⟩ := h9 hd
    refine ⟨by rw [htomb.1]; exact ha, ?_⟩
    rw [hidx]
    exact chunk_indexed_tombstoned _ htomb hb'

/-- The entry code of `DeleteSubsumedFromRange` (the call of
`DeleteSubsumedSets` and the early return) followed by the loop meets the
specification of the method, provided the loop does with this fuel. -/
theorem DeleteSubsumedFromRange.entry_spec (probe : SetProperties) (fuel : Nat)
    (hloop : DeleteSubsumedFromRange.loop_meets probe fuel)
    (self : AllMaximalSetsLexicographic) (b e : Nat) (it : List Nat) (depth : Nat)
    (pre : List Nat) (hready : DeleteSubsumedFromRange.ready self probe b e it depth pre)
    (hfuel : (e - b) + it.length ≤ fuel) :
    ∃ self2 b1 self3, DeleteSubsumedSets self b e depth = Except.ok (self2, b1) ∧
      (if b1 = e ∨ it = [] then Except.ok self2
        else DeleteSubsumedFromRange.loop fuel self2 b1 e it depth) = Except.ok self3 ∧
      tombstoned (DeleteSubsumedFromRange.deletes probe b e it depth) self.candidates_
        self3.candidates_ ∧
      self3.index_ = self.index_ ∧ self3.current_set_ = self.current_set_ := by
  have hready' := hready
  obtain ⟨hcur, hsorted, hbe, he, hpre, hpref, hinc, hroom, hzero⟩ := hready
  obtain ⟨self2, b1, hDSS, hb1, hb1e, hskipped, htomb1, hstop, hidx2, hcur2⟩ :=
    DeleteSubsumedSets_spec self probe b e depth hcur (le_of_lt hbe) he
  have hsize_ge : ∀ (p : Nat) (s : SetProperties), b ≤ p → p < e →
      self.candidates_[p]? = some (some s) → depth ≤ s.item.length := by
    intro p s hp1 hp2 hps
    rw [← hpre]
    exact (hpref p s hp1 hp2 hps).length_le
  have hin1 : ∀ (p : Nat) (s : SetProperties), self.candidates_[p]? = some (some s) →
      b ≤ p → p < b1 → DeleteSubsumedFromRange.deletes probe b e it depth p s := by
    intro p s hps hp1 hp2
    rcases hskipped p hp1 hp2 with h | ⟨t, ht, hsz, hd⟩
    · rw [h] at hps
      cases hps
    · rw [ht] at hps
      cases hps
      unfold SetProperties.size at hsz hd
      refine ⟨hp1, by omega, ?_, ?_⟩
      · intro x hx
        rw [List.drop_of_length_le (by omega)] at hx
        cases hx
      · show s.item.length < probe.item.length
        omega
  by_cases hearly : b1 = e ∨ it = []
  · refine ⟨self2, b1, self2, hDSS, by rw [if_pos hearly], ?_, hidx2, hcur2⟩
    refine tombstoned_congr htomb1 ?_
    intro p s hps
    constructor
    · intro hdel
      obtain ⟨hp1, hp2, hsub, hsz⟩ := hdel
      refine ⟨hp1, ?_⟩
      rcases hearly with h | h
      · omega
      · by_contra hcon
        have hb1lt : b1 < e := by omega
        obtain ⟨t, ht, htsz⟩ := hstop hb1lt
        have hs_eq : s.item.length = depth := by
          have h1 := hsize_ge p s hp1 hp2 hps
          by_contra hne
          have hlt : depth < s.item.length := by omega
          have := hsub _ (getD_mem_drop s.item depth hlt)
          rw [h] at this
          cases this
        have hdp : depth < probe.size := by
          unfold SetProperties.size at hsz
          show depth < probe.item.length
          omega
        rcases Nat.eq_or_lt_of_le (Nat.le_of_not_lt hcon) with h2 | h2
        · subst h2
          rw [ht] at hps
          cases hps
          exact htsz hdp hs_eq
        · have := DeleteSubsumedFromRange.ready_longer hready' b1 p t s hb1 h2 hp2 ht hps
          omega
    · intro ⟨hp1, hp2⟩
      exact hin1 p s hps hp1 hp2
  · have hb1lt : b1 < e := by
      by_contra h
      exact hearly (Or.inl (by omega))
    have hitne : it ≠ [] := fun h => hearly (Or.inr h)
    have hitlen : 0 < it.length := List.length_pos.2 hitne
    have hdp : depth < probe.size := by omega
    obtain ⟨t, ht, htsz⟩ := hstop hb1lt
    have ht2 : self2.candidates_[b1]? = some (some t) :=
      tombstoned_keep htomb1 b1 t ht (by omega)
    have hready2 := DeleteSubsumedFromRange.ready_next hready' htomb1 hidx2 hcur2 b1 it hb1
      hb1lt hinc (le_refl _)
    have hbig2 : ∀ (p : Nat) (s : SetProperties), b1 ≤ p → p < e →
        self2.candidates_[p]? = some (some s) → depth < s.item.length := by
      intro p s hp1 hp2 hps
      have hps' := (tombstoned_live htomb1 p s hps).1
      rcases Nat.eq_or_lt_of_le hp1 with h | h
      · subst h
        rw [ht] at hps'
        cases hps'
        have h1 := hsize_ge b1 t hb1 hp2 ht
        have h2 : t.item.length ≠ depth := htsz hdp
        exact lt_of_le_of_ne h1 (Ne.symm h2)
      · exact DeleteSubsumedFromRange.ready_longer hready' b1 p t s hb1 h hp2 ht hps'
    obtain ⟨self3, hrun, htomb2, hidx3, hcur3⟩ := hloop self2 b1 e it depth pre hready2
      ⟨t, ht2⟩ hbig2 hitne
      (le_trans (Nat.add_le_add_right (Nat.sub_le_sub_left hb1 e) _) hfuel)
    refine ⟨self2, b1, self3, hDSS, by rw [if_neg hearly]; exact hrun, ?_, hidx3.trans hidx2,
      hcur3.trans hcur2⟩
    refine tombstoned_trans htomb1 htomb2 ?_
    intro p s hps
    constructor
    · intro hdel
      by_cases hp : p < b1
      · exact Or.inl ⟨hdel.1, hp⟩
      · exact Or.inr ⟨by omega, hdel.2.1, hdel.2.2.1, hdel.2.2.2⟩
    · intro h
      rcases h with ⟨hp1, hp2⟩ | hdel
      · exact hin1 p s hps hp1 hp2
      · exact ⟨by have := hdel.1; omega, hdel.2.1, hdel.2.2.1, hdel.2.2.2⟩

end AllMaximalSetsLexicographic

namespace AllMaximalSetsLexicographic

/-- The do-while loop of `DeleteSubsumedFromRange` meets its specification
with any amount of fuel. -/
theorem DeleteSubsumedFromRange.descent_loop_spec (probe : SetProperties) :
    ∀ (fuel : Nat), DeleteSubsumedFromRange.loop_meets probe fuel := by
  intro fuel
  induction fuel with
  | zero =>
    intro self b e it depth pre hready
    have := hready.2.2.1
    intro _ _ _ hf
    omega
  | succ fuel ih =>
    intro self b e it depth pre hready hb hbig hne hfuel
    have hready' := hready
    obtain ⟨hcur, hsorted, hbe, he, hpre, hpref, hinc, hroom, hzero⟩ := hready
    obtain ⟨candidate, hb⟩ := hb
    have hcsz := hbig b candidate (le_refl _) hbe hb
    have hcol := DeleteSubsumedFromRange.ready_column hready' hbig
    have hge : ∀ (p : Nat) (s : SetProperties), b ≤ p → p < e →
        self.candidates_[p]? = some (some s) →
        candidate.item.getD depth 0 ≤ s.item.getD depth 0 := by
      intro p s hp1 hp2 hps
      rcases Nat.eq_or_lt_of_le hp1 with h | h
      · subst h
        rw [hb] at hps
        cases hps
        exact le_refl _
      · exact hcol b p _ _ (le_refl _) h hp2 hb hps
    cases it with
    | nil => exact absurd rfl hne
    | cons item tl =>
      have hlb : (if item < candidate.item.getD depth 0 then
          lower_bound (item :: tl) (candidate.item.getD depth 0) else item :: tl) =
          lower_bound (item :: tl) (candidate.item.getD depth 0) := by
        by_cases h : item < candidate.item.getD depth 0
        · rw [if_pos h]
        · rw [if_neg h, lower_bound_of_not_lt _ _ _ h]
      obtain ⟨hlsub, hlsup, hllen, hlinc, hlhead⟩ :=
        lower_bound_spec (item :: tl) (candidate.item.getD depth 0)
      have hDit : ∀ (p : Nat) (s : SetProperties), b ≤ p → p < e →
          self.candidates_[p]? = some (some s) →
          ((∀ x ∈ s.item.drop depth, x ∈ item :: tl) ↔
            (∀ x ∈ s.item.drop depth,
              x ∈ lower_bound (item :: tl) (candidate.item.getD depth 0))) := by
        intro p s hp1 hp2 hps
        constructor
        · intro h x hx
          refine hlsup x (h x hx) ?_
          exact le_trans (hge p s hp1 hp2 hps)
            (getD_le_of_mem_drop s.item (hsorted.1 p s hps).2 depth x (hbig p s hp1 hp2 hps) hx)
        · intro h x hx
          exact hlsub x (h x hx)
      unfold DeleteSubsumedFromRange.loop
      simp only [read, List.get?_eq_getElem?, hb, deref, bind, Except.bind,
        item_at_getD _ _ hcsz, hlb]
      cases hit' : lower_bound (item :: tl) (candidate.item.getD depth 0) with
      | nil =>
        simp only
        refine ⟨self, rfl, tombstoned_refl _ _ ?_, rfl, rfl⟩
        intro p s hps hdel
        obtain ⟨hp1, hp2, hsub, _⟩ := hdel
        have := (hDit p s hp1 hp2 hps).1 hsub _ (getD_mem_drop s.item depth (hbig p s hp1 hp2 hps))
        rw [hit'] at this
        cases this
      | cons item' rest' =>
        simp only
        rw [hit'] at hDit hllen
        have hinc' : (item' :: rest').Pairwise (· < ·) := by
          rw [← hit']
          exact hlinc hinc
        have hhead : candidate.item.getD depth 0 ≤ item' := hlhead item' rest' hit'
        rw [if_neg (not_not.2 hhead)]
        have hD_out : ∀ (nb : Nat), b ≤ nb → ∀ (p : Nat) (s : SetProperties),
            self.candidates_[p]? = some (some s) → nb ≤ p →
            (DeleteSubsumedFromRange.deletes probe b e (item :: tl) depth p s ↔
              DeleteSubsumedFromRange.deletes probe nb e (item' :: rest') depth p s) := by
          intro nb hnb p s hps hp
          constructor
          · intro ⟨h1, h2, h3, h4⟩
            exact ⟨hp, h2, (hDit p s h1 h2 hps).1 h3, h4⟩
          · intro ⟨h1, h2, h3, h4⟩
            exact ⟨by omega, h2, (hDit p s (by omega) h2 hps).2 h3, h4⟩
        by_cases hmatch : item' = candidate.item.getD depth 0
        · subst hmatch
          simp only [if_true]
          obtain ⟨ne, hGNE, hbne, hnee, heq, hgt⟩ := GetNewEndRangeIt_spec self b e depth
            candidate hbe he hb hbig hcol hzero
          have hready_in : DeleteSubsumedFromRange.ready
              { self with canidate_seek_count_ := self.canidate_seek_count_ + 1 } probe b ne
              rest' (depth + 1) (pre ++ [candidate.item.getD depth 0]) := by
            refine ⟨hcur, hsorted, hbne, le_trans hnee he, by simp [hpre], ?_,
              (List.pairwise_cons.1 hinc').2, ?_, fun h => absurd h (Nat.succ_ne_zero _)⟩
            · intro p s hp1 hp2 hps
              have h1 := hpref p s hp1 (by omega) hps
              have h2 := hbig p s hp1 (by omega) hps
              have h3 := heq p s hp1 hp2 hps
              rw [← h3, ← hpre]
              exact prefix_snoc_getD pre s.item h1 (by rw [hpre]; exact h2)
            · simp only [List.length_cons] at hllen hroom
              omega
          have hfuel_in : (ne - b) + rest'.length ≤ fuel := by
            simp only [List.length_cons] at hllen hfuel
            omega
          obtain ⟨self2, b1, self3, hDSS, hinner, htomb_in, hidx3, hcur3⟩ :=
            DeleteSubsumedFromRange.entry_spec probe fuel ih _ b ne rest' (depth + 1) _
              hready_in hfuel_in
          simp only at htomb_in hidx3 hcur3
          have he3 : e ≤ self3.candidates_.length := by
            rw [htomb_in.1]
            exact he
          obtain ⟨nb, hskip, hnb1, hnb2, hnone, hlive⟩ :=
            skip_null_ne_spec self3.candidates_ ne e he3 hnee
          have hnb_ne : ¬ ¬ ne ≥ b := not_not.2 (le_of_lt hbne)
          have hbne' : b ≠ ne := by omega
          simp only [hGNE, hnb_ne, if_false, ne_eq, hbne', not_false_eq_true, if_true, hDSS,
            hinner, hskip]
          have hD_in : ∀ (p : Nat) (s : SetProperties),
              self.candidates_[p]? = some (some s) → p < ne →
              (DeleteSubsumedFromRange.deletes probe b e (item :: tl) depth p s ↔
                DeleteSubsumedFromRange.deletes probe b ne rest' (depth + 1) p s) := by
            intro p s hps hp
            constructor
            · intro ⟨h1, h2, h3, h4⟩
              refine ⟨h1, hp, ?_, h4⟩
              have h5 := (hDit p s h1 h2 hps).1 h3
              rw [← heq p s h1 hp hps] at h5
              exact (drop_subset_cons_iff s.item (hsorted.1 p s hps).2 depth
                (hbig p s h1 h2 hps) rest').1 h5
            · intro ⟨h1, h2, h3, h4⟩
              refine ⟨h1, by omega, ?_, h4⟩
              refine (hDit p s h1 (by omega) hps).2 ?_
              rw [← heq p s h1 hp hps]
              exact (drop_subset_cons_iff s.item (hsorted.1 p s hps).2 depth
                (hbig p s h1 (by omega) hps) rest').2 h3
          have hgap : ∀ (p : Nat) (s : SetProperties),
              self.candidates_[p]? = some (some s) → ne ≤ p → p < nb → False := by
            intro p s hps hp1 hp2
            have := tombstoned_keep htomb_in p s hps (fun h => by
              have := h.2.1
              omega)
            rw [hnone p hp1 hp2] at this
            cases this
          by_cases hnbe : nb = e
          · have hnn : ¬ nb ≠ e := not_not.2 hnbe
            simp only [ne_eq, hnbe, not_true_eq_false, if_false]
            refine ⟨self3, rfl, tombstoned_congr htomb_in ?_, hidx3, hcur3⟩
            intro p s hps
            by_cases hp : p < ne
            · exact hD_in p s hps hp
            · constructor
              · intro ⟨h1, h2, _, _⟩
                exact absurd (hgap p s hps (by omega) (by omega)) id
              · intro ⟨_, h2, _, _⟩
                exact absurd h2 hp
          · simp only [ne_eq, hnbe, not_false_eq_true, if_true]
            have hnblt : nb < e := by omega
            have hready3 := DeleteSubsumedFromRange.ready_next hready' htomb_in hidx3 hcur3 nb
              (candidate.item.getD depth 0 :: rest') (by omega) hnblt hinc' hllen
            have hbig3 : ∀ (p : Nat) (s : SetProperties), nb ≤ p → p < e →
                self3.candidates_[p]? = some (some s) → depth < s.item.length := by
              intro p s hp1 hp2 hps
              exact hbig p s (by omega) hp2 (tombstoned_live htomb_in p s hps).1
            obtain ⟨self4, hrun4, htomb_out, hidx4, hcur4⟩ := ih self3 nb e
              (candidate.item.getD depth 0 :: rest') depth pre hready3 (hlive hnblt) hbig3
              (List.cons_ne_nil _ _) (by
                simp only [List.length_cons] at hllen hfuel ⊢
                omega)
            refine ⟨self4, hrun4, tombstoned_trans htomb_in htomb_out ?_, hidx4.trans hidx3,
              hcur4.trans hcur3⟩
            intro p s hps
            by_cases hp : p < ne
            · constructor
              · intro h
                exact Or.inl ((hD_in p s hps hp).1 h)
              · intro h
                rcases h with h | h
                · exact (hD_in p s hps hp).2 h
                · have := h.1
                  omega
            · by_cases hp2 : p < nb
              · exact absurd (hgap p s hps (by omega) hp2) id
              · constructor
                · intro h
                  exact Or.inr ((hD_out nb (by omega) p s hps (by omega)).1 h)
                · intro h
                  rcases h with h | h
                  · have := h.2.1
                    omega
                  · exact (hD_out nb (by omega) p s hps (by omega)).2 h
        · have hlt' : candidate.item.getD depth 0 < item' := by omega
          simp only [hmatch, if_false]
          obtain ⟨nb, hGNB, hbnb, hnbe', hlt, hlive⟩ := GetNewBeginRangeIt_spec self b e depth
            item' candidate hbe he hb hlt' hbig hcol hzero
          simp only [hGNB]
          have hnone : ∀ (p : Nat) (s : SetProperties),
              self.candidates_[p]? = some (some s) → p < nb →
              ¬ DeleteSubsumedFromRange.deletes probe b e (item :: tl) depth p s := by
            intro p s hps hp ⟨h1, h2, h3, _⟩
            have h4 := (hDit p s h1 h2 hps).1 h3 _
              (getD_mem_drop s.item depth (hbig p s h1 h2 hps))
            have h5 := head_le_of_mem_increasing item' rest' hinc' _ h4
            have h6 := hlt p s h1 hp hps
            omega
          by_cases hnbe : nb = e
          · simp only [ne_eq, hnbe, not_true_eq_false, if_false]
            refine ⟨_, rfl, tombstoned_refl _ _ ?_, rfl, hcur ▸ rfl⟩
            intro p s hps hdel
            exact hnone p s hps (by have := hdel.2.1; omega) hdel
          · simp only [ne_eq, hnbe, not_false_eq_true, if_true]
            have hnblt : nb < e := by omega
            have htomb0 : tombstoned (fun _ _ => False) self.candidates_
                ({ self with canidate_seek_count_ := self.canidate_seek_count_ + 1 } :
                  AllMaximalSetsLexicographic).candidates_ :=
              tombstoned_refl _ _ (fun _ _ _ h => h)
            have hready3 := DeleteSubsumedFromRange.ready_next hready' htomb0 rfl rfl nb
              (item' :: rest') (by omega) hnblt hinc' hllen
            obtain ⟨self4, hrun4, htomb_out, hidx4, hcur4⟩ := ih _ nb e (item' :: rest') depth
              pre hready3 (by
                obtain ⟨s, hs, _⟩ := hlive hnblt
                exact ⟨s, hs⟩)
              (fun p s hp1 hp2 hps => hbig p s (by omega) hp2 hps) (List.cons_ne_nil _ _) (by
                simp only [List.length_cons] at hllen hfuel ⊢
                omega)
            refine ⟨self4, hrun4, tombstoned_congr htomb_out ?_, hidx4, hcur4⟩
            intro p s hps
            by_cases hp : p < nb
            · constructor
              · intro h
                exact absurd h (hnone p s hps hp)
              · intro h
                have := h.1
                omega
            · exact hD_out nb (by omega) p s hps (by omega)

/-- The method `DeleteSubsumedFromRange`: under the conditions of its calls
and with at least `(e - b) + |it|` fuel it ends without a fault, tombstones
exactly the entries described by `DeleteSubsumedFromRange.deletes`, and leaves
the index and the current set alone. -/
theorem DeleteSubsumedFromRange_spec (probe : SetProperties) (fuel : Nat)
    (self : AllMaximalSetsLexicographic) (b e : Nat) (it : List Nat) (depth : Nat)
    (pre : List Nat) (hready : DeleteSubsumedFromRange.ready self probe b e it depth pre)
    (hfuel : (e - b) + it.length ≤ fuel) :
    ∃ self', DeleteSubsumedFromRange fuel self b e it depth = Except.ok self' ∧
      tombstoned (DeleteSubsumedFromRange.deletes probe b e it depth) self.candidates_
        self'.candidates_ ∧
      self'.index_ = self.index_ ∧ self'.current_set_ = self.current_set_ := by
  obtain ⟨self2, b1, self3, hDSS, hrest, htomb, hidx, hcur⟩ :=
    DeleteSubsumedFromRange.entry_spec probe fuel (DeleteSubsumedFromRange.descent_loop_spec probe fuel)
      self b e it depth pre hready hfuel
  have hbe : ¬ b = e := by
    have := hready.2.2.1
    omega
  refine ⟨self3, ?_, htomb, hidx, hcur⟩
  unfold DeleteSubsumedFromRange
  simp only [hbe, if_false, bind, Except.bind, hDSS]
  exact hrest

end AllMaximalSetsLexicographic

/-- For strictly increasing sequences, being a proper subset is being a subset
with fewer items. -/
theorem proper_subset_iff_length (a b : List Nat) (ha : a.Pairwise (· < ·))
    (hb : b.Pairwise (· < ·)) :
    proper_subset a b ↔ (∀ x ∈ a, x ∈ b) ∧ a.length < b.length := by
  have hna : a.Nodup := ha.imp (fun h => Nat.ne_of_lt h)
  have hnb : b.Nodup := hb.imp (fun h => Nat.ne_of_lt h)
  constructor
  · intro ⟨hsub, x, hxb, hxa⟩
    refine ⟨hsub, ?_⟩
    have hsp : a.Subperm b := List.subperm_of_subset hna hsub
    rcases Nat.eq_or_lt_of_le hsp.length_le with h | h
    · have hperm := hsp.perm_of_length_le (le_of_eq h.symm)
      exact absurd (hperm.symm.subset hxb) hxa
    · exact h
  · intro ⟨hsub, hlen⟩
    refine proper_subset_of_subset_of_ne a b ha hb hsub ?_
    intro h
    rw [h] at hlen
    exact lt_irrefl _ hlen

namespace AllMaximalSetsLexicographic

theorem chunk_sorted_map_some (sets : List SetProperties)
    (hvalid : ∀ s ∈ sets, s.item ≠ [] ∧ s.item.Pairwise (· < ·))
    (hlex : sets.Pairwise (fun a b => a.item < b.item)) : chunk_sorted (sets.map some) := by
  have hget : ∀ (p : Nat) (s : SetProperties), (sets.map some)[p]? = some (some s) →
      sets[p]? = some s := by
    intro p s hp
    rw [List.getElem?_map] at hp
    cases hq : sets[p]? with
    | none =>
      rw [hq] at hp
      cases hp
    | some x =>
      rw [hq] at hp
      simp only [Option.map_some', Option.some.injEq] at hp
      rw [hp]
  refine ⟨fun p s hp => hvalid s (List.mem_iff_getElem?.2 ⟨p, hget p s hp⟩), ?_⟩
  intro p q s t hpq hp hq
  have h1 := List.getElem?_eq_some_iff.1 (hget p s hp)
  have h2 := List.getElem?_eq_some_iff.1 (hget q t hq)
  have := List.pairwise_iff_getElem.1 hlex p q h1.1 h2.1 hpq
  rw [h1.2, h2.2] at this
  exact this

end AllMaximalSetsLexicographic

/-- Claim C26: on an indexed chunk whose live entries are valid item sets in
strict lexicographic order (tombstones allowed), with a strictly increasing
current set `probe` of any size, for every start position `b` of the chunk
and with fuel for one turn per entry and per item of the probe,
`DeleteSubsumedFromRange(b, end of chunk, probe.begin, depth 0)` ends without
a fault and tombstones exactly the live entries at positions in `[b, end)`
whose item set is a proper subset of the probe; every other entry of the
chunk is unchanged. -/
theorem C26_prefix_descent (self : AllMaximalSetsLexicographic) (probe : SetProperties)
    (b fuel : Nat) (hcur : self.current_set_ = some probe)
    (hsorted : AllMaximalSetsLexicographic.chunk_sorted self.candidates_)
    (hindexed : AllMaximalSetsLexicographic.chunk_indexed self.candidates_ self.index_)
    (hprobe : probe.item.Pairwise (· < ·)) (hb : b < self.candidates_.length)
    (hfuel : self.candidates_.length + probe.size ≤ fuel) :
    ∃ self', AllMaximalSetsLexicographic.DeleteSubsumedFromRange fuel self b
        self.candidates_.length probe.item 0 = Except.ok self' ∧
      AllMaximalSetsLexicographic.tombstoned
        (fun p s => b ≤ p ∧ proper_subset s.item probe.item) self.candidates_
        self'.candidates_ := by
  have hready : AllMaximalSetsLexicographic.DeleteSubsumedFromRange.ready self probe b
      self.candidates_.length probe.item 0 [] :=
    ⟨hcur, hsorted, hb, le_refl _, rfl, fun _ _ _ _ _ => List.nil_prefix, hprobe,
      by simp [SetProperties.size], fun _ => ⟨rfl, hindexed⟩⟩
  obtain ⟨self', hrun, htomb, _, _⟩ := AllMaximalSetsLexicographic.DeleteSubsumedFromRange_spec
    probe fuel self b self.candidates_.length probe.item 0 [] hready (by
      unfold SetProperties.size at hfuel
      omega)
  refine ⟨self', hrun, AllMaximalSetsLexicographic.tombstoned_congr htomb ?_⟩
  intro p s hps
  have hp : p < self.candidates_.length := (List.getElem?_eq_some_iff.1 hps).1
  rw [proper_subset_iff_length _ _ (hsorted.1 p s hps).2 hprobe]
  unfold AllMaximalSetsLexicographic.DeleteSubsumedFromRange.deletes SetProperties.size
  simp only [List.drop_zero]
  constructor
  · intro ⟨h1, h2, h3⟩
    exact ⟨h1, hp, h2, h3⟩
  · intro ⟨h1, _, h2, h3⟩
    exact ⟨h1, h2, h3⟩

/-- An instance of C26: the chunk `{1,2}`, `{1,4}`, `{2,3}` with the index
`0, 0, 2`, probed from position `0` with the set `{1,2,3}`. -/
theorem C26_prefix_descent_witness :
    ∃ self', AllMaximalSetsLexicographic.DeleteSubsumedFromRange 6
        { AllMaximalSetsLexicographic.new with
          candidates_ := [some (SetProperties.Create 1 [1, 2]),
            some (SetProperties.Create 2 [1, 4]), some (SetProperties.Create 3 [2, 3])]
          index_ := [0, 0, 2]
          current_set_ := some (SetProperties.Create 0 [1, 2, 3]) } 0
        ([some (SetProperties.Create 1 [1, 2]), some (SetProperties.Create 2 [1, 4]),
          some (SetProperties.Create 3 [2, 3])] : CandidateList).length
        (SetProperties.Create 0 [1, 2, 3]).item 0 = Except.ok self' ∧
      AllMaximalSetsLexicographic.tombstoned
        (fun p s => 0 ≤ p ∧ proper_subset s.item (SetProperties.Create 0 [1, 2, 3]).item)
        [some (SetProperties.Create 1 [1, 2]), some (SetProperties.Create 2 [1, 4]),
          some (SetProperties.Create 3 [2, 3])] self'.candidates_ :=
  C26_prefix_descent
    { AllMaximalSetsLexicographic.new with
      candidates_ := [some (SetProperties.Create 1 [1, 2]),
        some (SetProperties.Create 2 [1, 4]), some (SetProperties.Create 3 [2, 3])]
      index_ := [0, 0, 2]
      current_set_ := some (SetProperties.Create 0 [1, 2, 3]) }
    (SetProperties.Create 0 [1, 2, 3]) 0 6 rfl
    (AllMaximalSetsLexicographic.chunk_sorted_map_some
      [SetProperties.Create 1 [1, 2], SetProperties.Create 2 [1, 4],
        SetProperties.Create 3 [2, 3]] (by decide) (by decide))
    (by
      refine ⟨fun v hv => ?_, fun p s hps => ?_⟩
      · have hv' : v < 3 := hv
        interval_cases v <;> decide
      · have hp : p < 3 := (List.getElem?_eq_some_iff.1 hps).1
        interval_cases p <;> simp at hps <;> subst hps <;> refine ⟨by decide, fun v hv => ?_⟩ <;>
          (have hv' : v < 3 := hv) <;> interval_cases v <;> decide)
    (by decide) (by decide) (by decide)

theorem filterMap_of_pointwise {α : Type} (Q : α → Bool) :
    ∀ (xs : List α) (cs : List (Option α)), cs.length = xs.length →
      (∀ (p : Nat) (x : α), xs[p]? = some x →
        cs[p]? = some (if Q x then some x else none)) →
      cs.filterMap id = xs.filter Q := by
  intro xs
  induction xs with
  | nil =>
    intro cs hlen _
    rw [List.length_eq_zero.1 hlen]
    rfl
  | cons x xs ih =>
    intro cs hlen hall
    cases cs with
    | nil => simp at hlen
    | cons slot cs =>
      have h0 := hall 0 x (by simp)
      simp only [List.getElem?_cons_zero, Option.some.injEq] at h0
      have hrest := ih cs (by simpa using hlen) (fun p y hp => by
        have := hall (p + 1) y (by simpa using hp)
        simpa using this)
      rw [List.filterMap_cons, List.filter_cons, h0]
      by_cases hq : Q x = true
      · simp only [hq, if_true, id_eq]
        rw [hrest]
      · simp only [hq, if_false, id_eq, Bool.false_eq_true]
        exact hrest

theorem proper_subset_of_proper_initial_segment (a b : ItemSet) (hb : b.Pairwise (· < ·))
    (h : proper_initial_segment a b) : proper_subset a b := by
  have ha : a.Pairwise (· < ·) := hb.sublist h.1.sublist
  exact (proper_subset_iff_length a b ha hb).2 ⟨fun x hx => h.1.subset hx, h.2⟩

/-- A strictly increasing sequence that holds every item of another one,
differs from it and does not extend it, comes first in lexicographic order. -/
theorem lt_of_superset_not_prefix :
    ∀ (a b : List Nat), a.Pairwise (· < ·) → b.Pairwise (· < ·) → (∀ x ∈ b, x ∈ a) →
      ¬ b <+: a → a < b := by
  intro a
  induction a with
  | nil =>
    intro b _ _ hsub hnp
    cases b with
    | nil => exact absurd List.nil_prefix hnp
    | cons y b => exact absurd (hsub y (List.mem_cons_self _ _)) (List.not_mem_nil _)
  | cons x a ih =>
    intro b ha hb hsub hnp
    cases b with
    | nil => exact absurd List.nil_prefix hnp
    | cons y b =>
      have hxy : x ≤ y := head_le_of_mem_increasing x a ha y (hsub y (List.mem_cons_self _ _))
      rw [List.lt_cons_cons_iff]
      rcases Nat.eq_or_lt_of_le hxy with h | h
      · right
        subst h
        refine ⟨rfl, ih b (List.pairwise_cons.1 ha).2 (List.pairwise_cons.1 hb).2 ?_ ?_⟩
        · intro z hz
          have hz1 := hsub z (List.mem_cons_of_mem _ hz)
          have hz2 := (List.pairwise_cons.1 hb).1 z hz
          rcases List.mem_cons.1 hz1 with h1 | h1
          · omega
          · exact h1
        · intro hpre
          exact hnp ((List.prefix_cons_inj x).2 hpre)
      · exact Or.inl h

namespace AllMaximalSetsLexicographic

theorem DumpMaximalSets_loop_emitted (l : CandidateList)
    (st : AllMaximalSetsLexicographic × World)
    (hmode : st.1.output_mode_ ≠ OutputModeEnum.COUNT_ONLY) :
    emitted_ids (DumpMaximalSets.loop l st).2.trace =
      emitted_ids st.2.trace ++ (l.filterMap id).map SetProperties.set_id ∧
    (DumpMaximalSets.loop l st).1.output_mode_ = st.1.output_mode_ ∧
    (DumpMaximalSets.loop l st).1.max_items_in_ram_ = st.1.max_items_in_ram_ ∧
    (DumpMaximalSets.loop l st).1.index_ = st.1.index_ ∧
    (DumpMaximalSets.loop l st).2.data = st.2.data := by
  induction l generalizing st with
  | nil => simp [DumpMaximalSets.loop]
  | cons x l ih =>
    cases x with
    | none =>
      unfold DumpMaximalSets.loop
      simpa using ih st hmode
    | some m =>
      unfold DumpMaximalSets.loop
      obtain ⟨h1, h2, h3, h4, h5⟩ := ih (FoundMaximalSet st.1 st.2 m) hmode
      refine ⟨?_, h2, h3, h4, ?_⟩
      · rw [h1]
        simp only [FoundMaximalSet, AllMaximalSetsCardinality.World.print_emitted _ _ _ hmode,
          List.append_assoc, List.singleton_append]
        rfl
      · rw [h5]
        simp only [FoundMaximalSet]
        cases st.1.output_mode_ <;> rfl

theorem DumpMaximalSets_written (self : AllMaximalSetsLexicographic) (data : World)
    (hmode : self.output_mode_ ≠ OutputModeEnum.COUNT_ONLY) :
    emitted_ids (DumpMaximalSets self data).2.trace =
      emitted_ids data.trace ++ (self.candidates_.filterMap id).map SetProperties.set_id ∧
    (DumpMaximalSets self data).1.candidates_ = [] ∧
    (DumpMaximalSets self data).1.output_mode_ = self.output_mode_ ∧
    (DumpMaximalSets self data).1.max_items_in_ram_ = self.max_items_in_ram_ ∧
    (DumpMaximalSets self data).1.index_ = self.index_ ∧
    (DumpMaximalSets self data).2.data = data.data := by
  obtain ⟨h1, h2, h3, h4, h5⟩ := DumpMaximalSets_loop_emitted self.candidates_ (self, data) hmode
  exact ⟨h1, rfl, h2, h3, h4, h5⟩

end AllMaximalSetsLexicographic

namespace AllMaximalSetsLexicographic

theorem take_drop_succ {α : Type} (l : List α) (k m : Nat) (x : α) (hx : l[k]? = some x) :
    (l.drop k).take (m + 1) = x :: (l.drop (k + 1)).take m := by
  have hk : k < l.length := (List.getElem?_eq_some_iff.1 hx).1
  rw [List.drop_eq_getElem_cons hk, List.take_succ_cons, (List.getElem?_eq_some_iff.1 hx).2]

/-- The reading loop of `ReadNextChunk` over a file of well-formed records:
it ends without a fault with the flag `true`, having appended the records
from the read position up to some position `stop`, which is the end of the
file when the resume offset is `0`, and otherwise the resume offset, reached
with the budget used up. -/
theorem ReadNextChunk.read_loop_spec (records : List Record) :
    ∀ (fuel : Nat) (self : AllMaximalSetsLexicographic) (data : World) (set_id : Nat)
      (current_set : ItemSet), data.data.file = (DataSourceIterator.Get records).file →
      data.data.pos ≤ records.length → records.length - data.data.pos < fuel →
      ∃ stop self1 data1 resume,
        ReadNextChunk.loop fuel self data set_id current_set =
          Except.ok (true, self1, data1, resume) ∧
        data.data.pos ≤ stop ∧ stop ≤ records.length ∧
        self1.candidates_ = self.candidates_ ++
          ((records.drop data.data.pos).take (stop - data.data.pos)).map
            (fun r => some (SetProperties.Create r.1 r.2)) ∧
        self1.index_ = self.index_ ∧ self1.output_mode_ = self.output_mode_ ∧
        self1.max_items_in_ram_ = self.max_items_in_ram_ ∧
        data1.data.file = data.data.file ∧ data1.data.pos = stop ∧
        data1.data.seek_faults = data.data.seek_faults ∧
        emitted_ids data1.trace = emitted_ids data.trace ∧
        ((resume = 0 ∧ stop = records.length) ∨
          (resume = stop ∧ data.data.pos < stop ∧
            self1.items_in_ram_ ≥ self1.max_items_in_ram_)) ∧
        (self.items_in_ram_ < 2 ^ 32 ∨ data.data.pos < stop → self1.items_in_ram_ < 2 ^ 32) ∧
        self1.items_in_ram_ % 2 ^ 32 = (self.items_in_ram_ +
          (((records.drop data.data.pos).take (stop - data.data.pos)).map
            (fun r => r.2.length)).sum) % 2 ^ 32 := by
  intro fuel
  induction fuel with
  | zero =>
    intro self data set_id current_set _ _ h
    omega
  | succ fuel ih =>
    intro self data set_id current_set hfile hpos hfuel
    unfold ReadNextChunk.loop
    simp only [World.Next]
    rcases DataSourceIterator.Next_get data.data set_id current_set with
      ⟨hget, hn⟩ | ⟨id, items, hget, hn⟩ | ⟨hget, hn⟩
    · have hend : data.data.pos = records.length := by
        rw [hfile] at hget
        simp only [DataSourceIterator.Get, List.get?_eq_none, List.length_map] at hget
        omega
      simp only [hn]
      refine ⟨data.data.pos, self, _, 0, rfl, le_refl _, hpos, by simp, rfl, rfl, rfl, rfl,
        rfl, rfl, ?_, Or.inl ⟨rfl, hend⟩, fun h => ?_, by simp⟩
      · simp [emitted_ids_append, emitted_ids]
      · rcases h with h | h
        · exact h
        · exact absurd h (lt_irrefl _)
    · rw [hfile] at hget
      have hrec := DataSourceIterator.Get_get records _ id items hget
      rw [List.get?_eq_getElem?] at hrec
      have hlt : data.data.pos < records.length := (List.getElem?_eq_some_iff.1 hrec).1
      simp only [hn]
      have hres : (decide ((1 : Int) ≠ 0)).toNat > 0 := by decide
      simp only [hres, if_true]
      by_cases hfull : (self.items_in_ram_ + items.length) % 2 ^ 32 ≥ self.max_items_in_ram_
      · simp only [hfull, if_true]
        refine ⟨data.data.pos + 1, _, _, _, rfl, by omega, hlt, ?_, rfl, rfl, rfl, rfl, rfl, rfl,
          ?_, Or.inr ⟨rfl, by omega, hfull⟩, fun _ => Nat.mod_lt _ (by norm_num), ?_⟩
        · simp only [Nat.add_sub_cancel_left]
          rw [take_drop_succ records _ 0 (id, items) hrec]
          simp
        · simp [emitted_ids_append, emitted_ids]
        · simp only [Nat.add_sub_cancel_left]
          rw [take_drop_succ records _ 0 (id, items) hrec]
          simp
      · simp only [hfull, if_false]
        obtain ⟨stop, self1, data1, resume, hrun, h1, h2, h3, h4, h5, h6, h7, h8, h9, h10, h11,
            h12, h13⟩ := ih
          { self with
            candidates_ := self.candidates_ ++ [some (SetProperties.Create id items)]
            items_in_ram_ := (self.items_in_ram_ + items.length) % 2 ^ 32
            input_sets_count_ := self.input_sets_count_ + 1 }
          { data := { data.data with pos := data.data.pos + 1 },
            trace := data.trace ++ [Event.Next 1] } id items hfile (by simp only; omega)
          (by simp only; omega)
        simp only at h1 h3 h4 h5 h6 h7 h8 h9 h10 h11 h12 h13
        have hsplit : (records.drop data.data.pos).take (stop - data.data.pos) =
            (id, items) :: (records.drop (data.data.pos + 1)).take
              (stop - (data.data.pos + 1)) := by
          have : stop - data.data.pos = (stop - (data.data.pos + 1)) + 1 := by omega
          rw [this]
          exact take_drop_succ records _ _ (id, items) hrec
        refine ⟨stop, self1, data1, resume, hrun, by omega, h2, ?_, h4, h5, h6, h7, h8, h9, ?_,
          ?_, ?_, ?_⟩
        · rw [h3, hsplit]
          simp
        · rw [h10]
          simp [emitted_ids_append, emitted_ids]
        · rcases h11 with h | ⟨ha, hb, hc⟩
          · exact Or.inl h
          · exact Or.inr ⟨ha, by omega, hc⟩
        · intro _
          exact h12 (Or.inl (Nat.mod_lt _ (by norm_num)))
        · rw [h13, hsplit]
          simp only [List.map_cons, List.sum_cons, Nat.mod_add_mod, Nat.add_assoc]
    · exfalso
      rw [hfile] at hget
      simp only [DataSourceIterator.Get, List.get?_eq_getElem?, List.getElem?_map] at hget
      cases hr : records[data.data.pos]? with
      | none => rw [hr] at hget; cases hget
      | some r => rw [hr] at hget; cases hget

end AllMaximalSetsLexicographic

theorem filter_sublist_filterMap {α : Type} (Q : α → Bool) :
    ∀ (xs : List α) (cs : List (Option α)), cs.length = xs.length →
      (∀ (p : Nat) (x : α), xs[p]? = some x →
        cs[p]? = some (some x) ∨ (cs[p]? = some none ∧ Q x = false)) →
      (xs.filter Q).Sublist (cs.filterMap id) ∧ (cs.filterMap id).Sublist xs := by
  intro xs
  induction xs with
  | nil =>
    intro cs hlen _
    rw [List.length_eq_zero.1 hlen]
    exact ⟨List.Sublist.refl _, List.Sublist.refl _⟩
  | cons x xs ih =>
    intro cs hlen hall
    cases cs with
    | nil => simp at hlen
    | cons slot cs =>
      have h0 := hall 0 x (by simp)
      simp only [List.getElem?_cons_zero, Option.some.injEq] at h0
      obtain ⟨h1, h2⟩ := ih cs (by simpa using hlen) (fun p y hp => by
        have := hall (p + 1) y (by simpa using hp)
        simpa using this)
      rcases h0 with h0 | ⟨h0, hq⟩
      · subst h0
        have e : List.filterMap id (some x :: cs) = x :: List.filterMap id cs := rfl
        rw [e, List.filter_cons]
        refine ⟨?_, h2.cons₂ _⟩
        by_cases hq : Q x = true
        · simp only [hq, if_true]
          exact h1.cons₂ _
        · simp only [hq, Bool.false_eq_true, if_false]
          exact h1.cons _
      · subst h0
        have e : List.filterMap id (none :: cs) = List.filterMap id cs := rfl
        rw [e, List.filter_cons]
        simp only [hq, Bool.false_eq_true, if_false]
        exact ⟨h1, h2.cons _⟩

theorem head_le_of_lex_lt (a b : List Nat) (ha : a ≠ []) (hb : b ≠ []) (h : a < b) :
    a.getD 0 0 ≤ b.getD 0 0 := by
  cases a with
  | nil => exact absurd rfl ha
  | cons x a =>
    cases b with
    | nil => exact absurd rfl hb
    | cons y b =>
      rw [List.lt_cons_cons_iff] at h
      simp only [List.getD_cons_zero]
      rcases h with h | ⟨h, _⟩
      · exact le_of_lt h
      · exact le_of_eq h

theorem not_proper_initial_segment_self_or_earlier (a b : List Nat) (hba : ¬ a < b) :
    ¬ proper_initial_segment a b := fun h => hba (lt_of_proper_initial_segment a b h)

namespace AllMaximalSetsLexicographic

/-- The first two steps on a freshly read chunk, `DeleteTriviallySubsumedCandidates`
and `BuildIndex`: they end without a fault and leave the entries that are not
a proper prefix of another entry of the chunk, packed, sorted and indexed. -/
theorem prune_build_spec (self : AllMaximalSetsLexicographic) (sets : List SetProperties)
    (hne : sets ≠ []) (hchunk : self.candidates_ = sets.map some)
    (hvalid : ∀ s ∈ sets, s.item ≠ [] ∧ s.item.Pairwise (· < ·))
    (hlex : sets.Pairwise (fun a b => a.item < b.item))
    (hzero : self.index_.getD 0 0 = 0) :
    ∃ self2, (DeleteTriviallySubsumedCandidates self >>= BuildIndex) = Except.ok self2 ∧
      self2.candidates_ = (unpruned sets).map some ∧ unpruned sets ≠ [] ∧
      chunk_sorted self2.candidates_ ∧ chunk_indexed self2.candidates_ self2.index_ ∧
      self2.index_.getD 0 0 = 0 ∧ self2.fixed = self.fixed := by
  unfold unpruned
  obtain ⟨self1, hrun1, hlen1, hidx1, hall1⟩ :=
    DeleteTriviallySubsumedCandidates_spec self sets hne hchunk hlex
  have hpos : 0 < sets.length := List.length_pos.2 hne
  have hlexget : ∀ (p q : Nat) (s t : SetProperties), p < q → sets[p]? = some s →
      sets[q]? = some t → s.item < t.item := by
    intro p q s t hpq hp hq
    have h1 := List.getElem?_eq_some_iff.1 hp
    have h2 := List.getElem?_eq_some_iff.1 hq
    have := List.pairwise_iff_getElem.1 hlex p q h1.1 h2.1 hpq
    rw [h1.2, h2.2] at this
    exact this
  have hfm : self1.candidates_.filterMap id =
      sets.filter (fun s => decide (∀ t ∈ sets, ¬ proper_initial_segment s.item t.item)) := by
    apply filterMap_of_pointwise _ sets self1.candidates_ hlen1
    intro p x hpx
    rcases hall1 p x hpx with ⟨h1, j, t, hj, hjt, hpp⟩ | ⟨h1, h2⟩
    · have : ¬ ∀ t ∈ sets, ¬ proper_initial_segment x.item t.item := fun h =>
        h t (List.mem_iff_getElem?.2 ⟨j, hjt⟩) hpp
      rw [if_neg (fun h => this (of_decide_eq_true h))]
      exact h1
    · have : ∀ t ∈ sets, ¬ proper_initial_segment x.item t.item := by
        intro t ht
        obtain ⟨j, hjt⟩ := List.mem_iff_getElem?.1 ht
        rcases Nat.lt_trichotomy p j with h | h | h
        · exact h2 j t h hjt
        · subst h
          rw [hpx] at hjt
          cases hjt
          exact not_proper_initial_segment_self_or_earlier _ _ (lt_irrefl _)
        · exact not_proper_initial_segment_self_or_earlier _ _ (lt_asymm (hlexget j p t x h hjt hpx))
      rw [if_pos (decide_eq_true this)]
      exact h1
  have hlastset : sets[sets.length - 1]? = some sets[sets.length - 1] :=
    List.getElem?_eq_getElem (by omega)
  have hlast : self1.candidates_.getLast? = some (some sets[sets.length - 1]) := by
    rw [getLast?_eq_getElem?_pred, hlen1]
    rcases hall1 _ _ hlastset with ⟨_, j, t, hj, hjt, _⟩ | ⟨h1, _⟩
    · have := (List.getElem?_eq_some_iff.1 hjt).1
      omega
    · exact h1
  have hLsub : (sets.filter (fun s => decide (∀ t ∈ sets, ¬ proper_initial_segment s.item t.item))).Sublist
      sets := List.filter_sublist _
  have hLvalid : ∀ u ∈ sets.filter (fun s => decide (∀ t ∈ sets, ¬ proper_initial_segment s.item t.item)),
      u.item ≠ [] ∧ u.item.Pairwise (· < ·) := fun u hu => hvalid u (hLsub.subset hu)
  have hLlex := hlex.sublist hLsub
  have hfirst : (sets.filter (fun s => decide (∀ t ∈ sets, ¬ proper_initial_segment s.item t.item))).Pairwise
      (fun a b => a.item.getD 0 0 ≤ b.item.getD 0 0) :=
    hLlex.imp_of_mem (fun {a b} ha hb hab =>
      head_le_of_lex_lt _ _ (hLvalid a ha).1 (hLvalid b hb).1 hab)
  obtain ⟨self2, hrun2, hcand2, hlen2, hz2, hidx2⟩ := BuildIndex_spec self1 sets[sets.length - 1]
    hlast (by rw [hfm]; exact fun u hu => (hLvalid u hu).1) (by rw [hfm]; exact hfirst)
    (by rw [hidx1]; exact hzero)
  rw [hfm] at hcand2 hidx2
  have hLlast := getLast?_filterMap_of_live _ _ hlast
  rw [hfm] at hLlast
  have hLne : sets.filter (fun s => decide (∀ t ∈ sets, ¬ proper_initial_segment s.item t.item)) ≠ [] := by
    intro h
    rw [h] at hLlast
    cases hLlast
  have hmapget : ∀ (p : Nat) (s : SetProperties), self2.candidates_[p]? = some (some s) →
      (sets.filter (fun s => decide (∀ t ∈ sets, ¬ proper_initial_segment s.item t.item)))[p]? =
        some s := by
    intro p s hp
    rw [hcand2, List.getElem?_map] at hp
    cases hq : (sets.filter
        (fun s => decide (∀ t ∈ sets, ¬ proper_initial_segment s.item t.item)))[p]? with
    | none =>
      rw [hq] at hp
      cases hp
    | some x =>
      rw [hq] at hp
      simp only [Option.map_some', Option.some.injEq] at hp
      rw [hp]
  refine ⟨self2, ?_, hcand2, hLne, ?_, ?_, hz2, ?_⟩
  · rw [hrun1]
    exact hrun2
  · rw [hcand2]
    exact chunk_sorted_map_some _ hLvalid hLlex
  · refine ⟨fun v hv => ?_, fun p s hps => ?_⟩
    · rw [hcand2, List.length_map]
      exact (hidx2 v hv).1
    · have hLp := hmapget p s hps
      have hle : s.item.getD 0 0 ≤ (sets[sets.length - 1]).item.getD 0 0 := by
        rw [getLast?_eq_getElem?_pred] at hLlast
        have hp1 := (List.getElem?_eq_some_iff.1 hLp).1
        rcases Nat.eq_or_lt_of_le (Nat.le_sub_one_of_lt hp1) with h | h
        · rw [← h, hLp] at hLlast
          cases hLlast
          exact le_refl _
        · have h1 := List.getElem?_eq_some_iff.1 hLp
          have h2 := List.getElem?_eq_some_iff.1 hLlast
          have := List.pairwise_iff_getElem.1 hfirst p _ h1.1 h2.1 h
          rw [h1.2, h2.2] at this
          exact this
      refine ⟨by rw [hlen2]; omega, fun v hv => (hidx2 v hv).2 p s hLp⟩
  · rw [BuildIndex_fixed _ _ hrun2, DeleteTriviallySubsumedCandidates_fixed _ _ hrun1]

end AllMaximalSetsLexicographic

namespace AllMaximalSetsLexicographic

/-- One probe of the chunk from position `b` on with the current set `probe`:
the call of `DeleteSubsumedFromRange` made by both `DeleteSubsumedCandidates`
methods ends without a fault and tombstones exactly the live entries from `b`
on that are proper subsets of the probe. -/
theorem descent_spec (self : AllMaximalSetsLexicographic) (probe : SetProperties) (b : Nat)
    (hsorted : chunk_sorted self.candidates_)
    (hindexed : chunk_indexed self.candidates_ self.index_)
    (hprobe : probe.item.Pairwise (· < ·)) (hb : b < self.candidates_.length) :
    ∃ self', DeleteSubsumedFromRange
        (descent_fuel { self with current_set_ := some probe } probe)
        { self with current_set_ := some probe } b self.candidates_.length probe.item 0 =
        Except.ok self' ∧
      tombstoned (fun p s => b ≤ p ∧ proper_subset s.item probe.item) self.candidates_
        self'.candidates_ ∧
      self'.index_ = self.index_ := by
  have hready : DeleteSubsumedFromRange.ready { self with current_set_ := some probe } probe b
      self.candidates_.length probe.item 0 [] :=
    ⟨rfl, hsorted, hb, le_refl _, rfl, fun _ _ _ _ _ => List.nil_prefix, hprobe,
      by simp [SetProperties.size], fun _ => ⟨rfl, hindexed⟩⟩
  obtain ⟨self', hrun, htomb, hidx, _⟩ := DeleteSubsumedFromRange_spec probe
    (descent_fuel { self with current_set_ := some probe } probe)
    { self with current_set_ := some probe } b self.candidates_.length probe.item 0 [] hready
    (by
      unfold descent_fuel SetProperties.size
      simp only
      omega)
  refine ⟨self', hrun, tombstoned_congr htomb ?_, hidx⟩
  intro p s hps
  have hp : p < self.candidates_.length := (List.getElem?_eq_some_iff.1 hps).1
  rw [proper_subset_iff_length _ _ (hsorted.1 p s hps).2 hprobe]
  unfold DeleteSubsumedFromRange.deletes SetProperties.size
  simp only [List.drop_zero]
  constructor
  · intro ⟨h1, h2, h3⟩
    exact ⟨h1, hp, h2, h3⟩
  · intro ⟨h1, _, h2, h3⟩
    exact ⟨h1, h2, h3⟩

theorem no_proper_subset_of_small (s t : List Nat) (hs : s ≠ []) (hsi : s.Pairwise (· < ·))
    (hti : t.Pairwise (· < ·)) (ht : t.length ≤ 1) : ¬ proper_subset s t := by
  intro h
  have := ((proper_subset_iff_length s t hsi hti).1 h).2
  have : s.length = 0 := by omega
  exact hs (List.length_eq_zero.1 this)

theorem DeleteSubsumedCandidatesAt_spec (self : AllMaximalSetsLexicographic) (i : Nat)
    (t : SetProperties) (hi : self.candidates_[i]? = some (some t))
    (hsorted : chunk_sorted self.candidates_)
    (hindexed : chunk_indexed self.candidates_ self.index_)
    (hlt : i + 1 < self.candidates_.length) :
    ∃ self', DeleteSubsumedCandidatesAt self i = Except.ok self' ∧
      tombstoned (fun p s => i + 1 ≤ p ∧ proper_subset s.item t.item) self.candidates_
        self'.candidates_ ∧
      self'.index_ = self.index_ := by
  unfold DeleteSubsumedCandidatesAt
  simp only [read, List.get?_eq_getElem?, hi, bind, Except.bind]
  by_cases hsz : t.size ≤ 1
  · simp only [hsz, if_true]
    refine ⟨_, rfl, tombstoned_refl _ _ ?_, rfl⟩
    intro p s hps ⟨_, hsub⟩
    exact no_proper_subset_of_small s.item t.item (hsorted.1 p s hps).1 (hsorted.1 p s hps).2
      (hsorted.1 i t hi).2 hsz hsub
  · simp only [hsz, if_false]
    exact descent_spec self t (i + 1) hsorted hindexed (hsorted.1 i t hi).2 hlt

theorem DeleteSubsumedCandidates_spec (self : AllMaximalSetsLexicographic) (itemset : ItemSet)
    (hinc : itemset.Pairwise (· < ·)) (hsorted : chunk_sorted self.candidates_)
    (hindexed : chunk_indexed self.candidates_ self.index_)
    (hne : 0 < self.candidates_.length) :
    ∃ self', DeleteSubsumedCandidates self itemset = Except.ok self' ∧
      tombstoned (fun _ s => proper_subset s.item itemset) self.candidates_
        self'.candidates_ ∧
      self'.index_ = self.index_ := by
  unfold DeleteSubsumedCandidates
  by_cases hsz : itemset.length ≤ 1
  · simp only [hsz, if_true]
    refine ⟨_, rfl, tombstoned_refl _ _ ?_, rfl⟩
    intro p s hps hsub
    exact no_proper_subset_of_small s.item itemset (hsorted.1 p s hps).1 (hsorted.1 p s hps).2
      hinc hsz hsub
  · simp only [hsz, if_false]
    obtain ⟨self', hrun, htomb, hidx⟩ := descent_spec self (SetProperties.Create 0 itemset) 0
      hsorted hindexed hinc hne
    refine ⟨self', hrun, tombstoned_congr htomb ?_, hidx⟩
    intro p s _
    simp [SetProperties.Create]

/-- A probe that tombstones proper subsets of an input record keeps the state
of the chunk. -/
theorem chunk_checked_probe (L : List SetProperties) (records : List Record) (i b : Nat)
    (self self' : AllMaximalSetsLexicographic) (probe : ItemSet)
    (hprobe : ∃ r ∈ records, r.2 = probe)
    (htomb : tombstoned (fun p s => b ≤ p ∧ proper_subset s.item probe) self.candidates_
      self'.candidates_)
    (hidx : self'.index_ = self.index_) (h : chunk_checked L records i self) :
    chunk_checked L records i self' := by
  obtain ⟨h1, h2, h3, h4, h5, h6⟩ := h
  refine ⟨chunk_sorted_tombstoned htomb h1, ?_, htomb.1.trans h3, ?_, ?_, ?_⟩
  · rw [hidx]
    exact chunk_indexed_tombstoned _ htomb h2
  · intro p s hps
    exact h4 p s (tombstoned_live htomb p s hps).1
  · intro p s hLp hnone
    have hp : p < self.candidates_.length := by
      rw [h3]
      exact (List.getElem?_eq_some_iff.1 hLp).1
    cases hslot : self.candidates_[p] with
    | none => exact h5 p s hLp (by rw [List.getElem?_eq_getElem hp, hslot])
    | some s' =>
      have hlive : self.candidates_[p]? = some (some s') := by
        rw [List.getElem?_eq_getElem hp, hslot]
      have hs' := h4 p s' hlive
      rw [hLp] at hs'
      cases hs'
      by_cases hD : b ≤ p ∧ proper_subset s.item probe
      · obtain ⟨r, hr, hrp⟩ := hprobe
        exact ⟨r, hr, by rw [hrp]; exact hD.2⟩
      · have := tombstoned_keep htomb p s hlive hD
        rw [this] at hnone
        cases hnone
  · intro j t p s hj hjp hjt hLp hsub
    exact tombstoned_none htomb p (h6 j t p s hj hjp (tombstoned_live htomb j t hjt).1 hLp hsub)

end AllMaximalSetsLexicographic

namespace AllMaximalSetsLexicographic

theorem slot_cases (cs : CandidateList) (p : Nat) (hp : p < cs.length) :
    cs[p]? = some none ∨ ∃ s, cs[p]? = some (some s) := by
  cases hslot : cs[p] with
  | none => exact Or.inl (by rw [List.getElem?_eq_getElem hp, hslot])
  | some s => exact Or.inr ⟨s, by rw [List.getElem?_eq_getElem hp, hslot]⟩

/-- A record that no record properly includes is not a proper prefix of any
entry of the chunk. -/
theorem unpruned_of_maximal (records : List Record)
    (hinc : ∀ r ∈ records, r.2.Pairwise (· < ·)) (sets : List SetProperties)
    (hsets : ∀ t ∈ sets, ∃ r ∈ records, r.2 = t.item) (s : SetProperties)
    (hmax : ∀ q ∈ records, ¬ proper_subset s.item q.2) :
    ∀ t ∈ sets, ¬ proper_initial_segment s.item t.item := by
  intro t ht hpp
  obtain ⟨r, hr, hrt⟩ := hsets t ht
  refine hmax r hr ?_
  rw [hrt]
  exact proper_subset_of_proper_initial_segment _ _ (by rw [← hrt]; exact hinc r hr) hpp

/-- At the end of the work on a chunk, the live entries are in the order of
the chunk and hold every record of the chunk that no input record properly
includes. -/
theorem chunk_result (records : List Record) (hinc : ∀ r ∈ records, r.2.Pairwise (· < ·))
    (sets : List SetProperties) (hsets : ∀ t ∈ sets, ∃ r ∈ records, r.2 = t.item)
    (i : Nat) (self : AllMaximalSetsLexicographic)
    (h : chunk_checked (unpruned sets) records i self) :
    (sets.filter (fun s => decide (∀ q ∈ records, ¬ proper_subset s.item q.2))).Sublist
        (self.candidates_.filterMap id) ∧
      (self.candidates_.filterMap id).Sublist sets := by
  unfold unpruned at h
  obtain ⟨_, _, h3, h4, h5, _⟩ := h
  obtain ⟨ha, hb⟩ := filter_sublist_filterMap
    (fun s : SetProperties => decide (∀ q ∈ records, ¬ proper_subset s.item q.2)) _
    self.candidates_ h3
    (by
      intro p x hpx
      have hp : p < self.candidates_.length := by
        rw [h3]
        exact (List.getElem?_eq_some_iff.1 hpx).1
      rcases slot_cases _ p hp with hn | ⟨s, hs⟩
      · right
        refine ⟨hn, ?_⟩
        obtain ⟨r, hr, hsub⟩ := h5 p x hpx hn
        exact decide_eq_false (fun hall => hall r hr hsub)
      · left
        have := h4 p s hs
        rw [hpx] at this
        cases this
        exact hs)
  refine ⟨?_, hb.trans (List.filter_sublist _)⟩
  have hff : sets.filter (fun s => decide (∀ q ∈ records, ¬ proper_subset s.item q.2)) =
      (sets.filter (fun s => decide (∀ t ∈ sets, ¬ proper_initial_segment s.item t.item))).filter
        (fun s => decide (∀ q ∈ records, ¬ proper_subset s.item q.2)) := by
    rw [List.filter_filter]
    apply List.filter_congr
    intro s _
    by_cases hmax : ∀ q ∈ records, ¬ proper_subset s.item q.2
    · have := unpruned_of_maximal records hinc sets hsets s hmax
      rw [decide_eq_true hmax, decide_eq_true this]
      rfl
    · rw [decide_eq_false hmax]
      simp
  rw [hff]
  exact ha

end AllMaximalSetsLexicographic

namespace AllMaximalSetsLexicographic

theorem chunk_of_valid (records : List Record) (hvalid : valid_records records) :
    ∀ s ∈ chunk_of records, s.item ≠ [] ∧ s.item.Pairwise (· < ·) := by
  intro s hs
  obtain ⟨r, hr, hrs⟩ := List.mem_map.1 hs
  rw [← hrs]
  exact hvalid.2 r hr

theorem chunk_of_lex (records : List Record) (hlex : lex_ordered records) :
    (chunk_of records).Pairwise (fun a b => a.item < b.item) := by
  unfold chunk_of
  rw [List.pairwise_map]
  exact hlex

theorem chunk_of_records (records : List Record) :
    ∀ t ∈ chunk_of records, ∃ r ∈ records, r.2 = t.item := by
  intro t ht
  obtain ⟨r, hr, hrt⟩ := List.mem_map.1 ht
  exact ⟨r, hr, by rw [← hrt]; rfl⟩

/-- A packed chunk that was just indexed is in the state from which the
in-chunk scan starts. -/
theorem chunk_checked_start (L : List SetProperties) (records : List Record)
    (self : AllMaximalSetsLexicographic) (hcand : self.candidates_ = L.map some)
    (hsorted : chunk_sorted self.candidates_)
    (hindexed : chunk_indexed self.candidates_ self.index_) :
    chunk_checked L records 0 self := by
  refine ⟨hsorted, hindexed, by rw [hcand, List.length_map], ?_, ?_, ?_⟩
  · intro p s hp
    rw [hcand, List.getElem?_map] at hp
    cases hq : L[p]? with
    | none =>
      rw [hq] at hp
      cases hp
    | some x =>
      rw [hq] at hp
      simp only [Option.map_some', Option.some.injEq] at hp
      rw [hp]
  · intro p s hLp hnone
    rw [hcand, List.getElem?_map, hLp] at hnone
    cases hnone
  · intro j t p s hj
    omega

end AllMaximalSetsLexicographic

namespace AllMaximalSetsLexicographic

/-- The in-chunk scan ends without a fault, keeps the state of the chunk and
leaves the index alone. -/
theorem check_chunk_spec_index (L : List SetProperties) (records : List Record)
    (hLrec : ∀ t ∈ L, ∃ r ∈ records, r.2 = t.item) :
    ∀ (todo i : Nat) (self : AllMaximalSetsLexicographic), i + todo = L.length - 1 →
      0 < L.length → chunk_checked L records i self →
      ∃ self', FindAllMaximalSets.check_chunk todo i self = Except.ok self' ∧
        chunk_checked L records (L.length - 1) self' ∧ self'.index_ = self.index_ := by
  intro todo
  induction todo with
  | zero =>
    intro i self hi _ h
    have : i = L.length - 1 := by omega
    subst this
    exact ⟨self, rfl, h, rfl⟩
  | succ todo ih =>
    intro i self hi hpos h
    have hlen := h.2.2.1
    have hic : i < self.candidates_.length := by omega
    unfold FindAllMaximalSets.check_chunk
    simp only [read, List.get?_eq_getElem?, List.getElem?_eq_getElem hic, bind, Except.bind]
    cases hslot : self.candidates_[i] with
    | none =>
      simp only
      refine ih (i + 1) self (by omega) hpos ?_
      obtain ⟨h1, h2, h3, h4, h5, h6⟩ := h
      refine ⟨h1, h2, h3, h4, h5, ?_⟩
      intro j t p s hj hjp hjt hLp hsub
      rcases Nat.eq_or_lt_of_le (Nat.le_of_lt_succ hj) with hji | hji
      · subst hji
        rw [List.getElem?_eq_getElem hic, hslot] at hjt
        cases hjt
      · exact h6 j t p s hji hjp hjt hLp hsub
    | some t =>
      have hit : self.candidates_[i]? = some (some t) := by
        rw [List.getElem?_eq_getElem hic, hslot]
      obtain ⟨self1, hrun, htomb, hidx⟩ := DeleteSubsumedCandidatesAt_spec self i t hit h.1
        h.2.1 (by omega)
      simp only [hrun]
      have hLt := h.2.2.2.1 i t hit
      have h' := chunk_checked_probe L records i (i + 1) self self1 t.item
        (by
          obtain ⟨r, hr, hrt⟩ := hLrec t (List.mem_iff_getElem?.2 ⟨i, hLt⟩)
          exact ⟨r, hr, hrt⟩) htomb hidx h
      suffices hn : chunk_checked L records (i + 1) self1 by
        obtain ⟨self2, hr2, hc2, hi2⟩ := ih (i + 1) self1 (by omega) hpos hn
        exact ⟨self2, hr2, hc2, hi2.trans hidx⟩
      obtain ⟨h1, h2, h3, h4, h5, h6⟩ := h'
      refine ⟨h1, h2, h3, h4, h5, ?_⟩
      intro j u p s hj hjp hju hLp hsub
      rcases Nat.eq_or_lt_of_le (Nat.le_of_lt_succ hj) with hji | hji
      · subst hji
        have hju' := (tombstoned_live htomb j u hju).1
        rw [hit] at hju'
        cases hju'
        have hp : p < self.candidates_.length := by
          rw [hlen]
          exact (List.getElem?_eq_some_iff.1 hLp).1
        cases hslotp : self.candidates_[p] with
        | none =>
          exact tombstoned_none htomb p (by rw [List.getElem?_eq_getElem hp, hslotp])
        | some s' =>
          have hlive : self.candidates_[p]? = some (some s') := by
            rw [List.getElem?_eq_getElem hp, hslotp]
          have hs' := h.2.2.2.1 p s' hlive
          rw [hLp] at hs'
          cases hs'
          exact ((htomb.2 p).2 s hlive).1 ⟨by omega, hsub⟩
      · exact h6 j u p s hji hjp hju hLp hsub


/-- The replay of the records in front of a chunk: it ends without a fault
at the start of the chunk, having probed the chunk with every record in front
of it, and keeps the state of the chunk. -/
theorem replay_spec (L : List SetProperties) (records : List Record)
    (hvalid : valid_records records) (i k : Nat) (hk : k ≤ records.length)
    (hpos : 0 < L.length) :
    ∀ (fuel : Nat) (s : Replay),
      s.data.data.file = (DataSourceIterator.Get records).file → s.data.data.pos ≤ k →
      k - s.data.data.pos < fuel → chunk_checked L records i s.self →
      (s.data.data.pos < k ∨ 0 ≤ s.result) →
      ∃ s', FindAllMaximalSets.replay k fuel s = Except.ok s' ∧
        chunk_checked L records i s'.self ∧ s'.self.index_ = s.self.index_ ∧
        s'.self.fixed = s.self.fixed ∧
        s'.data.data.pos = k ∧ s'.data.data.file = s.data.data.file ∧
        s'.data.data.seek_faults = s.data.data.seek_faults ∧
        emitted_ids s'.data.trace = emitted_ids s.data.trace ∧ 0 ≤ s'.result := by
  intro fuel
  induction fuel with
  | zero =>
    intro s _ _ h
    omega
  | succ fuel ih =>
    intro s hfile hle hfuel hchecked hres
    unfold FindAllMaximalSets.replay
    by_cases htell : s.data.Tell < k
    · simp only [htell, if_true, World.Next]
      have hlt : s.data.data.pos < k := htell
      rcases DataSourceIterator.Next_get s.data.data s.set_id s.current_set with
        ⟨hget, hn⟩ | ⟨id, items, hget, hn⟩ | ⟨hget, hn⟩
      · exfalso
        rw [hfile] at hget
        simp only [DataSourceIterator.Get, List.get?_eq_none, List.length_map] at hget
        omega
      · rw [hfile] at hget
        have hrec := DataSourceIterator.Get_get records _ id items hget
        rw [List.get?_eq_getElem?] at hrec
        have hmem : (id, items) ∈ records := List.mem_iff_getElem?.2 ⟨_, hrec⟩
        simp only [hn]
        have hone : ((1 : Int) > 0) = True := by simp
        simp only [hone, if_true]
        obtain ⟨self1, hrun1, htomb, hidx⟩ := DeleteSubsumedCandidates_spec s.self items
          (hvalid.2 _ hmem).2 hchecked.1 hchecked.2.1 (by rw [hchecked.2.2.1]; exact hpos)
        simp only [hrun1]
        have hnext := chunk_checked_probe L records i 0 s.self self1 items ⟨(id, items), hmem, rfl⟩
          (tombstoned_congr htomb (fun p t _ => by simp)) hidx hchecked
        obtain ⟨s', hrun', h1, h2, h3, h4, h5, h6, h7, h8⟩ := ih
          { s with result := 1, set_id := id, current_set := items,
                   data := { data := { s.data.data with pos := s.data.data.pos + 1 },
                             trace := s.data.trace ++ [Event.Next 1] },
                   self := self1 }
          hfile (by simp only; omega) (by simp only; omega) hnext (Or.inr (by simp))
        refine ⟨s', hrun', h1, h2.trans hidx, ?_, h4, h5, h6, ?_, h8⟩
        · rw [h3]
          exact DeleteSubsumedCandidates_fixed _ _ _ hrun1
        · rw [h7]
          simp [emitted_ids_append, emitted_ids]
      · exfalso
        rw [hfile] at hget
        simp only [DataSourceIterator.Get, List.get?_eq_getElem?, List.getElem?_map] at hget
        cases hr : records[s.data.data.pos]? with
        | none => rw [hr] at hget; cases hget
        | some r => rw [hr] at hget; cases hget
    · simp only [htell, if_false]
      have hge : ¬ s.data.data.pos < k := htell
      refine ⟨s, rfl, hchecked, rfl, rfl, by omega, rfl, rfl, rfl, ?_⟩
      rcases hres with h | h
      · exact absurd h hge
      · exact h

end AllMaximalSetsLexicographic

namespace AllMaximalSetsLexicographic

theorem take_append_slice {α : Type} (l : List α) (k stop : Nat) (hk : k ≤ stop) :
    l.take stop = l.take k ++ (l.drop k).take (stop - k) := by
  have : stop = k + (stop - k) := by omega
  rw [this, List.take_add]
  simp

/-- The ids of the live entries at the end of the work on a chunk: they are
ids of the records of the chunk, in order, and hold the id of every record of
the chunk that no input record properly includes. -/
theorem chunk_ids (records slice : List Record) (hinc : ∀ r ∈ records, r.2.Pairwise (· < ·))
    (hslice : ∀ r ∈ slice, r ∈ records) (i : Nat) (self : AllMaximalSetsLexicographic)
    (h : chunk_checked (unpruned (chunk_of slice)) records i self) :
    (maximal_among records slice).Sublist
        ((self.candidates_.filterMap id).map SetProperties.set_id) ∧
      ((self.candidates_.filterMap id).map SetProperties.set_id).Sublist
        (slice.map Prod.fst) := by
  have hsets : ∀ t ∈ chunk_of slice, ∃ r ∈ records, r.2 = t.item := by
    intro t ht
    obtain ⟨r, hr, hrt⟩ := List.mem_map.1 ht
    exact ⟨r, hslice r hr, by rw [← hrt]; rfl⟩
  obtain ⟨h1, h2⟩ := chunk_result records hinc (chunk_of slice) hsets i self h
  have e1 : ((chunk_of slice).filter
      (fun s => decide (∀ q ∈ records, ¬ proper_subset s.item q.2))).map SetProperties.set_id =
      maximal_among records slice := by
    unfold chunk_of maximal_among
    rw [List.filter_map, List.map_map]
    rfl
  have e2 : (chunk_of slice).map SetProperties.set_id = slice.map Prod.fst := by
    unfold chunk_of
    rw [List.map_map]
    rfl
  rw [← e1, ← e2]
  exact ⟨h1.map _, h2.map _⟩

theorem maximal_among_append (records a b : List Record) :
    maximal_among records (a ++ b) = maximal_among records a ++ maximal_among records b := by
  unfold maximal_among
  rw [List.filter_append, List.map_append]

/-- The end of one turn of the chunk loop: the chunk is written out and the
loop goes on with the next chunk or ends. -/
theorem chunk_finish (records : List Record) (hvalid : valid_records records)
    (io_fuel fuel : Nat) (ih : FindAllMaximalSets.chunks_keep records io_fuel fuel)
    (i k stop resume : Nat) (selfF : AllMaximalSetsLexicographic) (dataF : World) (resF : Int)
    (sid : Nat) (cur : ItemSet)
    (hchecked : chunk_checked (unpruned (chunk_of ((records.drop k).take (stop - k)))) records i
      selfF)
    (hk : k ≤ stop) (hstop : stop ≤ records.length)
    (hres : (resume = 0 ∧ stop = records.length) ∨ (resume = stop ∧ k < stop))
    (hfile : dataF.data.file = (DataSourceIterator.Get records).file)
    (hseek : dataF.data.seek_faults = []) (hidx0 : selfF.index_.getD 0 0 = 0)
    (hmode : selfF.output_mode_ ≠ OutputModeEnum.COUNT_ONLY) (hresF : 0 ≤ resF)
    (hE1 : (maximal_among records (records.take k)).Sublist (emitted_ids dataF.trace))
    (hE2 : (emitted_ids dataF.trace).Sublist ((records.take k).map Prod.fst))
    (flag : Bool) (self' : AllMaximalSetsLexicographic) (data' : World)
    (h : (if resume ≠ 0 then
        FindAllMaximalSets.chunks io_fuel fuel
          { self := (DumpMaximalSets selfF dataF).1, data := (DumpMaximalSets selfF dataF).2,
            result := resF, set_id := sid, current_set := cur, resume_offset := resume }
      else Except.ok (true, (DumpMaximalSets selfF dataF).1, (DumpMaximalSets selfF dataF).2)) =
      Except.ok (flag, self', data')) :
    flag = true ∧ (maximal_ids records).Sublist (emitted_ids data'.trace) ∧
      (emitted_ids data'.trace).Sublist (records.map Prod.fst) := by
  have hinc : ∀ r ∈ records, r.2.Pairwise (· < ·) := fun r hr => (hvalid.2 r hr).2
  obtain ⟨hd1, hd2, hd3, _, hd5, hd6⟩ := DumpMaximalSets_written selfF dataF hmode
  obtain ⟨hc1, hc2⟩ := chunk_ids records ((records.drop k).take (stop - k)) hinc
    (fun r hr => (List.drop_sublist _ _).subset ((List.take_sublist _ _).subset hr)) i selfF
    hchecked
  have hsplit := take_append_slice records k stop hk
  have hN1 : (maximal_among records (records.take stop)).Sublist
      (emitted_ids (DumpMaximalSets selfF dataF).2.trace) := by
    rw [hd1, hsplit, maximal_among_append]
    exact hE1.append hc1
  have hN2 : (emitted_ids (DumpMaximalSets selfF dataF).2.trace).Sublist
      ((records.take stop).map Prod.fst) := by
    rw [hd1, hsplit, List.map_append]
    exact hE2.append hc2
  rcases hres with ⟨hr0, hsn⟩ | ⟨hrs, hklt⟩
  · subst hr0
    simp only [ne_eq, not_true_eq_false, if_false, Except.ok.injEq, Prod.mk.injEq] at h
    obtain ⟨hf, _, hdata⟩ := h
    subst hdata
    rw [hsn, List.take_length] at hN1 hN2
    exact ⟨hf.symm, hN1, hN2⟩
  · subst hrs
    have hne : resume ≠ 0 := by omega
    rw [if_pos hne] at h
    exact ih _ flag self' data' h (by rw [hd6]; exact hfile) (by rw [hd6]; exact hseek) hd2
      (by rw [hd5]; exact hidx0) (by rw [hd3]; exact hmode) hstop hresF hN1 hN2

/-- The chunk loop keeps the maximal records, with any number of turns. -/
theorem chunks_sound (records : List Record) (hvalid : valid_records records)
    (hlex : lex_ordered records) (io_fuel : Nat) (hio : records.length + 1 ≤ io_fuel) :
    ∀ (fuel : Nat), FindAllMaximalSets.chunks_keep records io_fuel fuel := by
  intro fuel
  induction fuel with
  | zero =>
    intro s flag self' data' h
    unfold FindAllMaximalSets.chunks at h
    cases h
  | succ fuel ih =>
    intro s flag self' data' h hfile hseek hcand hidx0 hmode hk hres hE1 hE2
    have hprep : ∀ (w : World) (off : Nat), w.data.seek_faults = [] →
        PrepareForDataScan w off = (true, (w.Seek off).2) ∧
        (w.Seek off).2.data.file = w.data.file ∧ (w.Seek off).2.data.pos = off ∧
        (w.Seek off).2.data.seek_faults = [] ∧
        emitted_ids (w.Seek off).2.trace = emitted_ids w.trace := by
      intro w off hw
      simp [PrepareForDataScan, World.Seek, DataSourceIterator.Seek, hw, emitted_ids_append,
        emitted_ids]
    obtain ⟨hp1, hp2, hp3, hp4, hp5⟩ := hprep s.data s.resume_offset hseek
    obtain ⟨stop, self1, data2, resume, hread, h1, h2, h3, h4, h5, _, h7, h8, h9, h10, h11, _,
        _⟩ := ReadNextChunk.read_loop_spec records io_fuel { s.self with items_in_ram_ := 0 }
      (s.data.Seek s.resume_offset).2 0 [] (by rw [hp2]; exact hfile) (by rw [hp3]; exact hk)
      (by rw [hp3]; omega)
    rw [hp3] at h1 h3 h11
    simp only [hcand, List.nil_append] at h3
    have hread' : ReadNextChunk s.self (s.data.Seek s.resume_offset).2 io_fuel =
        Except.ok (true, self1, data2, resume) := hread
    unfold FindAllMaximalSets.chunks at h
    simp only [hp1, hread'] at h
    by_cases hempty : stop = s.resume_offset
    · exfalso
      have hc : self1.candidates_ = [] := by
        rw [h3, hempty]
        simp
      have hfail : DeleteTriviallySubsumedCandidates self1 = Except.error Fault.assertion := by
        unfold DeleteTriviallySubsumedCandidates
        simp [hc]
      simp only [hfail, bind, Except.bind] at h
      cases h
    · have hklt : s.resume_offset < stop := by omega
      have hchunk : self1.candidates_ =
          (chunk_of ((records.drop s.resume_offset).take (stop - s.resume_offset))).map some := by
        rw [h3]
        unfold chunk_of
        rw [List.map_map]
        rfl
      have hsub : ((records.drop s.resume_offset).take (stop - s.resume_offset)).Sublist
          records := (List.take_sublist _ _).trans (List.drop_sublist _ _)
      have hsvalid : valid_records
          ((records.drop s.resume_offset).take (stop - s.resume_offset)) :=
        ⟨hvalid.1.sublist (hsub.map _), fun r hr => hvalid.2 r (hsub.subset hr)⟩
      have hslex : lex_ordered ((records.drop s.resume_offset).take (stop - s.resume_offset)) :=
        List.Pairwise.sublist hsub hlex
      have hcne : chunk_of ((records.drop s.resume_offset).take (stop - s.resume_offset)) ≠
          [] := by
        unfold chunk_of
        intro hnil
        have := congrArg List.length hnil
        simp only [List.length_map, List.length_take, List.length_drop, List.length_nil] at this
        omega
      obtain ⟨self2, hpb, hcand2, hLne, hsorted2, hindexed2, hz2, hfixed2⟩ :=
        prune_build_spec self1 _ hcne hchunk (chunk_of_valid _ hsvalid) (chunk_of_lex _ hslex)
          (by rw [h4]; exact hidx0)
      have hlen2 : self2.candidates_.length = (unpruned (chunk_of
          ((records.drop s.resume_offset).take (stop - s.resume_offset)))).length := by
        rw [hcand2, List.length_map]
      have hLrec : ∀ t ∈ unpruned (chunk_of
          ((records.drop s.resume_offset).take (stop - s.resume_offset))),
          ∃ r ∈ records, r.2 = t.item := by
        intro t ht
        obtain ⟨r, hr, hrt⟩ := chunk_of_records _ t ((List.filter_sublist _).subset ht)
        exact ⟨r, hsub.subset hr, hrt⟩
      obtain ⟨self3, hcc, hchecked, hidx3⟩ := check_chunk_spec_index _ records hLrec
        (self2.candidates_.length - 1) 0 self2 (by rw [hlen2]; omega) (List.length_pos.2 hLne)
        (chunk_checked_start _ records self2 hcand2 hsorted2 hindexed2)
      have hfixed3 := check_chunk_fixed _ _ _ _ hcc
      have hmode3 : self3.output_mode_ ≠ OutputModeEnum.COUNT_ONLY := by
        have e1 : self3.output_mode_ = self2.output_mode_ := congrArg (fun t => t.2.2.2) hfixed3
        have e2 : self2.output_mode_ = self1.output_mode_ := congrArg (fun t => t.2.2.2) hfixed2
        rw [e1, e2, h5]
        exact hmode
      have hpb' := hpb
      simp only [bind, Except.bind] at hpb'
      simp only [bind, Except.bind, hpb', hcc] at h
      have hres11 : (resume = 0 ∧ stop = records.length) ∨
          (resume = stop ∧ s.resume_offset < stop) := by
        rcases h11 with hh | ⟨ha, hb, _⟩
        · exact Or.inl hh
        · exact Or.inr ⟨ha, hb⟩
      by_cases hk0 : s.resume_offset = 0
      · simp only [hk0, ne_eq, not_true_eq_false, if_false] at h
        rw [hk0] at hchecked hE1 hE2
        exact chunk_finish records hvalid io_fuel fuel ih _ 0 stop resume self3 data2 s.result
          s.set_id s.current_set hchecked (Nat.zero_le _) h2
          (by
            rcases hres11 with hh | ⟨ha, hb⟩
            · exact Or.inl hh
            · exact Or.inr ⟨ha, by omega⟩)
          (by rw [h7, hp2]; exact hfile) (by rw [h9, hp4]) (by rw [hidx3]; exact hz2) hmode3
          hres (by rw [h10, hp5]; exact hE1) (by rw [h10, hp5]; exact hE2) flag self' data' h
      · obtain ⟨hq1, hq2, hq3, hq4, hq5⟩ := hprep data2 0 (by rw [h9, hp4])
        obtain ⟨r, hrep, hr1, hr2, hr3, hr4, hr5, hr6, hr7, hr8⟩ := replay_spec _ records hvalid
          (unpruned (chunk_of
            ((records.drop s.resume_offset).take (stop - s.resume_offset)))).length.pred
          s.resume_offset hk (List.length_pos.2 hLne) io_fuel
          { self := self3, data := (data2.Seek 0).2, result := s.result, set_id := s.set_id,
            current_set := s.current_set }
          (by simp only; rw [hq2, h7, hp2]; exact hfile) (by simp only; rw [hq3]; omega)
          (by simp only; rw [hq3]; omega) hchecked (Or.inl (by simp only; rw [hq3]; omega))
        have hdec : decide (¬ r.result < 0) = true := decide_eq_true (by omega)
        simp only [ne_eq, hk0, not_false_eq_true, if_true, hq1, hrep, hdec] at h
        have hmodeF : r.self.output_mode_ ≠ OutputModeEnum.COUNT_ONLY := by
          have e1 : r.self.output_mode_ = self3.output_mode_ := congrArg (fun t => t.2.2.2) hr3
          rw [e1]
          exact hmode3
        exact chunk_finish records hvalid io_fuel fuel ih _ s.resume_offset stop resume r.self
          r.data r.result r.set_id r.current_set hr1 (le_of_lt hklt) h2 hres11
          (by rw [hr5]; simp only; rw [hq2, h7, hp2]; exact hfile)
          (by rw [hr6]; simp only; rw [hq4])
          (by rw [hr2]; simp only; rw [hidx3]; exact hz2) hmodeF hr8
          (by rw [hr7]; simp only; rw [hq5, h10, hp5]; exact hE1)
          (by rw [hr7]; simp only; rw [hq5, h10, hp5]; exact hE2) flag self' data' h

end AllMaximalSetsLexicographic

/-- Claim C25: the lexicographic engine never deletes a maximal set.  On every
input of valid records in strict lexicographic order, for every budget and
with fuel for all the records, a run that ends without a fault returns `true`,
and the ids it has written are ids of records, in the order of the input and
without repetition, among them the id of every record that is not a proper
subset of another record, which is therefore written exactly once.  (Every
tombstone set by the trivial pruning, the in-chunk scan or the replay falls
on a proper subset of an input record; this is the invariant `chunk_checked`
of the proof.) -/
theorem C25_lexicographic_keeps_maximal (records : List Record) (max_items_in_ram : Int)
    (fuel : Nat) (flag : Bool) (ids : List Nat) (hvalid : valid_records records)
    (hlex : lex_ordered records) (hfuel : records.length + 1 ≤ fuel)
    (h : lexicographic_run records max_items_in_ram fuel = Except.ok (flag, ids)) :
    flag = true ∧ (maximal_ids records).Sublist ids ∧ ids.Sublist (records.map Prod.fst) ∧
      ids.Nodup ∧ ∀ i ∈ maximal_ids records, ids.count i = 1 := by
  unfold lexicographic_run AllMaximalSetsLexicographic.FindAllMaximalSets at h
  cases hrun : AllMaximalSetsLexicographic.FindAllMaximalSets.chunks fuel fuel
      { self := (AllMaximalSetsLexicographic.new.SetMaxItemsInRam max_items_in_ram).Init,
        data := World.start (DataSourceIterator.Get records), result := 0, set_id := 0,
        current_set := [], resume_offset := 0 } with
  | error e =>
    rw [hrun] at h
    cases h
  | ok r =>
    obtain ⟨flag', self', data'⟩ := r
    rw [hrun] at h
    simp only [Except.map, Except.ok.injEq, Prod.mk.injEq] at h
    obtain ⟨hf, hi⟩ := h
    subst hf
    subst hi
    obtain ⟨h1, h2, h3⟩ := AllMaximalSetsLexicographic.chunks_sound records hvalid hlex fuel
      hfuel fuel _ flag' self' data' hrun rfl rfl rfl rfl
      (by simp [AllMaximalSetsLexicographic.Init, AllMaximalSetsLexicographic.SetMaxItemsInRam,
        AllMaximalSetsLexicographic.new]) (Nat.zero_le _)
      (le_refl _) (by simp [maximal_among, World.start, emitted_ids])
      (by simp [World.start, emitted_ids])
    have hnodup : (emitted_ids data'.trace).Nodup := hvalid.1.sublist h3
    exact ⟨h1, h2, h3, hnodup, fun i hi => List.count_eq_one_of_mem hnodup (h2.subset hi)⟩

/-- An instance of C25: the records `1:{1,2}`, `2:{1,3}`, `3:{2,3}` with a
budget of three items, which are read in two chunks. -/
theorem C25_lexicographic_keeps_maximal_witness :
    true = true ∧
      (maximal_ids [(1, [1, 2]), (2, [1, 3]), (3, [2, 3])]).Sublist [1, 2, 3] ∧
      [1, 2, 3].Sublist (([(1, [1, 2]), (2, [1, 3]), (3, [2, 3])] : List Record).map Prod.fst) ∧
      [1, 2, 3].Nodup ∧
      ∀ i ∈ maximal_ids [(1, [1, 2]), (2, [1, 3]), (3, [2, 3])], [1, 2, 3].count i = 1 :=
  C25_lexicographic_keeps_maximal [(1, [1, 2]), (2, [1, 3]), (3, [2, 3])] 3 4 true [1, 2, 3]
    (by decide) (by decide) (by decide) (by decide!)

/-! ## The ordering lemma of the lexicographic engine -/

/-- Claim C34, counterexample: the strictly increasing sequences `A = [1, 2, 3]`
and `B = [2, 3]` are different and every item of `B` occurs in `A`, so `B` is a
proper subset of `A`; yet `A` does not sort after `B`: the records `A`, `B` are
in lexicographic order as they stand, and the engine run on them writes `A`
alone. -/
theorem C34_superset_sorts_after_counterexample :
    List.Pairwise (· < ·) [1, 2, 3] ∧ List.Pairwise (· < ·) [2, 3] ∧
      ([1, 2, 3] : ItemSet) ≠ [2, 3] ∧ proper_subset [2, 3] [1, 2, 3] ∧
      ¬ (([2, 3] : ItemSet) < [1, 2, 3]) ∧ lex_ordered [(0, [1, 2, 3]), (1, [2, 3])] ∧
      lexicographic_run [(0, [1, 2, 3]), (1, [2, 3])] 100 10 = Except.ok (true, [0]) := by
  refine ⟨by decide, by decide, by decide, by decide, by decide, by decide, ?_⟩
  decide!

/-- Claim C34, amended: for strictly increasing item sequences `A ≠ B` such
that every item of `B` occurs in `A`, `B` is a proper subset of `A`, and `A`
sorts strictly before `B` in lexicographic order unless `B` is a proper initial
segment of `A`, in which case `A` sorts strictly after `B`.  So an entry of a
chunk from which the proper initial segments have been removed can only
subsume entries at later positions. -/
theorem C34_superset_sorts_first (A B : ItemSet) (hA : A.Pairwise (· < ·))
    (hB : B.Pairwise (· < ·)) (hne : A ≠ B) (hsub : ∀ x ∈ B, x ∈ A) :
    proper_subset B A ∧
      ((proper_initial_segment B A ∧ B < A) ∨ (¬ B <+: A ∧ A < B)) := by
  refine ⟨proper_subset_of_subset_of_ne B A hB hA hsub (fun h => hne h.symm), ?_⟩
  by_cases hp : B <+: A
  · left
    have hlen : B.length < A.length := by
      rcases Nat.lt_or_ge B.length A.length with h | h
      · exact h
      · exact absurd (hp.eq_of_length (Nat.le_antisymm hp.length_le h)).symm hne
    exact ⟨⟨hp, hlen⟩, lt_of_proper_initial_segment B A ⟨hp, hlen⟩⟩
  · right
    exact ⟨hp, lt_of_superset_not_prefix A B hA hB hsub hp⟩

theorem C34_superset_sorts_first_witness :
    proper_subset [2, 3] [1, 2, 3] ∧
      ((proper_initial_segment [2, 3] [1, 2, 3] ∧ ([2, 3] : ItemSet) < [1, 2, 3]) ∨
        (¬ ([2, 3] : ItemSet) <+: [1, 2, 3] ∧ ([1, 2, 3] : ItemSet) < [2, 3])) :=
  C34_superset_sorts_first [1, 2, 3] [2, 3] (by decide) (by decide) (by decide) (by decide)

/-! ## The DIMACS reader: a zero at the start of a clause -/

/-- The claim C36 as stated fails: on the file `0 1 2 0` the first call of
`DimacsIterator::Next` converts the integer `0` while the vector of the
clause is empty and does not go on to the clause `1 2`: it returns `-1` with
the message "Empty clause encountered.", the rest of the file unread.
Without the leading `0` the same call returns `1` with the clause `1 2`. -/
theorem C36_leading_zero_counterexample :
    DimacsIterator.Next
        { data_ := [⟨1, 0, 0⟩, ⟨1, 1, 0⟩, ⟨1, 2, 0⟩, ⟨1, 0, 0⟩], error_ := "" } [] =
      (-1, [], { data_ := [⟨1, 1, 0⟩, ⟨1, 2, 0⟩, ⟨1, 0, 0⟩],
                 error_ := "Empty clause encountered." }) ∧
    DimacsIterator.Next { data_ := [⟨1, 1, 0⟩, ⟨1, 2, 0⟩, ⟨1, 0, 0⟩], error_ := "" } [] =
      (1, [1, 2], { data_ := [], error_ := "" }) :=
  ⟨rfl, rfl⟩

/-- Claim C36 (amended): when `DimacsIterator::Next` converts the integer `0`
while the vector of the current clause is empty, it reports an error: it
returns `-1` with the message "Empty clause encountered.", whatever follows
in the file.  What it takes for a part of a header or of a comment, and
passes over to go on reading, is a call of `fscanf` that converts nothing
while the vector is empty. -/
theorem C36_leading_zero_is_an_error :
    (∀ (data : List Scan) (error : String) (vec : List Int),
      DimacsIterator.Next
          { data_ := { scan_result := 1, literal := 0, ferror := 0 } :: data, error_ := error }
          vec =
        (-1, [], { data_ := data, error_ := "Empty clause encountered." })) ∧
    (∀ (literal : Int) (data : List Scan) (error : String) (vec : List Int),
      DimacsIterator.Next
          { data_ := { scan_result := 0, literal := literal, ferror := 0 } :: data,
            error_ := error }
          vec =
        DimacsIterator.Next { data_ := data, error_ := error } vec) :=
  ⟨fun _ _ _ => rfl, fun _ _ _ _ => rfl⟩

/-! ## The lexicographic engine: the last entry of a chunk -/
namespace AllMaximalSetsLexicographic

/-- The backwards loop of `DeleteTriviallySubsumedCandidates` over live slots
returns, whatever the order of the sets, and touches no slot from `i` on. -/
theorem DeleteTriviallySubsumedCandidates.loop_keeps :
    ∀ (i : Nat) (self : AllMaximalSetsLexicographic) (nap : SetProperties),
      (∀ (k : Nat), k < i → ∃ (s : SetProperties), self.candidates_[k]? = some (some s)) →
      ∃ self', DeleteTriviallySubsumedCandidates.loop i self nap = Except.ok self' ∧
        self'.candidates_.length = self.candidates_.length ∧
        ∀ (k : Nat), i ≤ k → self'.candidates_[k]? = self.candidates_[k]? := by
  intro i
  induction i with
  | zero =>
    intro self nap _
    exact ⟨self, by unfold DeleteTriviallySubsumedCandidates.loop; rfl, rfl, fun _ _ => rfl⟩
  | succ i ih =>
    intro self nap hlive
    obtain ⟨s, hs⟩ := hlive i (Nat.lt_succ_self i)
    unfold DeleteTriviallySubsumedCandidates.loop
    simp only [read, List.get?_eq_getElem?, hs, deref, bind, Except.bind]
    have hfalse : ∃ self', DeleteTriviallySubsumedCandidates.loop i self s = Except.ok self' ∧
        self'.candidates_.length = self.candidates_.length ∧
        ∀ (k : Nat), i + 1 ≤ k → self'.candidates_[k]? = self.candidates_[k]? := by
      obtain ⟨self', hrun, hlen, hkeep⟩ := ih self s (fun k hk => hlive k (by omega))
      exact ⟨self', hrun, hlen, fun k hk => hkeep k (by omega)⟩
    by_cases hsz : s.size < nap.size
    · rw [if_pos hsz, DeleteTriviallySubsumedCandidates.same_items_spec s nap s.size 0 (by omega)
        (by omega)]
      simp only
      by_cases hp : s.item.drop 0 <+: nap.item.drop 0
      · rw [if_pos (decide_eq_true hp)]
        obtain ⟨self', hrun, hlen, hkeep⟩ := ih
          { self with
            items_in_ram_ := (self.items_in_ram_ + 2 ^ 32 - s.size % 2 ^ 32) % 2 ^ 32
            candidates_ := self.candidates_.set i none } nap
          (by
            intro k hk
            simp only
            rw [List.getElem?_set_ne (by omega)]
            exact hlive k (by omega))
        refine ⟨self', hrun, by simpa using hlen, ?_⟩
        intro k hk
        rw [hkeep k (by omega)]
        simp only
        rw [List.getElem?_set_ne (by omega)]
      · rw [if_neg (fun h => hp (of_decide_eq_true h))]
        exact hfalse
    · rw [if_neg hsz]
      exact hfalse

end AllMaximalSetsLexicographic

/-- Claim C38: on every non-empty chunk, that is a candidate vector whose
slots all point to sets, in any order, `DeleteTriviallySubsumedCandidates`
returns and leaves the vector at its length with its last slot untouched; so
the dereference of `candidates_.back()` at the start of `BuildIndex` reads the
last set of the chunk, not a null pointer. -/
theorem C38_last_entry_stays_live (self : AllMaximalSetsLexicographic)
    (sets : List SetProperties) (hne : sets ≠ [])
    (hchunk : self.candidates_ = sets.map some) :
    ∃ (self' : AllMaximalSetsLexicographic) (last : SetProperties),
      AllMaximalSetsLexicographic.DeleteTriviallySubsumedCandidates self = Except.ok self' ∧
      sets.getLast? = some last ∧
      self'.candidates_.length = sets.length ∧
      self'.candidates_.getLast? = some (some last) ∧
      (AllMaximalSetsLexicographic.read self'.candidates_ (self'.candidates_.length - 1) >>=
        AllMaximalSetsLexicographic.deref) = Except.ok last := by
  have hlen : self.candidates_.length = sets.length := by simp [hchunk]
  have hpos : 0 < sets.length := List.length_pos.2 hne
  have hget : ∀ (k : Nat), self.candidates_[k]? = (sets[k]?).map some := by
    intro k
    rw [← List.getElem?_map]
    exact congrArg (fun l : CandidateList => l[k]?) hchunk
  obtain ⟨last, hlast⟩ : ∃ last, sets[sets.length - 1]? = some last :=
    ⟨_, List.getElem?_eq_getElem (Nat.sub_lt hpos Nat.one_pos)⟩
  have hslot : self.candidates_[self.candidates_.length - 1]? = some (some last) := by
    rw [hget, hlen, hlast]
    rfl
  obtain ⟨self', hrun, hlen', hkeep⟩ :=
    AllMaximalSetsLexicographic.DeleteTriviallySubsumedCandidates.loop_keeps
      (self.candidates_.length - 1) self last
      (by
        intro k hk
        obtain ⟨s, hs⟩ : ∃ s, sets[k]? = some s := ⟨_, List.getElem?_eq_getElem (by omega)⟩
        exact ⟨s, by rw [hget, hs]; rfl⟩)
  have hslot' : self'.candidates_[self'.candidates_.length - 1]? = some (some last) := by
    rw [hlen', hkeep _ (Nat.le_refl _)]
    exact hslot
  refine ⟨self', last, ?_, ?_, by omega, ?_, ?_⟩
  · unfold AllMaximalSetsLexicographic.DeleteTriviallySubsumedCandidates
    rw [if_neg (by omega)]
    simp only [AllMaximalSetsLexicographic.read, List.get?_eq_getElem?, hslot,
      AllMaximalSetsLexicographic.deref, bind, Except.bind]
    exact hrun
  · rw [List.getLast?_eq_getElem?]
    exact hlast
  · rw [List.getLast?_eq_getElem?]
    exact hslot'
  · simp only [AllMaximalSetsLexicographic.read, List.get?_eq_getElem?, hslot',
      AllMaximalSetsLexicographic.deref, bind, Except.bind]

theorem C38_last_entry_stays_live_witness :
    ∃ (self' : AllMaximalSetsLexicographic) (last : SetProperties),
      AllMaximalSetsLexicographic.DeleteTriviallySubsumedCandidates
        { AllMaximalSetsLexicographic.new with
          candidates_ := [some ⟨0, [1, 2]⟩, some ⟨1, [1, 2, 3]⟩, some ⟨2, [1]⟩] } =
        Except.ok self' ∧
      ([⟨0, [1, 2]⟩, ⟨1, [1, 2, 3]⟩, ⟨2, [1]⟩] : List SetProperties).getLast? = some last ∧
      self'.candidates_.length =
        ([⟨0, [1, 2]⟩, ⟨1, [1, 2, 3]⟩, ⟨2, [1]⟩] : List SetProperties).length ∧
      self'.candidates_.getLast? = some (some last) ∧
      (AllMaximalSetsLexicographic.read self'.candidates_ (self'.candidates_.length - 1) >>=
        AllMaximalSetsLexicographic.deref) = Except.ok last :=
  C38_last_entry_stays_live
    { AllMaximalSetsLexicographic.new with
      candidates_ := [some ⟨0, [1, 2]⟩, some ⟨1, [1, 2, 3]⟩, some ⟨2, [1]⟩] }
    [⟨0, [1, 2]⟩, ⟨1, [1, 2, 3]⟩, ⟨2, [1]⟩] (by decide) rfl

/-! ## The item fixer: the set ids of the output -/

theorem FixItems.convert_getElem? (literals : List (Nat × Nat)) (clauses : List ItemSet) :
    ∀ (i k : Nat), (FixItems.convert literals clauses i)[k]? =
      (clauses[k]?).map (fun clause =>
        SetProperties.Create (i + k)
          ((clause.map (FixItems.lookup literals)).insertionSort (· ≤ ·))) := by
  induction clauses with
  | nil =>
    intro i k
    simp [FixItems.convert]
  | cons clause rest ih =>
    intro i k
    cases k with
    | zero => simp [FixItems.convert]
    | succ k =>
      simp only [FixItems.convert, List.getElem?_cons_succ]
      rw [ih (i + 1) k]
      have : i + 1 + k = i + (k + 1) := by omega
      rw [this]

/-- A run of `FixItems` on a readable input with a writable output returns
`true` and writes the sets built by the conversion loop, sorted; the sets
depend on the item lists of the records only. -/
theorem FixItems_written (records : List Record) (out : FixItems.OutputFile)
    (by_cardinality : Bool)
    (compare_set_properties compare_set_properties_cardinality :
      SetProperties → SetProperties → Bool)
    (fuel : Nat) (hopen : out.opens = true) (hwrite : out.failing_write = none)
    (hclose : out.closes = true) (hfuel : records.length + 1 ≤ fuel) :
    ∃ data', FixItems (World.start (DataSourceIterator.Get records)) out by_cardinality
        compare_set_properties compare_set_properties_cardinality fuel =
      Except.ok (true,
        (if by_cardinality then
          (FixItems.convert
            (FixItems.item_ids ((records.map Prod.snd).flatten.foldl FixItems.increment []))
            (records.map Prod.snd) 0).insertionSort
              (fun a b => compare_set_properties_cardinality b a = false)
        else
          (FixItems.convert
            (FixItems.item_ids ((records.map Prod.snd).flatten.foldl FixItems.increment []))
            (records.map Prod.snd) 0).insertionSort
              (fun a b => compare_set_properties b a = false)), data') := by
  obtain ⟨s', hread, hclauses, hliterals⟩ := FixItems.read_all records fuel
    { data := World.start (DataSourceIterator.Get records), vector_id := 0, clause := [],
      literals := [], clauses := [] } rfl (Nat.zero_le _) (by simpa [World.start,
        DataSourceIterator.Get] using hfuel)
  have hpos0 : (DataSourceIterator.Get records).pos = 0 := rfl
  simp only [World.start, hpos0, List.drop_zero, List.nil_append] at hclauses
  simp only [World.start, hpos0, List.drop_zero] at hliterals
  refine ⟨s'.data, ?_⟩
  unfold FixItems
  simp only [hopen, hread, hclose, not_true_eq_false, if_false]
  have h00 : ((0 : Int) < 0) = False := by simp
  simp only [h00, if_false, FixItems.write_all out hwrite, not_true_eq_false, hclauses,
    hliterals]

/-- Claim C37: `FixItems` replaces the set ids.  On a readable input of fewer
than `2 ^ 31` records with a writable output, the conversion loop gives the
`k`-th record read (counting from `0`) the set id `k`, whatever id the record
carries in the input; the run returns `true` and writes these sets
rearranged by the sort, so the ids written are `0 .. n - 1`, each once; and an
input with the same item lists under other ids gives the same output. -/
theorem C37_item_fixer_replaces_set_ids (records other : List Record)
    (out : FixItems.OutputFile) (by_cardinality : Bool)
    (compare_set_properties compare_set_properties_cardinality :
      SetProperties → SetProperties → Bool)
    (fuel : Nat) (hopen : out.opens = true) (hwrite : out.failing_write = none)
    (hclose : out.closes = true) (_hsize : records.length < 2 ^ 31)
    (hfuel : records.length + 1 ≤ fuel)
    (hother : other.map Prod.snd = records.map Prod.snd) :
    ∃ (written : List SetProperties) (data1 data2 : World),
      FixItems (World.start (DataSourceIterator.Get records)) out by_cardinality
        compare_set_properties compare_set_properties_cardinality fuel =
        Except.ok (true, written, data1) ∧
      FixItems (World.start (DataSourceIterator.Get other)) out by_cardinality
        compare_set_properties compare_set_properties_cardinality fuel =
        Except.ok (true, written, data2) ∧
      written.Perm
        (FixItems.convert
          (FixItems.item_ids ((records.map Prod.snd).flatten.foldl FixItems.increment []))
          (records.map Prod.snd) 0) ∧
      (∀ (k : Nat) (r : Record), records[k]? = some r →
        ∃ items : ItemSet,
          (FixItems.convert
            (FixItems.item_ids ((records.map Prod.snd).flatten.foldl FixItems.increment []))
            (records.map Prod.snd) 0)[k]? = some (SetProperties.Create k items)) ∧
      (written.map SetProperties.set_id).Perm (List.range records.length) := by
  obtain ⟨data1, h1⟩ := FixItems_written records out by_cardinality compare_set_properties
    compare_set_properties_cardinality fuel hopen hwrite hclose hfuel
  have hlen : other.length = records.length := by
    have := congrArg List.length hother
    simpa using this
  obtain ⟨data2, h2⟩ := FixItems_written other out by_cardinality compare_set_properties
    compare_set_properties_cardinality fuel hopen hwrite hclose (by omega)
  rw [hother] at h2
  have hperm : (if by_cardinality then
          (FixItems.convert
            (FixItems.item_ids ((records.map Prod.snd).flatten.foldl FixItems.increment []))
            (records.map Prod.snd) 0).insertionSort
              (fun a b => compare_set_properties_cardinality b a = false)
        else
          (FixItems.convert
            (FixItems.item_ids ((records.map Prod.snd).flatten.foldl FixItems.increment []))
            (records.map Prod.snd) 0).insertionSort
              (fun a b => compare_set_properties b a = false)).Perm
      (FixItems.convert
          (FixItems.item_ids ((records.map Prod.snd).flatten.foldl FixItems.increment []))
          (records.map Prod.snd) 0) := by
    cases by_cardinality
    · exact List.perm_insertionSort _ _
    · exact List.perm_insertionSort _ _
  refine ⟨_, data1, data2, h1, h2, hperm, ?_, ?_⟩
  · intro k r hr
    refine ⟨(r.2.map (FixItems.lookup (FixItems.item_ids
      ((records.map Prod.snd).flatten.foldl FixItems.increment [])))).insertionSort (· ≤ ·), ?_⟩
    rw [FixItems.convert_getElem?, List.getElem?_map, hr]
    simp
  · have := hperm.map SetProperties.set_id
    rw [FixItems.convert_ids] at this
    simpa [List.range_eq_range'] using this

theorem C37_item_fixer_replaces_set_ids_witness :
    ∃ (written : List SetProperties) (data1 data2 : World),
      FixItems (World.start (DataSourceIterator.Get [(7, [7, 2, 9]), (7, [9, 2]), (40, [9])]))
        ⟨true, none, true⟩ true (fun _ _ => false)
        (fun a b => decide (a.item.length < b.item.length)) 4 =
        Except.ok (true, written, data1) ∧
      FixItems (World.start (DataSourceIterator.Get [(0, [7, 2, 9]), (5, [9, 2]), (3, [9])]))
        ⟨true, none, true⟩ true (fun _ _ => false)
        (fun a b => decide (a.item.length < b.item.length)) 4 =
        Except.ok (true, written, data2) ∧
      written.Perm
        (FixItems.convert
          (FixItems.item_ids
            ((([(7, [7, 2, 9]), (7, [9, 2]), (40, [9])] : List Record).map
              Prod.snd).flatten.foldl FixItems.increment []))
          (([(7, [7, 2, 9]), (7, [9, 2]), (40, [9])] : List Record).map Prod.snd) 0) ∧
      (∀ (k : Nat) (r : Record),
        ([(7, [7, 2, 9]), (7, [9, 2]), (40, [9])] : List Record)[k]? = some r →
        ∃ items : ItemSet,
          (FixItems.convert
            (FixItems.item_ids
              ((([(7, [7, 2, 9]), (7, [9, 2]), (40, [9])] : List Record).map
                Prod.snd).flatten.foldl FixItems.increment []))
            (([(7, [7, 2, 9]), (7, [9, 2]), (40, [9])] : List Record).map Prod.snd) 0)[k]? =
            some (SetProperties.Create k items)) ∧
      (written.map SetProperties.set_id).Perm
        (List.range ([(7, [7, 2, 9]), (7, [9, 2]), (40, [9])] : List Record).length) :=
  C37_item_fixer_replaces_set_ids [(7, [7, 2, 9]), (7, [9, 2]), (40, [9])]
    [(0, [7, 2, 9]), (5, [9, 2]), (3, [9])] ⟨true, none, true⟩ true (fun _ _ => false)
    (fun a b => decide (a.item.length < b.item.length)) 4 rfl rfl rfl (by decide) (by decide)
    rfl

/-! ## The cardinality engine: the subsumption test skips the first item -/

/-- Claim C31: the shortened subsumption test loses nothing.  For a strictly
increasing record `C`, a position `i < size(C)` and a strictly increasing
candidate `K` whose first item is `C[i]`, the call
`DoesSubsume(C[i..], K[1..])` made by `DeleteSubsumedCandidates` returns
`true` exactly when every item of `K` occurs in `C`; it returns what the test
of the whole of `K` against the whole of `C` returns; and `K` contains none of
`C[0..i-1]`. -/
theorem C31_first_item_skipping_is_lossless (C K : ItemSet) (i : Nat)
    (hC : C.Pairwise (· < ·)) (hK : K.Pairwise (· < ·)) (hi : i < C.length)
    (hfirst : K[0]? = C[i]?) :
    (DoesSubsume (C.drop i) (K.drop 1) = true ↔ ∀ x ∈ K, x ∈ C) ∧
      DoesSubsume (C.drop i) (K.drop 1) = DoesSubsume C K ∧
      ∀ x ∈ C.take i, x ∉ K := by
  obtain ⟨v, hv⟩ : ∃ v, C[i]? = some v := ⟨_, List.getElem?_eq_getElem hi⟩
  rw [hv] at hfirst
  obtain ⟨rest, hrest⟩ : ∃ rest, K = v :: rest := by
    cases K with
    | nil => simp at hfirst
    | cons x rest =>
      simp only [List.getElem?_cons_zero, Option.some.injEq] at hfirst
      exact ⟨rest, by rw [hfirst]⟩
  subst hrest
  have hsplit : C = C.take i ++ v :: C.drop (i + 1) := by
    have h1 : C.drop i = v :: C.drop (i + 1) := by
      rw [List.drop_eq_getElem_cons hi]
      have := (List.getElem?_eq_some_iff.1 hv).2
      rw [this]
    rw [← h1, List.take_append_drop]
  have hdrop : C.drop i = v :: C.drop (i + 1) := by
    rw [List.drop_eq_getElem_cons hi]
    have := (List.getElem?_eq_some_iff.1 hv).2
    rw [this]
  have hCs : (C.take i ++ v :: C.drop (i + 1)).Pairwise (· < ·) := by
    rw [← hsplit]
    exact hC
  rw [List.pairwise_append] at hCs
  obtain ⟨_, hCd, hlt⟩ := hCs
  rw [List.pairwise_cons] at hK
  have hbefore : ∀ x ∈ C.take i, x ∉ v :: rest := by
    intro x hx hxk
    have h1 : x < v := hlt x hx v (List.mem_cons_self _ _)
    rcases List.mem_cons.1 hxk with h | h
    · omega
    · have := hK.1 x h
      omega
  have hiff : DoesSubsume (C.drop i) ((v :: rest).drop 1) = true ↔ ∀ x ∈ v :: rest, x ∈ C := by
    rw [DoesSubsume_iff (C.drop i) ((v :: rest).drop 1) (hdrop ▸ hCd) (by simpa using hK.2)]
    simp only [List.drop_one, List.tail_cons]
    constructor
    · intro h x hx
      rcases List.mem_cons.1 hx with hxv | hxr
      · subst hxv
        exact List.mem_iff_getElem?.2 ⟨_, hv⟩
      · exact List.mem_of_mem_drop (h x hxr)
    · intro h x hx
      have hxC := h x (List.mem_cons_of_mem _ hx)
      rw [← List.take_append_drop i C, List.mem_append] at hxC
      rcases hxC with h1 | h1
      · exact absurd (List.mem_cons_of_mem _ hx) (hbefore x h1)
      · exact h1
  refine ⟨hiff, ?_, hbefore⟩
  rw [Bool.eq_iff_iff, hiff, DoesSubsume_iff C (v :: rest) hC (List.pairwise_cons.2 hK)]

theorem C31_first_item_skipping_is_lossless_witness :
    (DoesSubsume (([1, 3, 4, 7] : ItemSet).drop 1) (([3, 7] : ItemSet).drop 1) = true ↔
        ∀ x ∈ ([3, 7] : ItemSet), x ∈ ([1, 3, 4, 7] : ItemSet)) ∧
      DoesSubsume (([1, 3, 4, 7] : ItemSet).drop 1) (([3, 7] : ItemSet).drop 1) =
        DoesSubsume [1, 3, 4, 7] [3, 7] ∧
      ∀ x ∈ ([1, 3, 4, 7] : ItemSet).take 1, x ∉ ([3, 7] : ItemSet) :=
  C31_first_item_skipping_is_lossless [1, 3, 4, 7] [3, 7] 1 (by decide) (by decide) (by decide)
    rfl

/-! ## The cardinality engine: the order of the candidate lists -/
namespace AllMaximalSetsCardinality

theorem bucket_mem (candidates : List CandidateList) (v : Nat) (K : SetProperties) :
    K ∈ bucket candidates v ↔ some K ∈ candidates.getD v [] := by
  unfold bucket
  simp [List.mem_filterMap]

/-- The do-while loop of `NextCandidate` finds the first live entry. -/
theorem NextCandidate_advance_head (slots : CandidateList) (start : Nat) :
    (NextCandidate.advance slots start).map Prod.snd = (slots.filterMap id).head? := by
  induction slots generalizing start with
  | nil => rfl
  | cons x rest ih =>
    cases x with
    | none =>
      simp only [NextCandidate.advance, List.filterMap_cons_none, id]
      exact ih _
    | some c => simp [NextCandidate.advance]

/-- When `NextCandidate` returns the null pointer on a list whose live entries
are in non-decreasing order of size, every live entry after the old index is
larger than what is left of the current set. -/
theorem NextCandidate_none_skips (candidates : CandidateList)
    (hsorted : (candidates.filterMap id).Pairwise (fun a b : SetProperties => a.size ≤ b.size))
    (current_set : ItemSet) (i : Nat) (candidate_index : Int)
    (h : (NextCandidate candidates current_set i candidate_index).1 = none)
    (p : Nat) (K : SetProperties) (hp : candidate_index < (p : Int))
    (hK : candidates[p]? = some (some K)) :
    current_set.length - i < K.size := by
  have hn : (candidate_index + 1).toNat ≤ p := by omega
  have hKd : K ∈ (candidates.drop (candidate_index + 1).toNat).filterMap id := by
    rw [List.mem_filterMap]
    refine ⟨some K, ?_, rfl⟩
    rw [List.mem_iff_getElem?]
    refine ⟨p - (candidate_index + 1).toNat, ?_⟩
    rw [List.getElem?_drop, ← hK]
    congr 1
    omega
  have hsd : ((candidates.drop (candidate_index + 1).toNat).filterMap id).Pairwise
      (fun a b : SetProperties => a.size ≤ b.size) :=
    hsorted.sublist ((List.drop_sublist _ _).filterMap id)
  have hhead := NextCandidate_advance_head (candidates.drop (candidate_index + 1).toNat)
    (candidate_index + 1).toNat
  unfold NextCandidate at h
  cases hadv : NextCandidate.advance (candidates.drop (candidate_index + 1).toNat)
      (candidate_index + 1).toNat with
  | none =>
    rw [hadv] at hhead
    simp only [Option.map_none'] at hhead
    have : (candidates.drop (candidate_index + 1).toNat).filterMap id = [] :=
      List.head?_eq_none_iff.1 hhead.symm
    rw [this] at hKd
    simp at hKd
  | some found =>
    obtain ⟨found_index, candidate⟩ := found
    rw [hadv] at hhead h
    simp only [Option.map_some'] at hhead
    simp only at h
    have hbig : current_set.length - i < candidate.size := by
      by_contra hcon
      rw [if_neg hcon] at h
      cases h
    cases hl : (candidates.drop (candidate_index + 1).toNat).filterMap id with
    | nil => rw [hl] at hKd; simp at hKd
    | cons first rest =>
      rw [hl] at hhead hKd hsd
      simp only [List.head?_cons, Option.some.injEq] at hhead
      subst hhead
      rcases List.mem_cons.1 hKd with h1 | h1
      · rw [h1]
        exact hbig
      · have := (List.pairwise_cons.1 hsd).1 K h1
        omega

/-- Tombstoning in `DeleteSubsumedCandidates` removes live entries from a
candidate list and leaves the others in their order. -/
theorem bucket_loop_sublist (current_set : ItemSet) (rest : List Nat) (i : Nat)
    (self : AllMaximalSetsCardinality) (v : Nat) :
    (bucket (DeleteSubsumedCandidates.loop current_set rest i self).candidates_ v).Sublist
      (bucket self.candidates_ v) := by
  induction rest generalizing i self with
  | nil => exact List.Sublist.refl _
  | cons x rest ih =>
    unfold DeleteSubsumedCandidates.loop
    split
    · exact List.Sublist.refl _
    · rename_i hlen
      simp only
      refine (ih _ _).trans ?_
      unfold bucket
      simp only
      rw [getD_set _ _ _ _ (by omega)]
      split
      · rename_i hv
        subst hv
        exact walk_sublist _ _ _ _ _ _ _
      · exact List.Sublist.refl _

/-- The method `IndexSets` appends every set to the candidate list of its first
item, in the order of `index_us`. -/
theorem bucket_IndexSets (index_us : List SetProperties)
    (self self' : AllMaximalSetsCardinality) (h : IndexSets self index_us = Except.ok self')
    (v : Nat) :
    bucket self'.candidates_ v =
      bucket self.candidates_ v ++
        index_us.filter (fun S : SetProperties => decide (S.item.head? = some v)) := by
  induction index_us generalizing self with
  | nil =>
    unfold IndexSets at h
    cases h
    simp
  | cons s rest ih =>
    unfold IndexSets at h
    cases hh : s.item.head? with
    | none => rw [hh] at h; cases h
    | some x =>
      rw [hh] at h
      simp only at h
      rw [ih _ h]
      unfold bucket
      simp only
      rw [getD_set _ _ _ _ (length_grown _ _), getD_grown]
      by_cases hv : v = x
      · subst hv
        rw [if_pos rfl, List.filter_cons_of_pos (by simp [hh])]
        simp
      · rw [if_neg hv, List.filter_cons_of_neg (by
          simp only [hh, Option.some.injEq, decide_eq_true_eq]
          exact fun h => hv h.symm), getD_grown]

theorem sizes_staged (B idx B2 idx2 : List SetProperties) (n : Nat) (set : SetProperties)
    (hsub : (B2 ++ idx2).Sublist (B ++ idx))
    (hsorted : (B ++ idx).Pairwise (fun a b : SetProperties => a.size ≤ b.size))
    (hle : ∀ X ∈ B ++ idx, X.size ≤ n) (hset : set.size = n) :
    ((B2 ++ idx2).Pairwise (fun a b : SetProperties => a.size ≤ b.size) ∧
      ∀ X ∈ B2 ++ idx2, X.size ≤ n) ∧
    ((B2 ++ (idx2 ++ [set])).Pairwise (fun a b : SetProperties => a.size ≤ b.size) ∧
      ∀ X ∈ B2 ++ (idx2 ++ [set]), X.size ≤ n) := by
  have h1 : (B2 ++ idx2).Pairwise (fun a b : SetProperties => a.size ≤ b.size) :=
    hsorted.sublist hsub
  have h2 : ∀ X ∈ B2 ++ idx2, X.size ≤ n := fun X hX => hle X (hsub.subset hX)
  refine ⟨⟨h1, h2⟩, ?_, ?_⟩
  · rw [← List.append_assoc, List.pairwise_append]
    refine ⟨h1, List.pairwise_singleton _ _, ?_⟩
    intro a ha b hb
    rw [List.mem_singleton] at hb
    subst hb
    rw [hset]
    exact h2 a ha
  · intro X hX
    rw [← List.append_assoc, List.mem_append, List.mem_singleton] at hX
    rcases hX with hX | hX
    · exact h2 X hX
    · rw [hX, hset]

/-- The body of the scanning loop keeps the candidate lists in order, when no
set held is larger than the record at hand. -/
theorem record_buckets (max_items_in_ram : Nat) (s s' : Locals)
    (h : FindAllMaximalSets.record max_items_in_ram s = Except.ok s')
    (ha : ∀ (v : Nat) (K : SetProperties), K ∈ bucket s.self.candidates_ v →
      K.item.head? = some v)
    (hb : ∀ v : Nat, (bucket s.self.candidates_ v ++ s.index_us).Pairwise
      (fun a b : SetProperties => a.size ≤ b.size))
    (hc : ∀ (v : Nat) (X : SetProperties), X ∈ bucket s.self.candidates_ v ++ s.index_us →
      X.size ≤ s.current_set.length) :
    (∀ (v : Nat) (K : SetProperties), K ∈ bucket s'.self.candidates_ v →
      K.item.head? = some v) ∧
    (∀ v : Nat, (bucket s'.self.candidates_ v ++ s'.index_us).Pairwise
      (fun a b : SetProperties => a.size ≤ b.size)) ∧
    (∀ (v : Nat) (X : SetProperties), X ∈ bucket s'.self.candidates_ v ++ s'.index_us →
      X.size ≤ s.current_set.length) := by
  have hd : ∀ v, (bucket (DeleteSubsumedCandidates s.self s.current_set).candidates_ v).Sublist
      (bucket s.self.candidates_ v) :=
    fun v => bucket_loop_sublist _ _ _ _ v
  unfold FindAllMaximalSets.record at h
  by_cases hsize : (s.current_set.length : Int) ≠ s.current_set_size
  · simp only [hsize, ne_eq, not_false_eq_true, if_true] at h
    cases hix : IndexSets (DeleteSubsumedCandidates s.self s.current_set) s.index_us with
    | error e => rw [hix] at h; cases h
    | ok self1 =>
      rw [hix] at h
      simp only at h
      have ha2 : ∀ (v : Nat) (K : SetProperties), K ∈ bucket self1.candidates_ v →
          K.item.head? = some v := by
        intro v K hK
        rw [bucket_IndexSets _ _ _ hix v, List.mem_append] at hK
        rcases hK with hK | hK
        · exact ha v K ((hd v).subset hK)
        · simpa using (List.mem_filter.1 hK).2
      have hsub2 : ∀ v, (bucket self1.candidates_ v ++ []).Sublist
          (bucket s.self.candidates_ v ++ s.index_us) := by
        intro v
        rw [bucket_IndexSets _ _ _ hix v, List.append_nil]
        exact List.Sublist.append (hd v) (List.filter_sublist _)
      have hst := fun v => sizes_staged (bucket s.self.candidates_ v) s.index_us
        (bucket self1.candidates_ v) [] s.current_set.length
        (SetProperties.Create s.set_id s.current_set) (hsub2 v) (hb v) (hc v) rfl
      by_cases hres : s.resume_offset = 0
      · simp only [hres, if_true] at h
        split at h
        · cases h
          exact ⟨ha2, fun v => (hst v).2.1, fun v => (hst v).2.2⟩
        · cases h
          exact ⟨ha2, fun v => (hst v).2.1, fun v => (hst v).2.2⟩
      · simp only [hres, if_false] at h
        cases h
        exact ⟨ha2, fun v => (hst v).1.1, fun v => (hst v).1.2⟩
  · simp only [hsize, if_false] at h
    have ha2 : ∀ (v : Nat) (K : SetProperties),
        K ∈ bucket (DeleteSubsumedCandidates s.self s.current_set).candidates_ v →
        K.item.head? = some v := fun v K hK => ha v K ((hd v).subset hK)
    have hst := fun v => sizes_staged (bucket s.self.candidates_ v) s.index_us
      (bucket (DeleteSubsumedCandidates s.self s.current_set).candidates_ v) s.index_us
      s.current_set.length (SetProperties.Create s.set_id s.current_set)
      (List.Sublist.append (hd v) (List.Sublist.refl _)) (hb v) (hc v) rfl
    by_cases hres : s.resume_offset = 0
    · simp only [hres, if_true] at h
      split at h
      · cases h
        exact ⟨ha2, fun v => (hst v).2.1, fun v => (hst v).2.2⟩
      · cases h
        exact ⟨ha2, fun v => (hst v).2.1, fun v => (hst v).2.2⟩
    · simp only [hres, if_false] at h
      cases h
      exact ⟨ha2, fun v => (hst v).1.1, fun v => (hst v).1.2⟩

end AllMaximalSetsCardinality

namespace AllMaximalSetsCardinality

theorem buckets_ordered_of_empty (s : Locals) (hindex : s.index_us = [])
    (hbucket : ∀ v, bucket s.self.candidates_ v = []) : s.buckets_ordered := by
  refine ⟨?_, ?_, ?_⟩
  · intro v K hK
    rw [hbucket v] at hK
    simp at hK
  · intro v
    rw [hbucket v, hindex]
    exact List.Pairwise.nil
  · intro v X hX
    rw [hbucket v, hindex] at hX
    simp at hX

theorem scan_points_buckets (max_items_in_ram : Nat) (fuel : Nat) (s : Locals)
    (hord : ∀ p q id1 a id2 b, p < q → s.data.data.file.get? p = some (Entry.record id1 a) →
      s.data.data.file.get? q = some (Entry.record id2 b) → a.length ≤ b.length)
    (hinv : s.buckets_ordered) :
    ∀ p ∈ FindAllMaximalSets.scan_points max_items_in_ram fuel s, p.buckets_ordered := by
  induction fuel generalizing s with
  | zero =>
    intro p hp
    simp only [FindAllMaximalSets.scan_points, List.mem_singleton] at hp
    subst hp
    exact hinv
  | succ fuel ih =>
    intro p hp
    unfold FindAllMaximalSets.scan_points at hp
    simp only [World.Next] at hp
    rcases DataSourceIterator.Next_get s.data.data s.set_id s.current_set with
      ⟨_, hn⟩ | ⟨id, items, hget, hn⟩ | ⟨_, hn⟩
    · simp only [hn] at hp
      simp at hp
      subst hp
      exact hinv
    · simp only [hn] at hp
      have hpos : ((1 : Int) > 0) = True := by simp
      simp only [hpos, if_true] at hp
      split at hp
      · simp only [List.mem_singleton] at hp
        subst hp
        exact hinv
      · rename_i s2 hrec
        rcases List.mem_cons.1 hp with hp | hp
        · subst hp
          exact hinv
        · have hdata := (record_counts _ _ _ hrec).1
          simp only at hdata
          obtain ⟨ha, hb, hc⟩ := hinv
          obtain ⟨k1, k2, k3⟩ := record_buckets max_items_in_ram _ s2 hrec ha hb
            (fun v X hX => hc v X hX _ id items (Nat.le_refl _) hget)
          simp only at k3
          refine ih s2 ?_ ⟨k1, k2, ?_⟩ p hp
          · rw [hdata]
            exact hord
          · intro v X hX q id2 items2 hq hget2
            rw [hdata] at hq hget2
            simp only at hq hget2
            have h1 := k3 v X hX
            have h2 := hord _ _ _ _ _ _ (by omega) hget hget2
            omega
    · simp only [hn] at hp
      simp at hp
      subst hp
      exact hinv

theorem pass_points_buckets (max_item_id max_items_in_ram : Nat) (mode : OutputModeEnum)
    (scan_fuel fuel : Nat) (s : Locals)
    (hord : ∀ p q id1 a id2 b, p < q → s.data.data.file.get? p = some (Entry.record id1 a) →
      s.data.data.file.get? q = some (Entry.record id2 b) → a.length ≤ b.length)
    (hindex : s.index_us = []) :
    ∀ p ∈ FindAllMaximalSets.pass_points max_item_id max_items_in_ram mode scan_fuel fuel s,
      p.buckets_ordered := by
  induction fuel generalizing s with
  | zero =>
    intro p hp
    simp [FindAllMaximalSets.pass_points] at hp
  | succ fuel ih =>
    intro p hp
    unfold FindAllMaximalSets.pass_points at hp
    rcases Nat.lt_or_ge max_item_id (2 ^ 31) with hhint | hhint
    swap
    · rw [PrepareForDataScan_of_ge _ _ _ _ hhint] at hp
      simp at hp
    rw [PrepareForDataScan_of_lt _ _ _ _ hhint] at hp
    by_cases hc : s.self.candidates_.length ≠ 0
    · simp only [hc, ne_eq, not_false_eq_true, if_true] at hp
      simp at hp
    · simp only [hc, if_false] at hp
      have hnil : s.self.candidates_ = [] := by
        cases hl : s.self.candidates_ with
        | nil => rfl
        | cons x l => rw [hl] at hc; simp at hc
      have hseekfile : (s.data.Seek s.resume_offset).2.data.file = s.data.data.file := by
        simp only [World.Seek, DataSourceIterator.Seek]
        split <;> rfl
      cases hseek : (s.data.Seek s.resume_offset).1 with
      | false =>
        rw [hseek] at hp
        simp at hp
      | true =>
        rw [hseek] at hp
        simp only at hp
        rcases List.mem_append.1 hp with hp | hp
        · refine scan_points_buckets max_items_in_ram scan_fuel _ ?_ ?_ p hp
          · simp only [hseekfile]
            exact hord
          · refine buckets_ordered_of_empty _ hindex ?_
            intro v
            simp only [hnil]
            unfold bucket
            rw [getD_resize _ _ _ (Nat.zero_le _)]
            rfl
        · split at hp
          · simp at hp
          · rename_i result s' hscan
            have hfile := scan_file _ _ _ _ _ hscan
            simp only at hfile
            by_cases hr : result ≠ 0
            · simp only [hr, ne_eq, not_false_eq_true, if_true] at hp
              simp at hp
            · simp only [hr, if_false] at hp
              have hdump := DumpMaximalSets_spec s'.self s'.data s'.index_us mode
              by_cases hro : s'.resume_offset ≠ 0
              · simp only [hro, ne_eq, not_false_eq_true, if_true] at hp
                refine ih _ ?_ rfl p hp
                simp only
                rw [hdump.2.1, hfile, hseekfile]
                exact hord
              · simp only [hro, if_false, List.mem_singleton] at hp
                subst hp
                refine buckets_ordered_of_empty _ rfl ?_
                intro v
                simp only [hdump.1]
                rfl

end AllMaximalSetsCardinality

/-- Claim C32: the candidate-bucket invariant.  At every point of a run of the
cardinality engine on cardinality-ordered input, that is at the head of every
turn of the scanning loop and at the end of the run, for every item `v` every
live entry of `candidates_[v]` has `v` as its first item and the live entries
of `candidates_[v]` are in non-decreasing order of size.  Tombstoning keeps
that order, so on every list `slots` obtained from `candidates_[v]` by
tombstoning: when `NextCandidate` returns the null pointer, every live entry
after the old `candidate_index` has more than `size(C) - i` items, and no
candidate of at most `size(C) - i` items is skipped. -/
theorem C32_candidate_bucket_invariant (records : List Record)
    (max_item_id max_items_in_ram : Nat) (output_mode : OutputModeEnum) (fuel : Nat)
    (hord : cardinality_ordered records) :
    ∀ s ∈ AllMaximalSetsCardinality.FindAllMaximalSets.points AllMaximalSetsCardinality.new
        (World.start (DataSourceIterator.Get records)) max_item_id max_items_in_ram
        output_mode fuel,
      ∀ v : Nat,
        (∀ K : SetProperties, some K ∈ s.self.candidates_.getD v [] →
          K.item.head? = some v) ∧
        ((s.self.candidates_.getD v []).filterMap id).Pairwise
          (fun a b : SetProperties => a.size ≤ b.size) ∧
        ∀ slots : CandidateList,
          (slots.filterMap id).Sublist ((s.self.candidates_.getD v []).filterMap id) →
          ∀ (current_set : ItemSet) (i : Nat) (candidate_index : Int),
            (AllMaximalSetsCardinality.NextCandidate slots current_set i
              candidate_index).1 = none →
            ∀ (p : Nat) (K : SetProperties), candidate_index < (p : Int) →
              slots[p]? = some (some K) → current_set.length - i < K.size := by
  intro s hs v
  have hinv := AllMaximalSetsCardinality.pass_points_buckets max_item_id max_items_in_ram
    output_mode fuel fuel _ (by
      intro p q id1 a id2 b hpq hp hq
      exact cardinality_ordered_get records hord p q (id1, a) (id2, b) hpq
        (DataSourceIterator.Get_get records p id1 a hp)
        (DataSourceIterator.Get_get records q id2 b hq)) rfl s hs
  obtain ⟨ha, hb, _⟩ := hinv
  have hsorted : ((s.self.candidates_.getD v []).filterMap id).Pairwise
      (fun a b : SetProperties => a.size ≤ b.size) :=
    (hb v).sublist (List.sublist_append_left _ _)
  refine ⟨?_, hsorted, ?_⟩
  · intro K hK
    exact ha v K ((AllMaximalSetsCardinality.bucket_mem _ _ _).2 hK)
  · intro slots hslots current_set i candidate_index hnone p K hp hK
    exact AllMaximalSetsCardinality.NextCandidate_none_skips slots (hsorted.sublist hslots)
      current_set i candidate_index hnone p K hp hK

/-- An instance of C32 on the records `{1}`, `{1,2}`, `{1,3}`, `{1,2,3}` read in
one pass: the sizes of the live entries of `candidates_[1]` at the successive
points of the run are listed last. -/
theorem C32_candidate_bucket_invariant_witness :
    cardinality_ordered [(1, [1]), (2, [1, 2]), (3, [1, 3]), (4, [1, 2, 3])] ∧
    (∀ s ∈ AllMaximalSetsCardinality.FindAllMaximalSets.points AllMaximalSetsCardinality.new
        (World.start (DataSourceIterator.Get [(1, [1]), (2, [1, 2]), (3, [1, 3]),
          (4, [1, 2, 3])])) 4 100 OutputModeEnum.ID 6,
      ∀ v : Nat,
        (∀ K : SetProperties, some K ∈ s.self.candidates_.getD v [] →
          K.item.head? = some v) ∧
        ((s.self.candidates_.getD v []).filterMap id).Pairwise
          (fun a b : SetProperties => a.size ≤ b.size) ∧
        ∀ slots : CandidateList,
          (slots.filterMap id).Sublist ((s.self.candidates_.getD v []).filterMap id) →
          ∀ (current_set : ItemSet) (i : Nat) (candidate_index : Int),
            (AllMaximalSetsCardinality.NextCandidate slots current_set i
              candidate_index).1 = none →
            ∀ (p : Nat) (K : SetProperties), candidate_index < (p : Int) →
              slots[p]? = some (some K) → current_set.length - i < K.size) ∧
    (AllMaximalSetsCardinality.FindAllMaximalSets.points AllMaximalSetsCardinality.new
        (World.start (DataSourceIterator.Get [(1, [1]), (2, [1, 2]), (3, [1, 3]),
          (4, [1, 2, 3])])) 4 100 OutputModeEnum.ID 6).map
      (fun s => ((s.self.candidates_.getD 1 []).filterMap id).map SetProperties.size) =
      [[], [], [1], [], [2, 2], []] :=
  ⟨by decide,
    C32_candidate_bucket_invariant [(1, [1]), (2, [1, 2]), (3, [1, 3]), (4, [1, 2, 3])] 4 100
      OutputModeEnum.ID 6 (by decide),
    by decide!⟩

/-! ## The cardinality engine: the pass structure -/

namespace AllMaximalSetsCardinality

end AllMaximalSetsCardinality

namespace AllMaximalSetsCardinality

end AllMaximalSetsCardinality

/-! ## The lexicographic engine: the turns of the descent -/
namespace AllMaximalSetsLexicographic

/-- When the entry code of `DeleteSubsumedFromRange` goes on to the loop, the
loop starts under the conditions of the call, on a live entry, in a range
whose live entries have more than `depth` items; and what is live then was
live at the call. -/
theorem DeleteSubsumedFromRange.entry_ready (probe : SetProperties)
    (self : AllMaximalSetsLexicographic) (b e : Nat) (it : List Nat) (depth : Nat)
    (pre : List Nat) (hready : DeleteSubsumedFromRange.ready self probe b e it depth pre)
    (self2 : AllMaximalSetsLexicographic) (b1 : Nat)
    (hDSS : DeleteSubsumedSets self b e depth = Except.ok (self2, b1))
    (hearly : ¬ (b1 = e ∨ it = [])) :
    b ≤ b1 ∧ b1 < e ∧
    (∀ (p : Nat) (s : SetProperties), self2.candidates_[p]? = some (some s) →
      self.candidates_[p]? = some (some s)) ∧
    DeleteSubsumedFromRange.ready self2 probe b1 e it depth pre ∧
    (∃ t, self2.candidates_[b1]? = some (some t)) ∧
    (∀ (p : Nat) (s : SetProperties), b1 ≤ p → p < e →
      self2.candidates_[p]? = some (some s) → depth < s.item.length) := by
  have hready' := hready
  obtain ⟨hcur, hsorted, hbe, he, hpre, hpref, hinc, hroom, hzero⟩ := hready
  obtain ⟨self2', b1', hDSS', hb1, hb1e, hskipped, htomb1, hstop, hidx2, hcur2⟩ :=
    DeleteSubsumedSets_spec self probe b e depth hcur (le_of_lt hbe) he
  rw [hDSS] at hDSS'
  simp only [Except.ok.injEq, Prod.mk.injEq] at hDSS'
  obtain ⟨h1, h2⟩ := hDSS'
  subst h1 h2
  have hsize_ge : ∀ (p : Nat) (s : SetProperties), b ≤ p → p < e →
      self.candidates_[p]? = some (some s) → depth ≤ s.item.length := by
    intro p s hp1 hp2 hps
    rw [← hpre]
    exact (hpref p s hp1 hp2 hps).length_le
  have hb1lt : b1 < e := by
    by_contra h
    exact hearly (Or.inl (by omega))
  have hitne : it ≠ [] := fun h => hearly (Or.inr h)
  have hitlen : 0 < it.length := List.length_pos.2 hitne
  have hdp : depth < probe.size := by omega
  obtain ⟨t, ht, htsz⟩ := hstop hb1lt
  have ht2 : self2.candidates_[b1]? = some (some t) :=
    tombstoned_keep htomb1 b1 t ht (by omega)
  have hready2 := DeleteSubsumedFromRange.ready_next hready' htomb1 hidx2 hcur2 b1 it hb1
    hb1lt hinc (le_refl _)
  refine ⟨hb1, hb1lt, fun p s hps => (tombstoned_live htomb1 p s hps).1, hready2, ⟨t, ht2⟩, ?_⟩
  intro p s hp1 hp2 hps
  have hps' := (tombstoned_live htomb1 p s hps).1
  rcases Nat.eq_or_lt_of_le hp1 with h | h
  · subst h
    rw [ht] at hps'
    cases hps'
    have h1 := hsize_ge b1 t hb1 hp2 ht
    have h2 : t.item.length ≠ depth := htsz hdp
    exact lt_of_le_of_ne h1 (Ne.symm h2)
  · exact DeleteSubsumedFromRange.ready_longer hready' b1 p t s hb1 h hp2 ht hps'

theorem DeleteSubsumedFromRange.turns_within_mono (probe : SetProperties)
    (cs cs' : CandidateList) (b b' e e' depth depth' : Nat) (turns : List (Nat × Nat))
    (hb : b ≤ b') (he : e' ≤ e) (hd : depth ≤ depth')
    (hlive : ∀ (p : Nat) (s : SetProperties), cs'[p]? = some (some s) →
      cs[p]? = some (some s))
    (h : DeleteSubsumedFromRange.turns_within probe cs' b' e' depth' turns) :
    DeleteSubsumedFromRange.turns_within probe cs b e depth turns := by
  intro x hx
  obtain ⟨h1, h2, h3, h4, s, h5, h6⟩ := h x hx
  exact ⟨by omega, by omega, by omega, h4, s, hlive _ _ h5, h6⟩

/-- The turns of one turn of the loop: the turn itself, the turns `inner` of
the recursive call in `[b, ne)` at a greater depth, and the later turns
`outer` of the same loop from `nb` on. -/
theorem DeleteSubsumedFromRange.turns_cons (probe : SetProperties) (cs : CandidateList)
    (b e depth ne nb : Nat) (inner outer : List (Nat × Nat))
    (hhead : depth < probe.size ∧ ∃ s : SetProperties, cs[b]? = some (some s) ∧ depth < s.size)
    (hbne : b < ne) (hnenb : ne ≤ nb) (hnbe : nb ≤ e)
    (hin : DeleteSubsumedFromRange.turns_within probe cs b ne (depth + 1) inner)
    (hin2 : DeleteSubsumedFromRange.turns_advance inner)
    (hout : DeleteSubsumedFromRange.turns_within probe cs nb e depth outer)
    (hout2 : DeleteSubsumedFromRange.turns_advance outer) :
    DeleteSubsumedFromRange.turns_within probe cs b e depth ((depth, b) :: (inner ++ outer)) ∧
      DeleteSubsumedFromRange.turns_advance ((depth, b) :: (inner ++ outer)) := by
  constructor
  · intro x hx
    rcases List.mem_cons.1 hx with h | h
    · subst h
      exact ⟨le_refl _, le_refl _, by omega, hhead.1, hhead.2⟩
    · rcases List.mem_append.1 h with h | h
      · obtain ⟨h1, h2, h3, h4, h5⟩ := hin x h
        exact ⟨by omega, h2, by omega, h4, h5⟩
      · obtain ⟨h1, h2, h3, h4, h5⟩ := hout x h
        exact ⟨h1, by omega, h3, h4, h5⟩
  · unfold DeleteSubsumedFromRange.turns_advance
    rw [List.pairwise_cons, List.pairwise_append]
    refine ⟨?_, hin2, hout2, ?_⟩
    · intro y hy
      rcases List.mem_append.1 hy with h | h
      · obtain ⟨h1, h2, _⟩ := hin y h
        refine ⟨h2, ?_⟩
        intro hle
        simp only at hle
        omega
      · obtain ⟨_, h2, _⟩ := hout y h
        simp only
        exact ⟨by omega, fun _ => by omega⟩
    · intro x hx y hy
      obtain ⟨_, _, h3, _⟩ := hin x hx
      obtain ⟨_, h2, _⟩ := hout y hy
      exact ⟨by omega, fun _ => by omega⟩

theorem DeleteSubsumedFromRange.turns_within_nil (probe : SetProperties) (cs : CandidateList)
    (b e depth : Nat) : DeleteSubsumedFromRange.turns_within probe cs b e depth [] := by
  intro x hx
  cases hx

/-- The turns of the do-while loop of `DeleteSubsumedFromRange` stay within the
sets and advance, with any amount of fuel. -/
theorem DeleteSubsumedFromRange.loop_turns_spec (probe : SetProperties) :
    ∀ (fuel : Nat), DeleteSubsumedFromRange.turns_meet probe fuel := by
  intro fuel
  induction fuel with
  | zero =>
    intro self b e it depth pre hready
    have := hready.2.2.1
    intro _ _ _ hf
    omega
  | succ fuel ih =>
    intro self b e it depth pre hready hb hbig hne hfuel
    have hready' := hready
    obtain ⟨hcur, hsorted, hbe, he, hpre, hpref, hinc, hroom, hzero⟩ := hready
    obtain ⟨candidate, hb⟩ := hb
    have hcsz := hbig b candidate (le_refl _) hbe hb
    have hcol := DeleteSubsumedFromRange.ready_column hready' hbig
    have hitlen : 0 < it.length := List.length_pos.2 hne
    have hhead : depth < probe.size ∧
        ∃ s : SetProperties, self.candidates_[b]? = some (some s) ∧ depth < s.size :=
      ⟨by omega, candidate, hb, hcsz⟩
    have hnil := DeleteSubsumedFromRange.turns_within_nil probe self.candidates_
    have hone : DeleteSubsumedFromRange.turns_within probe self.candidates_ b e depth
          [(depth, b)] ∧
        DeleteSubsumedFromRange.turns_advance [(depth, b)] := by
      have := DeleteSubsumedFromRange.turns_cons probe self.candidates_ b e depth e e [] []
        hhead hbe (le_refl _) (le_refl _) (hnil _ _ _) List.Pairwise.nil (hnil _ _ _)
        List.Pairwise.nil
      simpa using this
    cases it with
    | nil => exact absurd rfl hne
    | cons item tl =>
      have hlb : (if item < candidate.item.getD depth 0 then
          lower_bound (item :: tl) (candidate.item.getD depth 0) else item :: tl) =
          lower_bound (item :: tl) (candidate.item.getD depth 0) := by
        by_cases h : item < candidate.item.getD depth 0
        · rw [if_pos h]
        · rw [if_neg h, lower_bound_of_not_lt _ _ _ h]
      obtain ⟨hlsub, hlsup, hllen, hlinc, hlhead⟩ :=
        lower_bound_spec (item :: tl) (candidate.item.getD depth 0)
      unfold DeleteSubsumedFromRange.loop_turns
      simp only [read, List.get?_eq_getElem?, hb, deref, bind, Except.bind,
        item_at_getD _ _ hcsz, hlb]
      cases hit' : lower_bound (item :: tl) (candidate.item.getD depth 0) with
      | nil =>
        simp only
        exact hone
      | cons item' rest' =>
        simp only
        rw [hit'] at hllen
        have hinc' : (item' :: rest').Pairwise (· < ·) := by
          rw [← hit']
          exact hlinc hinc
        have hhead' : candidate.item.getD depth 0 ≤ item' := hlhead item' rest' hit'
        rw [if_neg (not_not.2 hhead')]
        by_cases hmatch : item' = candidate.item.getD depth 0
        · subst hmatch
          simp only [if_true]
          obtain ⟨ne, hGNE, hbne, hnee, heq, hgt⟩ := GetNewEndRangeIt_spec self b e depth
            candidate hbe he hb hbig hcol hzero
          have hready_in : DeleteSubsumedFromRange.ready
              { self with canidate_seek_count_ := self.canidate_seek_count_ + 1 } probe b ne
              rest' (depth + 1) (pre ++ [candidate.item.getD depth 0]) := by
            refine ⟨hcur, hsorted, hbne, le_trans hnee he, by simp [hpre], ?_,
              (List.pairwise_cons.1 hinc').2, ?_, fun h => absurd h (Nat.succ_ne_zero _)⟩
            · intro p s hp1 hp2 hps
              have h1 := hpref p s hp1 (by omega) hps
              have h2 := hbig p s hp1 (by omega) hps
              have h3 := heq p s hp1 hp2 hps
              rw [← h3, ← hpre]
              exact prefix_snoc_getD pre s.item h1 (by rw [hpre]; exact h2)
            · simp only [List.length_cons] at hllen hroom
              omega
          have hfuel_in : (ne - b) + rest'.length ≤ fuel := by
            simp only [List.length_cons] at hllen hfuel
            omega
          obtain ⟨self2, b1, self3, hDSS, hinner, htomb_in, hidx3, hcur3⟩ :=
            DeleteSubsumedFromRange.entry_spec probe fuel
              (DeleteSubsumedFromRange.descent_loop_spec probe fuel) _ b ne rest' (depth + 1) _
              hready_in hfuel_in
          simp only at htomb_in hidx3 hcur3
          have he3 : e ≤ self3.candidates_.length := by
            rw [htomb_in.1]
            exact he
          obtain ⟨nb, hskip, hnb1, hnb2, hnone, hlive⟩ :=
            skip_null_ne_spec self3.candidates_ ne e he3 hnee
          have hnb_ne : ¬ ¬ ne ≥ b := not_not.2 (le_of_lt hbne)
          have hbne' : b ≠ ne := by omega
          simp only [hGNE, hnb_ne, if_false, ne_eq, hbne', not_false_eq_true, if_true, hDSS,
            hinner, hskip]
          have hI : DeleteSubsumedFromRange.turns_within probe self.candidates_ b ne (depth + 1)
                (if b1 = ne ∨ rest' = [] then []
                  else DeleteSubsumedFromRange.loop_turns fuel self2 b1 ne rest' (depth + 1)) ∧
              DeleteSubsumedFromRange.turns_advance
                (if b1 = ne ∨ rest' = [] then []
                  else DeleteSubsumedFromRange.loop_turns fuel self2 b1 ne rest'
                    (depth + 1)) := by
            by_cases hearly : b1 = ne ∨ rest' = []
            · rw [if_pos hearly]
              exact ⟨hnil _ _ _, List.Pairwise.nil⟩
            · rw [if_neg hearly]
              obtain ⟨k1, k2, k3, k4, k5, k6⟩ := DeleteSubsumedFromRange.entry_ready probe _ b ne
                rest' (depth + 1) _ hready_in self2 b1 hDSS hearly
              obtain ⟨j1, j2⟩ := ih self2 b1 ne rest' (depth + 1) _ k4 k5 k6
                (fun h => hearly (Or.inr h)) (by omega)
              exact ⟨DeleteSubsumedFromRange.turns_within_mono probe _ _ _ _ _ _ _ _ _ k1
                (le_refl _) (le_refl _) k3 j1, j2⟩
          have hO : DeleteSubsumedFromRange.turns_within probe self.candidates_ nb e depth
                (if ¬ nb = e then
                  DeleteSubsumedFromRange.loop_turns fuel self3 nb e
                    (candidate.item.getD depth 0 :: rest') depth
                else []) ∧
              DeleteSubsumedFromRange.turns_advance
                (if ¬ nb = e then
                  DeleteSubsumedFromRange.loop_turns fuel self3 nb e
                    (candidate.item.getD depth 0 :: rest') depth
                else []) := by
            by_cases hnbe : nb = e
            · rw [if_neg (not_not.2 hnbe)]
              exact ⟨hnil _ _ _, List.Pairwise.nil⟩
            · rw [if_pos hnbe]
              have hnblt : nb < e := by omega
              have hready3 := DeleteSubsumedFromRange.ready_next hready' htomb_in hidx3 hcur3 nb
                (candidate.item.getD depth 0 :: rest') (by omega) hnblt hinc' hllen
              have hbig3 : ∀ (p : Nat) (s : SetProperties), nb ≤ p → p < e →
                  self3.candidates_[p]? = some (some s) → depth < s.item.length := by
                intro p s hp1 hp2 hps
                exact hbig p s (by omega) hp2 (tombstoned_live htomb_in p s hps).1
              obtain ⟨j1, j2⟩ := ih self3 nb e (candidate.item.getD depth 0 :: rest') depth pre
                hready3 (hlive hnblt) hbig3 (List.cons_ne_nil _ _) (by
                  simp only [List.length_cons] at hllen hfuel ⊢
                  omega)
              exact ⟨DeleteSubsumedFromRange.turns_within_mono probe _ _ _ _ _ _ _ _ _
                (le_refl _) (le_refl _) (le_refl _)
                (fun p s hps => (tombstoned_live htomb_in p s hps).1) j1, j2⟩
          exact DeleteSubsumedFromRange.turns_cons probe self.candidates_ b e depth ne nb _ _
            hhead hbne hnb1 hnb2 hI.1 hI.2 hO.1 hO.2
        · have hlt' : candidate.item.getD depth 0 < item' := by omega
          simp only [hmatch, if_false]
          obtain ⟨nb, hGNB, hbnb, hnbe', hlt, hlive⟩ := GetNewBeginRangeIt_spec self b e depth
            item' candidate hbe he hb hlt' hbig hcol hzero
          simp only [hGNB]
          have hO : DeleteSubsumedFromRange.turns_within probe self.candidates_ nb e depth
                (if nb ≠ e then
                  DeleteSubsumedFromRange.loop_turns fuel
                    { self with canidate_seek_count_ := self.canidate_seek_count_ + 1 } nb e
                    (item' :: rest') depth
                else []) ∧
              DeleteSubsumedFromRange.turns_advance
                (if nb ≠ e then
                  DeleteSubsumedFromRange.loop_turns fuel
                    { self with canidate_seek_count_ := self.canidate_seek_count_ + 1 } nb e
                    (item' :: rest') depth
                else []) := by
            by_cases hnbe : nb = e
            · rw [if_neg (not_not.2 hnbe)]
              exact ⟨hnil _ _ _, List.Pairwise.nil⟩
            · rw [if_pos hnbe]
              have hnblt : nb < e := by omega
              have htomb0 : tombstoned (fun _ _ => False) self.candidates_
                  ({ self with canidate_seek_count_ := self.canidate_seek_count_ + 1 } :
                    AllMaximalSetsLexicographic).candidates_ :=
                tombstoned_refl _ _ (fun _ _ _ h => h)
              have hready3 := DeleteSubsumedFromRange.ready_next hready' htomb0 rfl rfl nb
                (item' :: rest') (by omega) hnblt hinc' hllen
              exact ih _ nb e (item' :: rest') depth pre hready3 (by
                  obtain ⟨s, hs, _⟩ := hlive hnblt
                  exact ⟨s, hs⟩)
                (fun p s hp1 hp2 hps => hbig p s (by omega) hp2 hps) (List.cons_ne_nil _ _) (by
                  simp only [List.length_cons] at hllen hfuel ⊢
                  omega)
          have := DeleteSubsumedFromRange.turns_cons probe self.candidates_ b e depth nb nb [] _
            hhead hbnb (le_refl _) hnbe' (hnil _ _ _) List.Pairwise.nil hO.1 hO.2
          simpa using this

end AllMaximalSetsLexicographic

namespace AllMaximalSetsLexicographic

/-- The turns of a call of `DeleteSubsumedFromRange` made under the conditions
of its calls stay within the sets and advance. -/
theorem DeleteSubsumedFromRange.turns_spec (probe : SetProperties) (fuel : Nat)
    (self : AllMaximalSetsLexicographic) (b e : Nat) (it : List Nat) (depth : Nat)
    (pre : List Nat) (hready : DeleteSubsumedFromRange.ready self probe b e it depth pre)
    (hfuel : (e - b) + it.length ≤ fuel) :
    DeleteSubsumedFromRange.turns_within probe self.candidates_ b e depth
        (DeleteSubsumedFromRange.turns fuel self b e it depth) ∧
      DeleteSubsumedFromRange.turns_advance
        (DeleteSubsumedFromRange.turns fuel self b e it depth) := by
  have hbe : ¬ b = e := by
    have := hready.2.2.1
    omega
  obtain ⟨self2, b1, hDSS, _⟩ := DeleteSubsumedSets_spec self probe b e depth hready.1
    (le_of_lt hready.2.2.1) hready.2.2.2.1
  unfold DeleteSubsumedFromRange.turns
  rw [if_neg hbe]
  simp only [hDSS]
  by_cases hearly : b1 = e ∨ it = []
  · rw [if_pos hearly]
    exact ⟨DeleteSubsumedFromRange.turns_within_nil _ _ _ _ _, List.Pairwise.nil⟩
  · rw [if_neg hearly]
    obtain ⟨k1, k2, k3, k4, k5, k6⟩ := DeleteSubsumedFromRange.entry_ready probe self b e it
      depth pre hready self2 b1 hDSS hearly
    obtain ⟨j1, j2⟩ := DeleteSubsumedFromRange.loop_turns_spec probe fuel self2 b1 e it depth
      pre k4 k5 k6 (fun h => hearly (Or.inr h)) (by omega)
    exact ⟨DeleteSubsumedFromRange.turns_within_mono probe _ _ _ _ _ _ _ _ _ k1 (le_refl _)
      (le_refl _) k3 j1, j2⟩

theorem index_at_of_lt (index : List Nat) (v : Nat) (h : v < index.length) :
    index_at index v = Except.ok (index.getD v 0) := by
  unfold index_at
  rw [List.get?_eq_getElem?, List.getElem?_eq_getElem h, List.getD_eq_getElem?_getD,
    List.getElem?_eq_getElem h]
  rfl

/-- The read of `index_` in `GetNewBeginRangeIt` is within the vector. -/
theorem GetNewBeginRangeIt_checked (self : AllMaximalSetsLexicographic) (b e item depth : Nat) :
    GetNewBeginRangeIt.checked self b e item depth = GetNewBeginRangeIt self b e item depth := by
  unfold GetNewBeginRangeIt.checked GetNewBeginRangeIt
  by_cases hd : depth = 0
  · simp only [hd, if_true]
    by_cases hin : item ≥ self.index_.length
    · simp only [hin, if_true]
    · simp only [hin, if_false]
      rw [index_at_of_lt _ _ (by omega)]
      rfl
  · simp only [hd, if_false]

/-- The read of `index_` in `GetNewEndRangeIt` is within the vector. -/
theorem GetNewEndRangeIt_checked (self : AllMaximalSetsLexicographic) (b e item depth : Nat) :
    GetNewEndRangeIt.checked self b e item depth = GetNewEndRangeIt self b e item depth := by
  unfold GetNewEndRangeIt.checked GetNewEndRangeIt
  by_cases hd : depth = 0
  · simp only [hd, if_true]
    by_cases hin : item + 1 < self.index_.length
    · simp only [hin, if_true]
      rw [index_at_of_lt _ _ hin]
      rfl
    · simp only [hin, if_false]
  · simp only [hd, if_false]

/-- The conditions of a call of `DeleteSubsumedFromRange` at depth `0` on a
sorted and indexed chunk. -/
theorem DeleteSubsumedFromRange.ready_top (self : AllMaximalSetsLexicographic)
    (probe : SetProperties) (b : Nat) (hcur : self.current_set_ = some probe)
    (hsorted : chunk_sorted self.candidates_)
    (hindexed : chunk_indexed self.candidates_ self.index_)
    (hprobe : probe.item.Pairwise (· < ·)) (hb : b < self.candidates_.length) :
    DeleteSubsumedFromRange.ready self probe b self.candidates_.length probe.item 0 [] :=
  ⟨hcur, hsorted, hb, le_refl _, rfl, fun _ _ _ _ _ => List.nil_prefix, hprobe,
    by simp [SetProperties.size], fun _ => ⟨rfl, hindexed⟩⟩

end AllMaximalSetsLexicographic

/-- Claim C33: the descent terminates with bounded depth.  On a sorted and
indexed chunk, a call `DeleteSubsumedFromRange(begin, end, cursor, 0)` with
`begin` before the end of the chunk and the cursor at the start of the current
set `probe` returns, within `size(chunk) + size(probe)` units of fuel.  Of any
two turns of its do-while loops the later never starts at an earlier position,
and it starts at a later position unless it runs at a greater depth: each turn
of a loop strictly advances `begin`.  Every turn runs at a depth `d` with
`d + 1` at most the size of `probe` and at most the size of a live entry of the
chunk, hence of the largest set of the chunk; a recursive call is made from
within a turn, with depth `d + 1`. -/
theorem C33_descent_terminates (self : AllMaximalSetsLexicographic) (probe : SetProperties)
    (b fuel largest : Nat) (hcur : self.current_set_ = some probe)
    (hsorted : AllMaximalSetsLexicographic.chunk_sorted self.candidates_)
    (hindexed : AllMaximalSetsLexicographic.chunk_indexed self.candidates_ self.index_)
    (hprobe : probe.item.Pairwise (· < ·)) (hb : b < self.candidates_.length)
    (hlargest : ∀ (p : Nat) (s : SetProperties), self.candidates_[p]? = some (some s) →
      s.size ≤ largest)
    (hfuel : self.candidates_.length + probe.size ≤ fuel) :
    (∃ self', AllMaximalSetsLexicographic.DeleteSubsumedFromRange fuel self b
        self.candidates_.length probe.item 0 = Except.ok self') ∧
      (AllMaximalSetsLexicographic.DeleteSubsumedFromRange.turns fuel self b
        self.candidates_.length probe.item 0).Pairwise
        (fun x y : Nat × Nat => x.2 ≤ y.2 ∧ (y.1 ≤ x.1 → x.2 < y.2)) ∧
      ∀ x ∈ AllMaximalSetsLexicographic.DeleteSubsumedFromRange.turns fuel self b
          self.candidates_.length probe.item 0,
        b ≤ x.2 ∧ x.2 < self.candidates_.length ∧ x.1 + 1 ≤ probe.size ∧
          x.1 + 1 ≤ largest := by
  have hready := AllMaximalSetsLexicographic.DeleteSubsumedFromRange.ready_top self probe b
    hcur hsorted hindexed hprobe hb
  have hfuel' : (self.candidates_.length - b) + probe.item.length ≤ fuel := by
    unfold SetProperties.size at hfuel
    omega
  obtain ⟨self', hrun, _⟩ := AllMaximalSetsLexicographic.DeleteSubsumedFromRange_spec probe
    fuel self b self.candidates_.length probe.item 0 [] hready hfuel'
  obtain ⟨hwithin, hadvance⟩ := AllMaximalSetsLexicographic.DeleteSubsumedFromRange.turns_spec
    probe fuel self b self.candidates_.length probe.item 0 [] hready hfuel'
  refine ⟨⟨self', hrun⟩, hadvance, ?_⟩
  intro x hx
  obtain ⟨_, h2, h3, h4, s, h5, h6⟩ := hwithin x hx
  have := hlargest _ s h5
  exact ⟨h2, h3, h4, by omega⟩

/-- Claim C39: the reads of the descent are in bounds.  On a sorted and
indexed chunk, a call `DeleteSubsumedFromRange(begin, end, cursor, 0)` with
`begin` before the end of the chunk and the cursor at the start of the current
set returns without a fault: every candidate pointer it follows is live and
every `item[depth]` it reads, in the loop and inside `find_new_it`, lies
within the set (a read of a tombstone or beyond a set is a fault of the
model).  At the head of every turn of its loops the entry at `begin_range_it`,
whose `item[depth]` is read as `candidate_item`, is live and has more than
`depth` items.  And the two reads of `index_`, in `GetNewBeginRangeIt` and in
`GetNewEndRangeIt`, use an index smaller than `index_.size()`: the methods
agree with their variants that check the index. -/
theorem C39_descent_reads_in_bounds (self : AllMaximalSetsLexicographic)
    (probe : SetProperties) (b fuel : Nat) (hcur : self.current_set_ = some probe)
    (hsorted : AllMaximalSetsLexicographic.chunk_sorted self.candidates_)
    (hindexed : AllMaximalSetsLexicographic.chunk_indexed self.candidates_ self.index_)
    (hprobe : probe.item.Pairwise (· < ·)) (hb : b < self.candidates_.length)
    (hfuel : self.candidates_.length + probe.size ≤ fuel) :
    (∃ self', AllMaximalSetsLexicographic.DeleteSubsumedFromRange fuel self b
        self.candidates_.length probe.item 0 = Except.ok self') ∧
      (∀ x ∈ AllMaximalSetsLexicographic.DeleteSubsumedFromRange.turns fuel self b
          self.candidates_.length probe.item 0,
        ∃ s : SetProperties, self.candidates_[x.2]? = some (some s) ∧
          x.1 < s.item.length) ∧
      (∀ (engine : AllMaximalSetsLexicographic) (first last item depth : Nat),
        AllMaximalSetsLexicographic.GetNewBeginRangeIt.checked engine first last item depth =
          AllMaximalSetsLexicographic.GetNewBeginRangeIt engine first last item depth) ∧
      (∀ (engine : AllMaximalSetsLexicographic) (first last item depth : Nat),
        AllMaximalSetsLexicographic.GetNewEndRangeIt.checked engine first last item depth =
          AllMaximalSetsLexicographic.GetNewEndRangeIt engine first last item depth) := by
  have hready := AllMaximalSetsLexicographic.DeleteSubsumedFromRange.ready_top self probe b
    hcur hsorted hindexed hprobe hb
  have hfuel' : (self.candidates_.length - b) + probe.item.length ≤ fuel := by
    unfold SetProperties.size at hfuel
    omega
  obtain ⟨self', hrun, _⟩ := AllMaximalSetsLexicographic.DeleteSubsumedFromRange_spec probe
    fuel self b self.candidates_.length probe.item 0 [] hready hfuel'
  obtain ⟨hwithin, _⟩ := AllMaximalSetsLexicographic.DeleteSubsumedFromRange.turns_spec
    probe fuel self b self.candidates_.length probe.item 0 [] hready hfuel'
  refine ⟨⟨self', hrun⟩, ?_, AllMaximalSetsLexicographic.GetNewBeginRangeIt_checked,
    AllMaximalSetsLexicographic.GetNewEndRangeIt_checked⟩
  intro x hx
  obtain ⟨_, _, _, _, s, h5, h6⟩ := hwithin x hx
  exact ⟨s, h5, h6⟩

theorem descent_example_sorted :
    AllMaximalSetsLexicographic.chunk_sorted descent_example.candidates_ :=
  AllMaximalSetsLexicographic.chunk_sorted_map_some
    [SetProperties.Create 1 [1, 2], SetProperties.Create 2 [1, 4],
      SetProperties.Create 3 [2, 3]] (by decide) (by decide)

theorem descent_example_indexed :
    AllMaximalSetsLexicographic.chunk_indexed descent_example.candidates_
      descent_example.index_ := by
  refine ⟨fun v hv => ?_, fun p s hps => ?_⟩
  · have hv' : v < 3 := hv
    interval_cases v <;> decide
  · have hp : p < 3 := (List.getElem?_eq_some_iff.1 hps).1
    interval_cases p <;> simp [descent_example] at hps <;> subst hps <;>
      refine ⟨by decide, fun v hv => ?_⟩ <;>
      (have hv' : v < 3 := hv) <;> interval_cases v <;> decide

theorem descent_example_sizes (p : Nat) (s : SetProperties)
    (hps : descent_example.candidates_[p]? = some (some s)) : s.size ≤ 2 := by
  have hp : p < 3 := (List.getElem?_eq_some_iff.1 hps).1
  interval_cases p <;> simp [descent_example] at hps <;> subst hps <;> decide

/-- The turns of the descent on the example: the loop at depth 0 starts at the
positions 0 and 2, the recursive calls at depth 1 run turns at 0, 1 and 2. -/
theorem descent_example_turns :
    AllMaximalSetsLexicographic.DeleteSubsumedFromRange.turns 6 descent_example 0
        descent_example.candidates_.length (SetProperties.Create 0 [1, 2, 3]).item 0 =
      [(0, 0), (1, 0), (1, 1), (0, 2), (1, 2)] := by
  decide!

theorem C33_descent_terminates_witness :
    (∃ self', AllMaximalSetsLexicographic.DeleteSubsumedFromRange 6 descent_example 0
        descent_example.candidates_.length (SetProperties.Create 0 [1, 2, 3]).item 0 =
        Except.ok self') ∧
      (AllMaximalSetsLexicographic.DeleteSubsumedFromRange.turns 6 descent_example 0
        descent_example.candidates_.length (SetProperties.Create 0 [1, 2, 3]).item 0).Pairwise
        (fun x y : Nat × Nat => x.2 ≤ y.2 ∧ (y.1 ≤ x.1 → x.2 < y.2)) ∧
      ∀ x ∈ AllMaximalSetsLexicographic.DeleteSubsumedFromRange.turns 6 descent_example 0
          descent_example.candidates_.length (SetProperties.Create 0 [1, 2, 3]).item 0,
        0 ≤ x.2 ∧ x.2 < descent_example.candidates_.length ∧
          x.1 + 1 ≤ (SetProperties.Create 0 [1, 2, 3]).size ∧ x.1 + 1 ≤ 2 :=
  C33_descent_terminates descent_example (SetProperties.Create 0 [1, 2, 3]) 0 6 2 rfl
    descent_example_sorted descent_example_indexed (by decide) (by decide)
    descent_example_sizes (by decide)

theorem C39_descent_reads_in_bounds_witness :
    (∃ self', AllMaximalSetsLexicographic.DeleteSubsumedFromRange 6 descent_example 0
        descent_example.candidates_.length (SetProperties.Create 0 [1, 2, 3]).item 0 =
        Except.ok self') ∧
      (∀ x ∈ AllMaximalSetsLexicographic.DeleteSubsumedFromRange.turns 6 descent_example 0
          descent_example.candidates_.length (SetProperties.Create 0 [1, 2, 3]).item 0,
        ∃ s : SetProperties, descent_example.candidates_[x.2]? = some (some s) ∧
          x.1 < s.item.length) ∧
      (∀ (engine : AllMaximalSetsLexicographic) (first last item depth : Nat),
        AllMaximalSetsLexicographic.GetNewBeginRangeIt.checked engine first last item depth =
          AllMaximalSetsLexicographic.GetNewBeginRangeIt engine first last item depth) ∧
      (∀ (engine : AllMaximalSetsLexicographic) (first last item depth : Nat),
        AllMaximalSetsLexicographic.GetNewEndRangeIt.checked engine first last item depth =
          AllMaximalSetsLexicographic.GetNewEndRangeIt engine first last item depth) :=
  C39_descent_reads_in_bounds descent_example (SetProperties.Create 0 [1, 2, 3]) 0 6 rfl
    descent_example_sorted descent_example_indexed (by decide) (by decide) (by decide)

end google_extremal_sets
